import Mathlib

/-! # libvideo-buffers: reference-counted buffers, pools and queues

A shallow embedding of `src/src/vbuf.c`, `src/src/vbuf_pool.c` and
`src/src/vbuf_queue.c`.

* Objects live in a `World`: three partial maps from addresses to buffers, pools and
  queues.  Address `0` is the C `NULL` pointer.  Every C function `f(args)` becomes
  `f : World → args → World × result`.
* `unsigned int` fields (`ref_count`, `free`, `count`, `max_count`) are natural numbers
  and every increment / decrement is written with an explicit `% 4294967296`.
* The intrusive `struct list_node` lists (`pool->buffers`, `queue->buffers`,
  `buf->metas`) are Lean lists, head first.  The mutexes are not represented: the
  embedding describes calls that run one after another.
* Everything the library asks of its surroundings (backend callbacks, `calloc`,
  `pthread_*_init`, `pthread_cond_wait`, `pomp_evt_*`) is recorded, in order, in
  `World.trace`.  The answer of a system call is `World.env t`, where `t` is the number
  of entries already in the trace; a backend callback is a function stored in the
  buffer, and is handed `t` as well.  Logging (`ULOG*`) is not represented.
* Bytes are natural numbers.  `memcpy` replaces the first `n` bytes of the destination;
  the bytes `realloc` adds to a block are not initialised and are read from `World.junk`.
-/

namespace VideoBuffers

/-! ## Constants of `<errno.h>` (Linux values) -/

/-- Operation not permitted. -/
def EPERM : Int := 1
/-- No such file or directory. -/
def ENOENT : Int := 2
/-- Try again. -/
def EAGAIN : Int := 11
/-- Out of memory. -/
def ENOMEM : Int := 12
/-- Bad address: the result the embedding reports when the C code would dereference a
pointer that addresses no live object, or call a `NULL` function pointer (undefined
behaviour in C).  The world is left as it is at that point. -/
def EFAULT : Int := 14
/-- Device or resource busy. -/
def EBUSY : Int := 16
/-- File exists. -/
def EEXIST : Int := 17
/-- Invalid argument. -/
def EINVAL : Int := 22
/-- Function not implemented. -/
def ENOSYS : Int := 38
/-- No buffer space available. -/
def ENOBUFS : Int := 105
/-- Connection timed out. -/
def ETIMEDOUT : Int := 110

/-- Number of values of a C `unsigned int` (32 bits). -/
def UINT_MOD : Nat := 4294967296

/-- Conversion of an `unsigned int` to `int`, as in `int ref_count = __atomic_load_n(..)`
and `count = pool->free`: values from `2^31` on become negative. -/
def to_int (n : Nat) : Int :=
  if n % 4294967296 < 2147483648 then ((n % 4294967296 : Nat) : Int)
  else ((n % 4294967296 : Nat) : Int) - 4294967296

/-- Unsigned increment `x++` / `__atomic_add_fetch(&x, 1)`. -/
def uint_inc (n : Nat) : Nat := (n + 1) % 4294967296

/-- Unsigned decrement `x--` / `__atomic_sub_fetch(&x, 1)`. -/
def uint_dec (n : Nat) : Nat := (n + 4294967295) % 4294967296

/-! ## Data model -/

/-- The callbacks of `struct vbuf_cbs`, by name. -/
inductive cb_kind where
  | alloc | realloc | unref | free | pool_get | pool_put
  | queue_push | queue_peek | queue_pop
  deriving DecidableEq, Repr

/-- The system services the library calls. -/
inductive sys_kind where
  | calloc | realloc | mutex_init | cond_init | cond_wait | cond_timedwait
  | evt_new | evt_signal | cond_signal | cond_broadcast
  deriving DecidableEq, Repr

/-- One entry of the trace of interactions with the surroundings. -/
inductive ext_call where
  | cb (kind : cb_kind) (buf : Nat)
  | sys (kind : sys_kind)
  deriving DecidableEq, Repr

/-- What a backend callback sees when it is called: the time (number of trace entries so
far), the address of the buffer, the `timeout_ms` argument (0 for the callbacks that
have none) and the buffer fields a backend works on. -/
structure cb_arg where
  time : Nat
  buf : Nat
  timeout_ms : Int
  capacity : Nat
  size : Nat
  type : Nat
  specific : Nat
  ptr : Option (List Nat)

/-- What a backend callback does: it returns `res` and leaves new values in the three
buffer fields that belong to the backend (`type`, `specific`, `ptr`). -/
structure cb_result where
  res : Int
  type : Nat
  specific : Nat
  ptr : Option (List Nat)

/-- A non-`NULL` callback function pointer. -/
abbrev vbuf_cb := cb_arg → cb_result

/-- The callback table `struct vbuf_cbs`; `none` is a `NULL` function pointer. -/
structure vbuf_cbs where
  alloc : Option vbuf_cb
  realloc : Option vbuf_cb
  unref : Option vbuf_cb
  free : Option vbuf_cb
  pool_get : Option vbuf_cb
  pool_put : Option vbuf_cb
  queue_push : Option vbuf_cb
  queue_peek : Option vbuf_cb
  queue_pop : Option vbuf_cb

/-- The record `struct vbuf_meta`: `key` is the `void *` identity, `data` the `len`
bytes. -/
structure vbuf_meta where
  key : Nat
  level : Nat
  data : List Nat
  len : Nat
  deriving DecidableEq, Repr

/-- The object `struct vbuf_buffer`.  `pool = 0` is a `NULL` originating pool; a payload
or user-data pointer is `none` when `NULL` and otherwise holds the bytes it points to. -/
structure vbuf_buffer where
  type : Nat
  ref_count : Nat
  write_locked : Bool
  pool : Nat
  cbs : vbuf_cbs
  specific : Nat
  capacity : Nat
  size : Nat
  ptr : Option (List Nat)
  metas : List vbuf_meta
  userdata_capacity : Nat
  userdata_size : Nat
  userdata_ptr : Option (List Nat)

/-- The object `struct vbuf_pool`: `buffers` is the free list (addresses, head first). -/
structure vbuf_pool where
  count : Nat
  free : Nat
  buffers : List Nat
  deriving DecidableEq, Repr

/-- The object `struct vbuf_queue`: each element of `buffers` is the `buffer` pointer of
one `struct vbuf_queue_buffer` (oldest first). -/
structure vbuf_queue where
  count : Nat
  max_count : Nat
  drop_when_full : Int
  buffers : List Nat
  deriving DecidableEq, Repr

/-- The state of the program: the live objects by address, the highest address `calloc`
has handed out (the next object is placed at `next + 1`, never at `NULL`), the trace of
external interactions, the answers of the system, and the content of memory that is
handed out without being initialised: `junk t i` is byte `i` of the block `realloc`
returns at time `t`, where the block is not a copy of the old one. -/
structure World where
  bufs : Nat → Option vbuf_buffer
  pools : Nat → Option vbuf_pool
  queues : Nat → Option vbuf_queue
  next : Nat
  trace : List ext_call
  env : Nat → Int
  junk : Nat → Nat → Nat

/-- Store `b` at address `id`. -/
def World.set_buf (w : World) (id : Nat) (b : vbuf_buffer) : World :=
  { w with bufs := fun i => if i = id then some b else w.bufs i }

/-- Release the buffer object at address `id` (`free(buf)`). -/
def World.del_buf (w : World) (id : Nat) : World :=
  { w with bufs := fun i => if i = id then none else w.bufs i }

/-- Store pool `p` at address `id`. -/
def World.set_pool (w : World) (id : Nat) (p : vbuf_pool) : World :=
  { w with pools := fun i => if i = id then some p else w.pools i }

/-- Release the pool object at address `id`. -/
def World.del_pool (w : World) (id : Nat) : World :=
  { w with pools := fun i => if i = id then none else w.pools i }

/-- Store queue `q` at address `id`. -/
def World.set_queue (w : World) (id : Nat) (q : vbuf_queue) : World :=
  { w with queues := fun i => if i = id then some q else w.queues i }

/-- Release the queue object at address `id`. -/
def World.del_queue (w : World) (id : Nat) : World :=
  { w with queues := fun i => if i = id then none else w.queues i }

/-- Append one entry to the trace. -/
def World.log (w : World) (c : ext_call) : World :=
  { w with trace := w.trace ++ [c] }

/-- A system call: its answer is `env` at the current time, and it is logged. -/
def sys_call (w : World) (k : sys_kind) : World × Int :=
  (w.log (ext_call.sys k), w.env w.trace.length)

/-- Call the callback `cb` on the buffer `b` stored at `id`: the callback sees the
current fields, its writes to `type`, `specific` and `ptr` are stored, the call is
logged.  Returns the new world, the new buffer value and the callback result. -/
def run_cb (w : World) (k : cb_kind) (cb : vbuf_cb) (id : Nat) (b : vbuf_buffer)
    (timeout_ms : Int) : World × vbuf_buffer × Int :=
  let r := cb ⟨w.trace.length, id, timeout_ms, b.capacity, b.size, b.type, b.specific, b.ptr⟩
  let b1 := { b with type := r.type, specific := r.specific, ptr := r.ptr }
  ((w.set_buf id b1).log (ext_call.cb k id), b1, r.res)

/-- The pattern `if (cbs.x) res = (*cbs.x)(buf, ..)`: a `NULL` callback is skipped and
`res` keeps the value `0` it has at those places. -/
def run_opt_cb (w : World) (k : cb_kind) (cb : Option vbuf_cb) (id : Nat) (b : vbuf_buffer)
    (timeout_ms : Int) : World × vbuf_buffer × Int :=
  match cb with
  | none => (w, b, 0)
  | some f => run_cb w k f id b timeout_ms

/-! ## `vbuf.c`: reference counting -/

/-- `vbuf_get_ref_count` (vbuf.c:205). -/
def vbuf_get_ref_count (w : World) (buf : Nat) : World × Int :=
  if buf = 0 then (w, -EINVAL) else
  match w.bufs buf with
  | none => (w, -EFAULT)
  | some b => (w, to_int b.ref_count)

/-- `vbuf_is_ref` (vbuf.c:194). -/
def vbuf_is_ref (w : World) (buf : Nat) : World × Int :=
  let ref_count := (vbuf_get_ref_count w buf).2
  if ref_count < 0 then (w, ref_count)
  else (w, if ref_count > 0 then 1 else 0)

/-- `vbuf_ref` (vbuf.c:137). -/
def vbuf_ref (w : World) (buf : Nat) : World × Int :=
  if buf = 0 then (w, -EINVAL) else
  match w.bufs buf with
  | none => (w, -EFAULT)
  | some b => (w.set_buf buf { b with ref_count := uint_inc b.ref_count }, 0)

/-- `vbuf_destroy` (vbuf.c:103): the `free` callback runs (its result is only logged),
the metadata and the user data are released and the buffer object is freed. -/
def vbuf_destroy (w : World) (buf : Nat) : World × Int :=
  if buf = 0 then (w, -EINVAL) else
  match w.bufs buf with
  | none => (w, -EFAULT)
  | some b =>
    match b.cbs.free with
    | none => (w, -EFAULT)
    | some f =>
      let r := run_cb w cb_kind.free f buf b 0
      (r.1.del_buf buf, 0)

/-- `vbuf_pool_put` (vbuf_pool.c:238). -/
def vbuf_pool_put (w : World) (pool : Nat) (buf : Nat) : World × Int :=
  if pool = 0 then (w, -EINVAL) else
  if buf = 0 then (w, -EINVAL) else
  match w.bufs buf with
  | none => (w, -EFAULT)
  | some b =>
    if b.pool = 0 then (w, -EINVAL) else
    -- Call the callback function if implemented
    let r := run_opt_cb w cb_kind.pool_put b.cbs.pool_put buf b 0
    if r.2.2 < 0 then (r.1, r.2.2) else
    -- Remove all metadata
    let b1 := { r.2.1 with metas := [] }
    let w1 := r.1.set_buf buf b1
    match w1.pools pool with
    | none => (w1, -EFAULT)
    | some p =>
      -- Add the buffer to the list
      let p1 := { p with buffers := p.buffers ++ [buf], free := uint_inc p.free }
      let w2 := w1.set_pool pool p1
      -- Notify that a buffer is available
      let w3 := (sys_call w2 sys_kind.evt_signal).1
      let w4 := if p1.free = 1 then (sys_call w3 sys_kind.cond_signal).1 else w3
      (w4, 0)

/-- `vbuf_unref` (vbuf.c:151). -/
def vbuf_unref (w : World) (buf : Nat) : World × Int :=
  if buf = 0 then (w, -EINVAL) else
  if (vbuf_is_ref w buf).2 = 0 then (w, -ENOENT) else
  match w.bufs buf with
  | none => (w, -EFAULT)
  | some b =>
    let ref := uint_dec b.ref_count
    let b1 := { b with ref_count := ref }
    let w1 := w.set_buf buf b1
    if to_int ref = 0 then
      -- Call the callback function if implemented
      let r := run_opt_cb w1 cb_kind.unref b1.cbs.unref buf b1 0
      if r.2.2 < 0 then (r.1, r.2.2) else
      let b2 := { r.2.1 with write_locked := false, size := 0 }
      let w2 := r.1.set_buf buf b2
      if b2.pool ≠ 0 then vbuf_pool_put w2 b2.pool buf
      else vbuf_destroy w2 buf
    else (w1, 0)

/-! ## `vbuf.c`: write lock, payload access, size and capacity -/

/-- `vbuf_write_lock` (vbuf.c:219). -/
def vbuf_write_lock (w : World) (buf : Nat) : World × Int :=
  if buf = 0 then (w, -EINVAL) else
  match w.bufs buf with
  | none => (w, -EFAULT)
  | some b =>
    let ref_count := to_int b.ref_count
    if ref_count ≠ 1 then (w, -EBUSY) else
    (w.set_buf buf { b with write_locked := true }, 0)

/-- `vbuf_write_unlock` (vbuf.c:234). -/
def vbuf_write_unlock (w : World) (buf : Nat) : World × Int :=
  if buf = 0 then (w, -EINVAL) else
  match w.bufs buf with
  | none => (w, -EFAULT)
  | some b =>
    let ref_count := to_int b.ref_count
    if ref_count ≠ 1 then (w, -EBUSY) else
    (w.set_buf buf { b with write_locked := false }, 0)

/-- `vbuf_is_write_locked` (vbuf.c:249). -/
def vbuf_is_write_locked (w : World) (buf : Nat) : World × Int :=
  if buf = 0 then (w, -EINVAL) else
  match w.bufs buf with
  | none => (w, -EFAULT)
  | some b => (w, if b.write_locked then 1 else 0)

/-- The result of a function that returns a data pointer: `val` is the returned pointer
(`none` is `NULL`) and `err` the errno value the function reports through
`ULOG_ERRNO_RETURN_VAL_IF` when it refuses (`0` when it does not). -/
structure ptr_result where
  val : Option (List Nat)
  err : Int
  deriving DecidableEq, Repr

/-- `vbuf_get_data` (vbuf.c:265). -/
def vbuf_get_data (w : World) (buf : Nat) : World × ptr_result :=
  if buf = 0 then (w, ⟨none, EINVAL⟩) else
  match w.bufs buf with
  | none => (w, ⟨none, EFAULT⟩)
  | some b =>
    if b.write_locked then (w, ⟨none, EPERM⟩) else
    (w, ⟨b.ptr, 0⟩)

/-- `vbuf_get_cdata` (vbuf.c:274). -/
def vbuf_get_cdata (w : World) (buf : Nat) : World × ptr_result :=
  if buf = 0 then (w, ⟨none, EINVAL⟩) else
  match w.bufs buf with
  | none => (w, ⟨none, EFAULT⟩)
  | some b => (w, ⟨b.ptr, 0⟩)

/-- The cast `(ssize_t)x` of a `size_t` (64-bit target). -/
def to_ssize (n : Nat) : Int :=
  if n % 18446744073709551616 < 9223372036854775808 then ((n % 18446744073709551616 : Nat) : Int)
  else ((n % 18446744073709551616 : Nat) : Int) - 18446744073709551616

/-- `vbuf_get_capacity` (vbuf.c:282). -/
def vbuf_get_capacity (w : World) (buf : Nat) : World × Int :=
  if buf = 0 then (w, -EINVAL) else
  match w.bufs buf with
  | none => (w, -EFAULT)
  | some b => (w, to_ssize b.capacity)

/-- `vbuf_set_capacity` (vbuf.c:290). -/
def vbuf_set_capacity (w : World) (buf : Nat) (capacity : Nat) : World × Int :=
  if buf = 0 then (w, -EINVAL) else
  match w.bufs buf with
  | none => (w, -EFAULT)
  | some b =>
    match b.cbs.realloc with
    | none => (w, -ENOSYS)
    | some f =>
      if b.write_locked then (w, -EPERM) else
      let old_capacity := b.capacity
      if capacity > b.capacity then
        let b1 := { b with capacity := capacity }
        let r := run_cb (w.set_buf buf b1) cb_kind.realloc f buf b1 0
        if r.2.2 < 0 then
          (r.1.set_buf buf { r.2.1 with capacity := old_capacity }, r.2.2)
        else (r.1, to_ssize r.2.1.capacity)
      else (w, to_ssize b.capacity)

/-- `vbuf_get_size` (vbuf.c:315). -/
def vbuf_get_size (w : World) (buf : Nat) : World × Int :=
  if buf = 0 then (w, -EINVAL) else
  match w.bufs buf with
  | none => (w, -EFAULT)
  | some b => (w, to_ssize b.size)

/-- `vbuf_set_size` (vbuf.c:323). -/
def vbuf_set_size (w : World) (buf : Nat) (size : Nat) : World × Int :=
  if buf = 0 then (w, -EINVAL) else
  match w.bufs buf with
  | none => (w, -EFAULT)
  | some b =>
    if size > b.capacity then (w, -ENOBUFS) else
    if b.write_locked then (w, -EPERM) else
    (w.set_buf buf { b with size := size }, 0)

/-! ## `vbuf.c`: construction -/

/-- The `error:` label of `vbuf_new` (vbuf.c:90): the `free` callback runs, the object
is released, `NULL` is output and `res` returned. -/
def vbuf_new_error (w : World) (id : Nat) (b : vbuf_buffer) (free : vbuf_cb) (res : Int) :
    World × Int × Option Nat :=
  let r := run_cb w cb_kind.free free id b 0
  (r.1.del_buf id, res, some 0)

/-- `vbuf_new` (vbuf.c:31).  `cbs = none` is a `NULL` table.  The third component is what
is written to `*ret_obj`: `none` when it is not written at all, `some 0` for `NULL`.
`calloc` succeeds when the environment answers `0`. -/
def vbuf_new (w : World) (capacity userdata_capacity : Nat) (cbs : Option vbuf_cbs)
    (pool : Nat) : World × Int × Option Nat :=
  match cbs with
  | none => (w, -EINVAL, none)
  | some c =>
    match c.alloc with
    | none => (w, -EINVAL, none)
    | some alloc =>
      match c.free with
      | none => (w, -EINVAL, none)
      | some free =>
        let r0 := sys_call w sys_kind.calloc
        -- res = -ENOMEM; ... return -res;
        if r0.2 ≠ 0 then (r0.1, -(-ENOMEM), some 0) else
        let id := r0.1.next + 1
        let b : vbuf_buffer :=
          { type := 0, ref_count := 0, write_locked := false, pool := pool, cbs := c,
            specific := 0, capacity := capacity, size := 0, ptr := none, metas := [],
            userdata_capacity := userdata_capacity, userdata_size := 0,
            userdata_ptr := none }
        let w1 := { r0.1.set_buf id b with next := id }
        let r1 := sys_call w1 sys_kind.mutex_init
        if r1.2 ≠ 0 then vbuf_new_error r1.1 id b free (-r1.2) else
        -- Video frame
        let r2 := run_cb r1.1 cb_kind.alloc alloc id b 0
        if r2.2.2 < 0 then vbuf_new_error r2.1 id r2.2.1 free r2.2.2 else
        -- User data
        if userdata_capacity > 0 then
          let r3 := sys_call r2.1 sys_kind.calloc
          if r3.2 ≠ 0 then vbuf_new_error r3.1 id r2.2.1 free (-ENOMEM) else
          let b3 := { r2.2.1 with userdata_ptr := some (List.replicate userdata_capacity 0) }
          ((vbuf_ref (r3.1.set_buf id b3) id).1, 0, some id)
        else ((vbuf_ref r2.1 id).1, 0, some id)

/-! ## `vbuf_pool.c` -/

/-- `vbuf_pool_get_count` (vbuf_pool.c:146). -/
def vbuf_pool_get_count (w : World) (pool : Nat) : World × Int :=
  if pool = 0 then (w, -EINVAL) else
  match w.pools pool with
  | none => (w, -EFAULT)
  | some p => (w, to_int p.free)

/-- The part of `vbuf_pool_get` after the wait (vbuf_pool.c:199-234): the emptiness
test is repeated, then the head of the free list is referenced and unlinked and the
`pool_get` callback runs.  The third component is what is written to `*buf`. -/
def vbuf_pool_get_take (w : World) (pool : Nat) (timeout_ms : Int) :
    World × Int × Option Nat :=
  match w.pools pool with
  | none => (w, -EFAULT, none)
  | some p =>
    -- Still no buffer after waiting
    if p.free = 0 then (w, -EAGAIN, some 0) else
    -- A buffer is available
    match p.buffers with
    | [] => (w, -EFAULT, none)
    | id :: rest =>
      let w1 := (vbuf_ref w id).1
      -- Remove the buffer from the list
      let w2 := w1.set_pool pool { p with buffers := rest, free := uint_dec p.free }
      match w2.bufs id with
      | none => (w2, -EFAULT, none)
      | some b =>
        -- Call the callback function if implemented
        match b.cbs.pool_get with
        | some f =>
          let r := run_cb w2 cb_kind.pool_get f id b timeout_ms
          if r.2.2 < 0 then ((vbuf_unref r.1 id).1, r.2.2, none)
          else (r.1, r.2.2, some id)
        | none => (w2, 0, some id)

/-- `vbuf_pool_get` (vbuf_pool.c:160).  While the caller waits on the condition no other
call runs, so the wait only returns what the environment answers (`0` for a wake-up or
an abort, `ETIMEDOUT`, or another error). -/
def vbuf_pool_get (w : World) (pool : Nat) (timeout_ms : Int) : World × Int × Option Nat :=
  if pool = 0 then (w, -EINVAL, none) else
  match w.pools pool with
  | none => (w, -EFAULT, none)
  | some p =>
    if p.free = 0 then
      -- No wait, return
      if timeout_ms = 0 then (w, -EAGAIN, some 0) else
      let r := if timeout_ms > 0 then sys_call w sys_kind.cond_timedwait
               else sys_call w sys_kind.cond_wait
      if r.2 = ETIMEDOUT then (r.1, -ETIMEDOUT, some 0)
      else if r.2 ≠ 0 then (r.1, -r.2, some 0)
      else vbuf_pool_get_take r.1 pool timeout_ms
    else vbuf_pool_get_take w pool timeout_ms

/-- The `error:` label of `vbuf_pool_new` (vbuf_pool.c:92): the buffers already in the
free list are destroyed and the pool object is released. -/
def vbuf_pool_new_error (w : World) (pool : Nat) (res : Int) : World × Int × Option Nat :=
  match w.pools pool with
  | none => (w, -EFAULT, none)
  | some p =>
    let w1 := p.buffers.foldl (fun v b => (vbuf_destroy v b).1) w
    (w1.del_pool pool, res, some 0)

/-- The loop `for (i = 0; i < pool->count; i++)` of `vbuf_pool_new` (vbuf_pool.c:80),
with `n` iterations left.  The result of `vbuf_unref` is not looked at; `buf` is `NULL`
when `vbuf_new` wrote nothing or `NULL`. -/
def vbuf_pool_new_loop (w : World) (pool capacity userdata_capacity : Nat) (cbs : vbuf_cbs) :
    Nat → World × Int
  | 0 => (w, 0)
  | n + 1 =>
    let r := vbuf_new w capacity userdata_capacity (some cbs) pool
    if r.2.1 < 0 then (r.1, r.2.1) else
    let buf := r.2.2.getD 0
    let w1 := (vbuf_unref r.1 buf).1
    vbuf_pool_new_loop w1 pool capacity userdata_capacity cbs n

/-- `vbuf_pool_new` (vbuf_pool.c:30). -/
def vbuf_pool_new (w : World) (count capacity userdata_capacity : Nat)
    (cbs : Option vbuf_cbs) : World × Int × Option Nat :=
  if count = 0 then (w, -EINVAL, none) else
  match cbs with
  | none => (w, -EINVAL, none)
  | some c =>
    let r0 := sys_call w sys_kind.calloc
    if r0.2 ≠ 0 then (r0.1, -ENOMEM, some 0) else
    let pool := r0.1.next + 1
    let w1 := { r0.1.set_pool pool { count := count, free := 0, buffers := [] } with
                next := pool }
    let r1 := sys_call w1 sys_kind.mutex_init
    if r1.2 ≠ 0 then vbuf_pool_new_error r1.1 pool (-r1.2) else
    let r2 := sys_call r1.1 sys_kind.cond_init
    if r2.2 ≠ 0 then vbuf_pool_new_error r2.1 pool (-r2.2) else
    let r3 := sys_call r2.1 sys_kind.evt_new
    if r3.2 ≠ 0 then vbuf_pool_new_error r3.1 pool (-ENOMEM) else
    -- Allocate all buffers
    let r4 := vbuf_pool_new_loop r3.1 pool capacity userdata_capacity c count
    if r4.2 < 0 then vbuf_pool_new_error r4.1 pool r4.2 else
    (r4.1, 0, some pool)

/-! ## `vbuf_queue.c` -/

/-- The `error:` label of `vbuf_queue_new` (vbuf_queue.c:76). -/
def vbuf_queue_new_error (w : World) (queue : Nat) (res : Int) : World × Int × Option Nat :=
  (w.del_queue queue, res, some 0)

/-- `vbuf_queue_new` (vbuf_queue.c:30). -/
def vbuf_queue_new (w : World) (max_count : Nat) (drop_when_full : Int) :
    World × Int × Option Nat :=
  let r0 := sys_call w sys_kind.calloc
  if r0.2 ≠ 0 then (r0.1, -ENOMEM, some 0) else
  let queue := r0.1.next + 1
  let w1 := { r0.1.set_queue queue
                { count := 0, max_count := max_count, drop_when_full := drop_when_full,
                  buffers := [] } with next := queue }
  let r1 := sys_call w1 sys_kind.mutex_init
  if r1.2 ≠ 0 then vbuf_queue_new_error r1.1 queue (-r1.2) else
  let r2 := sys_call r1.1 sys_kind.cond_init
  if r2.2 ≠ 0 then vbuf_queue_new_error r2.1 queue (-r2.2) else
  let r3 := sys_call r2.1 sys_kind.evt_new
  if r3.2 ≠ 0 then vbuf_queue_new_error r3.1 queue (-ENOMEM) else
  (r3.1, 0, some queue)

/-- `vbuf_queue_get_count` (vbuf_queue.c:113). -/
def vbuf_queue_get_count (w : World) (queue : Nat) : World × Int :=
  if queue = 0 then (w, -EINVAL) else
  match w.queues queue with
  | none => (w, -EFAULT)
  | some q => (w, to_int q.count)

/-- The part of `vbuf_queue_pop` after the wait (vbuf_queue.c:249-283): the emptiness
test is repeated, the oldest element is unlinked, the `queue_pop` callback runs and
`*buf` is written. -/
def vbuf_queue_pop_take (w : World) (queue : Nat) (timeout_ms : Int) :
    World × Int × Option Nat :=
  match w.queues queue with
  | none => (w, -EFAULT, none)
  | some q =>
    -- Still no buffer after waiting
    if q.count = 0 then (w, -EAGAIN, some 0) else
    match q.buffers with
    | [] => (w, -EFAULT, none)
    | id :: rest =>
      -- Remove the buffer from the list
      let w1 := w.set_queue queue { q with buffers := rest, count := uint_dec q.count }
      match w1.bufs id with
      | none => (w1, -EFAULT, none)
      | some b =>
        -- Call the callback function if implemented
        match b.cbs.queue_pop with
        | some f =>
          let r := run_cb w1 cb_kind.queue_pop f id b timeout_ms
          let w2 := if r.2.2 < 0 then (vbuf_unref r.1 id).1 else r.1
          (w2, r.2.2, some (if r.2.2 = 0 then id else 0))
        | none => (w1, 0, some id)

/-- `vbuf_queue_pop` (vbuf_queue.c:210); the wait is as in `vbuf_pool_get`. -/
def vbuf_queue_pop (w : World) (queue : Nat) (timeout_ms : Int) : World × Int × Option Nat :=
  if queue = 0 then (w, -EINVAL, none) else
  match w.queues queue with
  | none => (w, -EFAULT, none)
  | some q =>
    if q.count = 0 then
      -- No wait, return
      if timeout_ms = 0 then (w, -EAGAIN, some 0) else
      let r := if timeout_ms > 0 then sys_call w sys_kind.cond_timedwait
               else sys_call w sys_kind.cond_wait
      if r.2 = ETIMEDOUT then (r.1, -ETIMEDOUT, some 0)
      else if r.2 ≠ 0 then (r.1, -r.2, some 0)
      else vbuf_queue_pop_take r.1 queue timeout_ms
    else vbuf_queue_pop_take w queue timeout_ms

/-- The part of `vbuf_queue_push` from the `queue_push` callback on
(vbuf_queue.c:319-358). -/
def vbuf_queue_push_tail (w : World) (queue : Nat) (buf : Nat) : World × Int :=
  match w.bufs buf with
  | none => (w, -EFAULT)
  | some b =>
    -- Call the callback function if implemented
    let r := run_opt_cb w cb_kind.queue_push b.cbs.queue_push buf b 0
    if r.2.2 < 0 then (r.1, r.2.2) else
    -- Create the buffer queue element
    let r1 := sys_call r.1 sys_kind.calloc
    if r1.2 ≠ 0 then (r1.1, -ENOMEM) else
    let w2 := (vbuf_ref r1.1 buf).1
    match w2.queues queue with
    | none => (w2, -EFAULT)
    | some q =>
      -- Add the buffer to the list
      let q1 := { q with buffers := q.buffers ++ [buf], count := uint_inc q.count }
      let w3 := w2.set_queue queue q1
      -- Notify that a buffer available
      let w4 := (sys_call w3 sys_kind.evt_signal).1
      let w5 := if q1.count = 1 then (sys_call w4 sys_kind.cond_signal).1 else w4
      (w5, 0)

/-- `vbuf_queue_push` (vbuf_queue.c:287). -/
def vbuf_queue_push (w : World) (queue : Nat) (buf : Nat) : World × Int :=
  if queue = 0 then (w, -EINVAL) else
  if buf = 0 then (w, -EINVAL) else
  match w.queues queue with
  | none => (w, -EFAULT)
  | some q =>
    -- Finite queue
    if q.max_count > 0 ∧ q.count = q.max_count then
      -- The queue is full
      if q.drop_when_full ≠ 0 then
        -- Drop the oldest buffer
        let r := vbuf_queue_pop w queue 0
        let _buf := r.2.2.getD 0
        let w1 := if r.2.1 < 0 ∧ r.2.1 ≠ -EAGAIN then r.1
                  else if _buf ≠ 0 then (vbuf_unref r.1 _buf).1 else r.1
        vbuf_queue_push_tail w1 queue buf
      else (w, -EAGAIN)
    else vbuf_queue_push_tail w queue buf

/-- The walk `list_walk_entry_forward` of `vbuf_queue_peek` (vbuf_queue.c:175): the
element reached when the `unsigned int` counter `idx` equals `index`, if any. -/
def peek_walk (index : Nat) : List Nat → Nat → Option Nat
  | [], _ => none
  | x :: xs, idx => if idx = index then some x else peek_walk index xs (uint_inc idx)

/-- The part of `vbuf_queue_peek` after the wait (vbuf_queue.c:168-206): the test
`count < index + 1` (in `unsigned int` arithmetic) is repeated, the list is walked to
the element of rank `index`, the `queue_peek` callback runs and `*buf` is written. -/
def vbuf_queue_peek_take (w : World) (queue : Nat) (index : Nat) (timeout_ms : Int) :
    World × Int × Option Nat :=
  match w.queues queue with
  | none => (w, -EFAULT, none)
  | some q =>
    -- Still no buffer after waiting
    if q.count < uint_inc index then (w, -EAGAIN, some 0) else
    -- A buffer is available
    match peek_walk index q.buffers 0 with
    | none => (w, -EAGAIN, some 0)
    | some id =>
      match w.bufs id with
      | none => (w, -EFAULT, none)
      | some b =>
        -- Call the callback function if implemented
        match b.cbs.queue_peek with
        | some f =>
          let r := run_cb w cb_kind.queue_peek f id b timeout_ms
          (r.1, r.2.2, some (if r.2.2 = 0 then id else 0))
        | none => (w, 0, some id)

/-- `vbuf_queue_peek` (vbuf_queue.c:127); the wait is as in `vbuf_pool_get`. -/
def vbuf_queue_peek (w : World) (queue : Nat) (index : Nat) (timeout_ms : Int) :
    World × Int × Option Nat :=
  if queue = 0 then (w, -EINVAL, none) else
  match w.queues queue with
  | none => (w, -EFAULT, none)
  | some q =>
    if q.count < uint_inc index then
      -- No wait, return
      if timeout_ms = 0 then (w, -EAGAIN, some 0) else
      let r := if timeout_ms > 0 then sys_call w sys_kind.cond_timedwait
               else sys_call w sys_kind.cond_wait
      if r.2 = ETIMEDOUT then (r.1, -ETIMEDOUT, some 0)
      else if r.2 ≠ 0 then (r.1, -r.2, some 0)
      else vbuf_queue_peek_take r.1 queue index timeout_ms
    else vbuf_queue_peek_take w queue index timeout_ms

/-- The loop of `vbuf_queue_flush` (vbuf_queue.c:386) over the elements still to visit:
the element is unlinked, the counter decremented and the buffer released; the result of
`vbuf_unref` is not looked at. -/
def vbuf_queue_flush_loop (w : World) (queue : Nat) : List Nat → World
  | [] => w
  | id :: rest =>
    match w.queues queue with
    | none => w
    | some q =>
      let w1 := w.set_queue queue { q with buffers := rest, count := uint_dec q.count }
      let w2 := (vbuf_unref w1 id).1
      vbuf_queue_flush_loop w2 queue rest

/-- `vbuf_queue_flush` (vbuf_queue.c:371). -/
def vbuf_queue_flush (w : World) (queue : Nat) : World × Int :=
  if queue = 0 then (w, -EINVAL) else
  match w.queues queue with
  | none => (w, -EFAULT)
  | some q =>
    -- The queue is already empty
    if q.count = 0 then (w, 0) else
    -- Dequeue all buffers
    (vbuf_queue_flush_loop w queue q.buffers, 0)

/-- `vbuf_queue_abort` (vbuf_queue.c:361): the condition is broadcast; no field of the
queue is written. -/
def vbuf_queue_abort (w : World) (queue : Nat) : World × Int :=
  if queue = 0 then (w, -EINVAL) else
  match w.queues queue with
  | none => (w, -EFAULT)
  | some _ => ((sys_call w sys_kind.cond_broadcast).1, 0)

/-- `vbuf_queue_destroy` (vbuf_queue.c:89): a `NULL` queue is accepted; the queue is
flushed and the object released. -/
def vbuf_queue_destroy (w : World) (queue : Nat) : World × Int :=
  if queue = 0 then (w, 0) else
  match w.queues queue with
  | none => (w, -EFAULT)
  | some _ => (((vbuf_queue_flush w queue).1).del_queue queue, 0)

/-- `vbuf_pool_abort` (vbuf_pool.c:289). -/
def vbuf_pool_abort (w : World) (pool : Nat) : World × Int :=
  if pool = 0 then (w, -EINVAL) else
  match w.pools pool with
  | none => (w, -EFAULT)
  | some _ => ((sys_call w sys_kind.cond_broadcast).1, 0)

/-- The loop of `vbuf_pool_destroy` (vbuf_pool.c:128) over the free buffers still to
visit: the buffer is unlinked, the free counter decremented and the buffer destroyed. -/
def vbuf_pool_destroy_loop (w : World) (pool : Nat) : List Nat → World
  | [] => w
  | id :: rest =>
    match w.pools pool with
    | none => w
    | some p =>
      let w1 := w.set_pool pool { p with buffers := rest, free := uint_dec p.free }
      vbuf_pool_destroy_loop (vbuf_destroy w1 id).1 pool rest

/-- `vbuf_pool_destroy` (vbuf_pool.c:112): a `NULL` pool is accepted; the buffers of the
free list are destroyed and the pool object released. -/
def vbuf_pool_destroy (w : World) (pool : Nat) : World × Int :=
  if pool = 0 then (w, 0) else
  match w.pools pool with
  | none => (w, -EFAULT)
  | some p => ((vbuf_pool_destroy_loop w pool p.buffers).del_pool pool, 0)

/-! ## `vbuf.c`: metadata -/

/-- `vbuf_meta_new` (vbuf.c:368); `none` is a `NULL` result.  The record and its data
come from two `calloc` calls, so the `len` data bytes are 0. -/
def vbuf_meta_new (w : World) (key level len : Nat) : World × Option vbuf_meta :=
  if key = 0 then (w, none) else
  if len = 0 then (w, none) else
  let r := sys_call w sys_kind.calloc
  if r.2 ≠ 0 then (r.1, none) else
  let r1 := sys_call r.1 sys_kind.calloc
  if r1.2 ≠ 0 then (r1.1, none) else
  (r1.1, some { key := key, level := level, data := List.replicate len 0, len := len })

/-- `vbuf_meta_find` (vbuf.c:407): the first record of the buffer with the key, `none`
for `NULL`. -/
def vbuf_meta_find (w : World) (buf key : Nat) : Option vbuf_meta :=
  if buf = 0 then none else
  if key = 0 then none else
  match w.bufs buf with
  | none => none
  | some b => b.metas.find? (fun meta => meta.key = key)

/-- `vbuf_metadata_add` (vbuf.c:427).  The third component is what is written to
`*ret_ptr`: the data of the new record. -/
def vbuf_metadata_add (w : World) (buf key level len : Nat) :
    World × Int × Option (List Nat) :=
  if buf = 0 then (w, -EINVAL, none) else
  if key = 0 then (w, -EINVAL, none) else
  match w.bufs buf with
  | none => (w, -EFAULT, none)
  | some b =>
    -- Check that the key does not already exist
    match vbuf_meta_find w buf key with
    | some _ => (w, -EEXIST, none)
    | none =>
      let r := vbuf_meta_new w key level len
      match r.2 with
      | none => (r.1, -ENOMEM, none)
      | some meta =>
        (r.1.set_buf buf { b with metas := b.metas ++ [meta] }, 0, some meta.data)

/-- What `vbuf_metadata_get` returns and writes to `*level`, `*len` and `*ret_ptr`
(`none`: not written). -/
structure meta_result where
  res : Int
  level : Option Nat
  len : Option Nat
  ptr : Option (List Nat)
  deriving DecidableEq, Repr

/-- `vbuf_metadata_get` (vbuf.c:466), called with non-`NULL` `level` and `len`. -/
def vbuf_metadata_get (w : World) (buf key : Nat) : World × meta_result :=
  if buf = 0 then (w, ⟨-EINVAL, none, none, none⟩) else
  if key = 0 then (w, ⟨-EINVAL, none, none, none⟩) else
  match w.bufs buf with
  | none => (w, ⟨-EFAULT, none, none, none⟩)
  | some _ =>
    match vbuf_meta_find w buf key with
    | none => (w, ⟨-ENOENT, none, none, none⟩)
    | some meta => (w, ⟨0, some meta.level, some meta.len, some meta.data⟩)

/-- `vbuf_metadata_remove` (vbuf.c:501): the record found is unlinked and released. -/
def vbuf_metadata_remove (w : World) (buf key : Nat) : World × Int :=
  if buf = 0 then (w, -EINVAL) else
  if key = 0 then (w, -EINVAL) else
  match w.bufs buf with
  | none => (w, -EFAULT)
  | some b =>
    match vbuf_meta_find w buf key with
    | none => (w, -ENOENT)
    | some _ =>
      (w.set_buf buf { b with metas := b.metas.eraseP (fun meta => meta.key = key) }, 0)

/-- `memcpy(dst, src, n)` on the contents of two blocks: the new content of the
destination, or `none` when one of the blocks has fewer than `n` bytes (undefined
behaviour in C). -/
def memcpy (dst src : List Nat) (n : Nat) : Option (List Nat) :=
  if n ≤ src.length ∧ n ≤ dst.length then some (src.take n ++ dst.drop n) else none

/-- The `memcpy(dst_meta, src_meta->data, src_meta->len)` of `vbuf_metadata_copy`
(vbuf.c:555): `dst_meta` addresses the data of the record `vbuf_metadata_add` has just
put at the end of the list of `dst_buf`. -/
def meta_memcpy (w : World) (dst_buf : Nat) (src_meta : vbuf_meta) : Option World :=
  match w.bufs dst_buf with
  | none => none
  | some d =>
    match d.metas.getLast? with
    | none => none
    | some last =>
      match memcpy last.data src_meta.data src_meta.len with
      | none => none
      | some bytes =>
        some (w.set_buf dst_buf { d with metas := d.metas.dropLast ++ [{ last with data := bytes }] })

/-- The loop of `vbuf_metadata_copy` (vbuf.c:543) over the records of the source still to
visit. -/
def vbuf_metadata_copy_loop (w : World) (dst_buf max_level : Nat) :
    List vbuf_meta → World × Int
  | [] => (w, 0)
  | src_meta :: rest =>
    if max_level = 0 ∨ src_meta.level < max_level then
      let r := vbuf_metadata_add w dst_buf src_meta.key src_meta.level src_meta.len
      if r.2.1 < 0 then (r.1, r.2.1) else
      match meta_memcpy r.1 dst_buf src_meta with
      | none => (r.1, -EFAULT)
      | some w1 => vbuf_metadata_copy_loop w1 dst_buf max_level rest
    else vbuf_metadata_copy_loop w dst_buf max_level rest

/-- `vbuf_metadata_copy` (vbuf.c:529). -/
def vbuf_metadata_copy (w : World) (src_buf dst_buf max_level : Nat) : World × Int :=
  if src_buf = 0 then (w, -EINVAL) else
  if dst_buf = 0 then (w, -EINVAL) else
  if dst_buf = src_buf then (w, -EINVAL) else
  match w.bufs src_buf with
  | none => (w, -EFAULT)
  | some s => vbuf_metadata_copy_loop w dst_buf max_level s.metas

/-! ## `vbuf.c`: user data -/

/-- `vbuf_get_userdata` (vbuf.c:566). -/
def vbuf_get_userdata (w : World) (buf : Nat) : World × ptr_result :=
  if buf = 0 then (w, ⟨none, EINVAL⟩) else
  match w.bufs buf with
  | none => (w, ⟨none, EFAULT⟩)
  | some b =>
    if b.write_locked then (w, ⟨none, EPERM⟩) else
    (w, ⟨b.userdata_ptr, 0⟩)

/-- `vbuf_get_cuserdata` (vbuf.c:575). -/
def vbuf_get_cuserdata (w : World) (buf : Nat) : World × ptr_result :=
  if buf = 0 then (w, ⟨none, EINVAL⟩) else
  match w.bufs buf with
  | none => (w, ⟨none, EFAULT⟩)
  | some b => (w, ⟨b.userdata_ptr, 0⟩)

/-- `vbuf_get_userdata_capacity` (vbuf.c:583). -/
def vbuf_get_userdata_capacity (w : World) (buf : Nat) : World × Int :=
  if buf = 0 then (w, -EINVAL) else
  match w.bufs buf with
  | none => (w, -EFAULT)
  | some b => (w, to_ssize b.userdata_capacity)

/-- The content of the block `realloc(ptr, n)` returns when it succeeds in the world
`w`: the bytes of the old block as far as they go, then bytes that are not initialised.
`ptr = none` is `NULL`, for which `realloc` is `malloc`. -/
def realloc_block (w : World) (ptr : Option (List Nat)) (n : Nat) : List Nat :=
  (List.range n).map (fun i => ((ptr.getD []).get? i).getD (w.junk w.trace.length i))

/-- `vbuf_set_userdata_capacity` (vbuf.c:591); `realloc` succeeds when the environment
answers `0`. -/
def vbuf_set_userdata_capacity (w : World) (buf : Nat) (capacity : Nat) : World × Int :=
  if buf = 0 then (w, -EINVAL) else
  match w.bufs buf with
  | none => (w, -EFAULT)
  | some b =>
    if b.write_locked then (w, -EPERM) else
    if capacity > b.userdata_capacity then
      let r := sys_call w sys_kind.realloc
      if r.2 ≠ 0 then (r.1, -ENOMEM) else
      let tmp := realloc_block w b.userdata_ptr capacity
      (r.1.set_buf buf { b with userdata_ptr := some tmp, userdata_capacity := capacity },
        to_ssize capacity)
    else (w, to_ssize b.userdata_capacity)

/-- `vbuf_get_userdata_size` (vbuf.c:614). -/
def vbuf_get_userdata_size (w : World) (buf : Nat) : World × Int :=
  if buf = 0 then (w, -EINVAL) else
  match w.bufs buf with
  | none => (w, -EFAULT)
  | some b => (w, to_ssize b.userdata_size)

/-- `vbuf_set_userdata_size` (vbuf.c:622). -/
def vbuf_set_userdata_size (w : World) (buf : Nat) (size : Nat) : World × Int :=
  if buf = 0 then (w, -EINVAL) else
  match w.bufs buf with
  | none => (w, -EFAULT)
  | some b =>
    if size > b.userdata_capacity then (w, -ENOBUFS) else
    if b.write_locked then (w, -EPERM) else
    (w.set_buf buf { b with userdata_size := size }, 0)

/-- The conversion of an `ssize_t` result to `int`, as in
`res = vbuf_set_capacity(..)`: the low 32 bits are kept. -/
def ssize_to_int (x : Int) : Int := to_int (x % 4294967296).toNat

/-- The `memcpy` of `vbuf_userdata_copy` and the `vbuf_set_userdata_size` that follows
it (vbuf.c:648-654), for the source size and bytes given. -/
def vbuf_userdata_copy_bytes (w : World) (dst_buf : Nat) (src_ptr : Option (List Nat))
    (src_size : Nat) : World × Int :=
  match w.bufs dst_buf with
  | none => (w, -EFAULT)
  | some d =>
    match d.userdata_ptr, src_ptr with
    | some dst_bytes, some src_bytes =>
      match memcpy dst_bytes src_bytes src_size with
      | none => (w, -EFAULT)
      | some bytes =>
        vbuf_set_userdata_size (w.set_buf dst_buf { d with userdata_ptr := some bytes })
          dst_buf src_size
    | _, _ => (w, -EFAULT)

/-- `vbuf_userdata_copy` (vbuf.c:634). -/
def vbuf_userdata_copy (w : World) (src_buf dst_buf : Nat) : World × Int :=
  if src_buf = 0 then (w, -EINVAL) else
  if dst_buf = 0 then (w, -EINVAL) else
  if dst_buf = src_buf then (w, -EINVAL) else
  match w.bufs src_buf, w.bufs dst_buf with
  | some s, some d =>
    if d.write_locked then (w, -EPERM) else
    if s.userdata_size = 0 then (w, 0) else
    let r := vbuf_set_userdata_capacity w dst_buf s.userdata_capacity
    let res := ssize_to_int r.2
    if res < 0 then (r.1, res) else
    vbuf_userdata_copy_bytes r.1 dst_buf s.userdata_ptr s.userdata_size
  | _, _ => (w, -EFAULT)

/-! ## `vbuf.c`: copy -/

/-- The growth of the destination in `vbuf_copy` (vbuf.c:344-348). -/
def vbuf_copy_grow (w : World) (dst_buf : Nat) (dst_capacity src_size : Nat) : World × Int :=
  if dst_capacity < src_size then
    let r := vbuf_set_capacity w dst_buf src_size
    (r.1, ssize_to_int r.2)
  else (w, 0)

/-- The `memcpy` of the payload in `vbuf_copy` and the `vbuf_set_size` that follows it
(vbuf.c:349-354), for the source size and bytes given. -/
def vbuf_copy_bytes (w : World) (dst_buf : Nat) (src_ptr : Option (List Nat))
    (src_size : Nat) : World × Int :=
  if src_size > 0 then
    match w.bufs dst_buf with
    | none => (w, -EFAULT)
    | some d =>
      match d.ptr, src_ptr with
      | some dst_bytes, some src_bytes =>
        match memcpy dst_bytes src_bytes src_size with
        | none => (w, -EFAULT)
        | some bytes => vbuf_set_size (w.set_buf dst_buf { d with ptr := some bytes }) dst_buf src_size
      | _, _ => (w, -EFAULT)
  else (w, 0)

/-- `vbuf_copy` (vbuf.c:335). -/
def vbuf_copy (w : World) (src_buf dst_buf : Nat) : World × Int :=
  if src_buf = 0 then (w, -EINVAL) else
  if dst_buf = 0 then (w, -EINVAL) else
  if dst_buf = src_buf then (w, -EINVAL) else
  match w.bufs src_buf, w.bufs dst_buf with
  | some s, some d =>
    if d.write_locked then (w, -EPERM) else
    let r1 := vbuf_copy_grow w dst_buf d.capacity s.size
    if r1.2 < 0 then r1 else
    let r2 := vbuf_copy_bytes r1.1 dst_buf s.ptr s.size
    if r2.2 < 0 then r2 else
    let r3 := vbuf_userdata_copy r2.1 src_buf dst_buf
    if r3.2 < 0 then r3 else
    let r4 := vbuf_metadata_copy r3.1 src_buf dst_buf 0
    if r4.2 < 0 then r4 else
    (r4.1, 0)
  | _, _ => (w, -EFAULT)

/-! ## Predicates used in the statements -/

/-- The callback is `NULL`, or it is one that reports success whenever it is called. -/
def cb_ok (cb : Option vbuf_cb) : Prop :=
  ∀ f, cb = some f → ∀ a, 0 ≤ (f a).res

/-! ## Concrete objects for the examples -/

/-- A callback table with only the two mandatory callbacks, both doing nothing. -/
def plain_cbs : vbuf_cbs :=
  { alloc := some (fun a => ⟨0, a.type, a.specific, a.ptr⟩), realloc := none, unref := none,
    free := some (fun a => ⟨0, a.type, a.specific, none⟩), pool_get := none, pool_put := none,
    queue_push := none, queue_peek := none, queue_pop := none }

/-- A buffer of capacity 16 with the given reference count, lock flag and pool. -/
def sample_buf (ref_count : Nat) (locked : Bool) (pool : Nat) : vbuf_buffer :=
  { type := 0, ref_count := ref_count, write_locked := locked, pool := pool, cbs := plain_cbs,
    specific := 0, capacity := 16, size := 8, ptr := some (List.replicate 16 0),
    metas := [⟨7, 1, [0, 0], 2⟩], userdata_capacity := 0, userdata_size := 0,
    userdata_ptr := none }

/-- A world with nothing in it, in which every system call succeeds. -/
def empty_world : World :=
  { bufs := fun _ => none, pools := fun _ => none, queues := fun _ => none, next := 0,
    trace := [], env := fun _ => 0, junk := fun _ _ => 0 }

/-- A world with one stand-alone buffer at address 1. -/
def one_buf_world (ref_count : Nat) (locked : Bool) : World :=
  { empty_world with bufs := fun i => if i = 1 then some (sample_buf ref_count locked 0) else none,
                     next := 1 }

/-- The buffer value `b'` differs from `b` at most in the three fields a backend callback
writes (`type`, `specific`, `ptr`). -/
def backend_only (b b' : vbuf_buffer) : Prop :=
  b' = { b with type := b'.type, specific := b'.specific, ptr := b'.ptr }

/-- A world with a pool of two buffers at address 1: buffer 2 is held by a client (one
reference, write-locked, 8 bytes used, one metadata record), buffer 3 is in the free
list. -/
def pool_world : World :=
  { empty_world with
    bufs := fun i => if i = 2 then some (sample_buf 1 true 1)
                     else if i = 3 then some (sample_buf 0 false 1) else none,
    pools := fun i => if i = 1 then some ⟨2, 1, [3]⟩ else none,
    next := 3 }

/-- A callback that always fails with `-1` and touches nothing. -/
def failing_cb : vbuf_cb := fun a => ⟨-1, a.type, a.specific, a.ptr⟩

/-- The callbacks of `plain_cbs` with a failing `unref` (last unref) callback. -/
def failing_unref_cbs : vbuf_cbs := { plain_cbs with unref := some failing_cb }

/-- A world with a pool of one buffer at address 1; its buffer 2 is in the free list and
carries a failing `unref` callback. -/
def failing_pool_world : World :=
  { empty_world with
    bufs := fun i => if i = 2 then some { sample_buf 0 false 1 with cbs := failing_unref_cbs }
                     else none,
    pools := fun i => if i = 1 then some ⟨1, 1, [2]⟩ else none,
    next := 2 }

/-- Release the buffers of a list one after the other with `vbuf_unref`. -/
def unref_all (w : World) : List Nat → World
  | [] => w
  | b :: bs => unref_all (vbuf_unref w b).1 bs

/-- Call `vbuf_pool_get` once per timeout of the list and collect the results and the
buffers output. -/
def pool_get_n (w : World) (pool : Nat) : List Int → World × List (Int × Option Nat)
  | [] => (w, [])
  | t :: ts =>
    let r := vbuf_pool_get w pool t
    let rs := pool_get_n r.1 pool ts
    (rs.1, (r.2.1, r.2.2) :: rs.2)

/-! ## Write lock and references: the invariant and the calls of a client -/

/-- What holds of every buffer as long as reference counts do not wrap: the `unref`
callback is absent or reports success, the count is an `unsigned int`, and a write-locked
buffer has at least one reference. -/
def buf_ok (b : vbuf_buffer) : Prop :=
  cb_ok b.cbs.unref ∧ b.ref_count < 4294967296 ∧ (b.write_locked = true → 1 ≤ b.ref_count)

/-- Every live buffer of the world satisfies `buf_ok`. -/
def bufs_ok (w : World) : Prop := ∀ id b, w.bufs id = some b → buf_ok b

/-- The buffer value `b'` comes from `b` by steps that keep the callbacks, do not add
references and leave a locked buffer with a reference. -/
def shrinks (b b' : vbuf_buffer) : Prop :=
  b'.cbs = b.cbs ∧ b'.ref_count ≤ b.ref_count ∧ (b'.write_locked = true → 1 ≤ b'.ref_count)

/-- Every buffer of `w'` comes from the buffer of `w` at the same address by `shrinks`. -/
def le_refs (w w' : World) : Prop :=
  ∀ i b', w'.bufs i = some b' → ∃ b, w.bufs i = some b ∧ shrinks b b'

/-- The states a program reaches from `w0` by calls of the public buffer operations
`vbuf_ref`, `vbuf_unref`, `vbuf_write_lock`, `vbuf_write_unlock`, `vbuf_set_size`,
`vbuf_set_capacity`, `vbuf_queue_push` and `vbuf_queue_pop`, with any arguments; a
reference is only added (by `vbuf_ref` or `vbuf_queue_push`) to a buffer whose count is
below `UINT_MAX`. -/
inductive buf_reach (w0 : World) : World → Prop where
  | init : buf_reach w0 w0
  | ref {w : World} (buf : Nat) (b : vbuf_buffer) : buf_reach w0 w → w.bufs buf = some b →
      b.ref_count < 4294967295 → buf_reach w0 (vbuf_ref w buf).1
  | unref {w : World} (buf : Nat) : buf_reach w0 w → buf_reach w0 (vbuf_unref w buf).1
  | write_lock {w : World} (buf : Nat) : buf_reach w0 w → buf_reach w0 (vbuf_write_lock w buf).1
  | write_unlock {w : World} (buf : Nat) : buf_reach w0 w →
      buf_reach w0 (vbuf_write_unlock w buf).1
  | set_size {w : World} (buf n : Nat) : buf_reach w0 w → buf_reach w0 (vbuf_set_size w buf n).1
  | set_capacity {w : World} (buf n : Nat) : buf_reach w0 w →
      buf_reach w0 (vbuf_set_capacity w buf n).1
  | queue_push {w : World} (queue buf : Nat) (b : vbuf_buffer) : buf_reach w0 w →
      w.bufs buf = some b → b.ref_count < 4294967295 →
      buf_reach w0 (vbuf_queue_push w queue buf).1
  | queue_pop {w : World} (queue : Nat) (t : Int) : buf_reach w0 w →
      buf_reach w0 (vbuf_queue_pop w queue t).1

/-- The world after `vbuf_new(16, 0, plain_cbs, NULL)` in the empty world: one buffer,
at address 1. -/
def fresh_buf_world : World := (vbuf_new empty_world 16 0 (some plain_cbs) 0).1

/-- The world after `vbuf_write_lock` and then `vbuf_ref` on the fresh buffer. -/
def locked_shared_world : World := (vbuf_ref (vbuf_write_lock fresh_buf_world 1).1 1).1

/-- The buffer of `locked_shared_world`: write-locked, with two references. -/
def locked_shared_buf : vbuf_buffer :=
  { type := 0, ref_count := 2, write_locked := true, pool := 0, cbs := plain_cbs,
    specific := 0, capacity := 16, size := 0, ptr := none, metas := [],
    userdata_capacity := 0, userdata_size := 0, userdata_ptr := none }

/-! ## Pools: the invariant and the calls of a client -/

/-- The address holds a live buffer of the pool. -/
def is_pool_buf (w : World) (pool id : Nat) : Bool :=
  match w.bufs id with
  | some b => decide (b.pool = pool)
  | none => false

/-- The address holds a live buffer of the pool with at least one reference. -/
def is_held_buf (w : World) (pool id : Nat) : Bool :=
  match w.bufs id with
  | some b => decide (b.pool = pool ∧ 1 ≤ b.ref_count)
  | none => false

/-- The address holds a live buffer of the pool with no reference. -/
def is_free_buf (w : World) (pool id : Nat) : Bool :=
  match w.bufs id with
  | some b => decide (b.pool = pool ∧ b.ref_count = 0)
  | none => false

/-- Number of live buffers of the pool (objects live at addresses up to `next`). -/
def pool_buf_count (w : World) (pool : Nat) : Nat :=
  (List.range (w.next + 1)).countP (is_pool_buf w pool)

/-- Number of live buffers of the pool with at least one reference. -/
def held_count (w : World) (pool : Nat) : Nat :=
  (List.range (w.next + 1)).countP (is_held_buf w pool)

/-- The states a program reaches from `w0` by calls of `vbuf_pool_get` (any pool, any
timeout), `vbuf_ref` and `vbuf_unref`, the last two only on buffers the clients hold
(reference count at least 1); `vbuf_ref` is not called at a count of `UINT_MAX`. -/
inductive pool_reach (w0 : World) : World → Prop where
  | init : pool_reach w0 w0
  | get {w : World} (pool : Nat) (t : Int) : pool_reach w0 w →
      pool_reach w0 (vbuf_pool_get w pool t).1
  | ref {w : World} (buf : Nat) (b : vbuf_buffer) : pool_reach w0 w → w.bufs buf = some b →
      1 ≤ b.ref_count → b.ref_count < 4294967295 → pool_reach w0 (vbuf_ref w buf).1
  | unref {w : World} (buf : Nat) (b : vbuf_buffer) : pool_reach w0 w → w.bufs buf = some b →
      1 ≤ b.ref_count → pool_reach w0 (vbuf_unref w buf).1

/-- The property of C2 for the pool at address `pool`: every live buffer of the pool is
in the free list exactly when its reference count is 0, the free list holds only live
buffers of the pool and none twice, and the free counter plus the number of buffers with
a reference is the buffer count of the pool. -/
def pool_inv (w : World) (pool : Nat) : Prop :=
  ∃ pl, w.pools pool = some pl ∧
    (∀ id b, w.bufs id = some b → b.pool = pool → (id ∈ pl.buffers ↔ b.ref_count = 0)) ∧
    (∀ id ∈ pl.buffers, ∃ b, w.bufs id = some b ∧ b.pool = pool) ∧
    pl.buffers.Nodup ∧
    pl.free + held_count w pool = pl.count

/-- What holds of the addresses in every state of a program: `NULL` holds no buffer, no
buffer lives above the highest address handed out, the free lists hold addresses that
were handed out, and the originating pool of a buffer is `NULL` or an address that was
handed out. -/
structure alloc_ok (w : World) : Prop where
  null_free : w.bufs 0 = none
  fresh : ∀ i, w.next < i → w.bufs i = none
  lists_le : ∀ q ql, w.pools q = some ql → ∀ id ∈ ql.buffers, id ≤ w.next
  pools_le : ∀ i b, w.bufs i = some b → b.pool ≤ w.next

/-- The invariant the proof of C2 maintains for the pool at `pool`, in a world that may
hold other buffers and other pools: `NULL` holds no buffer, no buffer lives above the
highest address handed out, and the free lists hold addresses that were handed out; the
free lists of the other pools hold no buffer of this pool; every live buffer of the pool
carries the callbacks `c`; the free list of the pool has no duplicate, holds exactly the
live buffers of the pool with count 0, and its length is the free counter. -/
structure pool_ok (c : vbuf_cbs) (pool : Nat) (w : World) (pl : vbuf_pool) : Prop where
  pool_ne : pool ≠ 0
  pool_live : w.pools pool = some pl
  null_free : w.bufs 0 = none
  fresh : ∀ i, w.next < i → w.bufs i = none
  lists_le : ∀ q ql, w.pools q = some ql → ∀ id ∈ ql.buffers, id ≤ w.next
  others : ∀ q ql, q ≠ pool → w.pools q = some ql → ∀ id ∈ ql.buffers,
    ∀ b, w.bufs id = some b → b.pool ≠ pool
  nodup : pl.buffers.Nodup
  free_eq : pl.free = pl.buffers.length
  free_lt : pl.free < 4294967296
  bufs : ∀ id b, w.bufs id = some b → b.pool = pool →
    b.cbs = c ∧ b.ref_count < 4294967296 ∧ (id ∈ pl.buffers ↔ b.ref_count = 0)
  list_live : ∀ id ∈ pl.buffers, ∃ b, w.bufs id = some b ∧ b.pool = pool

/-- The step from `w` to `w'` leaves the pool at `pool` and its buffers alone: the
highest address handed out, the pool object and every buffer of the pool are as before,
no buffer has appeared or changed its originating pool, and what a free list has gained
is a buffer that was live, with that pool as originating pool. -/
def aside (pool : Nat) (w w' : World) : Prop :=
  w'.next = w.next ∧ w'.pools pool = w.pools pool ∧
  (∀ i b, w.bufs i = some b → b.pool = pool → w'.bufs i = some b) ∧
  (∀ i b', w'.bufs i = some b' → ∃ b, w.bufs i = some b ∧ b'.pool = b.pool) ∧
  (∀ p pl', w'.pools p = some pl' → ∀ x ∈ pl'.buffers,
    (∃ pl, w.pools p = some pl ∧ x ∈ pl.buffers) ∨ (∃ b, w.bufs x = some b ∧ b.pool = p))

/-- A callback that reports success up to time 9 and fails with `-1` from time 10 on. -/
def late_failing_cb : vbuf_cb :=
  fun a => ⟨if a.time < 10 then 0 else -1, a.type, a.specific, a.ptr⟩

/-- The callbacks of `plain_cbs` with an `unref` callback that fails from time 10 on. -/
def late_failing_cbs : vbuf_cbs := { plain_cbs with unref := some late_failing_cb }

/-- The world after `vbuf_pool_new(1, 16, 0, late_failing_cbs)` in the empty world. -/
def late_pool_world : World := (vbuf_pool_new empty_world 1 16 0 (some late_failing_cbs)).1

/-- The world after a get on `late_pool_world` and the unref of the buffer obtained. -/
def late_pool_world_after : World :=
  (vbuf_unref (vbuf_pool_get late_pool_world 1 0).1 2).1

/-- The world after `vbuf_pool_new(2, 16, 0, plain_cbs)` in the empty world. -/
def new_pool_world : World := (vbuf_pool_new empty_world 2 16 0 (some plain_cbs)).1

/-- `pool_ok` together with the population: the pool has as many live buffers as its
`count` field says, and `count` is an `unsigned int`. -/
def pool_full (c : vbuf_cbs) (pool : Nat) (w : World) : Prop :=
  ∃ pl, pool_ok c pool w pl ∧ pool_buf_count w pool = pl.count ∧ pl.count < 4294967296

/-- The buffer `vbuf_new` hands out, before the `alloc` callback has filled in the
backend fields: one reference, not locked, empty, with zeroed user data when a user-data
capacity was asked for. -/
def new_buf (capacity userdata_capacity : Nat) (c : vbuf_cbs) (pool : Nat) : vbuf_buffer :=
  { type := 0, ref_count := 1, write_locked := false, pool := pool, cbs := c, specific := 0,
    capacity := capacity, size := 0, ptr := none, metas := [],
    userdata_capacity := userdata_capacity, userdata_size := 0,
    userdata_ptr := if userdata_capacity > 0 then some (List.replicate userdata_capacity 0)
                    else none }

/-- The state of a buffer that sits in the free list of a pool created with the given
capacities and has not been used since: no reference, no lock, nothing stored. -/
def pristine (capacity userdata_capacity : Nat) (b : vbuf_buffer) : Prop :=
  b.ref_count = 0 ∧ b.write_locked = false ∧ b.size = 0 ∧ b.capacity = capacity ∧
  b.metas = [] ∧ b.userdata_capacity = userdata_capacity ∧ b.userdata_size = 0

/-- The buffer of `late_pool_world` while a client holds it. -/
def held_late_buf : vbuf_buffer :=
  { type := 0, ref_count := 1, write_locked := false, pool := 1, cbs := late_failing_cbs,
    specific := 0, capacity := 16, size := 0, ptr := none, metas := [],
    userdata_capacity := 0, userdata_size := 0, userdata_ptr := none }

/-- The world after `vbuf_pool_new(1, 16, 0, failing_unref_cbs)` in the empty world. -/
def unfilled_pool_world : World :=
  (vbuf_pool_new empty_world 1 16 0 (some failing_unref_cbs)).1

/-- The callback is `NULL`, or it is one that returns 0 (success) whenever it is called. -/
def cb_zero (cb : Option vbuf_cb) : Prop :=
  ∀ f, cb = some f → ∀ a, (f a).res = 0

/-- The empty world in which the fifth system call fails: in `vbuf_pool_new` that is the
`calloc` of the first buffer object. -/
def alloc_fail_world : World := { empty_world with env := fun t => if t = 4 then 12 else 0 }

/-- A world that already holds objects: a stand-alone buffer at address 1, held by a
client, and a pool at address 2 whose single buffer, at address 3, is in the free list. -/
def busy_world : World :=
  { empty_world with
    bufs := fun i =>
      if i = 1 then some (sample_buf 1 false 0)
      else if i = 3 then some { sample_buf 0 false 2 with size := 0, metas := [] }
      else none,
    pools := fun i => if i = 2 then some ⟨1, 1, [3]⟩ else none,
    next := 3 }

/-- The world after `vbuf_pool_new(2, 16, 0, plain_cbs)` in `busy_world`: the new pool is
at address 4 and its buffers at addresses 5 and 6. -/
def second_pool_world : World := (vbuf_pool_new busy_world 2 16 0 (some plain_cbs)).1

/-- The world after `vbuf_pool_new(1, 16, 0, plain_cbs)` in the empty world: the pool is
at address 1 and its buffer at address 2. -/
def one_pool_world : World := (vbuf_pool_new empty_world 1 16 0 (some plain_cbs)).1

/-- The world a get on `one_pool_world` followed by `UINT_MAX - 1` calls of `vbuf_ref` on
the buffer obtained leaves (`vbuf_ref` writes the count only): the buffer of the pool is
held with `UINT_MAX` references. -/
def maxed_pool_world : World :=
  (vbuf_pool_get one_pool_world 1 0).1.set_buf 2
    { new_buf 16 0 plain_cbs 1 with ref_count := 4294967295 }

/-- The world after `vbuf_pool_new(2, 16, 0, plain_cbs)` in the empty world, a
`vbuf_pool_get` on the new pool, and a second `vbuf_pool_new(2, 16, 0, plain_cbs)`: the
first pool is at address 1 with its buffers at 2 (held) and 3 (free), the second pool at
address 4 with its buffers at 5 and 6. -/
def two_pools_world : World :=
  (vbuf_pool_new (vbuf_pool_get new_pool_world 1 0).1 2 16 0 (some plain_cbs)).1

/-! ## Queues: concrete objects for the examples -/

/-- A world with four stand-alone buffers at addresses 1 to 4 and a queue at address 5
that holds the entries `l`: each buffer has one reference held by a client and one for
each entry of the queue that refers to it. -/
def queue_world (l : List Nat) (max_count : Nat) (drop_when_full : Int) : World :=
  { empty_world with
    bufs := fun i => if 1 ≤ i ∧ i ≤ 4 then some (sample_buf (1 + l.count i) false 0) else none,
    queues := fun i => if i = 5 then some ⟨l.length, max_count, drop_when_full, l⟩ else none,
    next := 5 }

/-- The world `queue_world [] 0 0` (empty unbounded queue) when no memory is left: every
system call answers `ENOMEM`, so `calloc` returns `NULL`. -/
def lowmem_queue_world : World := { queue_world [] 0 0 with env := fun _ => 12 }

/-- A world with the empty unbounded queue at address 5 and buffer 1 with `UINT_MAX`
references. -/
def maxref_queue_world : World :=
  { queue_world [] 0 0 with
    bufs := fun i => if i = 1 then some (sample_buf 4294967295 false 0) else none }

/-- A world with buffer 1 and an unbounded queue at address 5 that holds `INT_MAX`
entries, all for buffer 2. -/
def long_queue_world : World :=
  { queue_world [] 0 0 with
    queues := fun i => if i = 5 then some ⟨2147483647, 0, 0, List.replicate 2147483647 2⟩
                       else none }

/-- The world `queue_world [1, 2] 2 1` (full queue that drops) when no memory is left. -/
def lowmem_full_world : World := { queue_world [1, 2] 2 1 with env := fun _ => 12 }

/-- The world `queue_world [1, 2] 2 1` in which buffer 3 has `UINT_MAX` references. -/
def maxref_full_world : World :=
  { queue_world [1, 2] 2 1 with
    bufs := fun i => if i = 3 then some (sample_buf 4294967295 false 0)
                     else (queue_world [1, 2] 2 1).bufs i }

/-! ## Queues: sequences of calls of a client -/

/-- Call `vbuf_queue_push` once per buffer of the list and collect the results. -/
def push_all (w : World) (queue : Nat) : List Nat → World × List Int
  | [] => (w, [])
  | b :: bs =>
    let r := vbuf_queue_push w queue b
    let rs := push_all r.1 queue bs
    (rs.1, r.2 :: rs.2)

/-- The test `(queue->max_count > 0) && (queue->count == queue->max_count)` of
`vbuf_queue_push` (vbuf_queue.c:299): the queue is full. -/
def queue_full (w : World) (queue : Nat) : Prop :=
  ∃ q, w.queues queue = some q ∧ q.max_count > 0 ∧ q.count = q.max_count

/-- Every push of the list, done one after the other, finds a queue that is not full (so
that nothing is dropped) and returns 0. -/
def pushes_ok (w : World) (queue : Nat) : List Nat → Prop
  | [] => True
  | b :: bs => ¬ queue_full w queue ∧ (vbuf_queue_push w queue b).2 = 0 ∧
      pushes_ok (vbuf_queue_push w queue b).1 queue bs

/-- Call `vbuf_queue_pop` with `timeout_ms = 0` the given number of times and collect the
results and the buffers output. -/
def pop_n (w : World) (queue : Nat) : Nat → World × List (Int × Option Nat)
  | 0 => (w, [])
  | n + 1 =>
    let r := vbuf_queue_pop w queue 0
    let rs := pop_n r.1 queue n
    (rs.1, (r.2.1, r.2.2) :: rs.2)

/-- The queue at address `queue` holds the entries `l`, its count is their number, and
the buffer of every entry is live with a `queue_pop` callback that is `NULL` or returns
0. -/
def fifo_ready (w : World) (queue : Nat) (l : List Nat) : Prop :=
  ∃ q, w.queues queue = some q ∧ q.buffers = l ∧ q.count = l.length ∧
    ∀ id ∈ l, ∃ b, w.bufs id = some b ∧ cb_zero b.cbs.queue_pop

/-- The callbacks of `plain_cbs` with a `queue_pop` callback that fails. -/
def failing_pop_cbs : vbuf_cbs := { plain_cbs with queue_pop := some failing_cb }

/-- A world with an empty unbounded queue at address 5 and, at address 1, a buffer whose
`queue_pop` callback fails. -/
def failing_pop_world : World :=
  { queue_world [] 0 0 with
    bufs := fun i => if i = 1 then some { sample_buf 1 false 0 with cbs := failing_pop_cbs }
                     else none }

/-! ## Queues: the invariant and the calls of a client -/

/-- The invariant of a queue created with `max_count = m`: the stored count is the
number of entries and is an `unsigned int`, and a bounded queue holds at most `m`
entries. -/
def queue_good (m : Nat) (q : vbuf_queue) : Prop :=
  q.max_count = m ∧ q.count = q.buffers.length ∧ q.count < 4294967296 ∧
  (m > 0 → q.buffers.length ≤ m)

/-- The states a program reaches from `w0` by calls of `vbuf_queue_push`,
`vbuf_queue_pop`, `vbuf_queue_peek`, `vbuf_queue_flush` and `vbuf_queue_abort`, one after
the other and with any arguments; a buffer is pushed on an unbounded queue only while
the queue holds fewer than `UINT_MAX` entries. -/
inductive queue_reach (w0 : World) : World → Prop where
  | init : queue_reach w0 w0
  | push {w : World} (queue buf : Nat) : queue_reach w0 w →
      (∀ q, w.queues queue = some q → q.max_count = 0 → q.count < 4294967295) →
      queue_reach w0 (vbuf_queue_push w queue buf).1
  | pop {w : World} (queue : Nat) (t : Int) : queue_reach w0 w →
      queue_reach w0 (vbuf_queue_pop w queue t).1
  | peek {w : World} (queue index : Nat) (t : Int) : queue_reach w0 w →
      queue_reach w0 (vbuf_queue_peek w queue index t).1
  | flush {w : World} (queue : Nat) : queue_reach w0 w →
      queue_reach w0 (vbuf_queue_flush w queue).1
  | abort {w : World} (queue : Nat) : queue_reach w0 w →
      queue_reach w0 (vbuf_queue_abort w queue).1

/-- Call `vbuf_queue_push` with the same buffer the given number of times. -/
def push_n (w : World) (queue buf : Nat) : Nat → World
  | 0 => w
  | n + 1 => push_n (vbuf_queue_push w queue buf).1 queue buf n

/-- The world after `vbuf_queue_new(0, 0)` in a world with one buffer at address 1: the
queue is at address 2. -/
def new_queue_world : World := (vbuf_queue_new (one_buf_world 1 false) 0 0).1

/-! ## References held by clients and by queue entries -/

/-- Number of entries of a queue object that refer to the buffer `id`; none for a
missing queue. -/
def qcount (o : Option vbuf_queue) (id : Nat) : Nat :=
  match o with
  | some q => q.buffers.count id
  | none => 0

/-- Number of entries that refer to the buffer `id`, over the queues at the addresses
below `n`. -/
def entries (w : World) (id : Nat) : Nat → Nat
  | 0 => 0
  | n + 1 => entries w id n + qcount (w.queues n) id

/-- One more reference on `id` in the hands of the clients. -/
def bump (h : Nat → Nat) (id : Nat) : Nat → Nat := fun i => if i = id then h i + 1 else h i

/-- One reference on `id` less in the hands of the clients. -/
def unbump (h : Nat → Nat) (id : Nat) : Nat → Nat := fun i => if i = id then h i - 1 else h i

/-- The callback is `NULL`, or it is one that returns 0 or a negative value whenever it
is called. -/
def cb_nonpos (cb : Option vbuf_cb) : Prop :=
  ∀ f, cb = some f → ∀ a, (f a).res ≤ 0

/-- The accounting of references in the world `w`, where `h id` is the number of
references on `id` that clients hold and all queues are at addresses below `N`: a live
buffer has as many references as clients and queue entries hold together, its count is
an `unsigned int` and its `queue_pop` callback returns no positive value; no one holds
a reference on a buffer that is not live; there is no buffer at `NULL`. -/
structure refs_inv (N : Nat) (w : World) (h : Nat → Nat) : Prop where
  queues_below : ∀ j, N ≤ j → w.queues j = none
  no_null : w.bufs 0 = none
  live : ∀ id b, w.bufs id = some b → b.ref_count = h id + entries w id N ∧
    b.ref_count < 4294967296 ∧ cb_nonpos b.cbs.queue_pop
  dead : ∀ id, w.bufs id = none → h id = 0 ∧ entries w id N = 0

/-- The states a program reaches from the world `w0`, in which clients hold `h0`, by
calls of `vbuf_ref`, `vbuf_unref`, `vbuf_queue_push`, `vbuf_queue_pop` and
`vbuf_queue_flush` with any arguments, together with the references the clients hold:
`vbuf_ref` on a live buffer gives the client one more, `vbuf_unref` is only called on a
buffer of which a client holds a reference and takes it, a pop that returns 0 gives the
client the reference on the buffer output.  No reference is added (by `vbuf_ref` or
`vbuf_queue_push`) to a buffer that has `UINT_MAX` of them. -/
inductive held_reach (w0 : World) (h0 : Nat → Nat) : World → (Nat → Nat) → Prop where
  | init : held_reach w0 h0 w0 h0
  | ref {w : World} {h : Nat → Nat} (buf : Nat) (b : vbuf_buffer) : held_reach w0 h0 w h →
      w.bufs buf = some b → b.ref_count < 4294967295 →
      held_reach w0 h0 (vbuf_ref w buf).1 (bump h buf)
  | unref {w : World} {h : Nat → Nat} (buf : Nat) : held_reach w0 h0 w h → 1 ≤ h buf →
      held_reach w0 h0 (vbuf_unref w buf).1 (unbump h buf)
  | push {w : World} {h : Nat → Nat} (queue buf : Nat) : held_reach w0 h0 w h →
      (∀ b, w.bufs buf = some b → b.ref_count < 4294967295) →
      held_reach w0 h0 (vbuf_queue_push w queue buf).1 h
  | pop {w : World} {h : Nat → Nat} (queue : Nat) (t : Int) : held_reach w0 h0 w h →
      held_reach w0 h0 (vbuf_queue_pop w queue t).1
        (if (vbuf_queue_pop w queue t).2.1 = 0
          then bump h ((vbuf_queue_pop w queue t).2.2.getD 0) else h)
  | flush {w : World} {h : Nat → Nat} (queue : Nat) : held_reach w0 h0 w h →
      held_reach w0 h0 (vbuf_queue_flush w queue).1 h

/-- A callback that returns the positive value 1. -/
def positive_cb : vbuf_cb := fun a => ⟨1, a.type, a.specific, a.ptr⟩

/-- A world with an empty unbounded queue at address 5 and, at address 1, a buffer with
one reference whose `queue_pop` callback returns 1. -/
def positive_pop_world : World :=
  { queue_world [] 0 0 with
    bufs := fun i =>
      if i = 1 then some { sample_buf 1 false 0 with
                           cbs := { plain_cbs with queue_pop := some positive_cb } }
      else none }

/-- A client holds one reference on buffer 1 and nothing else. -/
def one_held : Nat → Nat := fun i => if i = 1 then 1 else 0

/-- A client holds one reference on each of the buffers 1 to 4. -/
def four_held : Nat → Nat := fun i => if 1 ≤ i ∧ i ≤ 4 then 1 else 0

/-! ## Sizes, capacities and metadata: concrete objects for the examples -/

/-- The callbacks of `plain_cbs` with a `realloc` callback that fails. -/
def failing_realloc_cbs : vbuf_cbs := { plain_cbs with realloc := some failing_cb }

/-- The world `one_buf_world 1 false`: buffer 1 holds one metadata record, of key 7,
level 1 and length 2. -/
def meta_world : World := one_buf_world 1 false

/-- The filter of `vbuf_metadata_copy`: `max_level == 0`, or the level of the record is
below `max_level`. -/
def meta_selected (max_level : Nat) (m : vbuf_meta) : Bool :=
  decide (max_level = 0 ∨ m.level < max_level)

/-- The record `vbuf_metadata_copy` makes of a record of the source: the same key, level
and length, and the first `len` bytes of its data. -/
def meta_copy_of (m : vbuf_meta) : vbuf_meta :=
  { key := m.key, level := m.level, data := m.data.take m.len, len := m.len }

/-- The records of a buffer have distinct keys. -/
def keys_unique (b : vbuf_buffer) : Prop := (b.metas.map (fun m => m.key)).Nodup

/-- A record as `vbuf_meta_new` makes it and later writes leave it: a key that is not
`NULL`, a length that is not 0, and at least `len` bytes of data. -/
def meta_sound (m : vbuf_meta) : Prop := m.key ≠ 0 ∧ 0 < m.len ∧ m.len ≤ m.data.length

/-- A world with two stand-alone buffers: buffer 1 holds three metadata records, of keys
7, 8, 9 and levels 1, 3, 5; buffer 2 holds none. -/
def levels_world : World :=
  { empty_world with
    bufs := fun i =>
      if i = 1 then
        some { sample_buf 1 false 0 with
          metas := [⟨7, 1, [1, 2], 2⟩, ⟨8, 3, [3], 1⟩, ⟨9, 5, [4, 5, 6], 3⟩] }
      else if i = 2 then some { sample_buf 1 false 0 with metas := [] }
      else none,
    next := 2 }

/-- The world `levels_world` in which every system call fails. -/
def levels_fail_world : World := { levels_world with env := fun _ => 12 }

/-! ## Sizes within capacities, distinct keys: the invariant and the calls of a client -/

/-- What holds of the data of every buffer: the size is within the capacity, for the
payload and for the user data, the metadata records have distinct keys, and each record
is as `vbuf_meta_new` makes it. -/
def buf_good (b : vbuf_buffer) : Prop :=
  b.size ≤ b.capacity ∧ b.userdata_size ≤ b.userdata_capacity ∧ keys_unique b ∧
  ∀ m ∈ b.metas, meta_sound m

/-- Every live buffer of the world satisfies `buf_good`. -/
def bufs_good (w : World) : Prop := ∀ id b, w.bufs id = some b → buf_good b

/-- The buffer value `b'` comes from `b` by steps that leave the capacities and the size
of the user data as they are, keep or reset the size of the payload, and keep or drop the
metadata. -/
def kept (b b' : vbuf_buffer) : Prop :=
  b'.capacity = b.capacity ∧ b'.userdata_capacity = b.userdata_capacity ∧
  b'.userdata_size = b.userdata_size ∧ (b'.size = b.size ∨ b'.size = 0) ∧
  (b'.metas = b.metas ∨ b'.metas = [])

/-- Every buffer of `w'` comes from the buffer of `w` at the same address by `kept`. -/
def keeps (w w' : World) : Prop :=
  ∀ i b', w'.bufs i = some b' → ∃ b, w.bufs i = some b ∧ kept b b'

/-- A world with nothing in it, in which the system calls answer as `env` says (so that
any `calloc`, `realloc`, initialisation or wait may fail, at any time) and memory that is
not initialised holds the bytes of `junk`. -/
def start_world (env : Nat → Int) (junk : Nat → Nat → Nat) : World :=
  { empty_world with env := env, junk := junk }

/-- The states a program reaches from a world without objects by calls of the public
operations that create buffers and pools, count references, take and give back buffers
of pools and queues, and read or write sizes, capacities, user data and metadata, with
any arguments, whether the calls succeed or fail, and whatever the system calls answer.
Backend callbacks write the fields `type`, `specific` and `ptr` only. -/
inductive data_reach : World → Prop where
  | init (env : Nat → Int) (junk : Nat → Nat → Nat) : data_reach (start_world env junk)
  | new {w : World} (capacity userdata_capacity : Nat) (cbs : Option vbuf_cbs) (pool : Nat) :
      data_reach w → data_reach (vbuf_new w capacity userdata_capacity cbs pool).1
  | pool_new {w : World} (count capacity userdata_capacity : Nat) (cbs : Option vbuf_cbs) :
      data_reach w → data_reach (vbuf_pool_new w count capacity userdata_capacity cbs).1
  | pool_get {w : World} (pool : Nat) (t : Int) : data_reach w →
      data_reach (vbuf_pool_get w pool t).1
  | pool_abort {w : World} (pool : Nat) : data_reach w → data_reach (vbuf_pool_abort w pool).1
  | pool_destroy {w : World} (pool : Nat) : data_reach w →
      data_reach (vbuf_pool_destroy w pool).1
  | ref {w : World} (buf : Nat) : data_reach w → data_reach (vbuf_ref w buf).1
  | unref {w : World} (buf : Nat) : data_reach w → data_reach (vbuf_unref w buf).1
  | write_lock {w : World} (buf : Nat) : data_reach w → data_reach (vbuf_write_lock w buf).1
  | write_unlock {w : World} (buf : Nat) : data_reach w →
      data_reach (vbuf_write_unlock w buf).1
  | set_size {w : World} (buf n : Nat) : data_reach w → data_reach (vbuf_set_size w buf n).1
  | set_capacity {w : World} (buf n : Nat) : data_reach w →
      data_reach (vbuf_set_capacity w buf n).1
  | set_userdata_size {w : World} (buf n : Nat) : data_reach w →
      data_reach (vbuf_set_userdata_size w buf n).1
  | set_userdata_capacity {w : World} (buf n : Nat) : data_reach w →
      data_reach (vbuf_set_userdata_capacity w buf n).1
  | copy {w : World} (src dst : Nat) : data_reach w → data_reach (vbuf_copy w src dst).1
  | userdata_copy {w : World} (src dst : Nat) : data_reach w →
      data_reach (vbuf_userdata_copy w src dst).1
  | metadata_add {w : World} (buf key level len : Nat) : data_reach w →
      data_reach (vbuf_metadata_add w buf key level len).1
  | metadata_remove {w : World} (buf key : Nat) : data_reach w →
      data_reach (vbuf_metadata_remove w buf key).1
  | metadata_copy {w : World} (src dst max_level : Nat) : data_reach w →
      data_reach (vbuf_metadata_copy w src dst max_level).1
  | queue_new {w : World} (max_count : Nat) (drop : Int) : data_reach w →
      data_reach (vbuf_queue_new w max_count drop).1
  | queue_push {w : World} (queue buf : Nat) : data_reach w →
      data_reach (vbuf_queue_push w queue buf).1
  | queue_pop {w : World} (queue : Nat) (t : Int) : data_reach w →
      data_reach (vbuf_queue_pop w queue t).1
  | queue_peek {w : World} (queue index : Nat) (t : Int) : data_reach w →
      data_reach (vbuf_queue_peek w queue index t).1
  | queue_flush {w : World} (queue : Nat) : data_reach w →
      data_reach (vbuf_queue_flush w queue).1
  | queue_abort {w : World} (queue : Nat) : data_reach w →
      data_reach (vbuf_queue_abort w queue).1
  | queue_destroy {w : World} (queue : Nat) : data_reach w →
      data_reach (vbuf_queue_destroy w queue).1

/-- The buffer value `b'` has the metadata and the user data of `b`. -/
def payload_step (b b' : vbuf_buffer) : Prop :=
  b'.metas = b.metas ∧ b'.userdata_capacity = b.userdata_capacity ∧
  b'.userdata_size = b.userdata_size ∧ b'.userdata_ptr = b.userdata_ptr

/-- The buffer value `b'` has the payload and the metadata of `b`. -/
def userdata_step (b b' : vbuf_buffer) : Prop :=
  b'.capacity = b.capacity ∧ b'.size = b.size ∧ b'.ptr = b.ptr ∧ b'.metas = b.metas

/-- The first `n` bytes of a block; no bytes for `NULL`. -/
def first_bytes (p : Option (List Nat)) (n : Nat) : List Nat := (p.getD []).take n

/-! ## Copies: concrete objects for the examples -/

/-- The source of the examples of `vbuf_copy`: capacity 16, payload bytes 1 to 16 of
which `size` are used, a block of 2 bytes of user data of which `userdata_size` are
used, and one metadata record of key 7. -/
def copy_src_buf (size userdata_size : Nat) (locked : Bool) : vbuf_buffer :=
  { sample_buf 1 locked 0 with
    size := size, ptr := some [1, 2, 3, 4, 5, 6, 7, 8, 9, 10, 11, 12, 13, 14, 15, 16],
    metas := [⟨7, 1, [1, 2], 2⟩],
    userdata_capacity := 2, userdata_size := userdata_size, userdata_ptr := some [5, 6] }

/-- The destination of the examples of `vbuf_copy`: capacity 16 of which 4 bytes are
used, all bytes 0, a block of 4 bytes of user data of which 3 are used, no metadata. -/
def copy_dst_buf : vbuf_buffer :=
  { sample_buf 1 false 0 with
    size := 4, metas := [],
    userdata_capacity := 4, userdata_size := 3, userdata_ptr := some [9, 9, 9, 9] }

/-- A world with the source `copy_src_buf size userdata_size locked` at address 1 and
the destination `copy_dst_buf` at address 2. -/
def copy_world (size userdata_size : Nat) (locked : Bool) : World :=
  { empty_world with
    bufs := fun i =>
      if i = 1 then some (copy_src_buf size userdata_size locked)
      else if i = 2 then some copy_dst_buf
      else none,
    next := 2 }

/-- The world after `vbuf_new(16, 4, plain_cbs, NULL)` in the empty world, followed on
the new buffer, at address 1, by `vbuf_metadata_add` of key 7, `vbuf_metadata_add` of
key 7 once more (which fails) and `vbuf_metadata_add` of key 8. -/
def tagged_world : World :=
  (vbuf_metadata_add
    (vbuf_metadata_add
      (vbuf_metadata_add (vbuf_new empty_world 16 4 (some plain_cbs) 0).1 1 7 1 2).1
      1 7 2 3).1
    1 8 3 1).1

/-- The buffer of `tagged_world`. -/
def tagged_buf : vbuf_buffer :=
  { type := 0, ref_count := 1, write_locked := false, pool := 0, cbs := plain_cbs,
    specific := 0, capacity := 16, size := 0, ptr := none,
    metas := [⟨7, 1, [0, 0], 2⟩, ⟨8, 3, [0], 1⟩],
    userdata_capacity := 4, userdata_size := 0, userdata_ptr := some [0, 0, 0, 0] }

/-- The world after `vbuf_new(16, 4, plain_cbs, NULL)` in the empty world, followed on
the new buffer, at address 1, by `vbuf_set_size(8)`, `vbuf_set_size(17)` (which fails),
`vbuf_set_userdata_capacity(6)` and `vbuf_set_userdata_size(5)`. -/
def sized_world : World :=
  (vbuf_set_userdata_size
    (vbuf_set_userdata_capacity
      (vbuf_set_size
        (vbuf_set_size (vbuf_new empty_world 16 4 (some plain_cbs) 0).1 1 8).1
        1 17).1
      1 6).1
    1 5).1

/-- The buffer of `sized_world`. -/
def sized_buf : vbuf_buffer :=
  { type := 0, ref_count := 1, write_locked := false, pool := 0, cbs := plain_cbs,
    specific := 0, capacity := 16, size := 8, ptr := none, metas := [],
    userdata_capacity := 6, userdata_size := 5, userdata_ptr := some [0, 0, 0, 0, 0, 0] }

/-- The world after `vbuf_new(16, 4, plain_cbs, NULL)` in a world whose seventh system
call fails, followed on the new buffer, at address 1, by `vbuf_metadata_add` of key 7,
`vbuf_metadata_add` of key 8 (whose first `calloc` is that seventh call and fails) and
`vbuf_metadata_add` of key 9. -/
def scarce_tagged_world : World :=
  (vbuf_metadata_add
    (vbuf_metadata_add
      (vbuf_metadata_add
        (vbuf_new (start_world (fun t => if t = 6 then 12 else 0) (fun _ _ => 0)) 16 4
          (some plain_cbs) 0).1 1 7 1 2).1
      1 8 2 3).1
    1 9 3 1).1

/-- The buffer of `scarce_tagged_world`. -/
def scarce_tagged_buf : vbuf_buffer :=
  { type := 0, ref_count := 1, write_locked := false, pool := 0, cbs := plain_cbs,
    specific := 0, capacity := 16, size := 0, ptr := none,
    metas := [⟨7, 1, [0, 0], 2⟩, ⟨9, 3, [0], 1⟩],
    userdata_capacity := 4, userdata_size := 0, userdata_ptr := some [0, 0, 0, 0] }

/-- The world after `vbuf_new(16, 4, plain_cbs, NULL)` in a world whose fifth system call
fails, followed on the new buffer, at address 1, by `vbuf_set_size(8)`,
`vbuf_set_userdata_size(3)`, `vbuf_set_userdata_capacity(6)` (whose `realloc` is that
fifth call and fails) and `vbuf_set_userdata_size(5)` (which is refused). -/
def scarce_sized_world : World :=
  (vbuf_set_userdata_size
    (vbuf_set_userdata_capacity
      (vbuf_set_userdata_size
        (vbuf_set_size
          (vbuf_new (start_world (fun t => if t = 4 then 12 else 0) (fun _ _ => 0)) 16 4
            (some plain_cbs) 0).1 1 8).1
        1 3).1
      1 6).1
    1 5).1

/-- The buffer of `scarce_sized_world`. -/
def scarce_sized_buf : vbuf_buffer :=
  { type := 0, ref_count := 1, write_locked := false, pool := 0, cbs := plain_cbs,
    specific := 0, capacity := 16, size := 8, ptr := none, metas := [],
    userdata_capacity := 4, userdata_size := 3, userdata_ptr := some [0, 0, 0, 0] }

/-! ## Construction errors: concrete objects for the examples -/

/-- The empty world in which every system call fails with the answer 12. -/
def no_memory_world : World := { empty_world with env := fun _ => 12 }

/-- The empty world in which the fourth interaction fails: in `vbuf_new` with a user-data
capacity that is the `calloc` of the user data (after the `calloc` of the object,
`pthread_mutex_init` and the `alloc` callback). -/
def userdata_fail_world : World := { empty_world with env := fun t => if t = 3 then 12 else 0 }

/-! ## The last unref of a pool buffer with failing callbacks -/

/-- The callbacks of `plain_cbs` with a failing `pool_put` callback. -/
def failing_put_cbs : vbuf_cbs := { plain_cbs with pool_put := some failing_cb }

/-- A world with a pool of one buffer at address 1; its buffer 2 is held by a client (one
reference, write-locked, 8 bytes used, one metadata record) and has the callbacks `c`;
the free list is empty. -/
def held_pool_world (c : vbuf_cbs) : World :=
  { empty_world with
    bufs := fun i => if i = 2 then some { sample_buf 1 true 1 with cbs := c } else none,
    pools := fun i => if i = 1 then some ⟨1, 0, []⟩ else none,
    next := 2 }

/-! ## Queues whose buffers have callbacks that do not report success -/

/-- The world `queue_world [] 0 0` (empty queue at address 5) with an empty pool at
address 6. -/
def idle_world : World :=
  { queue_world [] 0 0 with pools := fun i => if i = 6 then some ⟨1, 0, []⟩ else none,
                            next := 6 }

/-! ## Metadata copies that meet a key of the destination -/

/-- No record of the buffer `d` has the key of `m`. -/
def key_free (d : vbuf_buffer) (m : vbuf_meta) : Bool := d.metas.all (fun x => x.key != m.key)

/-- The records of the list that come before the first one whose key is present in `d`
(all of them when there is none). -/
def before_clash (d : vbuf_buffer) (ms : List vbuf_meta) : List vbuf_meta :=
  ms.takeWhile (key_free d)

/-- The world `levels_world` (buffer 1 holds records of keys 7, 8, 9 and levels 1, 3, 5)
in which buffer 2 holds one record, of key 8. -/
def clash_world : World :=
  { levels_world with
    bufs := fun i =>
      if i = 2 then some { sample_buf 1 false 0 with metas := [⟨8, 2, [0], 1⟩] }
      else levels_world.bufs i }

/-- The world `clash_world` in which every system call fails. -/
def clash_fail_world : World := { clash_world with env := fun _ => 12 }

/-! ## A pool buffer in use -/

/-- A world with one pool, at address 1, of two buffers.  The buffer at address 3 is in
the free list.  The buffer at address 2 is held by a caller: it is locked, holds 8 bytes
of payload, one metadata record and 2 bytes of user data in a block of 4. -/
def used_pool_world : World :=
  { empty_world with
    bufs := fun i =>
      if i = 2 then
        some { sample_buf 1 true 1 with
          userdata_capacity := 4, userdata_size := 2, userdata_ptr := some [5, 6, 0, 0] }
      else if i = 3 then some { sample_buf 0 false 1 with size := 0, metas := [] }
      else none,
    pools := fun i => if i = 1 then some ⟨2, 1, [3]⟩ else none,
    next := 3 }

/-! ## Basic facts about the world -/

@[simp] theorem set_buf_bufs (w : World) (id : Nat) (b : vbuf_buffer) (i : Nat) :
    (w.set_buf id b).bufs i = if i = id then some b else w.bufs i := rfl

@[simp] theorem set_buf_pools (w : World) (id : Nat) (b : vbuf_buffer) :
    (w.set_buf id b).pools = w.pools := rfl

@[simp] theorem set_buf_queues (w : World) (id : Nat) (b : vbuf_buffer) :
    (w.set_buf id b).queues = w.queues := rfl

@[simp] theorem set_buf_next (w : World) (id : Nat) (b : vbuf_buffer) :
    (w.set_buf id b).next = w.next := rfl

@[simp] theorem set_buf_trace (w : World) (id : Nat) (b : vbuf_buffer) :
    (w.set_buf id b).trace = w.trace := rfl

@[simp] theorem set_buf_env (w : World) (id : Nat) (b : vbuf_buffer) :
    (w.set_buf id b).env = w.env := rfl

@[simp] theorem del_buf_bufs (w : World) (id : Nat) (i : Nat) :
    (w.del_buf id).bufs i = if i = id then none else w.bufs i := rfl

@[simp] theorem del_buf_pools (w : World) (id : Nat) : (w.del_buf id).pools = w.pools := rfl

@[simp] theorem del_buf_queues (w : World) (id : Nat) : (w.del_buf id).queues = w.queues := rfl

@[simp] theorem del_buf_next (w : World) (id : Nat) : (w.del_buf id).next = w.next := rfl

@[simp] theorem del_buf_trace (w : World) (id : Nat) : (w.del_buf id).trace = w.trace := rfl

@[simp] theorem del_buf_env (w : World) (id : Nat) : (w.del_buf id).env = w.env := rfl

@[simp] theorem set_pool_bufs (w : World) (id : Nat) (p : vbuf_pool) :
    (w.set_pool id p).bufs = w.bufs := rfl

@[simp] theorem set_pool_pools (w : World) (id : Nat) (p : vbuf_pool) (i : Nat) :
    (w.set_pool id p).pools i = if i = id then some p else w.pools i := rfl

@[simp] theorem set_pool_queues (w : World) (id : Nat) (p : vbuf_pool) :
    (w.set_pool id p).queues = w.queues := rfl

@[simp] theorem set_pool_next (w : World) (id : Nat) (p : vbuf_pool) :
    (w.set_pool id p).next = w.next := rfl

@[simp] theorem set_pool_trace (w : World) (id : Nat) (p : vbuf_pool) :
    (w.set_pool id p).trace = w.trace := rfl

@[simp] theorem set_pool_env (w : World) (id : Nat) (p : vbuf_pool) :
    (w.set_pool id p).env = w.env := rfl

@[simp] theorem set_queue_bufs (w : World) (id : Nat) (q : vbuf_queue) :
    (w.set_queue id q).bufs = w.bufs := rfl

@[simp] theorem set_queue_pools (w : World) (id : Nat) (q : vbuf_queue) :
    (w.set_queue id q).pools = w.pools := rfl

@[simp] theorem set_queue_queues (w : World) (id : Nat) (q : vbuf_queue) (i : Nat) :
    (w.set_queue id q).queues i = if i = id then some q else w.queues i := rfl

@[simp] theorem set_queue_next (w : World) (id : Nat) (q : vbuf_queue) :
    (w.set_queue id q).next = w.next := rfl

@[simp] theorem set_queue_trace (w : World) (id : Nat) (q : vbuf_queue) :
    (w.set_queue id q).trace = w.trace := rfl

@[simp] theorem set_queue_env (w : World) (id : Nat) (q : vbuf_queue) :
    (w.set_queue id q).env = w.env := rfl

@[simp] theorem log_bufs (w : World) (c : ext_call) : (w.log c).bufs = w.bufs := rfl

@[simp] theorem log_pools (w : World) (c : ext_call) : (w.log c).pools = w.pools := rfl

@[simp] theorem log_queues (w : World) (c : ext_call) : (w.log c).queues = w.queues := rfl

@[simp] theorem log_next (w : World) (c : ext_call) : (w.log c).next = w.next := rfl

@[simp] theorem log_trace (w : World) (c : ext_call) : (w.log c).trace = w.trace ++ [c] := rfl

@[simp] theorem log_env (w : World) (c : ext_call) : (w.log c).env = w.env := rfl

@[simp] theorem sys_call_fst (w : World) (k : sys_kind) :
    (sys_call w k).1 = w.log (ext_call.sys k) := rfl

@[simp] theorem sys_call_snd (w : World) (k : sys_kind) :
    (sys_call w k).2 = w.env w.trace.length := rfl

/-- Two worlds with the same components are equal. -/
theorem World.ext_fields {v w : World} (hb : ∀ i, v.bufs i = w.bufs i)
    (hp : ∀ i, v.pools i = w.pools i) (hq : ∀ i, v.queues i = w.queues i)
    (hn : v.next = w.next) (ht : v.trace = w.trace) (he : v.env = w.env)
    (hj : v.junk = w.junk) : v = w := by
  cases v; cases w
  simp only [World.mk.injEq]
  exact ⟨funext hb, funext hp, funext hq, hn, ht, he, hj⟩

/-- Writing back the value already stored changes nothing. -/
theorem set_buf_self (w : World) (id : Nat) (b : vbuf_buffer) (h : w.bufs id = some b) :
    w.set_buf id b = w := by
  apply World.ext_fields <;> first | rfl | (intro i; rfl) | skip
  intro i
  rw [set_buf_bufs]
  split
  · next hi => rw [hi, h]
  · rfl

/-- The later of two writes to the same address wins. -/
@[simp] theorem set_buf_set_buf (w : World) (id : Nat) (b c : vbuf_buffer) :
    (w.set_buf id b).set_buf id c = w.set_buf id c := by
  apply World.ext_fields <;> first | rfl | (intro i; rfl) | skip
  intro i
  simp only [set_buf_bufs]
  split <;> rfl

/-! ## Arithmetic of `unsigned int` -/

theorem to_int_eq_zero (n : Nat) (h : n < 4294967296) : to_int n = 0 ↔ n = 0 := by
  unfold to_int
  rw [Nat.mod_eq_of_lt h]
  split <;> omega

theorem to_int_eq_one (n : Nat) (h : n < 4294967296) : to_int n = 1 ↔ n = 1 := by
  unfold to_int
  rw [Nat.mod_eq_of_lt h]
  split <;> omega

theorem uint_inc_eq (n : Nat) (h : n < 4294967295) : uint_inc n = n + 1 := by
  unfold uint_inc
  omega

theorem uint_dec_eq (n : Nat) (h0 : 0 < n) (h : n < 4294967296) : uint_dec n = n - 1 := by
  unfold uint_dec
  omega

theorem uint_dec_inc (n : Nat) (h : n < 4294967295) : uint_dec (uint_inc n) = n := by
  unfold uint_dec uint_inc
  omega

/-- The test `!vbuf_is_ref(buf)` of `vbuf_unref` holds exactly for a zero count. -/
theorem vbuf_is_ref_eq_zero (w : World) (buf : Nat) (b : vbuf_buffer) (hbuf : buf ≠ 0)
    (hb : w.bufs buf = some b) (hr : b.ref_count < 4294967296) :
    (vbuf_is_ref w buf).2 = 0 ↔ b.ref_count = 0 := by
  have h0 := to_int_eq_zero b.ref_count hr
  simp only [vbuf_is_ref, vbuf_get_ref_count, hbuf, if_false, hb]
  split
  · next hneg => simp only; constructor
                 · intro h; omega
                 · intro h; rw [h0.mpr h] at hneg; omega
  · next hneg =>
    simp only
    split
    · next hpos => constructor
                   · intro h; omega
                   · intro h; rw [h0.mpr h] at hpos; omega
    · next hpos => constructor
                   · intro _; exact h0.mp (by omega)
                   · intro _; rfl

/-! ## Backend callbacks -/

theorem backend_only_refl (b : vbuf_buffer) : backend_only b b := rfl

theorem backend_only_trans {a b c : vbuf_buffer} (h1 : backend_only a b)
    (h2 : backend_only b c) : backend_only a c := by
  unfold backend_only at *
  rw [h2, h1]

/-- A callback leaves every field but `type`, `specific` and `ptr` alone. -/
theorem backend_only_fields {b b' : vbuf_buffer} (h : backend_only b b') :
    b'.ref_count = b.ref_count ∧ b'.write_locked = b.write_locked ∧ b'.pool = b.pool ∧
    b'.cbs = b.cbs ∧ b'.capacity = b.capacity ∧ b'.size = b.size ∧ b'.metas = b.metas ∧
    b'.userdata_capacity = b.userdata_capacity ∧ b'.userdata_size = b.userdata_size ∧
    b'.userdata_ptr = b.userdata_ptr := by
  unfold backend_only at h
  refine ⟨?_, ?_, ?_, ?_, ?_, ?_, ?_, ?_, ?_, ?_⟩ <;> rw [h]

/-- Effect of an optional callback on a buffer stored in the world. -/
theorem run_opt_cb_spec (w : World) (k : cb_kind) (cb : Option vbuf_cb) (id : Nat)
    (b : vbuf_buffer) (t : Int) (hb : w.bufs id = some b) :
    backend_only b (run_opt_cb w k cb id b t).2.1 ∧
    (∀ i, (run_opt_cb w k cb id b t).1.bufs i =
        if i = id then some (run_opt_cb w k cb id b t).2.1 else w.bufs i) ∧
    (run_opt_cb w k cb id b t).1.pools = w.pools ∧
    (run_opt_cb w k cb id b t).1.queues = w.queues ∧
    (run_opt_cb w k cb id b t).1.next = w.next ∧
    (run_opt_cb w k cb id b t).1.env = w.env ∧
    (cb = none → (run_opt_cb w k cb id b t).1 = w) ∧
    (cb_ok cb → 0 ≤ (run_opt_cb w k cb id b t).2.2) := by
  cases cb with
  | none =>
    refine ⟨rfl, ?_, rfl, rfl, rfl, rfl, fun _ => rfl, fun _ => le_refl _⟩
    intro i
    simp only [run_opt_cb]
    split
    · next h => rw [h, hb]
    · rfl
  | some f =>
    refine ⟨rfl, fun i => rfl, rfl, rfl, rfl, rfl, fun h => Option.noConfusion h, fun h => ?_⟩
    exact h f rfl _

/-- Effect of a callback that is present. -/
theorem run_cb_spec (w : World) (k : cb_kind) (f : vbuf_cb) (id : Nat)
    (b : vbuf_buffer) (t : Int) :
    backend_only b (run_cb w k f id b t).2.1 ∧
    (∀ i, (run_cb w k f id b t).1.bufs i =
        if i = id then some (run_cb w k f id b t).2.1 else w.bufs i) ∧
    (run_cb w k f id b t).1.pools = w.pools ∧
    (run_cb w k f id b t).1.queues = w.queues ∧
    (run_cb w k f id b t).1.next = w.next ∧
    (run_cb w k f id b t).1.env = w.env ∧
    (cb_ok (some f) → 0 ≤ (run_cb w k f id b t).2.2) :=
  ⟨rfl, fun _ => rfl, rfl, rfl, rfl, rfl, fun h => h f rfl _⟩

/-! The optional `pthread_cond_signal` after an insertion only adds to the trace. -/

@[simp] theorem ite_log_bufs (c : Prop) [Decidable c] (v : World) (x : ext_call) :
    (if c then v.log x else v).bufs = v.bufs := by split <;> rfl

@[simp] theorem ite_log_pools (c : Prop) [Decidable c] (v : World) (x : ext_call) :
    (if c then v.log x else v).pools = v.pools := by split <;> rfl

@[simp] theorem ite_log_queues (c : Prop) [Decidable c] (v : World) (x : ext_call) :
    (if c then v.log x else v).queues = v.queues := by split <;> rfl

@[simp] theorem ite_log_next (c : Prop) [Decidable c] (v : World) (x : ext_call) :
    (if c then v.log x else v).next = v.next := by split <;> rfl

@[simp] theorem ite_log_env (c : Prop) [Decidable c] (v : World) (x : ext_call) :
    (if c then v.log x else v).env = v.env := by split <;> rfl


/-! ## The last `vbuf_unref` of a pool buffer -/

/-- A callback that always reports success never takes the error branch. -/
theorem cb_ok_not_neg {cb : Option vbuf_cb} {f : vbuf_cb} (h : cb_ok cb) (hf : cb = some f)
    (a : cb_arg) : ¬ (f a).res < 0 := not_lt.mpr (h f hf a)

/-- The last reference of a pool buffer is released and its callbacks report success:
`vbuf_unref` returns 0, the buffer is reset and appended to the free list of its pool,
and nothing else in the world moves (but the trace). -/
theorem unref_last_pool (w : World) (buf : Nat) (b : vbuf_buffer) (pl : vbuf_pool)
    (hbuf : buf ≠ 0) (hb : w.bufs buf = some b) (hrc : b.ref_count = 1)
    (hp0 : b.pool ≠ 0) (hpl : w.pools b.pool = some pl)
    (hu : cb_ok b.cbs.unref) (hpp : cb_ok b.cbs.pool_put) :
    (vbuf_unref w buf).2 = 0 ∧
    (∃ b', (vbuf_unref w buf).1.bufs buf = some b' ∧
      backend_only { b with ref_count := 0, write_locked := false, size := 0, metas := [] } b') ∧
    (∀ i, i ≠ buf → (vbuf_unref w buf).1.bufs i = w.bufs i) ∧
    (vbuf_unref w buf).1.pools b.pool =
      some { pl with buffers := pl.buffers ++ [buf], free := uint_inc pl.free } ∧
    (∀ i, i ≠ b.pool → (vbuf_unref w buf).1.pools i = w.pools i) ∧
    (vbuf_unref w buf).1.queues = w.queues ∧ (vbuf_unref w buf).1.next = w.next ∧
    (vbuf_unref w buf).1.env = w.env := by
  have hne : ¬ (vbuf_is_ref w buf).2 = 0 := by
    rw [vbuf_is_ref_eq_zero w buf b hbuf hb (by omega)]; omega
  have hd : uint_dec b.ref_count = 0 := by rw [hrc]; decide
  have hz : to_int 0 = 0 := by decide
  cases h1 : b.cbs.unref with
  | none =>
    cases h2 : b.cbs.pool_put with
    | none =>
      simp only [vbuf_unref, vbuf_pool_put, run_opt_cb, hbuf, hne, hb, hd, hz, h1, h2, hp0,
        hpl, set_buf_bufs, set_buf_pools, if_true, if_false, lt_self_iff_false, ne_eq,
        not_false_eq_true]
      refine ⟨trivial, ?_, ?_, ?_, ?_, ?_, ?_, ?_⟩
      · simp [backend_only]
      · intro i hi; simp [hi]
      · simp
      · intro i hi; simp [hi]
      · simp
      · simp
      · simp
    | some g =>
      have hg := cb_ok_not_neg hpp h2
      simp only [vbuf_unref, vbuf_pool_put, run_opt_cb, run_cb, hbuf, hne, hb, hd, hz, h1, h2,
        hp0, hpl, hg, set_buf_bufs, set_buf_pools, log_bufs, log_pools, if_true, if_false,
        lt_self_iff_false, ne_eq, not_false_eq_true]
      refine ⟨trivial, ?_, ?_, ?_, ?_, ?_, ?_, ?_⟩
      · simp [backend_only]
      · intro i hi; simp [hi]
      · simp
      · intro i hi; simp [hi]
      · simp
      · simp
      · simp
  | some f =>
    have hf := cb_ok_not_neg hu h1
    cases h2 : b.cbs.pool_put with
    | none =>
      simp only [vbuf_unref, vbuf_pool_put, run_opt_cb, run_cb, hbuf, hne, hb, hd, hz, h1, h2,
        hp0, hpl, hf, set_buf_bufs, set_buf_pools, log_bufs, log_pools, if_true, if_false,
        lt_self_iff_false, ne_eq, not_false_eq_true]
      refine ⟨trivial, ?_, ?_, ?_, ?_, ?_, ?_, ?_⟩
      · simp [backend_only]
      · intro i hi; simp [hi]
      · simp
      · intro i hi; simp [hi]
      · simp
      · simp
      · simp
    | some g =>
      have hg := cb_ok_not_neg hpp h2
      simp only [vbuf_unref, vbuf_pool_put, run_opt_cb, run_cb, hbuf, hne, hb, hd, hz, h1, h2,
        hp0, hpl, hf, hg, set_buf_bufs, set_buf_pools, log_bufs, log_pools, if_true, if_false,
        lt_self_iff_false, ne_eq, not_false_eq_true]
      refine ⟨trivial, ?_, ?_, ?_, ?_, ?_, ?_, ?_⟩
      · simp [backend_only]
      · intro i hi; simp [hi]
      · simp
      · intro i hi; simp [hi]
      · simp
      · simp
      · simp

/-! ## `vbuf_pool_get` on a pool with a free buffer -/

/-- With a free buffer and a `pool_get` callback that is absent or reports success,
`vbuf_pool_get` outputs the head of the free list with one more reference, unlinks it,
and moves nothing else in the world (but the trace). -/
theorem pool_get_ok (w : World) (pool : Nat) (t : Int) (pl : vbuf_pool) (id : Nat)
    (rest : List Nat) (b : vbuf_buffer) (hp0 : pool ≠ 0) (hpl : w.pools pool = some pl)
    (hfree : pl.free ≠ 0) (hl : pl.buffers = id :: rest) (hid : id ≠ 0)
    (hb : w.bufs id = some b) (hg : cb_ok b.cbs.pool_get) :
    0 ≤ (vbuf_pool_get w pool t).2.1 ∧
    (b.cbs.pool_get = none → (vbuf_pool_get w pool t).2.1 = 0) ∧
    (vbuf_pool_get w pool t).2.2 = some id ∧
    (∃ b', (vbuf_pool_get w pool t).1.bufs id = some b' ∧
      backend_only { b with ref_count := uint_inc b.ref_count } b') ∧
    (∀ i, i ≠ id → (vbuf_pool_get w pool t).1.bufs i = w.bufs i) ∧
    (vbuf_pool_get w pool t).1.pools pool =
      some { pl with buffers := rest, free := uint_dec pl.free } ∧
    (∀ i, i ≠ pool → (vbuf_pool_get w pool t).1.pools i = w.pools i) ∧
    (vbuf_pool_get w pool t).1.queues = w.queues ∧ (vbuf_pool_get w pool t).1.next = w.next ∧
    (vbuf_pool_get w pool t).1.env = w.env := by
  cases h1 : b.cbs.pool_get with
  | none =>
    simp only [vbuf_pool_get, vbuf_pool_get_take, vbuf_ref, hp0, hpl, hfree, hl, hid, hb, h1,
      if_false, set_pool_bufs, set_buf_bufs, if_true]
    refine ⟨le_refl _, fun _ => trivial, trivial, ?_, ?_, ?_, ?_, ?_, ?_, ?_⟩
    · simp [backend_only]
    · intro i hi; simp [hi]
    · simp
    · intro i hi; simp [hi]
    · simp
    · simp
    · simp
  | some f =>
    have hf := cb_ok_not_neg hg h1
    simp only [vbuf_pool_get, vbuf_pool_get_take, vbuf_ref, run_cb, hp0, hpl, hfree, hl, hid,
      hb, h1, hf, if_false, set_pool_bufs, set_buf_bufs, if_true]
    refine ⟨hg f h1 _, fun h => Option.noConfusion h, trivial, ?_, ?_, ?_, ?_, ?_, ?_, ?_⟩
    · simp [backend_only]
    · intro i hi; simp [hi]
    · simp
    · intro i hi; simp [hi]
    · simp
    · simp
    · simp

/-! ## First-in first-out service of a pool -/

/-- Releasing, one after the other, the last references of distinct buffers of a pool
appends them to the free list in that order; every buffer of the world stays live with
its callback table. -/
theorem unref_all_spec (pool : Nat) (hp0 : pool ≠ 0) (bs : List Nat) :
    ∀ (w : World) (pl : vbuf_pool), w.pools pool = some pl → bs.Nodup →
    (∀ id ∈ bs, id ≠ 0 ∧ ∃ b, w.bufs id = some b ∧ b.ref_count = 1 ∧ b.pool = pool ∧
      cb_ok b.cbs.unref ∧ cb_ok b.cbs.pool_put) →
    pl.free + bs.length < 4294967296 →
    (unref_all w bs).pools pool =
      some { pl with buffers := pl.buffers ++ bs, free := pl.free + bs.length } ∧
    (∀ i b, w.bufs i = some b → ∃ b', (unref_all w bs).bufs i = some b' ∧ b'.cbs = b.cbs) := by
  induction bs with
  | nil =>
    intro w pl hpl _ _ _
    refine ⟨?_, fun i b hb => ⟨b, hb, rfl⟩⟩
    simp [unref_all, hpl]
  | cons x xs ih =>
    intro w pl hpl hnd hbs hrange
    obtain ⟨hx0, b, hb, hrc, hbp, hu, hpp⟩ := hbs x (List.mem_cons_self _ _)
    have hnd' := List.nodup_cons.mp hnd
    have hbp0 : b.pool ≠ 0 := by rw [hbp]; exact hp0
    obtain ⟨-, ⟨b', hb', hbo⟩, hother, hpool, -⟩ :=
      unref_last_pool w x b pl hx0 hb hrc hbp0 (by rw [hbp]; exact hpl) hu hpp
    rw [hbp] at hpool
    simp only [List.length_cons] at hrange
    have hxs : ∀ id ∈ xs, id ≠ 0 ∧ ∃ c, (vbuf_unref w x).1.bufs id = some c ∧ c.ref_count = 1 ∧
        c.pool = pool ∧ cb_ok c.cbs.unref ∧ cb_ok c.cbs.pool_put := by
      intro id hid
      obtain ⟨h0, c, hc, hrest⟩ := hbs id (List.mem_cons_of_mem _ hid)
      have hne : id ≠ x := fun h => hnd'.1 (h ▸ hid)
      exact ⟨h0, c, by rw [hother id hne]; exact hc, hrest⟩
    obtain ⟨ih1, ih2⟩ := ih (vbuf_unref w x).1 _ hpool hnd'.2 hxs
      (by simp only; rw [uint_inc_eq _ (by omega)]; omega)
    constructor
    · simp only [unref_all]
      rw [ih1]
      simp only [List.append_assoc, List.singleton_append, List.length_cons]
      rw [uint_inc_eq _ (by omega)]
      congr 2
      omega
    · intro i c hc
      simp only [unref_all]
      by_cases hi : i = x
      · subst hi
        rw [hb] at hc
        cases hc
        obtain ⟨c', hc', hcbs⟩ := ih2 i b' hb'
        exact ⟨c', hc', by rw [hcbs, (backend_only_fields hbo).2.2.2.1]⟩
      · exact ih2 i c (by rw [hother i hi]; exact hc)

/-- As many `vbuf_pool_get` calls as the free list has elements output these elements
from the head on, each call succeeding. -/
theorem pool_get_n_spec (pool : Nat) (hp0 : pool ≠ 0) (l : List Nat) :
    ∀ (w : World) (pl : vbuf_pool) (ts : List Int), w.pools pool = some pl →
    pl.buffers = l → pl.free = l.length → pl.free < 4294967296 →
    (∀ id ∈ l, id ≠ 0 ∧ ∃ b, w.bufs id = some b ∧ cb_ok b.cbs.pool_get) →
    ts.length = l.length →
    (pool_get_n w pool ts).2.map Prod.snd = l.map some ∧
    ∀ r ∈ (pool_get_n w pool ts).2, 0 ≤ r.1 := by
  induction l with
  | nil =>
    intro w pl ts _ _ _ _ _ hts
    have : ts = [] := List.length_eq_zero.mp hts
    subst this
    simp [pool_get_n]
  | cons x xs ih =>
    intro w pl ts hpl hl hfree hrange hall hts
    cases ts with
    | nil => simp at hts
    | cons t ts =>
      obtain ⟨hx0, b, hb, hg⟩ := hall x (List.mem_cons_self _ _)
      have hf0 : pl.free ≠ 0 := by rw [hfree]; simp
      obtain ⟨h1, -, h3, ⟨b', hb', hbo⟩, hother, hpool, -⟩ :=
        pool_get_ok w pool t pl x xs b hp0 hpl hf0 hl hx0 hb hg
      have hxs : ∀ id ∈ xs, id ≠ 0 ∧
          ∃ c, (vbuf_pool_get w pool t).1.bufs id = some c ∧ cb_ok c.cbs.pool_get := by
        intro id hid
        obtain ⟨h0, c, hc, hcg⟩ := hall id (List.mem_cons_of_mem _ hid)
        by_cases hi : id = x
        · subst hi
          rw [hb] at hc
          cases hc
          exact ⟨h0, b', hb', by rw [(backend_only_fields hbo).2.2.2.1]; exact hcg⟩
        · exact ⟨h0, c, by rw [hother id hi]; exact hc, hcg⟩
      simp only [List.length_cons] at hfree hts
      obtain ⟨ih1, ih2⟩ := ih (vbuf_pool_get w pool t).1 _ ts hpool rfl
        (by simp only; rw [uint_dec_eq _ (by omega) hrange]; omega)
        (by simp only; rw [uint_dec_eq _ (by omega) hrange]; omega) hxs (by omega)
      constructor
      · simp only [pool_get_n, List.map_cons, ih1, h3]
      · intro r hr
        simp only [pool_get_n, List.mem_cons] at hr
        rcases hr with hr | hr
        · rw [hr]; exact h1
        · exact ih2 r hr


/-! ## Preservation of `bufs_ok` by the buffer operations -/

theorem shrinks_trans {a b c : vbuf_buffer} (h1 : shrinks a b) (h2 : shrinks b c) :
    shrinks a c :=
  ⟨h2.1.trans h1.1, le_trans h2.2.1 h1.2.1, h2.2.2⟩

theorem le_refs_trans {u v w : World} (h1 : le_refs u v) (h2 : le_refs v w) : le_refs u w := by
  intro i c hc
  obtain ⟨b, hb, hbc⟩ := h2 i c hc
  obtain ⟨a, ha, hab⟩ := h1 i b hb
  exact ⟨a, ha, shrinks_trans hab hbc⟩

theorem shrinks_self {b : vbuf_buffer} (h : buf_ok b) : shrinks b b :=
  ⟨rfl, le_refl _, h.2.2⟩

/-- A world with the same buffers. -/
theorem le_refs_of_bufs_eq {w w' : World} (h : bufs_ok w) (he : w'.bufs = w.bufs) :
    le_refs w w' := by
  intro i b hb
  rw [he] at hb
  exact ⟨b, hb, shrinks_self (h i b hb)⟩

theorem le_refs_refl {w : World} (h : bufs_ok w) : le_refs w w := le_refs_of_bufs_eq h rfl

theorem bufs_ok_of_le_refs {w w' : World} (h : bufs_ok w) (hr : le_refs w w') : bufs_ok w' := by
  intro i b' hb'
  obtain ⟨b, hb, h1, h2, h3⟩ := hr i b' hb'
  obtain ⟨g1, g2, -⟩ := h i b hb
  exact ⟨by rw [h1]; exact g1, by omega, h3⟩

/-- Replacing the buffer at one address by a value that `shrinks` it. -/
theorem le_refs_set_buf {w : World} (h : bufs_ok w) (id : Nat) (b b1 : vbuf_buffer)
    (hb : w.bufs id = some b) (hs : shrinks b b1) : le_refs w (w.set_buf id b1) := by
  intro i c hc
  rw [set_buf_bufs] at hc
  split at hc
  · next hi => cases hc; exact ⟨b, by rw [hi]; exact hb, hs⟩
  · exact ⟨c, hc, shrinks_self (h i c hc)⟩

/-- Freeing a buffer. -/
theorem le_refs_del_buf {w : World} (h : bufs_ok w) (id : Nat) : le_refs w (w.del_buf id) := by
  intro i c hc
  rw [del_buf_bufs] at hc
  split at hc
  · cases hc
  · exact ⟨c, hc, shrinks_self (h i c hc)⟩

/-- A callback keeps the reference count, the lock flag and the callbacks. -/
theorem shrinks_of_backend_only {b b' : vbuf_buffer} (h : buf_ok b) (hbo : backend_only b b') :
    shrinks b b' := by
  obtain ⟨f1, f2, -, f4, -⟩ := backend_only_fields hbo
  exact ⟨f4, by omega, by rw [f1, f2]; exact h.2.2⟩

theorem le_refs_run_cb {w : World} (h : bufs_ok w) (k : cb_kind) (f : vbuf_cb) (id : Nat)
    (b : vbuf_buffer) (t : Int) (hb : w.bufs id = some b) :
    le_refs w (run_cb w k f id b t).1 ∧ (run_cb w k f id b t).1.bufs id =
      some (run_cb w k f id b t).2.1 ∧ shrinks b (run_cb w k f id b t).2.1 ∧
      backend_only b (run_cb w k f id b t).2.1 := by
  have hs : shrinks b (run_cb w k f id b t).2.1 := shrinks_of_backend_only (h id b hb) rfl
  refine ⟨?_, by simp [run_cb], hs, rfl⟩
  exact le_refs_trans (le_refs_set_buf h id b _ hb hs)
    (le_refs_of_bufs_eq (bufs_ok_of_le_refs h (le_refs_set_buf h id b _ hb hs)) rfl)

theorem le_refs_run_opt_cb {w : World} (h : bufs_ok w) (k : cb_kind) (cb : Option vbuf_cb)
    (id : Nat) (b : vbuf_buffer) (t : Int) (hb : w.bufs id = some b) :
    le_refs w (run_opt_cb w k cb id b t).1 ∧ (run_opt_cb w k cb id b t).1.bufs id =
      some (run_opt_cb w k cb id b t).2.1 ∧ shrinks b (run_opt_cb w k cb id b t).2.1 ∧
      backend_only b (run_opt_cb w k cb id b t).2.1 := by
  cases cb with
  | none => exact ⟨le_refs_refl h, hb, shrinks_self (h id b hb), rfl⟩
  | some f => exact le_refs_run_cb h k f id b t hb

/-- `vbuf_destroy` adds no reference. -/
theorem le_refs_destroy {w : World} (h : bufs_ok w) (buf : Nat) :
    le_refs w (vbuf_destroy w buf).1 := by
  unfold vbuf_destroy
  split
  · exact le_refs_refl h
  · split
    · exact le_refs_refl h
    · next b hb =>
      split
      · exact le_refs_refl h
      · next f hf =>
        obtain ⟨h1, -⟩ := le_refs_run_cb h cb_kind.free f buf b 0 hb
        exact le_refs_trans h1 (le_refs_del_buf (bufs_ok_of_le_refs h h1) buf)

/-- `vbuf_pool_put` adds no reference. -/
theorem le_refs_pool_put {w : World} (h : bufs_ok w) (pool buf : Nat) :
    le_refs w (vbuf_pool_put w pool buf).1 := by
  unfold vbuf_pool_put
  split
  · exact le_refs_refl h
  · split
    · exact le_refs_refl h
    · split
      · exact le_refs_refl h
      · next b hb =>
        split
        · exact le_refs_refl h
        · obtain ⟨h1, h2, h3, -⟩ :=
            le_refs_run_opt_cb h cb_kind.pool_put b.cbs.pool_put buf b 0 hb
          have hok1 := bufs_ok_of_le_refs h h1
          simp only
          split
          · exact h1
          · have h4 : le_refs (run_opt_cb w cb_kind.pool_put b.cbs.pool_put buf b 0).1
                ((run_opt_cb w cb_kind.pool_put b.cbs.pool_put buf b 0).1.set_buf buf
                  { (run_opt_cb w cb_kind.pool_put b.cbs.pool_put buf b 0).2.1 with
                    metas := [] }) :=
              le_refs_set_buf hok1 buf _ _ h2
                ⟨rfl, le_refl _, (shrinks_self (hok1 buf _ h2)).2.2⟩
            have h5 := le_refs_trans h1 h4
            split
            · exact h5
            · exact le_refs_trans h5 (le_refs_of_bufs_eq (bufs_ok_of_le_refs h h5) (by simp))

/-- A world that differs from `w` at one address, where the new value `shrinks` the
old one. -/
theorem le_refs_pointwise {w w' : World} (h : bufs_ok w) (id : Nat) (b b1 : vbuf_buffer)
    (hb : w.bufs id = some b) (hs : shrinks b b1)
    (hw : ∀ i, w'.bufs i = if i = id then some b1 else w.bufs i) : le_refs w w' := by
  intro i c hc
  rw [hw] at hc
  split at hc
  · next hi => cases hc; exact ⟨b, by rw [hi]; exact hb, hs⟩
  · exact ⟨c, hc, shrinks_self (h i c hc)⟩

/-- `vbuf_unref` adds no reference and leaves no locked buffer without one. -/
theorem le_refs_unref {w : World} (h : bufs_ok w) (buf : Nat) :
    le_refs w (vbuf_unref w buf).1 := by
  by_cases hbuf : buf = 0
  · simp only [vbuf_unref, hbuf, if_true]
    exact le_refs_refl h
  by_cases hisref : (vbuf_is_ref w buf).2 = 0
  · simp only [vbuf_unref, hbuf, hisref, if_true, if_false]
    exact le_refs_refl h
  cases hb : w.bufs buf with
  | none =>
    simp only [vbuf_unref, hbuf, hisref, hb, if_false]
    exact le_refs_refl h
  | some b =>
    obtain ⟨hcb, hrange, hlock⟩ := h buf b hb
    have hrc : b.ref_count ≠ 0 := fun h0 =>
      hisref ((vbuf_is_ref_eq_zero w buf b hbuf hb hrange).mpr h0)
    have hdec : uint_dec b.ref_count = b.ref_count - 1 := uint_dec_eq _ (by omega) hrange
    by_cases hz : to_int (uint_dec b.ref_count) = 0
    · obtain ⟨hbo, hbufs, -, -, -, -, -, hres⟩ :=
        run_opt_cb_spec (w.set_buf buf { b with ref_count := uint_dec b.ref_count })
          cb_kind.unref b.cbs.unref buf { b with ref_count := uint_dec b.ref_count } 0
          (by simp)
      have hres := hres hcb
      obtain ⟨f1, -, f3, f4, -⟩ := backend_only_fields hbo
      have hneg : ¬ (run_opt_cb (w.set_buf buf { b with ref_count := uint_dec b.ref_count })
          cb_kind.unref b.cbs.unref buf { b with ref_count := uint_dec b.ref_count } 0).2.2 < 0 :=
        by omega
      have hle : le_refs w
          ((run_opt_cb (w.set_buf buf { b with ref_count := uint_dec b.ref_count })
              cb_kind.unref b.cbs.unref buf
              { b with ref_count := uint_dec b.ref_count } 0).1.set_buf buf
            { (run_opt_cb (w.set_buf buf { b with ref_count := uint_dec b.ref_count })
                cb_kind.unref b.cbs.unref buf
                { b with ref_count := uint_dec b.ref_count } 0).2.1 with
              write_locked := false, size := 0 }) := by
        apply le_refs_pointwise h buf b
          { (run_opt_cb (w.set_buf buf { b with ref_count := uint_dec b.ref_count })
                cb_kind.unref b.cbs.unref buf
                { b with ref_count := uint_dec b.ref_count } 0).2.1 with
              write_locked := false, size := 0 } hb
        · refine ⟨f4, ?_, ?_⟩
          · simp only [f1]; omega
          · intro hl; simp at hl
        · intro i
          rw [set_buf_bufs]
          split
          · rfl
          · next hi => rw [hbufs i, if_neg hi, set_buf_bufs, if_neg hi]
      simp only [vbuf_unref, hbuf, hisref, hb, hz, hneg, if_false, if_true]
      split
      · exact le_refs_trans hle (le_refs_pool_put (bufs_ok_of_le_refs h hle) _ _)
      · exact le_refs_trans hle (le_refs_destroy (bufs_ok_of_le_refs h hle) _)
    · simp only [vbuf_unref, hbuf, hisref, hb, hz, if_false]
      apply le_refs_set_buf h buf b _ hb
      refine ⟨rfl, by simp only [hdec]; omega, ?_⟩
      intro _
      have : uint_dec b.ref_count ≠ 0 := fun h0 => hz (by rw [h0]; decide)
      simp only
      omega

/-- The part of `vbuf_queue_pop` after the wait adds no reference. -/
theorem le_refs_queue_pop_take {v : World} (hv : bufs_ok v) (queue : Nat) (t : Int) :
    le_refs v (vbuf_queue_pop_take v queue t).1 := by
  cases hq : v.queues queue with
  | none =>
    simp only [vbuf_queue_pop_take, hq]
    exact le_refs_refl hv
  | some q =>
    by_cases hc : q.count = 0
    · simp only [vbuf_queue_pop_take, hq, hc, if_true]
      exact le_refs_refl hv
    cases hl : q.buffers with
    | nil =>
      simp only [vbuf_queue_pop_take, hq, hc, hl, if_false]
      exact le_refs_refl hv
    | cons id rest =>
      have h1 : le_refs v (v.set_queue queue
          { q with buffers := rest, count := uint_dec q.count }) :=
        le_refs_of_bufs_eq hv rfl
      have hok1 := bufs_ok_of_le_refs hv h1
      cases hb : v.bufs id with
      | none =>
        simp only [vbuf_queue_pop_take, hq, hc, hl, if_false, set_queue_bufs, hb]
        exact h1
      | some b =>
        cases hf : b.cbs.queue_pop with
        | none =>
          simp only [vbuf_queue_pop_take, hq, hc, hl, if_false, set_queue_bufs, hb, hf]
          exact h1
        | some f =>
          simp only [vbuf_queue_pop_take, hq, hc, hl, if_false, set_queue_bufs, hb, hf]
          obtain ⟨h2, -⟩ := le_refs_run_cb hok1 cb_kind.queue_pop f id b t hb
          have h3 := le_refs_trans h1 h2
          split
          · exact le_refs_trans h3 (le_refs_unref (bufs_ok_of_le_refs hv h3) id)
          · exact h3

/-- `vbuf_queue_pop` adds no reference. -/
theorem le_refs_queue_pop {w : World} (h : bufs_ok w) (queue : Nat) (t : Int) :
    le_refs w (vbuf_queue_pop w queue t).1 := by
  by_cases hq0 : queue = 0
  · simp only [vbuf_queue_pop, hq0, if_true]
    exact le_refs_refl h
  cases hq : w.queues queue with
  | none =>
    simp only [vbuf_queue_pop, hq0, hq, if_false]
    exact le_refs_refl h
  | some q =>
    by_cases hc : q.count = 0
    · by_cases ht : t = 0
      · simp only [vbuf_queue_pop, hq0, hq, hc, ht, if_true, if_false]
        exact le_refs_refl h
      · have hlog : ∀ k, le_refs w (w.log (ext_call.sys k)) := fun k =>
          le_refs_of_bufs_eq h rfl
        simp only [vbuf_queue_pop, hq0, hq, hc, ht, if_true, if_false]
        split
        · split
          · exact hlog _
          · split
            · exact hlog _
            · exact le_refs_trans (hlog _)
                (le_refs_queue_pop_take (bufs_ok_of_le_refs h (hlog _)) queue t)
        · split
          · exact hlog _
          · split
            · exact hlog _
            · exact le_refs_trans (hlog _)
                (le_refs_queue_pop_take (bufs_ok_of_le_refs h (hlog _)) queue t)
    · simp only [vbuf_queue_pop, hq0, hq, hc, if_false]
      exact le_refs_queue_pop_take h queue t

theorem bufs_ok_of_bufs_eq {w w' : World} (h : bufs_ok w) (he : w'.bufs = w.bufs) :
    bufs_ok w' := by
  intro i b hb
  rw [he] at hb
  exact h i b hb

theorem bufs_ok_set_buf {w : World} (h : bufs_ok w) (id : Nat) (b : vbuf_buffer)
    (hb : buf_ok b) : bufs_ok (w.set_buf id b) := by
  intro i c hc
  rw [set_buf_bufs] at hc
  split at hc
  · cases hc; exact hb
  · exact h i c hc

theorem bufs_ok_del_buf {w : World} (h : bufs_ok w) (id : Nat) : bufs_ok (w.del_buf id) :=
  bufs_ok_of_le_refs h (le_refs_del_buf h id)

theorem buf_ok_of_backend_only {b b' : vbuf_buffer} (h : buf_ok b) (hbo : backend_only b b') :
    buf_ok b' := by
  obtain ⟨f1, f2, -, f4, -⟩ := backend_only_fields hbo
  exact ⟨by rw [f4]; exact h.1, by rw [f1]; exact h.2.1, by rw [f1, f2]; exact h.2.2⟩

/-- A callback run on a good buffer value leaves a good world. -/
theorem bufs_ok_run_cb {w : World} (h : bufs_ok w) (k : cb_kind) (f : vbuf_cb) (id : Nat)
    (b : vbuf_buffer) (t : Int) (hb : buf_ok b) :
    bufs_ok (run_cb w k f id b t).1 ∧ buf_ok (run_cb w k f id b t).2.1 := by
  have h2 : buf_ok (run_cb w k f id b t).2.1 :=
    buf_ok_of_backend_only hb (run_cb_spec w k f id b t).1
  exact ⟨bufs_ok_of_bufs_eq (bufs_ok_set_buf h id _ h2) rfl, h2⟩

/-- `vbuf_ref` on a buffer whose count is below `UINT_MAX`. -/
theorem bufs_ok_ref {w : World} (h : bufs_ok w) (buf : Nat)
    (hlt : ∀ b, w.bufs buf = some b → b.ref_count < 4294967295) :
    bufs_ok (vbuf_ref w buf).1 := by
  unfold vbuf_ref
  split
  · exact h
  · split
    · exact h
    · next b hb =>
      have hr := hlt b hb
      apply bufs_ok_set_buf h
      refine ⟨(h buf b hb).1, ?_, ?_⟩
      · simp only [uint_inc_eq _ hr]; omega
      · intro _; simp only [uint_inc_eq _ hr]; omega

theorem bufs_ok_write_lock {w : World} (h : bufs_ok w) (buf : Nat) :
    bufs_ok (vbuf_write_lock w buf).1 := by
  unfold vbuf_write_lock
  split
  · exact h
  · split
    · exact h
    · next b hb =>
      simp only
      split
      · exact h
      · next hne =>
        have h1 : to_int b.ref_count = 1 := by
          by_contra hc; exact hne hc
        have := (to_int_eq_one _ (h buf b hb).2.1).mp h1
        exact bufs_ok_set_buf h buf _ ⟨(h buf b hb).1, (h buf b hb).2.1, fun _ => by
          simp only; omega⟩

theorem bufs_ok_write_unlock {w : World} (h : bufs_ok w) (buf : Nat) :
    bufs_ok (vbuf_write_unlock w buf).1 := by
  unfold vbuf_write_unlock
  split
  · exact h
  · split
    · exact h
    · next b hb =>
      simp only
      split
      · exact h
      · exact bufs_ok_set_buf h buf _ ⟨(h buf b hb).1, (h buf b hb).2.1, fun hl => by
          cases hl⟩

theorem bufs_ok_set_size {w : World} (h : bufs_ok w) (buf n : Nat) :
    bufs_ok (vbuf_set_size w buf n).1 := by
  unfold vbuf_set_size
  split
  · exact h
  · split
    · exact h
    · next b hb =>
      split
      · exact h
      · split
        · exact h
        · exact bufs_ok_set_buf h buf _ (h buf b hb)

theorem bufs_ok_set_capacity {w : World} (h : bufs_ok w) (buf n : Nat) :
    bufs_ok (vbuf_set_capacity w buf n).1 := by
  unfold vbuf_set_capacity
  split
  · exact h
  · split
    · exact h
    · next b hb =>
      split
      · exact h
      · next f hf =>
        split
        · exact h
        · simp only
          split
          · have hb1 : buf_ok { b with capacity := n } := h buf b hb
            obtain ⟨h1, h2⟩ := bufs_ok_run_cb (bufs_ok_set_buf h buf _ hb1) cb_kind.realloc f
              buf { b with capacity := n } 0 hb1
            split
            · exact bufs_ok_set_buf h1 buf _ h2
            · exact h1
          · exact h

/-- Logging leaves the buffers alone. -/
theorem bufs_ok_log {w : World} (h : bufs_ok w) (c : ext_call) : bufs_ok (w.log c) :=
  bufs_ok_of_bufs_eq h rfl

/-- The tail of `vbuf_queue_push`, on a buffer whose count is below `UINT_MAX`. -/
theorem bufs_ok_queue_push_tail {w : World} (h : bufs_ok w) (queue buf : Nat)
    (hlt : ∀ b, w.bufs buf = some b → b.ref_count < 4294967295) :
    bufs_ok (vbuf_queue_push_tail w queue buf).1 := by
  cases hb : w.bufs buf with
  | none =>
    simp only [vbuf_queue_push_tail, hb]
    exact h
  | some b =>
    obtain ⟨h1, h2, -, hbo⟩ :=
      le_refs_run_opt_cb h cb_kind.queue_push b.cbs.queue_push buf b 0 hb
    have hok1 := bufs_ok_of_le_refs h h1
    have hok2 : bufs_ok (vbuf_ref ((run_opt_cb w cb_kind.queue_push b.cbs.queue_push buf
        b 0).1.log (ext_call.sys sys_kind.calloc)) buf).1 := by
      apply bufs_ok_ref (bufs_ok_log hok1 _)
      intro c hc
      rw [log_bufs, h2] at hc
      cases hc
      rw [(backend_only_fields hbo).1]
      exact hlt b hb
    simp only [vbuf_queue_push_tail, hb, sys_call_fst, sys_call_snd]
    split
    · exact hok1
    · split
      · exact bufs_ok_log hok1 _
      · split
        · exact hok2
        · exact bufs_ok_of_bufs_eq hok2 (by simp)

/-- `vbuf_queue_push` of a buffer whose count is below `UINT_MAX`. -/
theorem bufs_ok_queue_push {w : World} (h : bufs_ok w) (queue buf : Nat)
    (hlt : ∀ b, w.bufs buf = some b → b.ref_count < 4294967295) :
    bufs_ok (vbuf_queue_push w queue buf).1 := by
  by_cases hq0 : queue = 0
  · simp only [vbuf_queue_push, hq0, if_true]
    exact h
  by_cases hb0 : buf = 0
  · simp only [vbuf_queue_push, hq0, hb0, if_true, if_false]
    exact h
  cases hq : w.queues queue with
  | none =>
    simp only [vbuf_queue_push, hq0, hb0, hq, if_false]
    exact h
  | some q =>
    by_cases hfull : q.max_count > 0 ∧ q.count = q.max_count
    · by_cases hdrop : q.drop_when_full ≠ 0
      · have h1 := le_refs_queue_pop h queue 0
        have hok1 := bufs_ok_of_le_refs h h1
        have h2 : le_refs w
            (if (vbuf_queue_pop w queue 0).2.1 < 0 ∧ (vbuf_queue_pop w queue 0).2.1 ≠ -EAGAIN
              then (vbuf_queue_pop w queue 0).1
              else if (vbuf_queue_pop w queue 0).2.2.getD 0 ≠ 0 then
                (vbuf_unref (vbuf_queue_pop w queue 0).1
                  ((vbuf_queue_pop w queue 0).2.2.getD 0)).1
              else (vbuf_queue_pop w queue 0).1) := by
          split
          · exact h1
          · split
            · exact le_refs_trans h1 (le_refs_unref hok1 _)
            · exact h1
        have h3 := bufs_ok_queue_push_tail (bufs_ok_of_le_refs h h2) queue buf (by
          intro c hc
          obtain ⟨b, hb, -, hle, -⟩ := h2 buf c hc
          have := hlt b hb
          omega)
        simp only [vbuf_queue_push, hq0, hb0, hq, if_false]
        rw [if_pos hfull, if_pos hdrop]
        exact h3
      · simp only [vbuf_queue_push, hq0, hb0, hq, if_false]
        rw [if_pos hfull, if_neg hdrop]
        exact h
    · simp only [vbuf_queue_push, hq0, hb0, hq, if_false]
      rw [if_neg hfull]
      exact bufs_ok_queue_push_tail h queue buf hlt

/-- Moving the allocation mark leaves the buffers alone. -/
theorem bufs_ok_with_next {w : World} (h : bufs_ok w) (n : Nat) :
    bufs_ok { w with next := n } :=
  bufs_ok_of_bufs_eq h rfl

/-- The `error:` label of `vbuf_new`. -/
theorem bufs_ok_new_error {v : World} (hv : bufs_ok v) (id : Nat) (b : vbuf_buffer)
    (f : vbuf_cb) (res : Int) (hb : buf_ok b) : bufs_ok (vbuf_new_error v id b f res).1 :=
  bufs_ok_del_buf (bufs_ok_run_cb hv cb_kind.free f id b 0 hb).1 id

/-- `vbuf_new` with an `unref` callback that is absent or reports success. -/
theorem bufs_ok_new {w : World} (h : bufs_ok w) (capacity userdata_capacity : Nat)
    (cbs : Option vbuf_cbs) (pool : Nat) (hcb : ∀ c, cbs = some c → cb_ok c.unref) :
    bufs_ok (vbuf_new w capacity userdata_capacity cbs pool).1 := by
  cases cbs with
  | none => simp only [vbuf_new]; exact h
  | some c =>
    have hc := hcb c rfl
    cases halloc : c.alloc with
    | none => simp only [vbuf_new, halloc]; exact h
    | some alloc =>
      cases hfree : c.free with
      | none => simp only [vbuf_new, halloc, hfree]; exact h
      | some free =>
        generalize hb0 : (
          { type := 0, ref_count := 0, write_locked := false, pool := pool, cbs := c,
            specific := 0, capacity := capacity, size := 0, ptr := none, metas := [],
            userdata_capacity := userdata_capacity, userdata_size := 0,
            userdata_ptr := none } : vbuf_buffer) = b0
        have hok0 : buf_ok b0 := by
          rw [← hb0]; exact ⟨hc, by show (0 : Nat) < 4294967296; decide, fun hl => by simp at hl⟩
        have hrc0 : b0.ref_count = 0 := by rw [← hb0]
        have hw1 : bufs_ok ({ (w.log (ext_call.sys sys_kind.calloc)).set_buf
            ((w.log (ext_call.sys sys_kind.calloc)).next + 1) b0 with
            next := (w.log (ext_call.sys sys_kind.calloc)).next + 1 }) :=
          bufs_ok_with_next (bufs_ok_set_buf (bufs_ok_log h _) _ _ hok0) _
        obtain ⟨hw2, hb2⟩ := bufs_ok_run_cb (bufs_ok_log hw1 (ext_call.sys sys_kind.mutex_init))
          cb_kind.alloc alloc ((w.log (ext_call.sys sys_kind.calloc)).next + 1) b0 0 hok0
        have hrc2 := (backend_only_fields (run_cb_spec
          (({ (w.log (ext_call.sys sys_kind.calloc)).set_buf
              ((w.log (ext_call.sys sys_kind.calloc)).next + 1) b0 with
              next := (w.log (ext_call.sys sys_kind.calloc)).next + 1 } : World).log
            (ext_call.sys sys_kind.mutex_init))
          cb_kind.alloc alloc ((w.log (ext_call.sys sys_kind.calloc)).next + 1) b0 0).1).1
        simp only [vbuf_new, halloc, hfree, sys_call_fst, sys_call_snd, hb0]
        split
        · exact bufs_ok_log h _
        · split
          · exact bufs_ok_new_error (bufs_ok_log hw1 _) _ _ _ _ hok0
          · split
            · exact bufs_ok_new_error hw2 _ _ _ _ hb2
            · split
              · split
                · exact bufs_ok_new_error (bufs_ok_log hw2 _) _ _ _ _ hb2
                · apply bufs_ok_ref
                  · exact bufs_ok_set_buf (bufs_ok_log hw2 _) _ _ hb2
                  · intro b hb
                    rw [set_buf_bufs, if_pos rfl] at hb
                    cases hb
                    simp only
                    rw [hrc2, hrc0]
                    decide
              · apply bufs_ok_ref hw2
                intro b hb
                rw [(run_cb_spec _ cb_kind.alloc alloc _ _ 0).2.1, if_pos rfl] at hb
                cases hb
                rw [hrc2, hrc0]
                decide

/-! ## Counting the buffers of a pool -/

/-- A list without duplicates whose members are exactly the numbers below `n` that
satisfy `p` has as many elements as `p` counts below `n`. -/
theorem length_eq_countP_range (l : List Nat) (n : Nat) (p : Nat → Bool) (hnd : l.Nodup)
    (hmem : ∀ x, x ∈ l ↔ (x < n ∧ p x = true)) : l.length = (List.range n).countP p := by
  have hperm : l.Perm ((List.range n).filter p) := by
    rw [List.perm_ext_iff_of_nodup hnd ((List.nodup_range n).filter _)]
    intro a
    rw [hmem a, List.mem_filter, List.mem_range]
  rw [hperm.length_eq, List.countP_eq_length_filter]

/-- Counting a predicate that is the disjoint union of two others. -/
theorem countP_split (l : List Nat) (p q r : Nat → Bool)
    (h : ∀ x, (p x = true ↔ (q x = true ∨ r x = true)) ∧ ¬ (q x = true ∧ r x = true)) :
    l.countP p = l.countP q + l.countP r := by
  induction l with
  | nil => rfl
  | cons x xs ih =>
    simp only [List.countP_cons, ih]
    obtain ⟨h1, h2⟩ := h x
    cases hp : p x <;> cases hq : q x <;> cases hr : r x <;> simp_all <;> omega

/-- A buffer of the pool is free or held, not both. -/
theorem pool_buf_count_split (w : World) (pool : Nat) :
    pool_buf_count w pool =
      (List.range (w.next + 1)).countP (is_free_buf w pool) + held_count w pool := by
  unfold pool_buf_count held_count
  apply countP_split
  intro x
  unfold is_pool_buf is_free_buf is_held_buf
  cases w.bufs x with
  | none => simp
  | some b => simp; omega

/-- The population of a pool depends only on which addresses hold buffers of the pool. -/
theorem pool_buf_count_congr {w w' : World} (pool : Nat) (hn : w'.next = w.next)
    (h : ∀ i, (w'.bufs i).map (fun b => b.pool) = (w.bufs i).map (fun b => b.pool)) :
    pool_buf_count w' pool = pool_buf_count w pool := by
  unfold pool_buf_count
  rw [hn]
  congr 1
  funext i
  unfold is_pool_buf
  have := h i
  cases h1 : w'.bufs i <;> cases h2 : w.bufs i <;> simp_all

/-- Rewriting one buffer without changing its pool keeps the population. -/
theorem pool_buf_count_keep {w w' : World} (pool id : Nat) (b b' : vbuf_buffer)
    (hb : w.bufs id = some b) (hb' : w'.bufs id = some b') (hpool : b'.pool = b.pool)
    (hoth : ∀ i, i ≠ id → w'.bufs i = w.bufs i) (hn : w'.next = w.next) :
    pool_buf_count w' pool = pool_buf_count w pool := by
  apply pool_buf_count_congr pool hn
  intro i
  by_cases hi : i = id
  · subst hi; rw [hb, hb']; simp [hpool]
  · rw [hoth i hi]

/-! ## The calls of a client, one by one -/

/-- `vbuf_pool_get` on a pool with a free buffer, whatever the `pool_get` callback
answers: the head is referenced and unlinked (world `W`); when the callback fails the
buffer is released again with `vbuf_unref` and nothing is output. -/
theorem pool_get_cases (w : World) (pool : Nat) (t : Int) (pl : vbuf_pool) (id : Nat)
    (rest : List Nat) (b : vbuf_buffer) (hp0 : pool ≠ 0) (hpl : w.pools pool = some pl)
    (hfree : pl.free ≠ 0) (hl : pl.buffers = id :: rest) (hid : id ≠ 0)
    (hb : w.bufs id = some b) :
    ∃ (W : World) (b' : vbuf_buffer) (res : Int),
      W.bufs id = some b' ∧ backend_only { b with ref_count := uint_inc b.ref_count } b' ∧
      (∀ i, i ≠ id → W.bufs i = w.bufs i) ∧
      W.pools pool = some { pl with buffers := rest, free := uint_dec pl.free } ∧
      (∀ i, i ≠ pool → W.pools i = w.pools i) ∧ W.next = w.next ∧
      ((0 ≤ res ∧ vbuf_pool_get w pool t = (W, res, some id)) ∨
       (res < 0 ∧ vbuf_pool_get w pool t = ((vbuf_unref W id).1, res, none))) := by
  cases h1 : b.cbs.pool_get with
  | none =>
    refine ⟨((w.set_buf id { b with ref_count := uint_inc b.ref_count }).set_pool pool
      { pl with buffers := rest, free := uint_dec pl.free }), _, 0, ?_, backend_only_refl _,
      ?_, ?_, ?_, rfl, Or.inl ⟨le_refl _, ?_⟩⟩
    · simp
    · intro i hi; simp [hi]
    · simp
    · intro i hi; simp [hi]
    · simp only [vbuf_pool_get, vbuf_pool_get_take, vbuf_ref, hp0, hpl, hfree, hl, hid, hb, h1,
        if_false, set_pool_bufs, set_buf_bufs, if_true]
  | some f =>
    have heq : vbuf_pool_get w pool t =
        (if (run_cb ((w.set_buf id { b with ref_count := uint_inc b.ref_count }).set_pool pool
              { pl with buffers := rest, free := uint_dec pl.free }) cb_kind.pool_get f id
              { b with ref_count := uint_inc b.ref_count } t).2.2 < 0 then
          ((vbuf_unref (run_cb ((w.set_buf id
              { b with ref_count := uint_inc b.ref_count }).set_pool pool
              { pl with buffers := rest, free := uint_dec pl.free }) cb_kind.pool_get f id
              { b with ref_count := uint_inc b.ref_count } t).1 id).1,
            (run_cb ((w.set_buf id { b with ref_count := uint_inc b.ref_count }).set_pool pool
              { pl with buffers := rest, free := uint_dec pl.free }) cb_kind.pool_get f id
              { b with ref_count := uint_inc b.ref_count } t).2.2, none)
        else
          ((run_cb ((w.set_buf id { b with ref_count := uint_inc b.ref_count }).set_pool pool
              { pl with buffers := rest, free := uint_dec pl.free }) cb_kind.pool_get f id
              { b with ref_count := uint_inc b.ref_count } t).1,
            (run_cb ((w.set_buf id { b with ref_count := uint_inc b.ref_count }).set_pool pool
              { pl with buffers := rest, free := uint_dec pl.free }) cb_kind.pool_get f id
              { b with ref_count := uint_inc b.ref_count } t).2.2, some id)) := by
      simp only [vbuf_pool_get, vbuf_pool_get_take, vbuf_ref, hp0, hpl, hfree, hl, hid, hb, h1,
        if_false, set_pool_bufs, set_buf_bufs, if_true]
    have key := run_cb_spec
      ((w.set_buf id { b with ref_count := uint_inc b.ref_count }).set_pool pool
        { pl with buffers := rest, free := uint_dec pl.free }) cb_kind.pool_get f id
      { b with ref_count := uint_inc b.ref_count } t
    generalize run_cb
      ((w.set_buf id { b with ref_count := uint_inc b.ref_count }).set_pool pool
        { pl with buffers := rest, free := uint_dec pl.free }) cb_kind.pool_get f id
      { b with ref_count := uint_inc b.ref_count } t = r at key heq
    obtain ⟨s1, s2, s3, -, s5, -, -⟩ := key
    refine ⟨r.1, r.2.1, r.2.2, ?_, s1, ?_, ?_, ?_, s5, ?_⟩
    · rw [s2]; simp
    · intro i hi; rw [s2]; simp [hi]
    · rw [s3]; simp
    · intro i hi; rw [s3]; simp [hi]
    · rw [heq]
      split
      · next hneg => exact Or.inr ⟨hneg, rfl⟩
      · next hpos => exact Or.inl ⟨not_lt.mp hpos, rfl⟩

/-- `vbuf_pool_get` that takes no buffer: nothing but the trace moves. -/
theorem pool_get_none (w : World) (pool : Nat) (t : Int)
    (h : pool = 0 ∨ w.pools pool = none ∨ ∃ pl, w.pools pool = some pl ∧ pl.free = 0) :
    (∀ i, (vbuf_pool_get w pool t).1.bufs i = w.bufs i) ∧
    (∀ i, (vbuf_pool_get w pool t).1.pools i = w.pools i) ∧
    (vbuf_pool_get w pool t).1.queues = w.queues ∧
    (vbuf_pool_get w pool t).1.next = w.next := by
  by_cases hp0 : pool = 0
  · simp only [vbuf_pool_get, hp0, if_true]
    simp
  rcases h with h | h | ⟨pl, hpl, hfree⟩
  · exact absurd h hp0
  · simp only [vbuf_pool_get, hp0, h, if_false]
    simp
  · by_cases ht : t = 0
    · simp only [vbuf_pool_get, hp0, hpl, hfree, ht, if_true, if_false]
      simp
    · have hlog : ∀ k : sys_kind, (w.log (ext_call.sys k)).pools pool = some pl := fun _ => hpl
      simp only [vbuf_pool_get, hp0, hpl, hfree, ht, if_true, if_false]
      split
      · split
        · exact ⟨fun _ => rfl, fun _ => rfl, rfl, rfl⟩
        · split
          · exact ⟨fun _ => rfl, fun _ => rfl, rfl, rfl⟩
          · simp only [vbuf_pool_get_take, sys_call_fst, hlog, hfree, if_true]
            exact ⟨fun _ => rfl, fun _ => rfl, rfl, rfl⟩
      · split
        · exact ⟨fun _ => rfl, fun _ => rfl, rfl, rfl⟩
        · split
          · exact ⟨fun _ => rfl, fun _ => rfl, rfl, rfl⟩
          · simp only [vbuf_pool_get_take, sys_call_fst, hlog, hfree, if_true]
            exact ⟨fun _ => rfl, fun _ => rfl, rfl, rfl⟩

/-- `vbuf_unref` of a reference that is not the last one only decrements the count. -/
theorem unref_nonlast (w : World) (buf : Nat) (b : vbuf_buffer) (hbuf : buf ≠ 0)
    (hb : w.bufs buf = some b) (h2 : 2 ≤ b.ref_count) (hlt : b.ref_count < 4294967296) :
    vbuf_unref w buf = (w.set_buf buf { b with ref_count := b.ref_count - 1 }, 0) := by
  have hne : ¬ (vbuf_is_ref w buf).2 = 0 := by
    rw [vbuf_is_ref_eq_zero w buf b hbuf hb hlt]; omega
  have hd : uint_dec b.ref_count = b.ref_count - 1 := uint_dec_eq _ (by omega) hlt
  have hz : ¬ to_int (b.ref_count - 1) = 0 := by
    rw [to_int_eq_zero _ (by omega)]; omega
  simp only [vbuf_unref, hbuf, hne, hb, hd, hz, if_false]

/-! ## `vbuf_new` -/

/-- The three outcomes of `vbuf_new` in a world where the next address is unused: a
negative result; a non-negative result with `NULL` output and no buffer added (`calloc`
of the object failed, or a system call answered out of range); or result 0 with a new
buffer at the next address. -/
theorem vbuf_new_spec (w : World) (capacity userdata_capacity : Nat) (c : vbuf_cbs)
    (pool : Nat) (hfresh : w.bufs (w.next + 1) = none) :
    (vbuf_new w capacity userdata_capacity (some c) pool).2.1 < 0 ∨
    (0 ≤ (vbuf_new w capacity userdata_capacity (some c) pool).2.1 ∧
      (vbuf_new w capacity userdata_capacity (some c) pool).2.2 = some 0 ∧
      (∃ t, w.env t ≠ 0) ∧
      (∀ i, (vbuf_new w capacity userdata_capacity (some c) pool).1.bufs i = w.bufs i) ∧
      (vbuf_new w capacity userdata_capacity (some c) pool).1.pools = w.pools ∧
      (vbuf_new w capacity userdata_capacity (some c) pool).1.queues = w.queues ∧
      w.next ≤ (vbuf_new w capacity userdata_capacity (some c) pool).1.next ∧
      (vbuf_new w capacity userdata_capacity (some c) pool).1.env = w.env) ∨
    ((vbuf_new w capacity userdata_capacity (some c) pool).2.1 = 0 ∧
      (vbuf_new w capacity userdata_capacity (some c) pool).2.2 = some (w.next + 1) ∧
      (∃ b', (vbuf_new w capacity userdata_capacity (some c) pool).1.bufs (w.next + 1) = some b' ∧
        backend_only (new_buf capacity userdata_capacity c pool) b') ∧
      (∀ i, i ≠ w.next + 1 →
        (vbuf_new w capacity userdata_capacity (some c) pool).1.bufs i = w.bufs i) ∧
      (vbuf_new w capacity userdata_capacity (some c) pool).1.pools = w.pools ∧
      (vbuf_new w capacity userdata_capacity (some c) pool).1.queues = w.queues ∧
      (vbuf_new w capacity userdata_capacity (some c) pool).1.next = w.next + 1 ∧
      (vbuf_new w capacity userdata_capacity (some c) pool).1.env = w.env) := by
  have hE : -EINVAL < 0 := by decide
  have hM : -ENOMEM < 0 := by decide
  have hM2 : (0 : Int) ≤ - -ENOMEM := by decide
  have hone : uint_inc 0 = 1 := by decide
  cases halloc : c.alloc with
  | none => left; simp only [vbuf_new, halloc]; exact hE
  | some alloc =>
    cases hfree : c.free with
    | none => left; simp only [vbuf_new, halloc, hfree]; exact hE
    | some free =>
      simp only [vbuf_new, halloc, hfree, sys_call_fst, sys_call_snd, vbuf_new_error, run_cb,
        vbuf_ref, log_next, log_trace, log_bufs, log_pools, log_env, set_buf_bufs, set_buf_next,
        set_buf_pools, set_buf_env, Nat.succ_ne_zero, if_false, if_true, hone]
      split
      · next h0 =>
        right; left
        exact ⟨hM2, rfl, ⟨_, h0⟩, fun _ => rfl, rfl, rfl, le_refl _, rfl⟩
      · split
        · next h1 =>
          refine (lt_or_le _ 0).elim (fun hneg => Or.inl hneg) (fun hpos => Or.inr (Or.inl ?_))
          refine ⟨hpos, rfl, ⟨_, h1⟩, ?_, rfl, rfl, by simp, rfl⟩
          intro i
          simp only [del_buf_bufs, log_bufs, set_buf_bufs]
          split
          · next hi => rw [hi, hfresh]
          · rfl
        · split
          · next h2 => left; exact h2
          · split
            · split
              · left; exact hM
              · right; right
                next hud _ =>
                refine ⟨rfl, rfl, ?_, ?_, rfl, rfl, rfl, rfl⟩
                · simp [backend_only, new_buf, hud]
                · intro i hi; simp [hi]
            · next hud =>
              right; right
              refine ⟨rfl, rfl, ?_, ?_, rfl, rfl, rfl, rfl⟩
              · simp [backend_only, new_buf, hud]
              · intro i hi; simp [hi]


/-! ## What `vbuf_unref` never touches -/

/-- `vbuf_destroy` only frees the buffer it is given. -/
theorem destroy_frame (w : World) (buf : Nat) :
    (vbuf_destroy w buf).1.queues = w.queues ∧ (vbuf_destroy w buf).1.env = w.env ∧
    (vbuf_destroy w buf).1.next = w.next ∧ (vbuf_destroy w buf).1.pools = w.pools ∧
    (∀ i, i ≠ buf → (vbuf_destroy w buf).1.bufs i = w.bufs i) ∧
    ((vbuf_destroy w buf).1.bufs buf = none ∨ (vbuf_destroy w buf).1 = w) := by
  by_cases hbuf : buf = 0
  · have heq : (vbuf_destroy w buf).1 = w := by
      simp only [vbuf_destroy, hbuf, if_true]
    rw [heq]
    exact ⟨rfl, rfl, rfl, rfl, fun _ _ => rfl, Or.inr rfl⟩
  cases hb : w.bufs buf with
  | none =>
    have heq : (vbuf_destroy w buf).1 = w := by
      simp only [vbuf_destroy, hbuf, hb, if_false]
    rw [heq]
    exact ⟨rfl, rfl, rfl, rfl, fun _ _ => rfl, Or.inr rfl⟩
  | some b =>
    cases hf : b.cbs.free with
    | none =>
      have heq : (vbuf_destroy w buf).1 = w := by
        simp only [vbuf_destroy, hbuf, hb, hf, if_false]
      rw [heq]
      exact ⟨rfl, rfl, rfl, rfl, fun _ _ => rfl, Or.inr rfl⟩
    | some f =>
      simp only [vbuf_destroy, hbuf, hb, hf, if_false, run_cb]
      refine ⟨rfl, rfl, rfl, rfl, ?_, Or.inl ?_⟩
      · intro i hi; simp [hi]
      · simp

/-- `vbuf_pool_put` only touches the buffer and the pool it is given. -/
theorem pool_put_frame (w : World) (pool buf : Nat) :
    (vbuf_pool_put w pool buf).1.queues = w.queues ∧ (vbuf_pool_put w pool buf).1.env = w.env ∧
    (vbuf_pool_put w pool buf).1.next = w.next ∧
    (∀ i, i ≠ buf → (vbuf_pool_put w pool buf).1.bufs i = w.bufs i) ∧
    (∀ b, w.bufs buf = some b → ∃ b', (vbuf_pool_put w pool buf).1.bufs buf = some b' ∧
      b'.ref_count = b.ref_count ∧ b'.cbs = b.cbs ∧ b'.pool = b.pool ∧
      b'.write_locked = b.write_locked) := by
  by_cases hp0 : pool = 0
  · have heq : (vbuf_pool_put w pool buf).1 = w := by
      simp only [vbuf_pool_put, hp0, if_true]
    rw [heq]
    exact ⟨rfl, rfl, rfl, fun _ _ => rfl, fun b hb => ⟨b, hb, rfl, rfl, rfl, rfl⟩⟩
  by_cases hbuf : buf = 0
  · have heq : (vbuf_pool_put w pool buf).1 = w := by
      simp only [vbuf_pool_put, hp0, hbuf, if_true, if_false]
    rw [heq]
    exact ⟨rfl, rfl, rfl, fun _ _ => rfl, fun b hb => ⟨b, hb, rfl, rfl, rfl, rfl⟩⟩
  cases hb : w.bufs buf with
  | none =>
    have heq : (vbuf_pool_put w pool buf).1 = w := by
      simp only [vbuf_pool_put, hp0, hbuf, hb, if_false]
    rw [heq]
    exact ⟨rfl, rfl, rfl, fun _ _ => rfl, fun b hb => Option.noConfusion hb⟩
  | some b =>
    by_cases hbp : b.pool = 0
    · have heq : (vbuf_pool_put w pool buf).1 = w := by
        simp only [vbuf_pool_put, hp0, hbuf, hb, hbp, if_true, if_false]
      rw [heq]
      exact ⟨rfl, rfl, rfl, fun _ _ => rfl, fun c hc => by
        cases hc; exact ⟨b, hb, rfl, rfl, rfl, rfl⟩⟩
    obtain ⟨s1, s2, s3, s4, s5, s6, -, -⟩ :=
      run_opt_cb_spec w cb_kind.pool_put b.cbs.pool_put buf b 0 hb
    obtain ⟨f1, f2, f3, f4, -⟩ := backend_only_fields s1
    simp only [vbuf_pool_put, hp0, hbuf, hb, hbp, if_false]
    generalize run_opt_cb w cb_kind.pool_put b.cbs.pool_put buf b 0 = r at *
    split
    · refine ⟨s4, s6, s5, fun i hi => by rw [s2 i, if_neg hi], fun c hc => ?_⟩
      cases hc
      exact ⟨r.2.1, by rw [s2 buf, if_pos rfl], f1, f4, f3, f2⟩
    · split
      · refine ⟨by simp [s4], by simp [s6], by simp [s5],
          fun i hi => by simp [hi, s2 i], fun c hc => ?_⟩
        cases hc
        exact ⟨{ r.2.1 with metas := [] }, by simp, f1, f4, f3, f2⟩
      · refine ⟨by simp [s4], by simp [s6], by simp [s5],
          fun i hi => by simp [hi, s2 i], fun c hc => ?_⟩
        cases hc
        exact ⟨{ r.2.1 with metas := [] }, by simp, f1, f4, f3, f2⟩

/-- `vbuf_unref` leaves the queues, the environment, the allocation mark and every
other buffer alone. -/
theorem unref_frame (w : World) (buf : Nat) :
    (vbuf_unref w buf).1.queues = w.queues ∧ (vbuf_unref w buf).1.env = w.env ∧
    (vbuf_unref w buf).1.next = w.next ∧
    (∀ i, i ≠ buf → (vbuf_unref w buf).1.bufs i = w.bufs i) := by
  by_cases hbuf : buf = 0
  · have heq : (vbuf_unref w buf).1 = w := by
      simp only [vbuf_unref, hbuf, if_true]
    rw [heq]
    exact ⟨rfl, rfl, rfl, fun _ _ => rfl⟩
  by_cases hisref : (vbuf_is_ref w buf).2 = 0
  · have heq : (vbuf_unref w buf).1 = w := by
      simp only [vbuf_unref, hbuf, hisref, if_true, if_false]
    rw [heq]
    exact ⟨rfl, rfl, rfl, fun _ _ => rfl⟩
  cases hb : w.bufs buf with
  | none =>
    have heq : (vbuf_unref w buf).1 = w := by
      simp only [vbuf_unref, hbuf, hisref, hb, if_false]
    rw [heq]
    exact ⟨rfl, rfl, rfl, fun _ _ => rfl⟩
  | some b =>
    by_cases hz : to_int (uint_dec b.ref_count) = 0
    · obtain ⟨s1, s2, s3, s4, s5, s6, -, -⟩ :=
        run_opt_cb_spec (w.set_buf buf { b with ref_count := uint_dec b.ref_count })
          cb_kind.unref b.cbs.unref buf { b with ref_count := uint_dec b.ref_count } 0
          (by simp)
      simp only [vbuf_unref, hbuf, hisref, hb, hz, if_false, if_true]
      generalize run_opt_cb (w.set_buf buf { b with ref_count := uint_dec b.ref_count })
          cb_kind.unref b.cbs.unref buf { b with ref_count := uint_dec b.ref_count } 0 = r at *
      split
      · exact ⟨s4, s6, s5, fun i hi => by rw [s2 i, if_neg hi]; simp [hi]⟩
      · split
        · obtain ⟨p1, p2, p3, p4, -⟩ := pool_put_frame
            (r.1.set_buf buf { r.2.1 with write_locked := false, size := 0 })
            ({ r.2.1 with write_locked := false, size := 0 } : vbuf_buffer).pool buf
          refine ⟨by rw [p1]; simp [s4], by rw [p2]; simp [s6], by rw [p3]; simp [s5], ?_⟩
          intro i hi
          rw [p4 i hi]
          simp [hi, s2 i]
        · obtain ⟨p1, p2, p3, -, p5, -⟩ := destroy_frame
            (r.1.set_buf buf { r.2.1 with write_locked := false, size := 0 }) buf
          refine ⟨by rw [p1]; simp [s4], by rw [p2]; simp [s6], by rw [p3]; simp [s5], ?_⟩
          intro i hi
          rw [p5 i hi]
          simp [hi, s2 i]
    · have heq : (vbuf_unref w buf).1 =
          w.set_buf buf { b with ref_count := uint_dec b.ref_count } := by
        simp only [vbuf_unref, hbuf, hisref, hb, hz, if_false]
      rw [heq]
      exact ⟨rfl, rfl, rfl, fun i hi => by simp [hi]⟩

/-- What `vbuf_unref` does to the count of the buffer it is given: nothing at count 0;
otherwise the buffer, if it is still there, has one reference less, and from count 2 on
nothing else changes. -/
theorem unref_self (w : World) (buf : Nat) (b : vbuf_buffer) (hbuf : buf ≠ 0)
    (hb : w.bufs buf = some b) (hlt : b.ref_count < 4294967296) :
    (b.ref_count = 0 → vbuf_unref w buf = (w, -ENOENT)) ∧
    (b.ref_count ≠ 0 → ∀ b', (vbuf_unref w buf).1.bufs buf = some b' →
      b'.ref_count = b.ref_count - 1 ∧ b'.cbs = b.cbs ∧ b'.pool = b.pool) ∧
    (2 ≤ b.ref_count →
      vbuf_unref w buf = (w.set_buf buf { b with ref_count := b.ref_count - 1 }, 0)) := by
  refine ⟨fun h0 => ?_, fun hne => ?_, fun h2 => unref_nonlast w buf b hbuf hb h2 hlt⟩
  · have hz : (vbuf_is_ref w buf).2 = 0 := (vbuf_is_ref_eq_zero w buf b hbuf hb hlt).mpr h0
    simp only [vbuf_unref, hbuf, hz, if_true, if_false]
  · have hisref : ¬ (vbuf_is_ref w buf).2 = 0 := fun h =>
      hne ((vbuf_is_ref_eq_zero w buf b hbuf hb hlt).mp h)
    have hdec : uint_dec b.ref_count = b.ref_count - 1 := uint_dec_eq _ (by omega) hlt
    by_cases hz : to_int (uint_dec b.ref_count) = 0
    · obtain ⟨s1, s2, -⟩ :=
        run_opt_cb_spec (w.set_buf buf { b with ref_count := uint_dec b.ref_count })
          cb_kind.unref b.cbs.unref buf { b with ref_count := uint_dec b.ref_count } 0
          (by simp)
      obtain ⟨f1, -, f3, f4, -⟩ := backend_only_fields s1
      simp only [vbuf_unref, hbuf, hisref, hb, hz, if_false, if_true]
      generalize run_opt_cb (w.set_buf buf { b with ref_count := uint_dec b.ref_count })
          cb_kind.unref b.cbs.unref buf { b with ref_count := uint_dec b.ref_count } 0 = r at *
      simp only at f1 f3 f4
      split
      · intro b' hb'
        rw [s2 buf, if_pos rfl] at hb'
        cases hb'
        exact ⟨by rw [f1, hdec], f4, f3⟩
      · split
        · intro b' hb'
          obtain ⟨-, -, -, -, p5⟩ := pool_put_frame
            (r.1.set_buf buf { r.2.1 with write_locked := false, size := 0 })
            ({ r.2.1 with write_locked := false, size := 0 } : vbuf_buffer).pool buf
          obtain ⟨c, hc, c1, c2, c3, -⟩ := p5 { r.2.1 with write_locked := false, size := 0 }
            (by rw [set_buf_bufs, if_pos rfl])
          rw [hc] at hb'
          cases hb'
          exact ⟨by rw [c1]; simp only [f1, hdec], by rw [c2]; exact f4, by rw [c3]; exact f3⟩
        · intro b' hb'
          obtain ⟨-, -, -, -, -, p6⟩ := destroy_frame
            (r.1.set_buf buf { r.2.1 with write_locked := false, size := 0 }) buf
          rcases p6 with p6 | p6
          · rw [p6] at hb'; cases hb'
          · rw [p6, set_buf_bufs, if_pos rfl] at hb'
            cases hb'
            exact ⟨by simp only [f1, hdec], f4, f3⟩
    · simp only [vbuf_unref, hbuf, hisref, hb, hz, if_false]
      intro b' hb'
      rw [set_buf_bufs, if_pos rfl] at hb'
      cases hb'
      exact ⟨hdec, rfl, rfl⟩

/-! ## Queues: the buffer operations do not look at the queues -/

theorem run_opt_cb_set_queue (w : World) (j : Nat) (q : vbuf_queue) (k : cb_kind)
    (cb : Option vbuf_cb) (id : Nat) (b : vbuf_buffer) (t : Int) :
    run_opt_cb (w.set_queue j q) k cb id b t =
      ((run_opt_cb w k cb id b t).1.set_queue j q, (run_opt_cb w k cb id b t).2) := by
  cases cb <;> rfl

theorem destroy_set_queue (w : World) (j : Nat) (q : vbuf_queue) (buf : Nat) :
    vbuf_destroy (w.set_queue j q) buf =
      ((vbuf_destroy w buf).1.set_queue j q, (vbuf_destroy w buf).2) := by
  by_cases hbuf : buf = 0
  · simp only [vbuf_destroy, hbuf, if_true]
  cases hb : w.bufs buf with
  | none => simp only [vbuf_destroy, hbuf, if_false, set_queue_bufs, hb]
  | some b =>
    cases hf : b.cbs.free with
    | none => simp only [vbuf_destroy, hbuf, if_false, set_queue_bufs, hb, hf]
    | some f =>
      simp only [vbuf_destroy, hbuf, if_false, set_queue_bufs, hb, hf]
      rfl

theorem pool_put_set_queue (w : World) (j : Nat) (q : vbuf_queue) (pool buf : Nat) :
    vbuf_pool_put (w.set_queue j q) pool buf =
      ((vbuf_pool_put w pool buf).1.set_queue j q, (vbuf_pool_put w pool buf).2) := by
  by_cases hpool : pool = 0
  · simp only [vbuf_pool_put, hpool, if_true]
  by_cases hbuf : buf = 0
  · simp only [vbuf_pool_put, hpool, hbuf, if_true, if_false]
  cases hb : w.bufs buf with
  | none => simp only [vbuf_pool_put, hpool, hbuf, if_false, set_queue_bufs, hb]
  | some b =>
    by_cases hbp : b.pool = 0
    · simp only [vbuf_pool_put, hpool, hbuf, if_false, set_queue_bufs, hb, hbp, if_true]
    simp only [vbuf_pool_put, hpool, hbuf, if_false, set_queue_bufs, hb, hbp,
      run_opt_cb_set_queue]
    generalize run_opt_cb w cb_kind.pool_put b.cbs.pool_put buf b 0 = r
    by_cases hr : r.2.2 < 0
    · simp only [hr, if_true]
    simp only [hr, if_false, set_buf_pools, set_queue_pools]
    cases hp : r.1.pools pool with
    | none => simp only []; rfl
    | some p =>
      simp only []
      by_cases h1 : uint_inc p.free = 1
      · simp only [h1, if_true]; rfl
      · simp only [h1, if_false]; rfl

theorem unref_set_queue (w : World) (j : Nat) (q : vbuf_queue) (buf : Nat) :
    vbuf_unref (w.set_queue j q) buf =
      ((vbuf_unref w buf).1.set_queue j q, (vbuf_unref w buf).2) := by
  by_cases hbuf : buf = 0
  · simp only [vbuf_unref, hbuf, if_true]
  have hir : (vbuf_is_ref (w.set_queue j q) buf).2 = (vbuf_is_ref w buf).2 := by
    simp only [vbuf_is_ref, vbuf_get_ref_count, set_queue_bufs, hbuf, if_false]
    cases w.bufs buf <;> simp only [apply_ite Prod.snd]
  by_cases hisref : (vbuf_is_ref w buf).2 = 0
  · simp only [vbuf_unref, hbuf, hir, hisref, if_true, if_false]
  cases hb : w.bufs buf with
  | none => simp only [vbuf_unref, hbuf, hir, hisref, if_false, set_queue_bufs, hb]
  | some b =>
    by_cases hz : to_int (uint_dec b.ref_count) = 0
    · simp only [vbuf_unref, hbuf, hir, hisref, if_false, set_queue_bufs, hb, hz, if_true]
      have hc := run_opt_cb_set_queue (w.set_buf buf { b with ref_count := uint_dec b.ref_count })
        j q cb_kind.unref b.cbs.unref buf { b with ref_count := uint_dec b.ref_count } 0
      have hsw : (w.set_queue j q).set_buf buf { b with ref_count := uint_dec b.ref_count } =
          (w.set_buf buf { b with ref_count := uint_dec b.ref_count }).set_queue j q := rfl
      rw [hsw, hc]
      generalize run_opt_cb (w.set_buf buf { b with ref_count := uint_dec b.ref_count })
        cb_kind.unref b.cbs.unref buf { b with ref_count := uint_dec b.ref_count } 0 = r
      by_cases hr : r.2.2 < 0
      · simp only [hr, if_true]
      simp only [hr, if_false]
      have hsw2 : (r.1.set_queue j q).set_buf buf { r.2.1 with write_locked := false, size := 0 } =
          (r.1.set_buf buf { r.2.1 with write_locked := false, size := 0 }).set_queue j q := rfl
      rw [hsw2]
      by_cases hp : r.2.1.pool = 0
      · simp only [hp, ne_eq, not_true_eq_false, if_false]
        exact destroy_set_queue _ j q buf
      · simp only [hp, ne_eq, not_false_eq_true, if_true]
        exact pool_put_set_queue _ j q _ buf
    · simp only [vbuf_unref, hbuf, hir, hisref, if_false, set_queue_bufs, hb, hz]
      rfl

/-! ## Queues: `vbuf_queue_pop` on a queue with a live head -/

/-- The result of the `queue_pop` callback when it is `NULL` or returns 0. -/
theorem cb_zero_res {cb : Option vbuf_cb} {f : vbuf_cb} (h : cb_zero cb) (hf : cb = some f)
    (a : cb_arg) : (f a).res = 0 := h f hf a

/-- What `vbuf_queue_pop` does when the queue has entries and the buffer of the oldest one
is live with a `queue_pop` callback that is `NULL` or returns 0. -/
theorem pop_head (w : World) (queue : Nat) (t : Int) (q : vbuf_queue) (id : Nat)
    (rest : List Nat) (b : vbuf_buffer) (hqueue : queue ≠ 0) (hq : w.queues queue = some q)
    (hl : q.buffers = id :: rest) (hc : q.count ≠ 0) (hb : w.bufs id = some b)
    (hcb : cb_zero b.cbs.queue_pop) :
    (vbuf_queue_pop w queue t).2 = (0, some id) ∧
    (vbuf_queue_pop w queue t).1.queues queue =
      some { q with buffers := rest, count := uint_dec q.count } ∧
    (∀ j, j ≠ queue → (vbuf_queue_pop w queue t).1.queues j = w.queues j) ∧
    (vbuf_queue_pop w queue t).1.pools = w.pools ∧
    (vbuf_queue_pop w queue t).1.env = w.env ∧
    (vbuf_queue_pop w queue t).1.next = w.next ∧
    (∀ i, i ≠ id → (vbuf_queue_pop w queue t).1.bufs i = w.bufs i) ∧
    ∃ b', (vbuf_queue_pop w queue t).1.bufs id = some b' ∧ backend_only b b' ∧
      (b.cbs.queue_pop = none → b' = b) := by
  cases hf : b.cbs.queue_pop with
  | none =>
    have heq : vbuf_queue_pop w queue t =
        (w.set_queue queue { q with buffers := rest, count := uint_dec q.count }, 0, some id) := by
      simp only [vbuf_queue_pop, hqueue, hq, hc, vbuf_queue_pop_take, hl, set_queue_bufs, hb, hf,
        if_false]
    rw [heq]
    refine ⟨rfl, by simp, fun j hj => by simp [hj], rfl, rfl, rfl, fun i _ => rfl, b, hb,
      backend_only_refl b, fun _ => rfl⟩
  | some f =>
    have hres := cb_zero_res hcb hf
    obtain ⟨s1, s2, s3, s4, s5, s6, -⟩ := run_cb_spec
      (w.set_queue queue { q with buffers := rest, count := uint_dec q.count })
      cb_kind.queue_pop f id b t
    have hr : (run_cb (w.set_queue queue { q with buffers := rest, count := uint_dec q.count })
        cb_kind.queue_pop f id b t).2.2 = 0 := hres _
    have heq : vbuf_queue_pop w queue t =
        ((run_cb (w.set_queue queue { q with buffers := rest, count := uint_dec q.count })
          cb_kind.queue_pop f id b t).1, 0, some id) := by
      simp only [vbuf_queue_pop, hqueue, hq, hc, vbuf_queue_pop_take, hl, set_queue_bufs, hb, hf,
        if_false, hr, lt_irrefl, if_true]
    rw [heq]
    generalize run_cb (w.set_queue queue { q with buffers := rest, count := uint_dec q.count })
      cb_kind.queue_pop f id b t = r at *
    refine ⟨rfl, by simp [s4], fun j hj => by simp [s4, hj], by simp [s3], by simp [s6],
      by simp [s5], fun i hi => by rw [s2 i, if_neg hi]; rfl, r.2.1, by rw [s2 id, if_pos rfl],
      s1, fun h => Option.noConfusion h⟩

/-- An `unsigned int` below `2^31` converts to the same `int`. -/
theorem to_int_small (n : Nat) (h : n < 2147483648) : to_int n = (n : Int) := by
  unfold to_int
  rw [Nat.mod_eq_of_lt (by omega), if_pos h]

/-! ## Queues: the insertion part of `vbuf_queue_push` -/

/-- What `vbuf_queue_push_tail` does for a live buffer and a live queue: it touches only
that buffer and that queue; either it returns 0, the buffer has one more reference and a
new entry for it is the last of the queue, or it returns a negative value and neither the
count of the buffer nor the queue has changed.  With a `queue_push` callback that is
`NULL` or reports success and a successful allocation of the entry, it returns 0. -/
theorem push_tail_spec (w : World) (queue buf : Nat) (q : vbuf_queue) (b : vbuf_buffer)
    (hbuf : buf ≠ 0) (hq : w.queues queue = some q) (hb : w.bufs buf = some b) :
    (vbuf_queue_push_tail w queue buf).1.pools = w.pools ∧
    (vbuf_queue_push_tail w queue buf).1.env = w.env ∧
    (vbuf_queue_push_tail w queue buf).1.next = w.next ∧
    (∀ j, j ≠ queue → (vbuf_queue_push_tail w queue buf).1.queues j = w.queues j) ∧
    (∀ i, i ≠ buf → (vbuf_queue_push_tail w queue buf).1.bufs i = w.bufs i) ∧
    (((vbuf_queue_push_tail w queue buf).2 = 0 ∧
        (vbuf_queue_push_tail w queue buf).1.queues queue =
          some { q with buffers := q.buffers ++ [buf], count := uint_inc q.count } ∧
        ∃ b', (vbuf_queue_push_tail w queue buf).1.bufs buf = some b' ∧
          backend_only { b with ref_count := uint_inc b.ref_count } b') ∨
      ((vbuf_queue_push_tail w queue buf).2 < 0 ∧
        (vbuf_queue_push_tail w queue buf).1.queues queue = some q ∧
        ∃ b', (vbuf_queue_push_tail w queue buf).1.bufs buf = some b' ∧ backend_only b b')) ∧
    (cb_ok b.cbs.queue_push → (∀ t, w.env t = 0) → (vbuf_queue_push_tail w queue buf).2 = 0) ∧
    (cb_ok b.cbs.queue_push → (vbuf_queue_push_tail w queue buf).2 = 0 ∨
      (vbuf_queue_push_tail w queue buf).2 = -ENOMEM) := by
  obtain ⟨s1, s2, s3, s4, s5, s6, -, s8⟩ :=
    run_opt_cb_spec w cb_kind.queue_push b.cbs.queue_push buf b 0 hb
  by_cases hr : (run_opt_cb w cb_kind.queue_push b.cbs.queue_push buf b 0).2.2 < 0
  · have heq : vbuf_queue_push_tail w queue buf =
        ((run_opt_cb w cb_kind.queue_push b.cbs.queue_push buf b 0).1,
          (run_opt_cb w cb_kind.queue_push b.cbs.queue_push buf b 0).2.2) := by
      simp only [vbuf_queue_push_tail, hb, hr, if_true]
    rw [heq]
    generalize run_opt_cb w cb_kind.queue_push b.cbs.queue_push buf b 0 = r at *
    refine ⟨s3, s6, s5, fun j _ => by rw [s4], fun i hi => by rw [s2 i, if_neg hi],
      Or.inr ⟨hr, by rw [s4, hq], r.2.1, by rw [s2 buf, if_pos rfl], s1⟩, fun hok _ => ?_,
      fun hok => ?_⟩
    · exact absurd hr (not_lt.mpr (s8 hok))
    · exact absurd hr (not_lt.mpr (s8 hok))
  by_cases he : (run_opt_cb w cb_kind.queue_push b.cbs.queue_push buf b 0).1.env
      (run_opt_cb w cb_kind.queue_push b.cbs.queue_push buf b 0).1.trace.length = 0
  · have hq2 : (vbuf_ref (sys_call (run_opt_cb w cb_kind.queue_push b.cbs.queue_push buf b 0).1
        sys_kind.calloc).1 buf).1.queues queue = some q := by
      simp only [vbuf_ref, hbuf, if_false, sys_call_fst, log_bufs, s2 buf, if_true,
        set_buf_queues, log_queues, s4, hq]
    have heq : vbuf_queue_push_tail w queue buf =
        (if uint_inc q.count = 1 then
          ((((run_opt_cb w cb_kind.queue_push b.cbs.queue_push buf b 0).1.log
            (ext_call.sys sys_kind.calloc)).set_buf buf
              { (run_opt_cb w cb_kind.queue_push b.cbs.queue_push buf b 0).2.1 with
                ref_count := uint_inc
                  (run_opt_cb w cb_kind.queue_push b.cbs.queue_push buf b 0).2.1.ref_count
              }).set_queue queue
              { q with buffers := q.buffers ++ [buf], count := uint_inc q.count }).log
                (ext_call.sys sys_kind.evt_signal) |>.log (ext_call.sys sys_kind.cond_signal)
         else
          ((((run_opt_cb w cb_kind.queue_push b.cbs.queue_push buf b 0).1.log
            (ext_call.sys sys_kind.calloc)).set_buf buf
              { (run_opt_cb w cb_kind.queue_push b.cbs.queue_push buf b 0).2.1 with
                ref_count := uint_inc
                  (run_opt_cb w cb_kind.queue_push b.cbs.queue_push buf b 0).2.1.ref_count
              }).set_queue queue
              { q with buffers := q.buffers ++ [buf], count := uint_inc q.count }).log
                (ext_call.sys sys_kind.evt_signal), 0) := by
      simp only [vbuf_queue_push_tail, hb, hr, if_false, sys_call_snd, he, ne_eq,
        not_true_eq_false, hq2]
      simp only [vbuf_ref, hbuf, if_false, sys_call_fst, log_bufs, s2 buf, if_true]
    rw [heq]
    generalize run_opt_cb w cb_kind.queue_push b.cbs.queue_push buf b 0 = r at *
    have hbo : backend_only { b with ref_count := uint_inc b.ref_count }
        { r.2.1 with ref_count := uint_inc r.2.1.ref_count } := by
      rw [(backend_only_fields s1).1]
      unfold backend_only at s1 ⊢
      rw [s1]
    refine ⟨by simp [s3], by simp [s6], by simp [s5], fun j hj => by simp [hj, s4],
      fun i hi => by simp [hi, s2 i],
      Or.inl ⟨rfl, by simp, _, by simp, hbo⟩, fun _ _ => rfl, fun _ => Or.inl rfl⟩
  · have heq : vbuf_queue_push_tail w queue buf =
        ((run_opt_cb w cb_kind.queue_push b.cbs.queue_push buf b 0).1.log
          (ext_call.sys sys_kind.calloc), -ENOMEM) := by
      simp only [vbuf_queue_push_tail, hb, hr, if_false, sys_call_snd, he, ne_eq,
        not_false_eq_true, if_true, sys_call_fst]
    rw [heq]
    generalize run_opt_cb w cb_kind.queue_push b.cbs.queue_push buf b 0 = r at *
    refine ⟨by simp [s3], by simp [s6], by simp [s5], fun j _ => by simp [s4],
      fun i hi => by simp [hi, s2 i],
      Or.inr ⟨by show -ENOMEM < 0; decide, by simp [s4, hq], r.2.1, by simp [s2 buf], s1⟩,
      fun _ hsys => ?_, fun _ => Or.inr rfl⟩
    rw [s6] at he
    exact absurd (hsys _) he

/-- On a queue that is not full, `vbuf_queue_push` is its insertion part. -/
theorem push_not_full (w : World) (queue buf : Nat) (q : vbuf_queue) (hqueue : queue ≠ 0)
    (hbuf : buf ≠ 0) (hq : w.queues queue = some q)
    (hroom : ¬ (q.max_count > 0 ∧ q.count = q.max_count)) :
    vbuf_queue_push w queue buf = vbuf_queue_push_tail w queue buf := by
  simp only [vbuf_queue_push, hqueue, hbuf, if_false, hq]
  rw [if_neg hroom]

/-- On a full bounded queue that drops, when the buffer of the oldest entry is live with a
`queue_pop` callback that is `NULL` or returns 0, `vbuf_queue_push` pops that entry,
releases its buffer and then inserts. -/
theorem push_full_drop (w : World) (queue buf : Nat) (q : vbuf_queue) (id : Nat)
    (rest : List Nat) (b0 : vbuf_buffer) (hqueue : queue ≠ 0) (hbuf : buf ≠ 0) (hid : id ≠ 0)
    (hq : w.queues queue = some q) (hmax : 0 < q.max_count) (hfull : q.count = q.max_count)
    (hdrop : q.drop_when_full ≠ 0) (hl : q.buffers = id :: rest) (hb0 : w.bufs id = some b0)
    (hpop : cb_zero b0.cbs.queue_pop) :
    vbuf_queue_push w queue buf =
      vbuf_queue_push_tail (vbuf_unref (vbuf_queue_pop w queue 0).1 id).1 queue buf := by
  have hp := (pop_head w queue 0 q id rest b0 hqueue hq hl (by omega) hb0 hpop).1
  have h1 : (vbuf_queue_pop w queue 0).2.1 = 0 := by rw [hp]
  have h2 : (vbuf_queue_pop w queue 0).2.2 = some id := by rw [hp]
  have hc : q.max_count > 0 ∧ q.count = q.max_count := ⟨hmax, hfull⟩
  simp only [vbuf_queue_push, hqueue, hbuf, if_false, hq]
  rw [if_pos hc, if_pos hdrop]
  simp only [h1, h2, Option.getD_some, lt_irrefl, false_and, if_false, ne_eq, hid,
    not_false_eq_true, if_true]

/-! ## Queues: `vbuf_queue_peek` -/

theorem set_queue_self (w : World) (j : Nat) (q : vbuf_queue) (h : w.queues j = some q) :
    w.set_queue j q = w := by
  refine World.ext_fields (fun _ => rfl) (fun _ => rfl) ?_ rfl rfl rfl rfl
  intro i
  simp only [set_queue_queues]
  split
  · next hi => rw [hi, h]
  · rfl

theorem set_queue_set_queue (w : World) (j : Nat) (q q' : vbuf_queue) :
    (w.set_queue j q).set_queue j q' = w.set_queue j q' := by
  refine World.ext_fields (fun _ => rfl) (fun _ => rfl) ?_ rfl rfl rfl rfl
  intro i
  simp only [set_queue_queues]
  split <;> rfl

theorem unref_all_set_queue (j : Nat) (q : vbuf_queue) (l : List Nat) :
    ∀ w : World, unref_all (w.set_queue j q) l = (unref_all w l).set_queue j q := by
  induction l with
  | nil => intro w; rfl
  | cons x xs ih =>
    intro w
    simp only [unref_all, unref_set_queue]
    exact ih _

/-- The loop of `vbuf_queue_flush` on a queue in order: the buffers are released one
after the other, and the queue is empty at the end. -/
theorem flush_loop_eq (queue : Nat) (l : List Nat) :
    ∀ (w : World) (q : vbuf_queue), w.queues queue = some q → q.buffers = l →
      q.count = l.length → l.length < 4294967296 →
      vbuf_queue_flush_loop w queue l =
        (unref_all w l).set_queue queue { q with buffers := [], count := 0 } := by
  induction l with
  | nil =>
    intro w q hq hl hc _
    have hq0 : ({ q with buffers := [], count := 0 } : vbuf_queue) = q := by
      cases q
      simp only [List.length_nil] at hl hc
      simp only [hl, hc]
    rw [hq0]
    exact (set_queue_self w queue q hq).symm
  | cons x xs ih =>
    intro w q hq hl hc hlen
    simp only [List.length_cons] at hc hlen
    have hdec : uint_dec q.count = xs.length := by
      rw [uint_dec_eq _ (by omega) (by omega)]
      omega
    simp only [vbuf_queue_flush_loop, hq, unref_set_queue, unref_all]
    rw [ih _ { q with buffers := xs, count := uint_dec q.count } (by simp) rfl hdec (by omega),
      unref_all_set_queue, set_queue_set_queue]

/-- The function `vbuf_queue_flush` on a queue in order. -/
theorem flush_eq (w : World) (queue : Nat) (q : vbuf_queue) (hqueue : queue ≠ 0)
    (hq : w.queues queue = some q) (hwf : q.count = q.buffers.length)
    (hlt : q.count < 4294967296) :
    vbuf_queue_flush w queue =
      ((unref_all w q.buffers).set_queue queue { q with buffers := [], count := 0 }, 0) := by
  by_cases hc : q.count = 0
  · have hl : q.buffers = [] := List.length_eq_zero.mp (by omega)
    have hq0 : ({ q with buffers := [], count := 0 } : vbuf_queue) = q := by
      cases q
      simp only at hl hc
      simp only [hl, hc]
    simp only [vbuf_queue_flush, hqueue, if_false, hq, hc, if_true]
    rw [hq0, hl]
    simp only [unref_all]
    rw [set_queue_self w queue q hq]
  · simp only [vbuf_queue_flush, hqueue, if_false, hq, hc]
    rw [flush_loop_eq queue q.buffers w q hq rfl hwf (by omega)]

/-- The function `vbuf_unref` on an address without a live buffer changes nothing. -/
theorem unref_dead (w : World) (buf : Nat) (hb : w.bufs buf = none) :
    (vbuf_unref w buf).1 = w := by
  by_cases hbuf : buf = 0
  · simp only [vbuf_unref, hbuf, if_true]
  by_cases hisref : (vbuf_is_ref w buf).2 = 0
  · simp only [vbuf_unref, hbuf, hisref, if_true, if_false]
  · simp only [vbuf_unref, hbuf, hisref, hb, if_false]

/-- Releasing buffers does not touch the queues, the answers of the system or the
allocation mark. -/
theorem unref_all_frame (l : List Nat) :
    ∀ w : World, (unref_all w l).queues = w.queues ∧ (unref_all w l).env = w.env ∧
      (unref_all w l).next = w.next := by
  induction l with
  | nil => intro w; exact ⟨rfl, rfl, rfl⟩
  | cons x xs ih =>
    intro w
    obtain ⟨h1, h2, h3⟩ := ih (vbuf_unref w x).1
    obtain ⟨u1, u2, u3, -⟩ := unref_frame w x
    simp only [unref_all]
    exact ⟨h1.trans u1, h2.trans u2, h3.trans u3⟩

/-- Releasing buffers does not bring a buffer to life. -/
theorem unref_all_none (l : List Nat) :
    ∀ (w : World) (id : Nat), w.bufs id = none → (unref_all w l).bufs id = none := by
  induction l with
  | nil => intro w id h; exact h
  | cons x xs ih =>
    intro w id h
    simp only [unref_all]
    apply ih
    by_cases hx : id = x
    · rw [← hx, unref_dead w id h]; exact h
    · rw [(unref_frame w x).2.2.2 id hx]; exact h

/-- Releasing the buffers of a list takes from a buffer one reference for each of its
occurrences in the list, as long as it has that many: if the buffer is still there, that
is its count. -/
theorem unref_all_count (l : List Nat) :
    ∀ (w : World) (id : Nat) (b : vbuf_buffer), id ≠ 0 → w.bufs id = some b →
      b.ref_count < 4294967296 → l.count id ≤ b.ref_count →
      ∀ b', (unref_all w l).bufs id = some b' → b'.ref_count = b.ref_count - l.count id := by
  induction l with
  | nil =>
    intro w id b _ hb _ _ b' hb'
    simp only [unref_all] at hb'
    rw [hb] at hb'
    cases hb'
    simp
  | cons x xs ih =>
    intro w id b hid hb hlt hle b' hb'
    simp only [unref_all] at hb'
    by_cases hx : x = id
    · subst hx
      simp only [List.count_cons_self] at hle ⊢
      cases hu : (vbuf_unref w x).1.bufs x with
      | none =>
        rw [unref_all_none xs _ x hu] at hb'
        exact Option.noConfusion hb'
      | some b1 =>
        obtain ⟨h1, -, -⟩ := (unref_self w x b hid hb hlt).2.1 (by omega) b1 hu
        rw [ih _ x b1 hid hu (by omega) (by omega) b' hb', h1]
        omega
    · have hc : (x :: xs).count id = xs.count id := List.count_cons_of_ne (Ne.symm hx) xs
      rw [hc] at hle ⊢
      have hu : (vbuf_unref w x).1.bufs id = some b := by
        rw [(unref_frame w x).2.2.2 id (Ne.symm hx)]; exact hb
      exact ih _ id b hid hu hlt hle b' hb'

/-- A buffer with more references than occurrences in the list is still there after the
buffers of the list have been released, with that many references less and nothing else
changed. -/
theorem unref_all_keep (l : List Nat) :
    ∀ (w : World) (id : Nat) (b : vbuf_buffer), id ≠ 0 → w.bufs id = some b →
      b.ref_count < 4294967296 → l.count id < b.ref_count →
      (unref_all w l).bufs id = some { b with ref_count := b.ref_count - l.count id } := by
  induction l with
  | nil =>
    intro w id b _ hb _ _
    simp only [unref_all, List.count_nil, Nat.sub_zero]
    exact hb
  | cons x xs ih =>
    intro w id b hid hb hlt hle
    simp only [unref_all]
    by_cases hx : x = id
    · subst hx
      simp only [List.count_cons_self] at hle ⊢
      have hu := unref_nonlast w x b hid hb (by omega) hlt
      rw [hu, ih _ x { b with ref_count := b.ref_count - 1 } hid (by simp) (by simp; omega)
        (by simp; omega)]
      simp only [Option.some.injEq]
      congr 1
      omega
    · have hc : (x :: xs).count id = xs.count id := List.count_cons_of_ne (Ne.symm hx) xs
      rw [hc] at hle ⊢
      have hu : (vbuf_unref w x).1.bufs id = some b := by
        rw [(unref_frame w x).2.2.2 id (Ne.symm hx)]; exact hb
      exact ih _ id b hid hu hlt hle

/-! ## Queues: order of the entries -/

/-- A push that returns 0 was given a buffer that is live and not `NULL`. -/
theorem push_zero_live (w : World) (queue buf : Nat) (q : vbuf_queue) (hqueue : queue ≠ 0)
    (hq : w.queues queue = some q) (hroom : ¬ (q.max_count > 0 ∧ q.count = q.max_count))
    (h0 : (vbuf_queue_push w queue buf).2 = 0) : buf ≠ 0 ∧ ∃ b, w.bufs buf = some b := by
  have hbuf : buf ≠ 0 := by
    intro hb
    simp only [vbuf_queue_push, hqueue, hb, if_false, if_true] at h0
    exact absurd h0 (by decide)
  refine ⟨hbuf, ?_⟩
  rw [push_not_full w queue buf q hqueue hbuf hq hroom] at h0
  cases hb : w.bufs buf with
  | none =>
    simp only [vbuf_queue_push_tail, hb] at h0
    exact absurd h0 (by decide)
  | some b => exact ⟨b, rfl⟩

theorem push_all_ready (queue : Nat) (hqueue : queue ≠ 0) (bs : List Nat) :
    ∀ (w : World) (l : List Nat), fifo_ready w queue l → l.length + bs.length < 4294967296 →
      (∀ id ∈ bs, ∀ b, w.bufs id = some b → cb_zero b.cbs.queue_pop) →
      pushes_ok w queue bs → fifo_ready (push_all w queue bs).1 queue (l ++ bs) := by
  induction bs with
  | nil =>
    intro w l hr _ _ _
    simpa only [push_all, List.append_nil] using hr
  | cons x xs ih =>
    intro w l hr hlen hpop hok
    obtain ⟨q, hq, hl, hc, hlive⟩ := hr
    obtain ⟨hnf, h0, hrest⟩ := hok
    simp only [List.length_cons] at hlen
    have hroom : ¬ (q.max_count > 0 ∧ q.count = q.max_count) := fun h => hnf ⟨q, hq, h⟩
    obtain ⟨hx, bx, hbx⟩ := push_zero_live w queue x q hqueue hq hroom h0
    have hpt := push_not_full w queue x q hqueue hx hq hroom
    obtain ⟨-, -, -, -, p5, p6, -, -⟩ := push_tail_spec w queue x q bx hx hq hbx
    rw [← hpt] at p5 p6
    have key : fifo_ready (vbuf_queue_push w queue x).1 queue (l ++ [x]) ∧
        ∀ id ∈ xs, ∀ b, (vbuf_queue_push w queue x).1.bufs id = some b →
          cb_zero b.cbs.queue_pop := by
      rcases p6 with ⟨-, h2, b', hb', hbo⟩ | ⟨hneg, -⟩
      · have hcbs : b'.cbs = bx.cbs := (backend_only_fields hbo).2.2.2.1
        have hzx : cb_zero b'.cbs.queue_pop := by
          rw [hcbs]; exact hpop x (List.mem_cons_self x xs) bx hbx
        constructor
        · refine ⟨_, h2, by simp only [hl], ?_, ?_⟩
          · simp only [List.length_append, List.length_singleton]
            rw [uint_inc_eq _ (by omega), hc]
          · intro id hid
            by_cases hix : id = x
            · rw [hix]; exact ⟨b', hb', hzx⟩
            · rw [p5 id hix]
              rcases List.mem_append.mp hid with h | h
              · exact hlive id h
              · exact absurd (List.mem_singleton.mp h) hix
        · intro id hid b hb
          by_cases hix : id = x
          · rw [hix, hb'] at hb
            cases hb
            exact hzx
          · rw [p5 id hix] at hb
            exact hpop id (List.mem_cons_of_mem x hid) b hb
      · omega
    have := ih (vbuf_queue_push w queue x).1 (l ++ [x]) key.1
      (by simp only [List.length_append, List.length_singleton]; omega) key.2 hrest
    simpa only [push_all, List.append_assoc, List.singleton_append] using this

theorem pop_n_ready (queue : Nat) (hqueue : queue ≠ 0) (n : Nat) :
    ∀ (w : World) (l : List Nat), fifo_ready w queue l → l.length < 4294967296 →
      n ≤ l.length →
      (pop_n w queue n).2 = (l.take n).map (fun id => ((0 : Int), some id)) := by
  induction n with
  | zero => intro w l _ _ _; rfl
  | succ n ih =>
    intro w l hr hlen hn
    obtain ⟨q, hq, hl, hc, hlive⟩ := hr
    cases l with
    | nil => simp at hn
    | cons id rest =>
      simp only [List.length_cons] at hlen hn hc
      obtain ⟨b, hb, hcb⟩ := hlive id (List.mem_cons_self id rest)
      obtain ⟨p1, p2, -, -, -, -, p7, b', hb', hbo, -⟩ :=
        pop_head w queue 0 q id rest b hqueue hq hl (by omega) hb hcb
      have hr' : fifo_ready (vbuf_queue_pop w queue 0).1 queue rest := by
        refine ⟨_, p2, rfl, ?_, ?_⟩
        · show uint_dec q.count = rest.length
          rw [uint_dec_eq _ (by omega) (by omega)]; omega
        · intro i hi
          by_cases hii : i = id
          · rw [hii]
            exact ⟨b', hb', by rw [(backend_only_fields hbo).2.2.2.1]; exact hcb⟩
          · rw [p7 i hii]
            exact hlive i (List.mem_cons_of_mem id hi)
      have := ih (vbuf_queue_pop w queue 0).1 rest hr' (by omega) (by omega)
      simp only [pop_n, this, p1, List.take_succ_cons, List.map_cons]

/-! ## Queues: what each call may do to the queues -/

theorem ref_queues (v : World) (buf : Nat) : (vbuf_ref v buf).1.queues = v.queues := by
  simp only [vbuf_ref]
  split
  · rfl
  · split <;> rfl

/-- The insertion part of `vbuf_queue_push` leaves the queues alone or appends one entry
to the queue it is given. -/
theorem push_tail_queues (w : World) (queue buf : Nat) :
    (vbuf_queue_push_tail w queue buf).1.queues = w.queues ∨
    ∃ q, w.queues queue = some q ∧ ∀ j, (vbuf_queue_push_tail w queue buf).1.queues j =
      if j = queue then some { q with buffers := q.buffers ++ [buf], count := uint_inc q.count }
      else w.queues j := by
  cases hb : w.bufs buf with
  | none =>
    left
    simp only [vbuf_queue_push_tail, hb]
  | some b =>
    obtain ⟨-, -, -, s4, -⟩ := run_opt_cb_spec w cb_kind.queue_push b.cbs.queue_push buf b 0 hb
    simp only [vbuf_queue_push_tail, hb]
    generalize run_opt_cb w cb_kind.queue_push b.cbs.queue_push buf b 0 = r at *
    have hq2 : (vbuf_ref (r.1.log (ext_call.sys sys_kind.calloc)) buf).1.queues = w.queues := by
      rw [ref_queues]
      simp [s4]
    by_cases hr : r.2.2 < 0
    · left
      simp only [hr, if_true]
      exact s4
    by_cases he : r.1.env r.1.trace.length = 0
    · simp only [hr, if_false, sys_call_snd, sys_call_fst, he, ne_eq, not_true_eq_false]
      cases hq : w.queues queue with
      | none =>
        left
        have h3 : (vbuf_ref (r.1.log (ext_call.sys sys_kind.calloc)) buf).1.queues queue =
            none := by rw [hq2, hq]
        simp only [h3]
        exact hq2
      | some q =>
        right
        have h3 : (vbuf_ref (r.1.log (ext_call.sys sys_kind.calloc)) buf).1.queues queue =
            some q := by rw [hq2, hq]
        simp only [h3]
        refine ⟨q, rfl, fun j => ?_⟩
        split <;> simp [hq2]
    · left
      simp only [hr, if_false, sys_call_snd, sys_call_fst, he, ne_eq, not_false_eq_true, if_true,
        log_queues]
      exact s4

/-- The function `vbuf_queue_pop` leaves the queues alone or removes the oldest entry of
the queue it is given. -/
theorem pop_queues (w : World) (queue : Nat) (t : Int) :
    (vbuf_queue_pop w queue t).1.queues = w.queues ∨
    ∃ q id rest, w.queues queue = some q ∧ q.count ≠ 0 ∧ q.buffers = id :: rest ∧
      ∀ j, (vbuf_queue_pop w queue t).1.queues j =
        if j = queue then some { q with buffers := rest, count := uint_dec q.count }
        else w.queues j := by
  have htake : ∀ v : World, v.queues = w.queues →
      (vbuf_queue_pop_take v queue t).1.queues = w.queues ∨
      ∃ q id rest, w.queues queue = some q ∧ q.count ≠ 0 ∧ q.buffers = id :: rest ∧
        ∀ j, (vbuf_queue_pop_take v queue t).1.queues j =
          if j = queue then some { q with buffers := rest, count := uint_dec q.count }
          else w.queues j := by
    intro v hv
    cases hq : w.queues queue with
    | none =>
      left
      have hq' : v.queues queue = none := by rw [hv, hq]
      simp only [vbuf_queue_pop_take, hq']
      exact hv
    | some q =>
      have hq' : v.queues queue = some q := by rw [hv, hq]
      by_cases hc : q.count = 0
      · left
        simp only [vbuf_queue_pop_take, hq', hc, if_true]
        exact hv
      cases hl : q.buffers with
      | nil =>
        left
        simp only [vbuf_queue_pop_take, hq', hc, if_false, hl]
        exact hv
      | cons id rest =>
        right
        refine ⟨q, id, rest, rfl, hc, hl, ?_⟩
        have hset : ∀ j, (v.set_queue queue
            { q with buffers := rest, count := uint_dec q.count }).queues j =
            if j = queue then some { q with buffers := rest, count := uint_dec q.count }
            else w.queues j := by
          intro j
          simp only [set_queue_queues, hv]
        cases hb : v.bufs id with
        | none =>
          simp only [vbuf_queue_pop_take, hq', hc, if_false, hl, set_queue_bufs, hb]
          exact hset
        | some b =>
          cases hf : b.cbs.queue_pop with
          | none =>
            simp only [vbuf_queue_pop_take, hq', hc, if_false, hl, set_queue_bufs, hb, hf]
            exact hset
          | some f =>
            simp only [vbuf_queue_pop_take, hq', hc, if_false, hl, set_queue_bufs, hb, hf]
            obtain ⟨-, -, -, s4, -⟩ := run_cb_spec
              (v.set_queue queue { q with buffers := rest, count := uint_dec q.count })
              cb_kind.queue_pop f id b t
            generalize run_cb
              (v.set_queue queue { q with buffers := rest, count := uint_dec q.count })
              cb_kind.queue_pop f id b t = r at *
            intro j
            split
            · rw [(unref_frame r.1 id).1, s4]
              exact hset j
            · rw [s4]
              exact hset j
  by_cases hqueue : queue = 0
  · left
    simp only [vbuf_queue_pop, hqueue, if_true]
  cases hq : w.queues queue with
  | none =>
    left
    simp only [vbuf_queue_pop, hqueue, if_false, hq]
  | some q =>
    by_cases hc : q.count = 0
    · by_cases ht : t = 0
      · left
        simp only [vbuf_queue_pop, hqueue, if_false, hq, hc, ht, if_true]
      · simp only [vbuf_queue_pop, hqueue, if_false, hq, hc, ht, if_true]
        have hr : (if t > 0 then sys_call w sys_kind.cond_timedwait
            else sys_call w sys_kind.cond_wait).1.queues = w.queues := by
          split <;> rfl
        generalize (if t > 0 then sys_call w sys_kind.cond_timedwait
            else sys_call w sys_kind.cond_wait) = r at *
        split
        · left; exact hr
        · split
          · left; exact hr
          · rw [← hq]
            exact htake r.1 hr
    · simp only [vbuf_queue_pop, hqueue, if_false, hq, hc]
      rw [← hq]
      exact htake w rfl

/-- The function `vbuf_queue_peek` leaves the queues alone. -/
theorem peek_queues (w : World) (queue index : Nat) (t : Int) :
    (vbuf_queue_peek w queue index t).1.queues = w.queues := by
  have htake : ∀ v : World, v.queues = w.queues →
      (vbuf_queue_peek_take v queue index t).1.queues = w.queues := by
    intro v hv
    cases hq : v.queues queue with
    | none => simp only [vbuf_queue_peek_take, hq]; exact hv
    | some q =>
      by_cases hc : q.count < uint_inc index
      · simp only [vbuf_queue_peek_take, hq, hc, if_true]; exact hv
      cases hw : peek_walk index q.buffers 0 with
      | none => simp only [vbuf_queue_peek_take, hq, hc, if_false, hw]; exact hv
      | some id =>
        cases hb : v.bufs id with
        | none => simp only [vbuf_queue_peek_take, hq, hc, if_false, hw, hb]; exact hv
        | some b =>
          cases hf : b.cbs.queue_peek with
          | none => simp only [vbuf_queue_peek_take, hq, hc, if_false, hw, hb, hf]; exact hv
          | some f =>
            simp only [vbuf_queue_peek_take, hq, hc, if_false, hw, hb, hf]
            exact (run_cb_spec v cb_kind.queue_peek f id b t).2.2.2.1.trans hv
  by_cases hqueue : queue = 0
  · simp only [vbuf_queue_peek, hqueue, if_true]
  cases hq : w.queues queue with
  | none => simp only [vbuf_queue_peek, hqueue, if_false, hq]
  | some q =>
    by_cases hc : q.count < uint_inc index
    · by_cases ht : t = 0
      · simp only [vbuf_queue_peek, hqueue, if_false, hq, hc, ht, if_true]
      · simp only [vbuf_queue_peek, hqueue, if_false, hq, hc, ht, if_true]
        have hr : (if t > 0 then sys_call w sys_kind.cond_timedwait
            else sys_call w sys_kind.cond_wait).1.queues = w.queues := by
          split <;> rfl
        generalize (if t > 0 then sys_call w sys_kind.cond_timedwait
            else sys_call w sys_kind.cond_wait) = r at *
        split
        · exact hr
        · split
          · exact hr
          · exact htake r.1 hr
    · simp only [vbuf_queue_peek, hqueue, if_false, hq, hc]
      exact htake w rfl

/-- On a queue with entries, `vbuf_queue_pop` removes the oldest one, whatever happens
with its buffer. -/
theorem pop_cons_queues (w : World) (queue : Nat) (t : Int) (q : vbuf_queue) (id : Nat)
    (rest : List Nat) (hqueue : queue ≠ 0) (hq : w.queues queue = some q) (hc : q.count ≠ 0)
    (hl : q.buffers = id :: rest) :
    ∀ j, (vbuf_queue_pop w queue t).1.queues j =
      if j = queue then some { q with buffers := rest, count := uint_dec q.count }
      else w.queues j := by
  rcases pop_queues w queue t with h | ⟨q', id', rest', hq', -, hl', h⟩
  · exfalso
    have h1 := congrFun h queue
    rw [hq] at h1
    revert h1
    cases hb : w.bufs id with
    | none =>
      simp only [vbuf_queue_pop, hqueue, if_false, hq, hc, vbuf_queue_pop_take, hl,
        set_queue_bufs, hb, set_queue_queues, if_true, Option.some.injEq]
      intro h1
      have := congrArg vbuf_queue.buffers h1
      simp only [hl] at this
      exact absurd (congrArg List.length this) (by simp)
    | some b =>
      cases hf : b.cbs.queue_pop with
      | none =>
        simp only [vbuf_queue_pop, hqueue, if_false, hq, hc, vbuf_queue_pop_take, hl,
          set_queue_bufs, hb, hf, set_queue_queues, if_true, Option.some.injEq]
        intro h1
        have := congrArg vbuf_queue.buffers h1
        simp only [hl] at this
        exact absurd (congrArg List.length this) (by simp)
      | some f =>
        simp only [vbuf_queue_pop, hqueue, if_false, hq, hc, vbuf_queue_pop_take, hl,
          set_queue_bufs, hb, hf]
        obtain ⟨-, -, -, s4, -⟩ := run_cb_spec
          (w.set_queue queue { q with buffers := rest, count := uint_dec q.count })
          cb_kind.queue_pop f id b t
        generalize run_cb
          (w.set_queue queue { q with buffers := rest, count := uint_dec q.count })
          cb_kind.queue_pop f id b t = r at *
        have hr : ∀ v : World, v.queues = r.1.queues → v.queues queue = some q → False := by
          intro v hv h1
          rw [hv, s4] at h1
          simp only [set_queue_queues, if_true, Option.some.injEq] at h1
          have := congrArg vbuf_queue.buffers h1
          simp only [hl] at this
          exact absurd (congrArg List.length this) (by simp)
        split
        · exact hr _ (unref_frame r.1 id).1
        · exact hr _ rfl
  · rw [hq] at hq'
    cases hq'
    rw [hl] at hl'
    cases hl'
    exact h

theorem flush_loop_other (queue j : Nat) (hj : j ≠ queue) (l : List Nat) :
    ∀ w : World, (vbuf_queue_flush_loop w queue l).queues j = w.queues j := by
  induction l with
  | nil => intro w; rfl
  | cons x xs ih =>
    intro w
    cases hq : w.queues queue with
    | none => simp only [vbuf_queue_flush_loop, hq]
    | some q =>
      simp only [vbuf_queue_flush_loop, hq]
      rw [ih, (unref_frame _ x).1]
      simp only [set_queue_queues, hj, if_false]

/-- A call on one queue leaves every other queue alone. -/
theorem queue_calls_other (w : World) (queue j : Nat) (hj : j ≠ queue) :
    (∀ buf, (vbuf_queue_push w queue buf).1.queues j = w.queues j) ∧
    (∀ t, (vbuf_queue_pop w queue t).1.queues j = w.queues j) ∧
    (vbuf_queue_flush w queue).1.queues j = w.queues j := by
  have hpop : ∀ t, (vbuf_queue_pop w queue t).1.queues j = w.queues j := by
    intro t
    rcases pop_queues w queue t with h | ⟨_, _, _, -, -, -, h⟩
    · rw [h]
    · rw [h j, if_neg hj]
  have htail : ∀ (v : World) (buf : Nat), (vbuf_queue_push_tail v queue buf).1.queues j =
      v.queues j := by
    intro v buf
    rcases push_tail_queues v queue buf with h | ⟨_, -, h⟩
    · rw [h]
    · rw [h j, if_neg hj]
  refine ⟨fun buf => ?_, hpop, ?_⟩
  · by_cases hqueue : queue = 0
    · simp only [vbuf_queue_push, hqueue, if_true]
    by_cases hbuf : buf = 0
    · simp only [vbuf_queue_push, hqueue, hbuf, if_true, if_false]
    cases hq : w.queues queue with
    | none => simp only [vbuf_queue_push, hqueue, hbuf, if_false, hq]
    | some q =>
      simp only [vbuf_queue_push, hqueue, hbuf, if_false, hq]
      split
      · split
        · rw [htail]
          split
          · exact hpop 0
          · split
            · rw [(unref_frame _ _).1]; exact hpop 0
            · exact hpop 0
        · rfl
      · exact htail w buf
  · by_cases hqueue : queue = 0
    · simp only [vbuf_queue_flush, hqueue, if_true]
    cases hq : w.queues queue with
    | none => simp only [vbuf_queue_flush, hqueue, if_false, hq]
    | some q =>
      simp only [vbuf_queue_flush, hqueue, if_false, hq]
      split
      · rfl
      · exact flush_loop_other queue j hj q.buffers w

/-- The function `vbuf_queue_push` keeps the invariant of the queue it is given, as long
as an unbounded queue is not pushed to at `UINT_MAX` entries. -/
theorem push_good (w : World) (queue buf m : Nat) (q : vbuf_queue) (hm : m < 4294967296)
    (hq : w.queues queue = some q) (hg : queue_good m q)
    (hguard : q.max_count = 0 → q.count < 4294967295) :
    ∃ q', (vbuf_queue_push w queue buf).1.queues queue = some q' ∧ queue_good m q' := by
  obtain ⟨g1, g2, g3, g4⟩ := hg
  have htail : ∀ (v : World) (q1 : vbuf_queue), v.queues queue = some q1 → queue_good m q1 →
      q1.count < 4294967295 → (m > 0 → q1.buffers.length < m) →
      ∃ q', (vbuf_queue_push_tail v queue buf).1.queues queue = some q' ∧ queue_good m q' := by
    intro v q1 hq1 hg1 hlt hroom
    rcases push_tail_queues v queue buf with h | ⟨q2, hq2, h⟩
    · exact ⟨q1, by rw [h, hq1], hg1⟩
    · rw [hq1] at hq2
      cases hq2
      refine ⟨{ q1 with buffers := q1.buffers ++ [buf], count := uint_inc q1.count },
        by rw [h queue, if_pos rfl], hg1.1, ?_, ?_, ?_⟩
      · show uint_inc q1.count = (q1.buffers ++ [buf]).length
        simp only [List.length_append, List.length_singleton]
        rw [uint_inc_eq _ hlt, hg1.2.1]
      · show uint_inc q1.count < 4294967296
        rw [uint_inc_eq _ hlt]; omega
      · intro hpos
        show (q1.buffers ++ [buf]).length ≤ m
        simp only [List.length_append, List.length_singleton]
        have := hroom hpos
        omega
  by_cases hqueue : queue = 0
  · exact ⟨q, by simp only [vbuf_queue_push, hqueue, if_true]; rw [← hqueue]; exact hq,
      g1, g2, g3, g4⟩
  by_cases hbuf : buf = 0
  · exact ⟨q, by simp only [vbuf_queue_push, hqueue, hbuf, if_true, if_false]; exact hq,
      g1, g2, g3, g4⟩
  by_cases hfull : q.max_count > 0 ∧ q.count = q.max_count
  · by_cases hdrop : q.drop_when_full ≠ 0
    · cases hl : q.buffers with
      | nil =>
        rw [hl] at g2
        simp only [List.length_nil] at g2
        omega
      | cons id rest =>
        rw [hl] at g2 g4
        simp only [List.length_cons] at g2 g4
        have hp := pop_cons_queues w queue 0 q id rest hqueue hq (by omega) hl queue
        rw [if_pos rfl] at hp
        have hdec : uint_dec q.count = q.count - 1 := uint_dec_eq _ (by omega) g3
        simp only [vbuf_queue_push, hqueue, hbuf, if_false, hq]
        rw [if_pos hfull, if_pos hdrop]
        apply htail _ { q with buffers := rest, count := uint_dec q.count }
        · split
          · exact hp
          · split
            · rw [(unref_frame _ _).1]; exact hp
            · exact hp
        · exact ⟨g1, by show uint_dec q.count = rest.length; omega,
            by show uint_dec q.count < 4294967296; omega, fun _ => by show rest.length ≤ m; omega⟩
        · show uint_dec q.count < 4294967295
          omega
        · intro _
          show rest.length < m
          omega
    · refine ⟨q, ?_, g1, g2, g3, g4⟩
      simp only [vbuf_queue_push, hqueue, hbuf, if_false, hq]
      rw [if_pos hfull, if_neg hdrop]
      exact hq
  · rw [push_not_full w queue buf q hqueue hbuf hq hfull]
    apply htail w q hq ⟨g1, g2, g3, g4⟩
    · by_cases h0 : q.max_count = 0
      · exact hguard h0
      · have := g4 (by omega)
        omega
    · intro hpos
      have := g4 hpos
      omega

/-- The function `vbuf_queue_pop` keeps the invariant of the queue it is given. -/
theorem pop_good (w : World) (queue m : Nat) (t : Int) (q : vbuf_queue)
    (hq : w.queues queue = some q) (hg : queue_good m q) :
    ∃ q', (vbuf_queue_pop w queue t).1.queues queue = some q' ∧ queue_good m q' := by
  obtain ⟨g1, g2, g3, g4⟩ := hg
  rcases pop_queues w queue t with h | ⟨q1, id, rest, hq1, hc, hl, h⟩
  · exact ⟨q, by rw [h, hq], g1, g2, g3, g4⟩
  · rw [hq] at hq1
    cases hq1
    rw [hl] at g2 g4
    simp only [List.length_cons] at g2 g4
    have hdec : uint_dec q.count = q.count - 1 := uint_dec_eq _ (by omega) g3
    refine ⟨{ q with buffers := rest, count := uint_dec q.count },
      by rw [h queue, if_pos rfl], g1, ?_, ?_, ?_⟩
    · show uint_dec q.count = rest.length
      omega
    · show uint_dec q.count < 4294967296
      omega
    · intro hpos
      show rest.length ≤ m
      have := g4 hpos
      omega

/-- The function `vbuf_queue_flush` keeps the invariant of the queue it is given. -/
theorem flush_good (w : World) (queue m : Nat) (q : vbuf_queue)
    (hq : w.queues queue = some q) (hg : queue_good m q) :
    ∃ q', (vbuf_queue_flush w queue).1.queues queue = some q' ∧ queue_good m q' := by
  obtain ⟨g1, g2, g3, g4⟩ := hg
  by_cases hqueue : queue = 0
  · exact ⟨q, by simp only [vbuf_queue_flush, hqueue, if_true]; rw [← hqueue]; exact hq,
      g1, g2, g3, g4⟩
  · rw [flush_eq w queue q hqueue hq g2 g3]
    exact ⟨{ q with buffers := [], count := 0 }, by simp, g1, rfl,
      by show (0 : Nat) < 4294967296; decide, fun _ => Nat.zero_le _⟩

/-- Every queue that satisfies the invariant at the start satisfies it in every state
reached by the calls of `queue_reach`. -/
theorem reach_good {w0 w : World} (h : queue_reach w0 w) (m : Nat) (hm : m < 4294967296)
    (j : Nat) : (∃ q, w0.queues j = some q ∧ queue_good m q) →
    ∃ q, w.queues j = some q ∧ queue_good m q := by
  intro h0
  induction h with
  | init => exact h0
  | @push w queue buf _ hguard ih =>
    obtain ⟨q, hq, hg⟩ := ih
    by_cases hj : j = queue
    · subst hj
      exact push_good w j buf m q hm hq hg (hguard q hq)
    · exact ⟨q, by rw [(queue_calls_other w queue j hj).1 buf, hq], hg⟩
  | @pop w queue t _ ih =>
    obtain ⟨q, hq, hg⟩ := ih
    by_cases hj : j = queue
    · subst hj
      exact pop_good w j m t q hq hg
    · exact ⟨q, by rw [(queue_calls_other w queue j hj).2.1 t, hq], hg⟩
  | @peek w queue index t _ ih =>
    obtain ⟨q, hq, hg⟩ := ih
    exact ⟨q, by rw [peek_queues, hq], hg⟩
  | @flush w queue _ ih =>
    obtain ⟨q, hq, hg⟩ := ih
    by_cases hj : j = queue
    · subst hj
      exact flush_good w j m q hq hg
    · exact ⟨q, by rw [(queue_calls_other w queue j hj).2.2, hq], hg⟩
  | @abort w queue _ ih =>
    obtain ⟨q, hq, hg⟩ := ih
    refine ⟨q, ?_, hg⟩
    simp only [vbuf_queue_abort]
    split
    · exact hq
    · split
      · exact hq
      · exact hq

/-- A successful `vbuf_queue_new` leaves an empty queue with the parameters given. -/
theorem queue_new_spec (w : World) (max_count : Nat) (drop_when_full : Int) (w0 : World)
    (queue : Nat) (hnew : vbuf_queue_new w max_count drop_when_full = (w0, 0, some queue)) :
    w0.queues queue = some ⟨0, max_count, drop_when_full, []⟩ := by
  simp only [vbuf_queue_new, vbuf_queue_new_error, sys_call_fst, sys_call_snd] at hnew
  split at hnew
  · have := congrArg (fun x => x.2.1) hnew
    simp only at this
    exact absurd this (by decide)
  · split at hnew
    · next h1 =>
      have := congrArg (fun x => x.2.1) hnew
      simp only at this
      omega
    · split at hnew
      · next h2 =>
        have := congrArg (fun x => x.2.1) hnew
        simp only at this
        omega
      · split at hnew
        · have := congrArg (fun x => x.2.1) hnew
          simp only at this
          exact absurd this (by decide)
        · have h1 := congrArg (fun x => x.1) hnew
          have h2 := congrArg (fun x => x.2.2) hnew
          simp only [Option.some.injEq] at h1 h2
          rw [← h1, ← h2]
          simp

/-- On an unbounded queue, `n` pushes of a live buffer whose `queue_push` callback is
`NULL` or reports success, with no system call failing, append `n` entries, and the
stored count is the number of entries modulo `2^32`. -/
theorem push_n_spec (queue buf : Nat) (hqueue : queue ≠ 0) (hbuf : buf ≠ 0) (n : Nat) :
    ∀ (w : World) (q : vbuf_queue) (b : vbuf_buffer), w.queues queue = some q →
      q.max_count = 0 → q.count < 4294967296 → w.bufs buf = some b →
      cb_ok b.cbs.queue_push → (∀ t, w.env t = 0) →
      (push_n w queue buf n).queues queue =
        some { q with buffers := q.buffers ++ List.replicate n buf,
                      count := (q.count + n) % 4294967296 } := by
  induction n with
  | zero =>
    intro w q b hq _ hc _ _ _
    simp only [push_n, List.replicate_zero, List.append_nil, Nat.add_zero,
      Nat.mod_eq_of_lt hc]
    exact hq
  | succ n ih =>
    intro w q b hq hmax hc hb hcb hsys
    have hnf : ¬ (q.max_count > 0 ∧ q.count = q.max_count) := by omega
    have hpt := push_not_full w queue buf q hqueue hbuf hq hnf
    obtain ⟨-, p2, -, -, -, p6, p7, -⟩ := push_tail_spec w queue buf q b hbuf hq hb
    have h0 := p7 hcb hsys
    rw [← hpt] at p2 p6 h0
    rcases p6 with ⟨-, h2, b', hb', hbo⟩ | ⟨hneg, -⟩
    · have hcbs : b'.cbs = b.cbs := (backend_only_fields hbo).2.2.2.1
      have hlt : uint_inc q.count < 4294967296 := Nat.mod_lt _ (by decide)
      have := ih (vbuf_queue_push w queue buf).1 _ b' h2 hmax hlt hb' (by rw [hcbs]; exact hcb)
        (fun t => by rw [p2]; exact hsys t)
      simp only [push_n]
      rw [this]
      have hcount : (uint_inc q.count + n) % 4294967296 = (q.count + (n + 1)) % 4294967296 := by
        unfold uint_inc
        omega
      simp only [hcount, List.append_assoc, List.singleton_append, List.replicate_succ]
    · omega

/-! ## References: counting the entries -/

theorem entries_congr (w w' : World) (id : Nat) (n : Nat)
    (h : ∀ j, j < n → w'.queues j = w.queues j) : entries w' id n = entries w id n := by
  induction n with
  | zero => rfl
  | succ n ih =>
    simp only [entries]
    rw [ih (fun j hj => h j (by omega)), h n (by omega)]

/-- When two worlds differ in the queue at address `k` only, their numbers of entries
differ by what that queue holds. -/
theorem entries_update (w w' : World) (id k : Nat) (n : Nat) (hk : k < n)
    (h : ∀ j, j ≠ k → w'.queues j = w.queues j) :
    entries w' id n + qcount (w.queues k) id = entries w id n + qcount (w'.queues k) id := by
  induction n with
  | zero => omega
  | succ n ih =>
    simp only [entries]
    by_cases hkn : k = n
    · subst hkn
      rw [entries_congr w w' id k (fun j hj => h j (by omega))]
      omega
    · have := ih (by omega)
      rw [h n (fun hn => hkn hn.symm)]
      omega

theorem qcount_le_entries (w : World) (id k : Nat) (n : Nat) (hk : k < n) :
    qcount (w.queues k) id ≤ entries w id n := by
  induction n with
  | zero => omega
  | succ n ih =>
    simp only [entries]
    by_cases hkn : k = n
    · subst hkn; omega
    · have := ih (by omega); omega

theorem unbump_bump (h : Nat → Nat) (id : Nat) : unbump (bump h id) id = h := by
  funext i
  simp only [unbump, bump]
  split <;> simp

/-- The accounting only looks at the buffers and the queues. -/
theorem refs_inv_congr {N : Nat} {w w' : World} {h : Nat → Nat} (hi : refs_inv N w h)
    (hq : w'.queues = w.queues) (hb : w'.bufs = w.bufs) : refs_inv N w' h := by
  have he : ∀ id, entries w' id N = entries w id N := fun id =>
    entries_congr w w' id N (fun j _ => by rw [hq])
  exact ⟨fun j hj => by rw [hq]; exact hi.queues_below j hj, by rw [hb]; exact hi.no_null,
    fun id b hl => by rw [hb] at hl; rw [he]; exact hi.live id b hl,
    fun id hd => by rw [hb] at hd; rw [he]; exact hi.dead id hd⟩

/-- A change of a live buffer that keeps its count and its callbacks keeps the
accounting. -/
theorem refs_inv_same {N : Nat} {w w' : World} {h : Nat → Nat} (hi : refs_inv N w h)
    (hq : w'.queues = w.queues) (buf : Nat) (b b' : vbuf_buffer) (hb : w.bufs buf = some b)
    (hb' : ∀ i, w'.bufs i = if i = buf then some b' else w.bufs i)
    (hrc : b'.ref_count = b.ref_count) (hcbs : b'.cbs = b.cbs) : refs_inv N w' h := by
  have he : ∀ id, entries w' id N = entries w id N := fun id =>
    entries_congr w w' id N (fun j _ => by rw [hq])
  have hbuf : buf ≠ 0 := fun h0 => by
    rw [h0, hi.no_null] at hb; exact Option.noConfusion hb
  refine ⟨fun j hj => by rw [hq]; exact hi.queues_below j hj, ?_, ?_, ?_⟩
  · rw [hb' 0, if_neg (Ne.symm hbuf)]; exact hi.no_null
  · intro id c hl
    rw [hb' id] at hl
    rw [he]
    by_cases hid : id = buf
    · rw [if_pos hid] at hl
      cases hl
      rw [hid, hrc, hcbs]
      exact hi.live buf b hb
    · rw [if_neg hid] at hl
      exact hi.live id c hl
  · intro id hd
    rw [hb' id] at hd
    rw [he]
    by_cases hid : id = buf
    · rw [if_pos hid] at hd; exact Option.noConfusion hd
    · rw [if_neg hid] at hd
      exact hi.dead id hd

theorem queue_lt_of_live {N : Nat} {w : World} {h : Nat → Nat} (hi : refs_inv N w h)
    (queue : Nat) (q : vbuf_queue) (hq : w.queues queue = some q) : queue < N := by
  by_contra hcon
  rw [hi.queues_below queue (by omega)] at hq
  exact Option.noConfusion hq

/-- The oldest entry of a queue is taken out and its reference goes to a client. -/
theorem refs_inv_take {N : Nat} {w : World} {h : Nat → Nat} (w' : World) (hi : refs_inv N w h)
    (queue : Nat) (q q' : vbuf_queue) (id : Nat) (hq : w.queues queue = some q)
    (hl : q.buffers = id :: q'.buffers)
    (hq' : ∀ j, w'.queues j = if j = queue then some q' else w.queues j)
    (hb : w'.bufs = w.bufs) :
    refs_inv N w' (bump h id) ∧ (∃ b, w.bufs id = some b) ∧ id ≠ 0 := by
  have hlt := queue_lt_of_live hi queue q hq
  have he : ∀ i, entries w' i N + (if id = i then 1 else 0) = entries w i N := by
    intro i
    have := entries_update w w' i queue N hlt (fun j hj => by rw [hq' j, if_neg hj])
    rw [hq, hq' queue, if_pos rfl] at this
    simp only [qcount, hl, List.count_cons, beq_iff_eq] at this
    omega
  have hlive : ∃ b, w.bufs id = some b := by
    cases hd : w.bufs id with
    | none =>
      have h1 := (hi.dead id hd).2
      have h2 := he id
      simp only [if_true] at h2
      omega
    | some b => exact ⟨b, rfl⟩
  have hid : id ≠ 0 := fun h0 => by
    obtain ⟨b, hb0⟩ := hlive
    rw [h0, hi.no_null] at hb0
    exact Option.noConfusion hb0
  refine ⟨⟨?_, by rw [hb]; exact hi.no_null, ?_, ?_⟩, hlive, hid⟩
  · intro j hj
    rw [hq' j, if_neg (by omega)]
    exact hi.queues_below j hj
  · intro i b hbi
    rw [hb] at hbi
    obtain ⟨h1, h2, h3⟩ := hi.live i b hbi
    refine ⟨?_, h2, h3⟩
    have := he i
    simp only [bump]
    by_cases hii : i = id
    · rw [if_pos hii]
      rw [if_pos hii.symm] at this
      omega
    · rw [if_neg hii]
      rw [if_neg (Ne.symm hii)] at this
      omega
  · intro i hd
    rw [hb] at hd
    obtain ⟨h1, h2⟩ := hi.dead i hd
    have := he i
    simp only [bump]
    by_cases hii : i = id
    · rw [if_pos hii.symm] at this
      omega
    · rw [if_neg hii]
      rw [if_neg (Ne.symm hii)] at this
      omega

/-- A client gives the reference it holds on `buf` to a new entry of a queue. -/
theorem refs_inv_give {N : Nat} {w : World} {h : Nat → Nat} (w' : World) (hi : refs_inv N w h)
    (queue : Nat) (q q' : vbuf_queue) (buf : Nat) (hq : w.queues queue = some q)
    (hl : q'.buffers = q.buffers ++ [buf])
    (hq' : ∀ j, w'.queues j = if j = queue then some q' else w.queues j)
    (hb : w'.bufs = w.bufs) (hh : 1 ≤ h buf) : refs_inv N w' (unbump h buf) := by
  have hlt := queue_lt_of_live hi queue q hq
  have he : ∀ i, entries w' i N = entries w i N + (if buf = i then 1 else 0) := by
    intro i
    have := entries_update w w' i queue N hlt (fun j hj => by rw [hq' j, if_neg hj])
    rw [hq, hq' queue, if_pos rfl] at this
    simp only [qcount, hl, List.count_append, List.count_singleton, beq_iff_eq] at this
    omega
  refine ⟨?_, by rw [hb]; exact hi.no_null, ?_, ?_⟩
  · intro j hj
    rw [hq' j, if_neg (by omega)]
    exact hi.queues_below j hj
  · intro i b hbi
    rw [hb] at hbi
    obtain ⟨h1, h2, h3⟩ := hi.live i b hbi
    refine ⟨?_, h2, h3⟩
    have := he i
    simp only [unbump]
    by_cases hii : i = buf
    · rw [if_pos hii]
      rw [if_pos hii.symm] at this
      rw [hii] at h1 this ⊢
      omega
    · rw [if_neg hii]
      rw [if_neg (Ne.symm hii)] at this
      omega
  · intro i hd
    rw [hb] at hd
    obtain ⟨h1, h2⟩ := hi.dead i hd
    have := he i
    simp only [unbump]
    by_cases hii : i = buf
    · rw [hii] at h1; omega
    · rw [if_neg hii]
      rw [if_neg (Ne.symm hii)] at this
      omega

/-- A client takes one more reference on a live buffer. -/
theorem refs_inv_ref {N : Nat} {w w' : World} {h : Nat → Nat} (hi : refs_inv N w h)
    (buf : Nat) (b b' : vbuf_buffer) (hb : w.bufs buf = some b) (hq : w'.queues = w.queues)
    (hb' : ∀ i, w'.bufs i = if i = buf then some b' else w.bufs i)
    (hrc : b'.ref_count = b.ref_count + 1) (hlt : b.ref_count < 4294967295)
    (hcbs : b'.cbs = b.cbs) : refs_inv N w' (bump h buf) := by
  have he : ∀ id, entries w' id N = entries w id N := fun id =>
    entries_congr w w' id N (fun j _ => by rw [hq])
  have hbuf : buf ≠ 0 := fun h0 => by
    rw [h0, hi.no_null] at hb; exact Option.noConfusion hb
  refine ⟨fun j hj => by rw [hq]; exact hi.queues_below j hj, ?_, ?_, ?_⟩
  · rw [hb' 0, if_neg (Ne.symm hbuf)]; exact hi.no_null
  · intro id c hl
    rw [hb' id] at hl
    rw [he]
    simp only [bump]
    by_cases hid : id = buf
    · rw [if_pos hid] at hl
      cases hl
      obtain ⟨h1, h2, h3⟩ := hi.live buf b hb
      rw [if_pos hid, hid, hrc, hcbs]
      exact ⟨by omega, by omega, h3⟩
    · rw [if_neg hid] at hl
      rw [if_neg hid]
      exact hi.live id c hl
  · intro id hd
    rw [hb' id] at hd
    rw [he]
    simp only [bump]
    by_cases hid : id = buf
    · rw [if_pos hid] at hd; exact Option.noConfusion hd
    · rw [if_neg hid] at hd
      rw [if_neg hid]
      exact hi.dead id hd

/-- A client releases with `vbuf_unref` a reference it holds. -/
theorem refs_inv_unref {N : Nat} {w : World} {h : Nat → Nat} (hi : refs_inv N w h)
    (buf : Nat) (hh : 1 ≤ h buf) : refs_inv N (vbuf_unref w buf).1 (unbump h buf) := by
  cases hb : w.bufs buf with
  | none =>
    have := (hi.dead buf hb).1
    omega
  | some b =>
    have hbuf : buf ≠ 0 := fun h0 => by
      rw [h0, hi.no_null] at hb; exact Option.noConfusion hb
    obtain ⟨h1, h2, h3⟩ := hi.live buf b hb
    obtain ⟨u1, -, -, u4⟩ := unref_frame w buf
    obtain ⟨-, v2, v3⟩ := unref_self w buf b hbuf hb h2
    have he : ∀ id, entries (vbuf_unref w buf).1 id N = entries w id N := fun id =>
      entries_congr w _ id N (fun j _ => by rw [u1])
    refine ⟨fun j hj => by rw [u1]; exact hi.queues_below j hj, ?_, ?_, ?_⟩
    · rw [u4 0 (Ne.symm hbuf)]; exact hi.no_null
    · intro id c hl
      rw [he]
      simp only [unbump]
      by_cases hid : id = buf
      · rw [hid] at hl
        obtain ⟨c1, c2, -⟩ := v2 (by omega) c hl
        rw [if_pos hid, hid, c1, c2]
        exact ⟨by omega, by omega, h3⟩
      · rw [u4 id hid] at hl
        rw [if_neg hid]
        exact hi.live id c hl
    · intro id hd
      rw [he]
      simp only [unbump]
      by_cases hid : id = buf
      · rw [hid] at hd
        have hrc : b.ref_count < 2 := by
          by_contra hcon
          rw [v3 (by omega)] at hd
          simp at hd
        rw [if_pos hid, hid]
        omega
      · rw [u4 id hid] at hd
        rw [if_neg hid]
        exact hi.dead id hd

/-- The part of `vbuf_queue_pop` after the wait keeps the accounting: when it returns 0
the client holds the reference of the entry removed; otherwise it outputs no buffer. -/
theorem refs_inv_pop_take {N : Nat} {v : World} {h : Nat → Nat} (hi : refs_inv N v h)
    (queue : Nat) (t : Int) :
    refs_inv N (vbuf_queue_pop_take v queue t).1
      (if (vbuf_queue_pop_take v queue t).2.1 = 0
        then bump h ((vbuf_queue_pop_take v queue t).2.2.getD 0) else h) ∧
    ((vbuf_queue_pop_take v queue t).2.1 ≠ 0 →
      (vbuf_queue_pop_take v queue t).2.2.getD 0 = 0) := by
  have hfault : (-EFAULT : Int) ≠ 0 := by decide
  have hagain : (-EAGAIN : Int) ≠ 0 := by decide
  cases hq : v.queues queue with
  | none =>
    simp only [vbuf_queue_pop_take, hq]
    rw [if_neg hfault]
    exact ⟨hi, fun _ => rfl⟩
  | some q =>
    by_cases hc : q.count = 0
    · simp only [vbuf_queue_pop_take, hq, hc, if_true]
      rw [if_neg hagain]
      exact ⟨hi, fun _ => rfl⟩
    cases hl : q.buffers with
    | nil =>
      simp only [vbuf_queue_pop_take, hq, hc, if_false, hl]
      rw [if_neg hfault]
      exact ⟨hi, fun _ => rfl⟩
    | cons id rest =>
      obtain ⟨hi1, ⟨b, hb⟩, hid⟩ := refs_inv_take
        (v.set_queue queue { q with buffers := rest, count := uint_dec q.count }) hi queue q
        { q with buffers := rest, count := uint_dec q.count } id hq hl (fun j => rfl) rfl
      cases hf : b.cbs.queue_pop with
      | none =>
        simp only [vbuf_queue_pop_take, hq, hc, if_false, hl, set_queue_bufs, hb, hf, if_true,
          Option.getD_some]
        exact ⟨hi1, fun h0 => absurd rfl h0⟩
      | some f =>
        simp only [vbuf_queue_pop_take, hq, hc, if_false, hl, set_queue_bufs, hb, hf]
        obtain ⟨s1, s2, -, s4, -⟩ := run_cb_spec
          (v.set_queue queue { q with buffers := rest, count := uint_dec q.count })
          cb_kind.queue_pop f id b t
        have hle : (run_cb
            (v.set_queue queue { q with buffers := rest, count := uint_dec q.count })
            cb_kind.queue_pop f id b t).2.2 ≤ 0 := (hi.live id b hb).2.2 f hf _
        generalize run_cb
          (v.set_queue queue { q with buffers := rest, count := uint_dec q.count })
          cb_kind.queue_pop f id b t = r at *
        have hi2 : refs_inv N r.1 (bump h id) :=
          refs_inv_same hi1 s4 id b r.2.1 hb s2 (backend_only_fields s1).1
            (backend_only_fields s1).2.2.2.1
        by_cases hr : r.2.2 < 0
        · have hne : r.2.2 ≠ 0 := by omega
          simp only [hr, if_true, hne, if_false, Option.getD_some]
          have := refs_inv_unref hi2 id (by simp [bump])
          rw [unbump_bump] at this
          exact ⟨this, fun _ => trivial⟩
        · have h0 : r.2.2 = 0 := by omega
          simp only [hr, if_false, h0, if_true, Option.getD_some]
          exact ⟨hi2, fun hcon => absurd rfl hcon⟩

/-- The function `vbuf_queue_pop` keeps the accounting. -/
theorem refs_inv_pop {N : Nat} {w : World} {h : Nat → Nat} (hi : refs_inv N w h)
    (queue : Nat) (t : Int) :
    refs_inv N (vbuf_queue_pop w queue t).1
      (if (vbuf_queue_pop w queue t).2.1 = 0
        then bump h ((vbuf_queue_pop w queue t).2.2.getD 0) else h) ∧
    ((vbuf_queue_pop w queue t).2.1 ≠ 0 → (vbuf_queue_pop w queue t).2.2.getD 0 = 0) := by
  have hinval : (-EINVAL : Int) ≠ 0 := by decide
  have hfault : (-EFAULT : Int) ≠ 0 := by decide
  have hagain : (-EAGAIN : Int) ≠ 0 := by decide
  have htimed : (-ETIMEDOUT : Int) ≠ 0 := by decide
  by_cases hqueue : queue = 0
  · simp only [vbuf_queue_pop, hqueue, if_true]
    rw [if_neg hinval]
    exact ⟨hi, fun _ => rfl⟩
  cases hq : w.queues queue with
  | none =>
    simp only [vbuf_queue_pop, hqueue, if_false, hq]
    rw [if_neg hfault]
    exact ⟨hi, fun _ => rfl⟩
  | some q =>
    by_cases hc : q.count = 0
    · by_cases ht : t = 0
      · simp only [vbuf_queue_pop, hqueue, if_false, hq, hc, ht, if_true]
        rw [if_neg hagain]
        exact ⟨hi, fun _ => rfl⟩
      · simp only [vbuf_queue_pop, hqueue, if_false, hq, hc, ht, if_true]
        have hr : refs_inv N (if t > 0 then sys_call w sys_kind.cond_timedwait
            else sys_call w sys_kind.cond_wait).1 h := by
          split <;> exact refs_inv_congr hi rfl rfl
        generalize (if t > 0 then sys_call w sys_kind.cond_timedwait
            else sys_call w sys_kind.cond_wait) = r at *
        by_cases h1 : r.2 = ETIMEDOUT
        · simp only [h1, if_true]
          rw [if_neg htimed]
          exact ⟨hr, fun _ => rfl⟩
        by_cases h2 : r.2 ≠ 0
        · have hne : -r.2 ≠ 0 := by omega
          simp only [h1, if_false, h2, ne_eq, not_false_eq_true, if_true]
          rw [if_neg hne]
          exact ⟨hr, fun _ => rfl⟩
        · simp only [h1, if_false, h2, if_false]
          exact refs_inv_pop_take hr queue t
    · simp only [vbuf_queue_pop, hqueue, if_false, hq, hc]
      exact refs_inv_pop_take hi queue t

/-- The function `vbuf_queue_pop` adds no entry. -/
theorem entries_pop_le (w : World) (queue : Nat) (t : Int) (id N : Nat) :
    entries (vbuf_queue_pop w queue t).1 id N ≤ entries w id N := by
  rcases pop_queues w queue t with h | ⟨q, x, rest, hq, -, hl, h⟩
  · rw [entries_congr w _ id N (fun j _ => by rw [h])]
  · by_cases hlt : queue < N
    · have := entries_update w (vbuf_queue_pop w queue t).1 id queue N hlt
        (fun j hj => by rw [h j, if_neg hj])
      rw [hq, h queue, if_pos rfl] at this
      simp only [qcount, hl, List.count_cons] at this
      omega
    · rw [entries_congr w _ id N (fun j hj => by rw [h j, if_neg (by omega)])]

/-- The insertion part of `vbuf_queue_push` on a live queue keeps the accounting, as long
as the buffer has fewer than `UINT_MAX` references. -/
theorem refs_inv_push_tail {N : Nat} {v : World} {h : Nat → Nat} (hi : refs_inv N v h)
    (queue buf : Nat) (q : vbuf_queue) (hq : v.queues queue = some q)
    (hguard : ∀ b, v.bufs buf = some b → b.ref_count < 4294967295) :
    refs_inv N (vbuf_queue_push_tail v queue buf).1 h := by
  cases hb : v.bufs buf with
  | none =>
    have heq : (vbuf_queue_push_tail v queue buf).1 = v := by
      simp only [vbuf_queue_push_tail, hb]
    rw [heq]
    exact hi
  | some b =>
    have hbuf : buf ≠ 0 := fun h0 => by
      rw [h0, hi.no_null] at hb; exact Option.noConfusion hb
    obtain ⟨-, -, -, p4, p5, p6, -, -⟩ := push_tail_spec v queue buf q b hbuf hq hb
    have hlt := hguard b hb
    rcases p6 with ⟨-, h2, b', hb', hbo⟩ | ⟨-, h2, b', hb', hbo⟩
    · have hrc : b'.ref_count = b.ref_count + 1 := by
        rw [(backend_only_fields hbo).1]
        exact uint_inc_eq _ hlt
      have hi1 : refs_inv N (v.set_buf buf b') (bump h buf) :=
        refs_inv_ref hi buf b b' hb rfl (fun _ => rfl) hrc hlt (backend_only_fields hbo).2.2.2.1
      have hi2 := refs_inv_give (vbuf_queue_push_tail v queue buf).1 hi1 queue q
        { q with buffers := q.buffers ++ [buf], count := uint_inc q.count } buf hq rfl
        (fun j => by
          by_cases hj : j = queue
          · rw [hj, h2, if_pos rfl]
          · rw [p4 j hj, if_neg hj]; rfl)
        (by
          funext i
          by_cases hib : i = buf
          · rw [hib, hb']; simp
          · rw [p5 i hib]; simp [hib])
        (by simp [bump])
      rw [unbump_bump] at hi2
      exact hi2
    · refine refs_inv_same hi ?_ buf b b' hb ?_ (backend_only_fields hbo).1
        (backend_only_fields hbo).2.2.2.1
      · funext j
        by_cases hj : j = queue
        · rw [hj, h2, hq]
        · rw [p4 j hj]
      · intro i
        by_cases hib : i = buf
        · rw [hib, hb', if_pos rfl]
        · rw [p5 i hib, if_neg hib]

/-- The function `vbuf_queue_push` keeps the accounting, as long as the buffer has fewer
than `UINT_MAX` references. -/
theorem refs_inv_push {N : Nat} {w : World} {h : Nat → Nat} (hi : refs_inv N w h)
    (queue buf : Nat) (hguard : ∀ b, w.bufs buf = some b → b.ref_count < 4294967295) :
    refs_inv N (vbuf_queue_push w queue buf).1 h := by
  by_cases hqueue : queue = 0
  · simp only [vbuf_queue_push, hqueue, if_true]; exact hi
  by_cases hbuf : buf = 0
  · simp only [vbuf_queue_push, hqueue, hbuf, if_true, if_false]; exact hi
  cases hq : w.queues queue with
  | none => simp only [vbuf_queue_push, hqueue, hbuf, if_false, hq]; exact hi
  | some q =>
    by_cases hfull : q.max_count > 0 ∧ q.count = q.max_count
    · by_cases hdrop : q.drop_when_full ≠ 0
      · simp only [vbuf_queue_push, hqueue, hbuf, if_false, hq]
        rw [if_pos hfull, if_pos hdrop]
        obtain ⟨hp, hout⟩ := refs_inv_pop hi queue 0
        have hle := entries_pop_le w queue 0 buf N
        have hql : ∃ q1, (vbuf_queue_pop w queue 0).1.queues queue = some q1 := by
          rcases pop_queues w queue 0 with h1 | ⟨_, _, _, -, -, -, h1⟩
          · exact ⟨q, by rw [h1, hq]⟩
          · exact ⟨_, by rw [h1 queue, if_pos rfl]⟩
        generalize vbuf_queue_pop w queue 0 = r at *
        obtain ⟨q1, hq1⟩ := hql
        have key : ∀ w1 : World, refs_inv N w1 h → w1.queues = r.1.queues →
            refs_inv N (vbuf_queue_push_tail w1 queue buf).1 h := by
          intro w1 hw1 hqs
          apply refs_inv_push_tail hw1 queue buf q1 (by rw [hqs]; exact hq1)
          intro b1 hb1
          have e1 := (hw1.live buf b1 hb1).1
          have e2 : entries w1 buf N = entries r.1 buf N :=
            entries_congr r.1 w1 buf N (fun j _ => by rw [hqs])
          cases hb : w.bufs buf with
          | none =>
            have := hi.dead buf hb
            omega
          | some b =>
            have := (hi.live buf b hb).1
            have := hguard b hb
            omega
        by_cases hr0 : r.2.1 = 0
        · rw [if_pos hr0] at hp
          have hneg : ¬ (r.2.1 < 0 ∧ r.2.1 ≠ -EAGAIN) := by omega
          rw [if_neg hneg]
          by_cases ho : r.2.2.getD 0 = 0
          · exfalso
            have := hp.dead 0 hp.no_null
            rw [ho] at this
            simp [bump] at this
          · rw [if_pos ho]
            have hu := refs_inv_unref hp (r.2.2.getD 0) (by simp [bump])
            rw [unbump_bump] at hu
            exact key _ hu (unref_frame _ _).1
        · rw [if_neg hr0] at hp
          have ho := hout hr0
          have hw1 : (if r.2.1 < 0 ∧ r.2.1 ≠ -EAGAIN then r.1
              else if r.2.2.getD 0 ≠ 0 then (vbuf_unref r.1 (r.2.2.getD 0)).1 else r.1) = r.1 := by
            split
            · rfl
            · rw [if_neg (by simp [ho])]
          rw [hw1]
          exact key r.1 hp rfl
      · simp only [vbuf_queue_push, hqueue, hbuf, if_false, hq]
        rw [if_pos hfull, if_neg hdrop]
        exact hi
    · rw [push_not_full w queue buf q hqueue hbuf hq hfull]
      exact refs_inv_push_tail hi queue buf q hq hguard

theorem refs_inv_flush_loop {N : Nat} {h : Nat → Nat} (queue : Nat) (l : List Nat) :
    ∀ (v : World) (q : vbuf_queue), refs_inv N v h → v.queues queue = some q →
      q.buffers = l → refs_inv N (vbuf_queue_flush_loop v queue l) h := by
  induction l with
  | nil => intro v q hi _ _; exact hi
  | cons id rest ih =>
    intro v q hi hq hl
    simp only [vbuf_queue_flush_loop, hq]
    obtain ⟨hi1, -, -⟩ := refs_inv_take
      (v.set_queue queue { q with buffers := rest, count := uint_dec q.count }) hi queue q
      { q with buffers := rest, count := uint_dec q.count } id hq hl (fun j => rfl) rfl
    have hu := refs_inv_unref hi1 id (by simp [bump])
    rw [unbump_bump] at hu
    exact ih _ { q with buffers := rest, count := uint_dec q.count } hu
      (by rw [(unref_frame _ _).1]; simp) rfl

/-- The function `vbuf_queue_flush` keeps the accounting. -/
theorem refs_inv_flush {N : Nat} {w : World} {h : Nat → Nat} (hi : refs_inv N w h)
    (queue : Nat) : refs_inv N (vbuf_queue_flush w queue).1 h := by
  by_cases hqueue : queue = 0
  · simp only [vbuf_queue_flush, hqueue, if_true]; exact hi
  cases hq : w.queues queue with
  | none => simp only [vbuf_queue_flush, hqueue, if_false, hq]; exact hi
  | some q =>
    by_cases hc : q.count = 0
    · simp only [vbuf_queue_flush, hqueue, if_false, hq, hc, if_true]; exact hi
    · simp only [vbuf_queue_flush, hqueue, if_false, hq, hc]
      exact refs_inv_flush_loop queue q.buffers w q hi hq rfl

/-- The accounting holds in every state reached by the calls of `held_reach`. -/
theorem refs_inv_reach {N : Nat} {w0 w : World} {h0 h : Nat → Nat}
    (hr : held_reach w0 h0 w h) (hi : refs_inv N w0 h0) : refs_inv N w h := by
  induction hr with
  | init => exact hi
  | @ref w h buf b _ hb hlt ih =>
    have heq : (vbuf_ref w buf).1 = w.set_buf buf { b with ref_count := uint_inc b.ref_count } := by
      have hbuf : buf ≠ 0 := fun h0 => by
        rw [h0, ih.no_null] at hb; exact Option.noConfusion hb
      simp only [vbuf_ref, hbuf, if_false, hb]
    rw [heq]
    exact refs_inv_ref ih buf b _ hb rfl (fun _ => rfl) (uint_inc_eq _ hlt) hlt rfl
  | @unref w h buf _ hh ih => exact refs_inv_unref ih buf hh
  | @push w h queue buf _ hguard ih => exact refs_inv_push ih queue buf hguard
  | @pop w h queue t _ ih => exact (refs_inv_pop ih queue t).1
  | @flush w h queue _ ih => exact refs_inv_flush ih queue

theorem entries_empty (w : World) (id : Nat) (hempty : ∀ j q, w.queues j = some q → q.buffers = [])
    (n : Nat) : entries w id n = 0 := by
  induction n with
  | zero => rfl
  | succ n ih =>
    simp only [entries, ih, Nat.zero_add]
    cases hq : w.queues n with
    | none => rfl
    | some q => simp only [qcount, hempty n q hq, List.count_nil]

/-! ## Metadata: finding, adding and removing records -/

/-- The keys of the records of a list, in order. -/
theorem meta_find_eq (w : World) (buf key : Nat) (b : vbuf_buffer) (hbuf : buf ≠ 0)
    (hkey : key ≠ 0) (hb : w.bufs buf = some b) :
    vbuf_meta_find w buf key = b.metas.find? (fun meta => meta.key = key) := by
  simp only [vbuf_meta_find, hbuf, hkey, if_false, hb]

theorem find_none_iff (l : List vbuf_meta) (key : Nat) :
    l.find? (fun meta => meta.key = key) = none ↔ ∀ m ∈ l, m.key ≠ key := by
  rw [List.find?_eq_none]
  simp

theorem find_some_key (l : List vbuf_meta) (key : Nat) (m : vbuf_meta)
    (h : l.find? (fun meta => meta.key = key) = some m) : m ∈ l ∧ m.key = key := by
  have h1 := List.find?_some h
  have h2 := List.mem_of_find?_eq_some h
  exact ⟨h2, by simpa using h1⟩

/-- In a list without two records of the same key, a record is found by its key. -/
theorem find_of_mem (l : List vbuf_meta) (m : vbuf_meta) (hm : m ∈ l)
    (hnd : (l.map (fun x => x.key)).Nodup) :
    l.find? (fun meta => meta.key = m.key) = some m := by
  induction l with
  | nil => cases hm
  | cons x xs ih =>
    simp only [List.map_cons, List.nodup_cons] at hnd
    rcases List.mem_cons.mp hm with h | h
    · subst h
      simp [List.find?_cons]
    · have hne : x.key ≠ m.key := fun he => hnd.1 (by
        rw [he]; exact List.mem_map_of_mem (fun x => x.key) h)
      simp only [List.find?_cons, hne, decide_False]
      exact ih h hnd.2

/-- Without two records of the same key, unlinking the first record with a key removes
all records with that key. -/
theorem eraseP_eq_filter (l : List vbuf_meta) (key : Nat)
    (hnd : (l.map (fun x => x.key)).Nodup) :
    l.eraseP (fun meta => meta.key = key) = l.filter (fun meta => meta.key ≠ key) := by
  induction l with
  | nil => rfl
  | cons x xs ih =>
    simp only [List.map_cons, List.nodup_cons] at hnd
    by_cases hx : x.key = key
    · have hall : ∀ y ∈ xs, y.key ≠ key := fun y hy he => hnd.1 (by
        rw [hx, ← he]; exact List.mem_map_of_mem (fun x => x.key) hy)
      simp only [List.eraseP_cons, List.filter_cons, hx, decide_True, if_true, ne_eq,
        not_true_eq_false, decide_False, Bool.false_eq_true, if_false]
      symm
      show List.filter (fun meta => decide ¬meta.key = key) xs = xs
      rw [List.filter_eq_self]
      intro y hy
      simpa using hall y hy
    · simp [List.eraseP_cons, List.filter_cons, hx, ih hnd.2]

/-- What `vbuf_metadata_add` does when the key is absent and both allocations succeed. -/
theorem metadata_add_ok (w : World) (buf key level len : Nat) (b : vbuf_buffer)
    (hbuf : buf ≠ 0) (hkey : key ≠ 0) (hlen : 0 < len) (hb : w.bufs buf = some b)
    (habs : ∀ m ∈ b.metas, m.key ≠ key) (h1 : w.env w.trace.length = 0)
    (h2 : w.env (w.trace.length + 1) = 0) :
    vbuf_metadata_add w buf key level len =
      (((w.log (ext_call.sys sys_kind.calloc)).log (ext_call.sys sys_kind.calloc)).set_buf buf
        { b with metas := b.metas ++ [⟨key, level, List.replicate len 0, len⟩] },
        0, some (List.replicate len 0)) := by
  have hfind : vbuf_meta_find w buf key = none := by
    rw [meta_find_eq w buf key b hbuf hkey hb]
    exact (find_none_iff _ _).mpr habs
  have hlen' : len ≠ 0 := by omega
  have hnew : vbuf_meta_new w key level len =
      ((w.log (ext_call.sys sys_kind.calloc)).log (ext_call.sys sys_kind.calloc),
        some ⟨key, level, List.replicate len 0, len⟩) := by
    simp only [vbuf_meta_new, hkey, hlen', if_false, sys_call_snd, sys_call_fst, h1, ne_eq,
      not_true_eq_false, log_env, log_trace, List.length_append, List.length_singleton, h2]
  simp only [vbuf_metadata_add, hbuf, hkey, if_false, hb, hfind, hnew]

/-- What `vbuf_metadata_add` does when the key is present. -/
theorem metadata_add_exists (w : World) (buf key level len : Nat) (b : vbuf_buffer)
    (hbuf : buf ≠ 0) (hkey : key ≠ 0) (hb : w.bufs buf = some b)
    (hpres : ∃ m ∈ b.metas, m.key = key) :
    vbuf_metadata_add w buf key level len = (w, -EEXIST, none) := by
  cases hfind : vbuf_meta_find w buf key with
  | none =>
    rw [meta_find_eq w buf key b hbuf hkey hb] at hfind
    obtain ⟨m, hm, hk⟩ := hpres
    exact absurd hk ((find_none_iff _ _).mp hfind m hm)
  | some m => simp only [vbuf_metadata_add, hbuf, hkey, if_false, hb, hfind]

/-- The result of `vbuf_metadata_get` in terms of the record list. -/
theorem metadata_get_eq (w : World) (buf key : Nat) (b : vbuf_buffer) (hbuf : buf ≠ 0)
    (hkey : key ≠ 0) (hb : w.bufs buf = some b) :
    vbuf_metadata_get w buf key =
      (w, match b.metas.find? (fun meta => meta.key = key) with
          | none => ⟨-ENOENT, none, none, none⟩
          | some meta => ⟨0, some meta.level, some meta.len, some meta.data⟩) := by
  simp only [vbuf_metadata_get, hbuf, hkey, if_false, hb,
    meta_find_eq w buf key b hbuf hkey hb]
  cases b.metas.find? (fun meta => meta.key = key) <;> rfl

/-- Removing the records of one key does not change what is found for another key. -/
theorem find_filter_ne (key k : Nat) (hk : k ≠ key) (l : List vbuf_meta) :
    (l.filter (fun m => m.key ≠ key)).find? (fun meta => meta.key = k) =
      l.find? (fun meta => meta.key = k) := by
  induction l with
  | nil => rfl
  | cons x xs ih =>
    by_cases hx : x.key = key
    · have hxk : x.key ≠ k := fun he => hk (by rw [← he, hx])
      rw [List.filter_cons_of_neg (by simpa using hx),
        List.find?_cons_of_neg _ (by simpa using hxk)]
      exact ih
    · rw [List.filter_cons_of_pos (by simpa using hx)]
      by_cases hxk : x.key = k
      · rw [List.find?_cons_of_pos _ (by simpa using hxk),
          List.find?_cons_of_pos _ (by simpa using hxk)]
      · rw [List.find?_cons_of_neg _ (by simpa using hxk),
          List.find?_cons_of_neg _ (by simpa using hxk)]
        exact ih

/-- What `vbuf_meta_new` does: it only adds to the trace; it returns a record when the
key is not `NULL`, the length not 0 and both allocations succeed. -/
theorem meta_new_spec (w : World) (key level len : Nat) :
    (vbuf_meta_new w key level len).1.bufs = w.bufs ∧
    (vbuf_meta_new w key level len).1.pools = w.pools ∧
    (vbuf_meta_new w key level len).1.queues = w.queues ∧
    (vbuf_meta_new w key level len).1.env = w.env ∧
    ((vbuf_meta_new w key level len).2 = none ∨
      (key ≠ 0 ∧ 0 < len ∧ (vbuf_meta_new w key level len).2 =
        some ⟨key, level, List.replicate len 0, len⟩)) ∧
    (key ≠ 0 → 0 < len → (∀ t, w.env t = 0) →
      (vbuf_meta_new w key level len).2 = some ⟨key, level, List.replicate len 0, len⟩) := by
  by_cases hkey : key = 0
  · have heq : vbuf_meta_new w key level len = (w, none) := by
      simp only [vbuf_meta_new, hkey, if_true]
    rw [heq]
    exact ⟨rfl, rfl, rfl, rfl, Or.inl rfl, fun h => absurd hkey h⟩
  by_cases hlen : len = 0
  · have heq : vbuf_meta_new w key level len = (w, none) := by
      simp only [vbuf_meta_new, hkey, hlen, if_true, if_false]
    rw [heq]
    exact ⟨rfl, rfl, rfl, rfl, Or.inl rfl, fun _ h => absurd h (by omega)⟩
  by_cases h1 : w.env w.trace.length = 0
  · by_cases h2 : w.env (w.trace.length + 1) = 0
    · have heq : vbuf_meta_new w key level len =
          ((w.log (ext_call.sys sys_kind.calloc)).log (ext_call.sys sys_kind.calloc),
            some ⟨key, level, List.replicate len 0, len⟩) := by
        simp only [vbuf_meta_new, hkey, hlen, if_false, sys_call_snd, sys_call_fst, h1, ne_eq,
          not_true_eq_false, log_env, log_trace, List.length_append, List.length_singleton, h2]
      rw [heq]
      exact ⟨rfl, rfl, rfl, rfl, Or.inr ⟨hkey, by omega, rfl⟩, fun _ _ _ => rfl⟩
    · have heq : vbuf_meta_new w key level len =
          ((w.log (ext_call.sys sys_kind.calloc)).log (ext_call.sys sys_kind.calloc), none) := by
        simp only [vbuf_meta_new, hkey, hlen, if_false, sys_call_snd, sys_call_fst, h1, ne_eq,
          not_true_eq_false, log_env, log_trace, List.length_append, List.length_singleton, h2,
          not_false_eq_true, if_true]
      rw [heq]
      exact ⟨rfl, rfl, rfl, rfl, Or.inl rfl, fun _ _ hs => absurd (hs _) h2⟩
  · have heq : vbuf_meta_new w key level len = (w.log (ext_call.sys sys_kind.calloc), none) := by
      simp only [vbuf_meta_new, hkey, hlen, if_false, sys_call_snd, sys_call_fst, h1, ne_eq,
        not_false_eq_true, if_true]
    rw [heq]
    exact ⟨rfl, rfl, rfl, rfl, Or.inl rfl, fun _ _ hs => absurd (hs _) h1⟩

/-- What `vbuf_metadata_add` does on a live buffer, in every case: it touches only the
record list of that buffer; either it returns a negative value and no buffer has
changed, or it returns 0, the key was absent and a zero-filled record is appended. -/
theorem metadata_add_spec (w : World) (buf key level len : Nat) (b : vbuf_buffer)
    (hbuf : buf ≠ 0) (hb : w.bufs buf = some b) :
    (vbuf_metadata_add w buf key level len).1.pools = w.pools ∧
    (vbuf_metadata_add w buf key level len).1.queues = w.queues ∧
    (vbuf_metadata_add w buf key level len).1.env = w.env ∧
    (∀ i, i ≠ buf → (vbuf_metadata_add w buf key level len).1.bufs i = w.bufs i) ∧
    (((vbuf_metadata_add w buf key level len).2.1 < 0 ∧
        (vbuf_metadata_add w buf key level len).1.bufs buf = some b) ∨
      ((vbuf_metadata_add w buf key level len).2 = (0, some (List.replicate len 0)) ∧
        key ≠ 0 ∧ 0 < len ∧ (∀ m ∈ b.metas, m.key ≠ key) ∧
        (vbuf_metadata_add w buf key level len).1.bufs buf =
          some { b with metas := b.metas ++ [⟨key, level, List.replicate len 0, len⟩] })) ∧
    (key ≠ 0 → 0 < len → (∀ m ∈ b.metas, m.key ≠ key) → (∀ t, w.env t = 0) →
      (vbuf_metadata_add w buf key level len).2.1 = 0) := by
  have hinval : (-EINVAL : Int) < 0 := by decide
  have hexist : (-EEXIST : Int) < 0 := by decide
  have hnomem : (-ENOMEM : Int) < 0 := by decide
  by_cases hkey : key = 0
  · have heq : vbuf_metadata_add w buf key level len = (w, -EINVAL, none) := by
      simp only [vbuf_metadata_add, hbuf, hkey, if_true, if_false]
    rw [heq]
    exact ⟨rfl, rfl, rfl, fun _ _ => rfl, Or.inl ⟨hinval, hb⟩, fun h => absurd hkey h⟩
  cases hfind : vbuf_meta_find w buf key with
  | some m =>
    have heq : vbuf_metadata_add w buf key level len = (w, -EEXIST, none) := by
      simp only [vbuf_metadata_add, hbuf, hkey, if_false, hb, hfind]
    rw [heq]
    refine ⟨rfl, rfl, rfl, fun _ _ => rfl, Or.inl ⟨hexist, hb⟩, fun _ _ habs _ => ?_⟩
    rw [meta_find_eq w buf key b hbuf hkey hb] at hfind
    obtain ⟨hm, hk⟩ := find_some_key _ _ _ hfind
    exact absurd hk (habs m hm)
  | none =>
    have habs : ∀ m ∈ b.metas, m.key ≠ key := by
      rw [meta_find_eq w buf key b hbuf hkey hb] at hfind
      exact (find_none_iff _ _).mp hfind
    obtain ⟨n1, n2, n3, n4, n5, n6⟩ := meta_new_spec w key level len
    cases hnew : (vbuf_meta_new w key level len).2 with
    | none =>
      have heq : vbuf_metadata_add w buf key level len =
          ((vbuf_meta_new w key level len).1, -ENOMEM, none) := by
        simp only [vbuf_metadata_add, hbuf, hkey, if_false, hb, hfind, hnew]
      rw [heq]
      refine ⟨n2, n3, n4, fun i _ => by rw [n1], Or.inl ⟨hnomem, by rw [n1]; exact hb⟩,
        fun hk hl _ hs => ?_⟩
      rw [n6 hk hl hs] at hnew
      exact Option.noConfusion hnew
    | some meta =>
      have hmeta : key ≠ 0 ∧ 0 < len ∧
          meta = ⟨key, level, List.replicate len 0, len⟩ := by
        rcases n5 with h | ⟨h1, h2, h3⟩
        · rw [h] at hnew; exact Option.noConfusion hnew
        · rw [h3] at hnew; exact ⟨h1, h2, (Option.some.inj hnew).symm⟩
      have heq : vbuf_metadata_add w buf key level len =
          ((vbuf_meta_new w key level len).1.set_buf buf
            { b with metas := b.metas ++ [meta] }, 0, some meta.data) := by
        simp only [vbuf_metadata_add, hbuf, hkey, if_false, hb, hfind, hnew]
      rw [heq, hmeta.2.2]
      refine ⟨by simp [n2], by simp [n3], by simp [n4], fun i hi => by simp [hi, n1],
        Or.inr ⟨rfl, hmeta.1, hmeta.2.1, habs, by simp⟩, fun _ _ _ _ => rfl⟩

/-- The `memcpy` into the record that `vbuf_metadata_add` has just appended. -/
theorem meta_memcpy_spec (W : World) (dst : Nat) (d : vbuf_buffer) (m : vbuf_meta)
    (hW : W.bufs dst =
      some { d with metas := d.metas ++ [⟨m.key, m.level, List.replicate m.len 0, m.len⟩] }) :
    (¬ m.len ≤ m.data.length → meta_memcpy W dst m = none) ∧
    (m.len ≤ m.data.length → meta_memcpy W dst m =
      some (W.set_buf dst { d with metas := d.metas ++ [meta_copy_of m] })) := by
  constructor
  · intro h
    have hc : ¬ (m.len ≤ m.data.length ∧ m.len ≤ (List.replicate m.len 0).length) :=
      fun hh => h hh.1
    simp only [meta_memcpy, hW, List.getLast?_concat, memcpy, hc, if_false]
  · intro h
    have hc : m.len ≤ m.data.length ∧ m.len ≤ (List.replicate m.len 0).length :=
      ⟨h, by simp⟩
    simp only [meta_memcpy, hW, List.getLast?_concat, memcpy, hc, and_self, if_true,
      List.dropLast_concat, meta_copy_of]
    have hd : List.drop m.len (List.replicate m.len 0) = [] := by simp
    rw [hd, List.append_nil]

theorem meta_selected_iff (max_level : Nat) (m : vbuf_meta) :
    meta_selected max_level m = true ↔ (max_level = 0 ∨ m.level < max_level) := by
  simp [meta_selected]

/-- What the loop of `vbuf_metadata_copy` does to a live destination, in every case: it
touches only the record list of the destination, to which it appends records; distinct
keys stay distinct; the result is 0 or negative; when it is 0 the records appended are
the copies of the selected records of the list, in order.  The result is 0 when the
selected records have distinct keys that are absent from the destination, sound lengths,
and no system call fails. -/
theorem metadata_copy_loop_spec (dst max_level : Nat) (hdst : dst ≠ 0) (ms : List vbuf_meta) :
    ∀ (w : World) (d : vbuf_buffer), w.bufs dst = some d →
      (vbuf_metadata_copy_loop w dst max_level ms).1.pools = w.pools ∧
      (vbuf_metadata_copy_loop w dst max_level ms).1.queues = w.queues ∧
      (vbuf_metadata_copy_loop w dst max_level ms).1.env = w.env ∧
      (∀ i, i ≠ dst → (vbuf_metadata_copy_loop w dst max_level ms).1.bufs i = w.bufs i) ∧
      (∃ extra, (vbuf_metadata_copy_loop w dst max_level ms).1.bufs dst =
          some { d with metas := d.metas ++ extra } ∧
        (keys_unique d → ((d.metas ++ extra).map (fun m => m.key)).Nodup) ∧
        (∀ x ∈ extra, meta_sound x) ∧
        ((vbuf_metadata_copy_loop w dst max_level ms).2 = 0 →
          extra = (ms.filter (meta_selected max_level)).map meta_copy_of)) ∧
      (vbuf_metadata_copy_loop w dst max_level ms).2 ≤ 0 ∧
      ((∀ m ∈ ms, meta_selected max_level m = true →
          m.key ≠ 0 ∧ 0 < m.len ∧ m.len ≤ m.data.length) →
        (∀ m ∈ ms, meta_selected max_level m = true → ∀ x ∈ d.metas, x.key ≠ m.key) →
        (((ms.filter (meta_selected max_level)).map (fun m => m.key)).Nodup) →
        (∀ t, w.env t = 0) → (vbuf_metadata_copy_loop w dst max_level ms).2 = 0) := by
  induction ms with
  | nil =>
    intro w d hd
    refine ⟨rfl, rfl, rfl, fun _ _ => rfl,
      ⟨[], ?_, ?_, fun x hx => absurd hx (List.not_mem_nil x), fun _ => rfl⟩, le_refl _,
      fun _ _ _ _ => rfl⟩
    · simp only [vbuf_metadata_copy_loop, List.append_nil]; exact hd
    · intro h; simpa only [List.append_nil] using h
  | cons m rest ih =>
    intro w d hd
    by_cases hsel : max_level = 0 ∨ m.level < max_level
    · have hselb : meta_selected max_level m = true := (meta_selected_iff _ _).mpr hsel
      obtain ⟨a1, a2, a3, a4, a5, a6⟩ := metadata_add_spec w dst m.key m.level m.len d hdst hd
      rcases a5 with ⟨hneg, hsame⟩ | ⟨hres, hk0, hlen, habs, hnew⟩
      · have heq : vbuf_metadata_copy_loop w dst max_level (m :: rest) =
            ((vbuf_metadata_add w dst m.key m.level m.len).1,
              (vbuf_metadata_add w dst m.key m.level m.len).2.1) := by
          simp only [vbuf_metadata_copy_loop, hsel, if_true, hneg]
        rw [heq]
        refine ⟨a1, a2, a3, a4,
          ⟨[], ?_, ?_, fun x hx => absurd hx (List.not_mem_nil x), fun h0 => ?_⟩,
          le_of_lt hneg, fun c1 c2 _ c4 => ?_⟩
        · simp only [List.append_nil]; exact hsame
        · intro h; simpa only [List.append_nil] using h
        · omega
        · have := a6 (c1 m (List.mem_cons_self m rest) hselb).1
            (c1 m (List.mem_cons_self m rest) hselb).2.1
            (c2 m (List.mem_cons_self m rest) hselb) c4
          omega
      · have hr0 : ¬ (vbuf_metadata_add w dst m.key m.level m.len).2.1 < 0 := by
          rw [hres]; show ¬ ((0 : Int) < 0); decide
        obtain ⟨mc1, mc2⟩ := meta_memcpy_spec (vbuf_metadata_add w dst m.key m.level m.len).1
          dst d m hnew
        have hu1 : keys_unique d → ∀ (x : vbuf_meta),
            ((d.metas ++ [x]).map (fun m => m.key)).Nodup ∨ x.key ≠ m.key := by
          intro hu x
          by_cases hx : x.key = m.key
          · left
            simp only [List.map_append, List.map_cons, List.map_nil]
            rw [List.nodup_append]
            refine ⟨hu, List.nodup_singleton _, ?_⟩
            intro a ha hb
            rw [List.mem_singleton] at hb
            obtain ⟨y, hy, hya⟩ := List.mem_map.mp ha
            exact habs y hy (by rw [hya, hb, hx])
          · right; exact hx
        by_cases hdat : m.len ≤ m.data.length
        · have heq : vbuf_metadata_copy_loop w dst max_level (m :: rest) =
              vbuf_metadata_copy_loop
                ((vbuf_metadata_add w dst m.key m.level m.len).1.set_buf dst
                  { d with metas := d.metas ++ [meta_copy_of m] }) dst max_level rest := by
            simp only [vbuf_metadata_copy_loop, hsel, if_true, hr0, if_false, mc2 hdat]
          rw [heq]
          obtain ⟨i1, i2, i3, i4, ⟨extra, e1, e2, e4, e3⟩, i6, i7⟩ :=
            ih ((vbuf_metadata_add w dst m.key m.level m.len).1.set_buf dst
              { d with metas := d.metas ++ [meta_copy_of m] })
              { d with metas := d.metas ++ [meta_copy_of m] } (by simp)
          refine ⟨by rw [i1]; simp [a1], by rw [i2]; simp [a2], by rw [i3]; simp [a3],
            fun i hi => by rw [i4 i hi]; simp [hi, a4 i hi],
            ⟨meta_copy_of m :: extra, ?_, ?_, ?_, fun h0 => ?_⟩, i6,
            fun c1 c2 c3 c4 => ?_⟩
          · rw [e1]
            simp only [List.append_assoc, List.singleton_append]
          · intro hu
            have := e2 (by
              rcases hu1 hu (meta_copy_of m) with h | h
              · exact h
              · exact absurd rfl h)
            simpa only [List.append_assoc, List.singleton_append] using this
          · intro x hx
            rcases List.mem_cons.mp hx with h | h
            · rw [h]
              refine ⟨hk0, hlen, ?_⟩
              show m.len ≤ (m.data.take m.len).length
              rw [List.length_take]
              omega
            · exact e4 x h
          · rw [e3 h0, List.filter_cons_of_pos hselb, List.map_cons]
          · rw [List.filter_cons_of_pos hselb, List.map_cons, List.nodup_cons] at c3
            apply i7 (fun x hx hs => c1 x (List.mem_cons_of_mem m hx) hs) ?_ c3.2
              (fun t => by simp [a3, c4 t])
            intro x hx hs y hy
            rcases List.mem_append.mp hy with h | h
            · exact c2 x (List.mem_cons_of_mem m hx) hs y h
            · rw [List.mem_singleton] at h
              rw [h]
              intro hk
              exact c3.1 (List.mem_map.mpr ⟨x, List.mem_filter.mpr ⟨hx, hs⟩, hk.symm⟩)
        · have heq : vbuf_metadata_copy_loop w dst max_level (m :: rest) =
              ((vbuf_metadata_add w dst m.key m.level m.len).1, -EFAULT) := by
            simp only [vbuf_metadata_copy_loop, hsel, if_true, hr0, if_false, mc1 hdat]
          rw [heq]
          refine ⟨a1, a2, a3, a4,
            ⟨[⟨m.key, m.level, List.replicate m.len 0, m.len⟩], hnew, ?_, ?_, fun h0 => ?_⟩,
            by show (-EFAULT : Int) ≤ 0; decide, fun c1 _ _ _ => ?_⟩
          · intro hu
            rcases hu1 hu ⟨m.key, m.level, List.replicate m.len 0, m.len⟩ with h | h
            · exact h
            · exact absurd rfl h
          · intro x hx
            rw [List.mem_singleton] at hx
            rw [hx]
            exact ⟨hk0, hlen, by simp⟩
          · exact absurd h0 (by show ¬ ((-EFAULT : Int) = 0); decide)
          · exact absurd (c1 m (List.mem_cons_self m rest) hselb).2.2 hdat
    · have hselb : ¬ meta_selected max_level m = true := fun h =>
        hsel ((meta_selected_iff _ _).mp h)
      have heq : vbuf_metadata_copy_loop w dst max_level (m :: rest) =
          vbuf_metadata_copy_loop w dst max_level rest := by
        simp only [vbuf_metadata_copy_loop, hsel, if_false]
      rw [heq, List.filter_cons_of_neg hselb]
      obtain ⟨i1, i2, i3, i4, i5, i6, i7⟩ := ih w d hd
      exact ⟨i1, i2, i3, i4, i5, i6, fun c1 c2 c3 c4 =>
        i7 (fun x hx hs => c1 x (List.mem_cons_of_mem m hx) hs)
          (fun x hx hs => c2 x (List.mem_cons_of_mem m hx) hs) c3 c4⟩

/-! ## What reference counting, pools and queues do to the data of a buffer -/

theorem kept_refl (b : vbuf_buffer) : kept b b := ⟨rfl, rfl, rfl, Or.inl rfl, Or.inl rfl⟩

theorem kept_trans {a b c : vbuf_buffer} (h1 : kept a b) (h2 : kept b c) : kept a c := by
  obtain ⟨a1, a2, a3, a4, a5⟩ := h1
  obtain ⟨b1, b2, b3, b4, b5⟩ := h2
  refine ⟨b1.trans a1, b2.trans a2, b3.trans a3, ?_, ?_⟩
  · rcases b4 with h | h
    · rcases a4 with g | g
      · exact Or.inl (h.trans g)
      · exact Or.inr (h.trans g)
    · exact Or.inr h
  · rcases b5 with h | h
    · rcases a5 with g | g
      · exact Or.inl (h.trans g)
      · exact Or.inr (h.trans g)
    · exact Or.inr h

theorem keeps_trans {u v w : World} (h1 : keeps u v) (h2 : keeps v w) : keeps u w := by
  intro i c hc
  obtain ⟨b, hb, hbc⟩ := h2 i c hc
  obtain ⟨a, ha, hab⟩ := h1 i b hb
  exact ⟨a, ha, kept_trans hab hbc⟩

theorem keeps_of_bufs_eq {w w' : World} (he : w'.bufs = w.bufs) : keeps w w' := by
  intro i b hb
  rw [he] at hb
  exact ⟨b, hb, kept_refl b⟩

theorem keeps_refl (w : World) : keeps w w := keeps_of_bufs_eq rfl

theorem keeps_set_buf (w : World) (id : Nat) (b b1 : vbuf_buffer)
    (hb : w.bufs id = some b) (hs : kept b b1) : keeps w (w.set_buf id b1) := by
  intro i c hc
  rw [set_buf_bufs] at hc
  split at hc
  · next hi => cases hc; exact ⟨b, by rw [hi]; exact hb, hs⟩
  · exact ⟨c, hc, kept_refl c⟩

theorem keeps_del_buf (w : World) (id : Nat) : keeps w (w.del_buf id) := by
  intro i c hc
  rw [del_buf_bufs] at hc
  split at hc
  · cases hc
  · exact ⟨c, hc, kept_refl c⟩

theorem kept_of_backend_only {b b' : vbuf_buffer} (hbo : backend_only b b') : kept b b' := by
  rw [hbo]
  exact ⟨rfl, rfl, rfl, Or.inl rfl, Or.inl rfl⟩

theorem keeps_run_cb (w : World) (k : cb_kind) (f : vbuf_cb) (id : Nat)
    (b : vbuf_buffer) (t : Int) (hb : w.bufs id = some b) :
    keeps w (run_cb w k f id b t).1 ∧
    (run_cb w k f id b t).1.bufs id = some (run_cb w k f id b t).2.1 ∧
    kept b (run_cb w k f id b t).2.1 := by
  have hs : kept b (run_cb w k f id b t).2.1 := kept_of_backend_only rfl
  refine ⟨?_, by simp [run_cb], hs⟩
  exact keeps_trans (keeps_set_buf w id b _ hb hs) (keeps_of_bufs_eq rfl)

theorem keeps_run_opt_cb (w : World) (k : cb_kind) (cb : Option vbuf_cb)
    (id : Nat) (b : vbuf_buffer) (t : Int) (hb : w.bufs id = some b) :
    keeps w (run_opt_cb w k cb id b t).1 ∧
    (run_opt_cb w k cb id b t).1.bufs id = some (run_opt_cb w k cb id b t).2.1 ∧
    kept b (run_opt_cb w k cb id b t).2.1 := by
  cases cb with
  | none => exact ⟨keeps_refl w, hb, kept_refl b⟩
  | some f => exact keeps_run_cb w k f id b t hb

theorem keeps_log (w : World) (c : ext_call) : keeps w (w.log c) := keeps_of_bufs_eq rfl

theorem keeps_sys_call (w : World) (k : sys_kind) : keeps w (sys_call w k).1 :=
  keeps_of_bufs_eq rfl

theorem keeps_ref (w : World) (buf : Nat) : keeps w (vbuf_ref w buf).1 := by
  unfold vbuf_ref
  split
  · exact keeps_refl w
  · split
    · exact keeps_refl w
    · next b hb => exact keeps_set_buf w buf b _ hb ⟨rfl, rfl, rfl, Or.inl rfl, Or.inl rfl⟩

theorem keeps_write_lock (w : World) (buf : Nat) : keeps w (vbuf_write_lock w buf).1 := by
  unfold vbuf_write_lock
  split
  · exact keeps_refl w
  · split
    · exact keeps_refl w
    · next b hb =>
      simp only
      split
      · exact keeps_refl w
      · exact keeps_set_buf w buf b _ hb ⟨rfl, rfl, rfl, Or.inl rfl, Or.inl rfl⟩

theorem keeps_write_unlock (w : World) (buf : Nat) : keeps w (vbuf_write_unlock w buf).1 := by
  unfold vbuf_write_unlock
  split
  · exact keeps_refl w
  · split
    · exact keeps_refl w
    · next b hb =>
      simp only
      split
      · exact keeps_refl w
      · exact keeps_set_buf w buf b _ hb ⟨rfl, rfl, rfl, Or.inl rfl, Or.inl rfl⟩

theorem keeps_destroy (w : World) (buf : Nat) : keeps w (vbuf_destroy w buf).1 := by
  unfold vbuf_destroy
  split
  · exact keeps_refl w
  · split
    · exact keeps_refl w
    · next b hb =>
      split
      · exact keeps_refl w
      · next f hf =>
        obtain ⟨h1, -⟩ := keeps_run_cb w cb_kind.free f buf b 0 hb
        exact keeps_trans h1 (keeps_del_buf _ buf)

theorem keeps_pool_put (w : World) (pool buf : Nat) : keeps w (vbuf_pool_put w pool buf).1 := by
  unfold vbuf_pool_put
  split
  · exact keeps_refl w
  · split
    · exact keeps_refl w
    · split
      · exact keeps_refl w
      · next b hb =>
        split
        · exact keeps_refl w
        · obtain ⟨h1, h2, -⟩ := keeps_run_opt_cb w cb_kind.pool_put b.cbs.pool_put buf b 0 hb
          simp only
          split
          · exact h1
          · have h4 : keeps (run_opt_cb w cb_kind.pool_put b.cbs.pool_put buf b 0).1
                ((run_opt_cb w cb_kind.pool_put b.cbs.pool_put buf b 0).1.set_buf buf
                  { (run_opt_cb w cb_kind.pool_put b.cbs.pool_put buf b 0).2.1 with
                    metas := [] }) :=
              keeps_set_buf _ buf _ _ h2 ⟨rfl, rfl, rfl, Or.inl rfl, Or.inr rfl⟩
            have h5 := keeps_trans h1 h4
            split
            · exact h5
            · exact keeps_trans h5 (keeps_of_bufs_eq (by simp))

theorem keeps_unref (w : World) (buf : Nat) : keeps w (vbuf_unref w buf).1 := by
  by_cases hbuf : buf = 0
  · simp only [vbuf_unref, hbuf, if_true]
    exact keeps_refl w
  by_cases hisref : (vbuf_is_ref w buf).2 = 0
  · simp only [vbuf_unref, hbuf, hisref, if_true, if_false]
    exact keeps_refl w
  cases hb : w.bufs buf with
  | none =>
    simp only [vbuf_unref, hbuf, hisref, hb, if_false]
    exact keeps_refl w
  | some b =>
    have h0 : keeps w (w.set_buf buf { b with ref_count := uint_dec b.ref_count }) :=
      keeps_set_buf w buf b _ hb ⟨rfl, rfl, rfl, Or.inl rfl, Or.inl rfl⟩
    by_cases hz : to_int (uint_dec b.ref_count) = 0
    · obtain ⟨h1, h2, -⟩ :=
        keeps_run_opt_cb (w.set_buf buf { b with ref_count := uint_dec b.ref_count })
          cb_kind.unref b.cbs.unref buf { b with ref_count := uint_dec b.ref_count } 0
          (by simp)
      have h3 := keeps_trans h0 h1
      simp only [vbuf_unref, hbuf, hisref, hb, hz, if_false, if_true]
      split
      · exact h3
      · have h4 := keeps_trans h3 (keeps_set_buf _ buf _
          { (run_opt_cb (w.set_buf buf { b with ref_count := uint_dec b.ref_count })
                cb_kind.unref b.cbs.unref buf
                { b with ref_count := uint_dec b.ref_count } 0).2.1 with
              write_locked := false, size := 0 } h2 ⟨rfl, rfl, rfl, Or.inr rfl, Or.inl rfl⟩)
        split
        · exact keeps_trans h4 (keeps_pool_put _ _ _)
        · exact keeps_trans h4 (keeps_destroy _ _)
    · simp only [vbuf_unref, hbuf, hisref, hb, hz, if_false]
      exact h0

theorem keeps_pool_get_take (w : World) (pool : Nat) (t : Int) :
    keeps w (vbuf_pool_get_take w pool t).1 := by
  cases hp : w.pools pool with
  | none => simp only [vbuf_pool_get_take, hp]; exact keeps_refl w
  | some p =>
    by_cases hf : p.free = 0
    · simp only [vbuf_pool_get_take, hp, hf, if_true]; exact keeps_refl w
    cases hl : p.buffers with
    | nil => simp only [vbuf_pool_get_take, hp, hf, hl, if_false]; exact keeps_refl w
    | cons id rest =>
      have h1 : keeps w ((vbuf_ref w id).1.set_pool pool
          { p with buffers := rest, free := uint_dec p.free }) :=
        keeps_trans (keeps_ref w id) (keeps_of_bufs_eq rfl)
      simp only [vbuf_pool_get_take, hp, hf, hl, if_false]
      split
      · exact h1
      · next b hb =>
        split
        · next f hcb =>
          obtain ⟨h2, -⟩ := keeps_run_cb _ cb_kind.pool_get f id b t hb
          have h3 := keeps_trans h1 h2
          split
          · exact keeps_trans h3 (keeps_unref _ id)
          · exact h3
        · exact h1

theorem keeps_pool_get (w : World) (pool : Nat) (t : Int) :
    keeps w (vbuf_pool_get w pool t).1 := by
  by_cases hp0 : pool = 0
  · simp only [vbuf_pool_get, hp0, if_true]; exact keeps_refl w
  cases hp : w.pools pool with
  | none => simp only [vbuf_pool_get, hp0, hp, if_false]; exact keeps_refl w
  | some p =>
    by_cases hc : p.free = 0
    · by_cases ht : t = 0
      · simp only [vbuf_pool_get, hp0, hp, hc, ht, if_true, if_false]
        exact keeps_refl w
      · simp only [vbuf_pool_get, hp0, hp, hc, ht, if_true, if_false]
        split
        · split
          · exact keeps_log w _
          · split
            · exact keeps_log w _
            · exact keeps_trans (keeps_log w _) (keeps_pool_get_take _ pool t)
        · split
          · exact keeps_log w _
          · split
            · exact keeps_log w _
            · exact keeps_trans (keeps_log w _) (keeps_pool_get_take _ pool t)
    · simp only [vbuf_pool_get, hp0, hp, hc, if_false]
      exact keeps_pool_get_take w pool t

theorem keeps_pool_abort (w : World) (pool : Nat) : keeps w (vbuf_pool_abort w pool).1 := by
  unfold vbuf_pool_abort
  split
  · exact keeps_refl w
  · split
    · exact keeps_refl w
    · exact keeps_sys_call w _

theorem keeps_pool_destroy_loop (pool : Nat) (l : List Nat) :
    ∀ w : World, keeps w (vbuf_pool_destroy_loop w pool l) := by
  induction l with
  | nil => intro w; exact keeps_refl w
  | cons id rest ih =>
    intro w
    unfold vbuf_pool_destroy_loop
    split
    · exact keeps_refl w
    · next p hp =>
      exact keeps_trans (keeps_trans (keeps_of_bufs_eq rfl)
        (keeps_destroy (w.set_pool pool { p with buffers := rest, free := uint_dec p.free })
          id)) (ih _)

theorem keeps_pool_destroy (w : World) (pool : Nat) :
    keeps w (vbuf_pool_destroy w pool).1 := by
  unfold vbuf_pool_destroy
  split
  · exact keeps_refl w
  · split
    · exact keeps_refl w
    · exact keeps_trans (keeps_pool_destroy_loop pool _ w) (keeps_of_bufs_eq rfl)

theorem keeps_queue_new (w : World) (max_count : Nat) (drop : Int) :
    keeps w (vbuf_queue_new w max_count drop).1 := by
  unfold vbuf_queue_new vbuf_queue_new_error
  simp only
  split
  · exact keeps_of_bufs_eq rfl
  · split
    · exact keeps_of_bufs_eq rfl
    · split
      · exact keeps_of_bufs_eq rfl
      · split
        · exact keeps_of_bufs_eq rfl
        · exact keeps_of_bufs_eq rfl

theorem keeps_queue_pop_take (v : World) (queue : Nat) (t : Int) :
    keeps v (vbuf_queue_pop_take v queue t).1 := by
  cases hq : v.queues queue with
  | none => simp only [vbuf_queue_pop_take, hq]; exact keeps_refl v
  | some q =>
    by_cases hc : q.count = 0
    · simp only [vbuf_queue_pop_take, hq, hc, if_true]; exact keeps_refl v
    cases hl : q.buffers with
    | nil => simp only [vbuf_queue_pop_take, hq, hc, hl, if_false]; exact keeps_refl v
    | cons id rest =>
      have h1 : keeps v (v.set_queue queue
          { q with buffers := rest, count := uint_dec q.count }) := keeps_of_bufs_eq rfl
      cases hb : v.bufs id with
      | none =>
        simp only [vbuf_queue_pop_take, hq, hc, hl, if_false, set_queue_bufs, hb]
        exact h1
      | some b =>
        cases hf : b.cbs.queue_pop with
        | none =>
          simp only [vbuf_queue_pop_take, hq, hc, hl, if_false, set_queue_bufs, hb, hf]
          exact h1
        | some f =>
          simp only [vbuf_queue_pop_take, hq, hc, hl, if_false, set_queue_bufs, hb, hf]
          obtain ⟨h2, -⟩ := keeps_run_cb (v.set_queue queue
            { q with buffers := rest, count := uint_dec q.count }) cb_kind.queue_pop f id b t hb
          have h3 := keeps_trans h1 h2
          split
          · exact keeps_trans h3 (keeps_unref _ id)
          · exact h3

theorem keeps_queue_pop (w : World) (queue : Nat) (t : Int) :
    keeps w (vbuf_queue_pop w queue t).1 := by
  by_cases hq0 : queue = 0
  · simp only [vbuf_queue_pop, hq0, if_true]; exact keeps_refl w
  cases hq : w.queues queue with
  | none => simp only [vbuf_queue_pop, hq0, hq, if_false]; exact keeps_refl w
  | some q =>
    by_cases hc : q.count = 0
    · by_cases ht : t = 0
      · simp only [vbuf_queue_pop, hq0, hq, hc, ht, if_true, if_false]
        exact keeps_refl w
      · simp only [vbuf_queue_pop, hq0, hq, hc, ht, if_true, if_false]
        split
        · split
          · exact keeps_log w _
          · split
            · exact keeps_log w _
            · exact keeps_trans (keeps_log w _) (keeps_queue_pop_take _ queue t)
        · split
          · exact keeps_log w _
          · split
            · exact keeps_log w _
            · exact keeps_trans (keeps_log w _) (keeps_queue_pop_take _ queue t)
    · simp only [vbuf_queue_pop, hq0, hq, hc, if_false]
      exact keeps_queue_pop_take w queue t

theorem keeps_queue_push_tail (w : World) (queue buf : Nat) :
    keeps w (vbuf_queue_push_tail w queue buf).1 := by
  cases hb : w.bufs buf with
  | none => simp only [vbuf_queue_push_tail, hb]; exact keeps_refl w
  | some b =>
    obtain ⟨h1, -⟩ := keeps_run_opt_cb w cb_kind.queue_push b.cbs.queue_push buf b 0 hb
    simp only [vbuf_queue_push_tail, hb]
    split
    · exact h1
    · split
      · exact keeps_trans h1 (keeps_sys_call _ _)
      · have h2 := keeps_trans (keeps_trans h1 (keeps_sys_call _ sys_kind.calloc))
          (keeps_ref _ buf)
        split
        · exact h2
        · exact keeps_trans h2 (keeps_of_bufs_eq (by simp))

theorem keeps_queue_push (w : World) (queue buf : Nat) :
    keeps w (vbuf_queue_push w queue buf).1 := by
  by_cases hq0 : queue = 0
  · simp only [vbuf_queue_push, hq0, if_true]; exact keeps_refl w
  by_cases hbuf : buf = 0
  · simp only [vbuf_queue_push, hq0, hbuf, if_true, if_false]; exact keeps_refl w
  cases hq : w.queues queue with
  | none => simp only [vbuf_queue_push, hq0, hbuf, hq, if_false]; exact keeps_refl w
  | some q =>
    by_cases hfull : q.max_count > 0 ∧ q.count = q.max_count
    · by_cases hd : q.drop_when_full = 0
      · simp only [vbuf_queue_push, hq0, hbuf, hq, hfull, hd, if_false, if_true, and_self,
          ne_eq, not_true_eq_false]
        exact keeps_refl w
      · simp only [vbuf_queue_push, hq0, hbuf, hq, hfull, hd, if_false, if_true, and_self,
          ne_eq, not_false_eq_true]
        refine keeps_trans ?_ (keeps_queue_push_tail _ queue buf)
        split
        · exact keeps_queue_pop w queue 0
        · split
          · exact keeps_trans (keeps_queue_pop w queue 0) (keeps_unref _ _)
          · exact keeps_queue_pop w queue 0
    · simp only [vbuf_queue_push, hq0, hbuf, hq, hfull, if_false]
      exact keeps_queue_push_tail w queue buf

theorem keeps_queue_peek_take (w : World) (queue index : Nat) (t : Int) :
    keeps w (vbuf_queue_peek_take w queue index t).1 := by
  unfold vbuf_queue_peek_take
  split
  · exact keeps_refl w
  · split
    · exact keeps_refl w
    · split
      · exact keeps_refl w
      · split
        · exact keeps_refl w
        · next b hb =>
          split
          · next f hf => exact (keeps_run_cb w cb_kind.queue_peek f _ b t hb).1
          · exact keeps_refl w

theorem keeps_queue_peek (w : World) (queue index : Nat) (t : Int) :
    keeps w (vbuf_queue_peek w queue index t).1 := by
  by_cases hq0 : queue = 0
  · simp only [vbuf_queue_peek, hq0, if_true]; exact keeps_refl w
  cases hq : w.queues queue with
  | none => simp only [vbuf_queue_peek, hq0, hq, if_false]; exact keeps_refl w
  | some q =>
    by_cases hc : q.count < uint_inc index
    · by_cases ht : t = 0
      · simp only [vbuf_queue_peek, hq0, hq, hc, ht, if_true, if_false]
        exact keeps_refl w
      · simp only [vbuf_queue_peek, hq0, hq, hc, ht, if_true, if_false]
        split
        · split
          · exact keeps_log w _
          · split
            · exact keeps_log w _
            · exact keeps_trans (keeps_log w _) (keeps_queue_peek_take _ queue index t)
        · split
          · exact keeps_log w _
          · split
            · exact keeps_log w _
            · exact keeps_trans (keeps_log w _) (keeps_queue_peek_take _ queue index t)
    · simp only [vbuf_queue_peek, hq0, hq, hc, if_false]
      exact keeps_queue_peek_take w queue index t

theorem keeps_queue_flush_loop (queue : Nat) (l : List Nat) :
    ∀ w : World, keeps w (vbuf_queue_flush_loop w queue l) := by
  induction l with
  | nil => intro w; exact keeps_refl w
  | cons id rest ih =>
    intro w
    unfold vbuf_queue_flush_loop
    split
    · exact keeps_refl w
    · next q hq =>
      exact keeps_trans (keeps_trans (keeps_of_bufs_eq rfl)
        (keeps_unref (w.set_queue queue { q with buffers := rest, count := uint_dec q.count })
          id)) (ih _)

theorem keeps_queue_flush (w : World) (queue : Nat) :
    keeps w (vbuf_queue_flush w queue).1 := by
  unfold vbuf_queue_flush
  split
  · exact keeps_refl w
  · split
    · exact keeps_refl w
    · split
      · exact keeps_refl w
      · exact keeps_queue_flush_loop queue _ w

theorem keeps_queue_abort (w : World) (queue : Nat) :
    keeps w (vbuf_queue_abort w queue).1 := by
  unfold vbuf_queue_abort
  split
  · exact keeps_refl w
  · split
    · exact keeps_refl w
    · exact keeps_sys_call w _

theorem keeps_queue_destroy (w : World) (queue : Nat) :
    keeps w (vbuf_queue_destroy w queue).1 := by
  unfold vbuf_queue_destroy
  split
  · exact keeps_refl w
  · split
    · exact keeps_refl w
    · exact keeps_trans (keeps_queue_flush w queue) (keeps_of_bufs_eq rfl)

/-! ## Sizes, capacities and copies: what each step does to the buffer -/

theorem bufs_good_of_keeps {w w' : World} (h : bufs_good w) (hk : keeps w w') :
    bufs_good w' := by
  intro i b' hb'
  obtain ⟨b, hb, k1, k2, k3, k4, k5⟩ := hk i b' hb'
  obtain ⟨g1, g2, g3, g4⟩ := h i b hb
  refine ⟨?_, by omega, ?_, ?_⟩
  · rcases k4 with h4 | h4 <;> omega
  · unfold keys_unique
    rcases k5 with h5 | h5
    · rw [h5]; exact g3
    · rw [h5]; exact List.nodup_nil
  · rcases k5 with h5 | h5
    · rw [h5]; exact g4
    · rw [h5]; intro m hm; exact absurd hm (List.not_mem_nil m)

/-- A world that differs from `w` at one address at most, where the buffer is good. -/
theorem bufs_good_pointwise {w w' : World} (h : bufs_good w) (id : Nat)
    (hoth : ∀ i, i ≠ id → w'.bufs i = w.bufs i)
    (hself : ∀ b', w'.bufs id = some b' → buf_good b') : bufs_good w' := by
  intro i b hb
  by_cases hi : i = id
  · rw [hi] at hb; exact hself b hb
  · rw [hoth i hi] at hb; exact h i b hb

theorem set_size_cases (w : World) (buf n : Nat) (b : vbuf_buffer) (hbuf : buf ≠ 0)
    (hb : w.bufs buf = some b) :
    (vbuf_set_size w buf n = (w.set_buf buf { b with size := n }, 0) ∧ n ≤ b.capacity) ∨
    ((vbuf_set_size w buf n).1 = w ∧ (vbuf_set_size w buf n).2 < 0) := by
  by_cases hn : n > b.capacity
  · right
    have heq : vbuf_set_size w buf n = (w, -ENOBUFS) := by
      simp only [vbuf_set_size, hbuf, if_false, hb, hn, if_true]
    rw [heq]; exact ⟨rfl, by show (-ENOBUFS : Int) < 0; decide⟩
  · by_cases hl : b.write_locked = true
    · right
      have heq : vbuf_set_size w buf n = (w, -EPERM) := by
        simp only [vbuf_set_size, hbuf, if_false, hb, hn]
        rw [if_pos hl]
      rw [heq]; exact ⟨rfl, by show (-EPERM : Int) < 0; decide⟩
    · left
      refine ⟨?_, by omega⟩
      simp only [vbuf_set_size, hbuf, if_false, hb, hn]
      rw [if_neg hl]

theorem set_userdata_size_cases (w : World) (buf n : Nat) (b : vbuf_buffer) (hbuf : buf ≠ 0)
    (hb : w.bufs buf = some b) :
    (vbuf_set_userdata_size w buf n = (w.set_buf buf { b with userdata_size := n }, 0) ∧
      n ≤ b.userdata_capacity) ∨
    ((vbuf_set_userdata_size w buf n).1 = w ∧ (vbuf_set_userdata_size w buf n).2 < 0) := by
  by_cases hn : n > b.userdata_capacity
  · right
    have heq : vbuf_set_userdata_size w buf n = (w, -ENOBUFS) := by
      simp only [vbuf_set_userdata_size, hbuf, if_false, hb, hn, if_true]
    rw [heq]; exact ⟨rfl, by show (-ENOBUFS : Int) < 0; decide⟩
  · by_cases hl : b.write_locked = true
    · right
      have heq : vbuf_set_userdata_size w buf n = (w, -EPERM) := by
        simp only [vbuf_set_userdata_size, hbuf, if_false, hb, hn]
        rw [if_pos hl]
      rw [heq]; exact ⟨rfl, by show (-EPERM : Int) < 0; decide⟩
    · left
      refine ⟨?_, by omega⟩
      simp only [vbuf_set_userdata_size, hbuf, if_false, hb, hn]
      rw [if_neg hl]

/-- `vbuf_set_capacity` touches one buffer, of which it keeps the size, the metadata and
the user data, and does not lower the capacity. -/
theorem set_capacity_cases (w : World) (buf n : Nat) (b : vbuf_buffer) (hbuf : buf ≠ 0)
    (hb : w.bufs buf = some b) :
    (∀ i, i ≠ buf → (vbuf_set_capacity w buf n).1.bufs i = w.bufs i) ∧
    ∃ b', (vbuf_set_capacity w buf n).1.bufs buf = some b' ∧ b.capacity ≤ b'.capacity ∧
      b'.size = b.size ∧ payload_step b b' := by
  have hsame : ∀ x : Int, (∀ i, i ≠ buf → ((w, x) : World × Int).1.bufs i = w.bufs i) ∧
      ∃ b', ((w, x) : World × Int).1.bufs buf = some b' ∧ b.capacity ≤ b'.capacity ∧
        b'.size = b.size ∧ payload_step b b' := fun x =>
    ⟨fun _ _ => rfl, b, hb, le_refl _, rfl, rfl, rfl, rfl, rfl⟩
  cases hf : b.cbs.realloc with
  | none =>
    have heq : vbuf_set_capacity w buf n = (w, -ENOSYS) := by
      simp only [vbuf_set_capacity, hbuf, if_false, hb, hf]
    rw [heq]; exact hsame _
  | some f =>
    by_cases hl : b.write_locked = true
    · have heq : vbuf_set_capacity w buf n = (w, -EPERM) := by
        simp only [vbuf_set_capacity, hbuf, if_false, hb, hf]
        rw [if_pos hl]
      rw [heq]; exact hsame _
    by_cases hn : n > b.capacity
    · simp only [vbuf_set_capacity, hbuf, if_false, hb, hf, hn, if_true]
      rw [if_neg hl]
      split
      · refine ⟨fun i hi => by simp [run_cb, hi],
          { (run_cb (w.set_buf buf { b with capacity := n }) cb_kind.realloc f buf
            { b with capacity := n } 0).2.1 with capacity := b.capacity }, by simp,
          le_refl _, rfl, rfl, rfl, rfl, rfl⟩
      · refine ⟨fun i hi => by simp [run_cb, hi],
          (run_cb (w.set_buf buf { b with capacity := n }) cb_kind.realloc f buf
            { b with capacity := n } 0).2.1, by simp [run_cb], ?_, rfl, rfl, rfl, rfl, rfl⟩
        show b.capacity ≤ n
        omega
    · have heq : vbuf_set_capacity w buf n = (w, to_ssize b.capacity) := by
        simp only [vbuf_set_capacity, hbuf, if_false, hb, hf, hn]
        rw [if_neg hl]
      rw [heq]; exact hsame _

/-- `vbuf_set_userdata_capacity` touches one buffer, of which it keeps the payload, the
metadata and the size of the user data, and does not lower the capacity of the user
data. -/
theorem set_userdata_capacity_cases (w : World) (buf n : Nat) (b : vbuf_buffer)
    (hbuf : buf ≠ 0) (hb : w.bufs buf = some b) :
    (∀ i, i ≠ buf → (vbuf_set_userdata_capacity w buf n).1.bufs i = w.bufs i) ∧
    ∃ b', (vbuf_set_userdata_capacity w buf n).1.bufs buf = some b' ∧
      b.userdata_capacity ≤ b'.userdata_capacity ∧ b'.userdata_size = b.userdata_size ∧
      userdata_step b b' := by
  have hsame : ∀ (v : World) (x : Int), v.bufs = w.bufs →
      (∀ i, i ≠ buf → ((v, x) : World × Int).1.bufs i = w.bufs i) ∧
      ∃ b', ((v, x) : World × Int).1.bufs buf = some b' ∧
        b.userdata_capacity ≤ b'.userdata_capacity ∧ b'.userdata_size = b.userdata_size ∧
        userdata_step b b' := fun v x hv =>
    ⟨fun _ _ => by show v.bufs _ = _; rw [hv], b, by show v.bufs _ = _; rw [hv]; exact hb,
      le_refl _, rfl, rfl, rfl, rfl, rfl⟩
  by_cases hl : b.write_locked = true
  · have heq : vbuf_set_userdata_capacity w buf n = (w, -EPERM) := by
      simp only [vbuf_set_userdata_capacity, hbuf, if_false, hb]
      rw [if_pos hl]
    rw [heq]; exact hsame w _ rfl
  by_cases hn : n > b.userdata_capacity
  · by_cases he : (sys_call w sys_kind.realloc).2 = 0
    · have heq : vbuf_set_userdata_capacity w buf n =
          ((sys_call w sys_kind.realloc).1.set_buf buf
            { b with userdata_ptr := some (realloc_block w b.userdata_ptr n),
                     userdata_capacity := n }, to_ssize n) := by
        simp only [vbuf_set_userdata_capacity, hbuf, if_false, hb, hn, if_true, he, ne_eq,
          not_true_eq_false]
        rw [if_neg hl]
      rw [heq]
      refine ⟨fun i hi => by simp [hi],
        { b with userdata_ptr := some (realloc_block w b.userdata_ptr n),
                 userdata_capacity := n }, by simp, ?_, rfl, rfl, rfl, rfl, rfl⟩
      show b.userdata_capacity ≤ n
      omega
    · have heq : vbuf_set_userdata_capacity w buf n =
          ((sys_call w sys_kind.realloc).1, -ENOMEM) := by
        simp only [vbuf_set_userdata_capacity, hbuf, if_false, hb, hn, if_true, he, ne_eq,
          not_false_eq_true]
        rw [if_neg hl]
      rw [heq]; exact hsame _ _ rfl
  · have heq : vbuf_set_userdata_capacity w buf n = (w, to_ssize b.userdata_capacity) := by
      simp only [vbuf_set_userdata_capacity, hbuf, if_false, hb, hn]
      rw [if_neg hl]
    rw [heq]; exact hsame w _ rfl

/-! ## The steps of `vbuf_copy` -/

theorem memcpy_some {dst src : List Nat} {n : Nat} {bytes : List Nat}
    (h : memcpy dst src n = some bytes) :
    bytes.take n = src.take n ∧ (src.take n).length = n := by
  unfold memcpy at h
  split at h
  · next hc =>
    cases h
    refine ⟨?_, by rw [List.length_take]; omega⟩
    rw [List.take_append_of_le_length (by rw [List.length_take]; omega)]
    rw [List.take_take, Nat.min_self]
  · cases h

theorem first_bytes_zero (p q : Option (List Nat)) : first_bytes p 0 = first_bytes q 0 := by
  simp [first_bytes]

/-- The growth of the destination in `vbuf_copy`. -/
theorem copy_grow_spec (w : World) (dst cap n : Nat) (d : vbuf_buffer) (hdst : dst ≠ 0)
    (hd : w.bufs dst = some d) :
    (∀ i, i ≠ dst → (vbuf_copy_grow w dst cap n).1.bufs i = w.bufs i) ∧
    ∃ d1, (vbuf_copy_grow w dst cap n).1.bufs dst = some d1 ∧ d.capacity ≤ d1.capacity ∧
      d1.size = d.size ∧ payload_step d d1 := by
  by_cases hc : cap < n
  · have heq : (vbuf_copy_grow w dst cap n).1 = (vbuf_set_capacity w dst n).1 := by
      simp only [vbuf_copy_grow, hc, if_true]
    rw [heq]
    exact set_capacity_cases w dst n d hdst hd
  · have heq : (vbuf_copy_grow w dst cap n).1 = w := by
      simp only [vbuf_copy_grow, hc, if_false]
    rw [heq]
    exact ⟨fun _ _ => rfl, d, hd, le_refl _, rfl, rfl, rfl, rfl, rfl⟩

/-- The `memcpy` of the payload in `vbuf_copy` and the `vbuf_set_size` after it. -/
theorem copy_bytes_spec (w : World) (dst : Nat) (sp : Option (List Nat)) (n : Nat)
    (d : vbuf_buffer) (hdst : dst ≠ 0) (hd : w.bufs dst = some d) :
    (∀ i, i ≠ dst → (vbuf_copy_bytes w dst sp n).1.bufs i = w.bufs i) ∧
    (vbuf_copy_bytes w dst sp n).2 ≤ 0 ∧
    ∃ d2, (vbuf_copy_bytes w dst sp n).1.bufs dst = some d2 ∧ d2.capacity = d.capacity ∧
      (d.size ≤ d.capacity → d2.size ≤ d2.capacity) ∧ payload_step d d2 ∧
      ((vbuf_copy_bytes w dst sp n).2 = 0 →
        (0 < n → d2.size = n) ∧ (n = 0 → d2.size = d.size) ∧
        first_bytes d2.ptr n = first_bytes sp n ∧ (first_bytes sp n).length = n) := by
  have hE : ¬ (-EFAULT : Int) = 0 := by decide
  have hE' : (-EFAULT : Int) ≤ 0 := by decide
  have hsame : ∀ x : Int, x ≠ 0 → x ≤ 0 →
      (∀ i, i ≠ dst → ((w, x) : World × Int).1.bufs i = w.bufs i) ∧
      ((w, x) : World × Int).2 ≤ 0 ∧
      ∃ d2, ((w, x) : World × Int).1.bufs dst = some d2 ∧ d2.capacity = d.capacity ∧
        (d.size ≤ d.capacity → d2.size ≤ d2.capacity) ∧ payload_step d d2 ∧
        (((w, x) : World × Int).2 = 0 →
          (0 < n → d2.size = n) ∧ (n = 0 → d2.size = d.size) ∧
          first_bytes d2.ptr n = first_bytes sp n ∧ (first_bytes sp n).length = n) :=
    fun x hx hx' =>
    ⟨fun _ _ => rfl, hx', d, hd, rfl, fun h => h, ⟨rfl, rfl, rfl, rfl⟩, fun h => absurd h hx⟩
  by_cases hn : n > 0
  · cases hdp : d.ptr with
    | none =>
      have heq : vbuf_copy_bytes w dst sp n = (w, -EFAULT) := by
        simp only [vbuf_copy_bytes, hn, if_true, hd, hdp]
      rw [heq]; exact hsame _ hE hE'
    | some dst_bytes =>
      cases hsp : sp with
      | none =>
        have heq : vbuf_copy_bytes w dst none n = (w, -EFAULT) := by
          simp only [vbuf_copy_bytes, hn, if_true, hd, hdp]
        rw [heq]
        have := hsame (-EFAULT) hE hE'
        rw [hsp] at this
        exact this
      | some src_bytes =>
        cases hm : memcpy dst_bytes src_bytes n with
        | none =>
          have heq : vbuf_copy_bytes w dst (some src_bytes) n = (w, -EFAULT) := by
            simp only [vbuf_copy_bytes, hn, if_true, hd, hdp, hm]
          rw [heq]
          have := hsame (-EFAULT) hE hE'
          rw [hsp] at this
          exact this
        | some bytes =>
          have heq : vbuf_copy_bytes w dst (some src_bytes) n =
              vbuf_set_size (w.set_buf dst { d with ptr := some bytes }) dst n := by
            simp only [vbuf_copy_bytes, hn, if_true, hd, hdp, hm]
          rw [heq]
          rcases set_size_cases (w.set_buf dst { d with ptr := some bytes }) dst n
            { d with ptr := some bytes } hdst (by simp) with ⟨h1, h2⟩ | ⟨h1, h2⟩
          · rw [h1]
            refine ⟨fun i hi => by simp [hi], le_refl _,
              { d with ptr := some bytes, size := n },
              by simp, rfl, fun _ => h2, ⟨rfl, rfl, rfl, rfl⟩, fun _ => ⟨fun _ => rfl,
                fun h0 => absurd h0 (by omega), ?_⟩⟩
            show (bytes).take n = (src_bytes).take n ∧ ((src_bytes).take n).length = n
            exact memcpy_some hm
          · rw [h1]
            refine ⟨fun i hi => by simp [hi], le_of_lt h2, { d with ptr := some bytes },
              by simp, rfl, fun h => h, ⟨rfl, rfl, rfl, rfl⟩, fun h0 => ?_⟩
            omega
  · have heq : vbuf_copy_bytes w dst sp n = (w, 0) := by
      simp only [vbuf_copy_bytes, hn, if_false]
    rw [heq]
    have hn0 : n = 0 := by omega
    refine ⟨fun _ _ => rfl, le_refl _, d, hd, rfl, fun h => h, ⟨rfl, rfl, rfl, rfl⟩, fun _ =>
      ⟨fun h => absurd h (by omega), fun _ => rfl, ?_, ?_⟩⟩
    · rw [hn0]; exact first_bytes_zero _ _
    · rw [hn0]; simp [first_bytes]

/-- The `memcpy` of `vbuf_userdata_copy` and the `vbuf_set_userdata_size` after it. -/
theorem userdata_copy_bytes_spec (w : World) (dst : Nat) (sp : Option (List Nat)) (n : Nat)
    (d : vbuf_buffer) (hdst : dst ≠ 0) (hd : w.bufs dst = some d) :
    (∀ i, i ≠ dst → (vbuf_userdata_copy_bytes w dst sp n).1.bufs i = w.bufs i) ∧
    (vbuf_userdata_copy_bytes w dst sp n).2 ≤ 0 ∧
    ∃ d2, (vbuf_userdata_copy_bytes w dst sp n).1.bufs dst = some d2 ∧
      d2.userdata_capacity = d.userdata_capacity ∧
      (d.userdata_size ≤ d.userdata_capacity → d2.userdata_size ≤ d2.userdata_capacity) ∧
      userdata_step d d2 ∧
      ((vbuf_userdata_copy_bytes w dst sp n).2 = 0 →
        d2.userdata_size = n ∧ first_bytes d2.userdata_ptr n = first_bytes sp n ∧
        (first_bytes sp n).length = n) := by
  have hE : ¬ (-EFAULT : Int) = 0 := by decide
  have hE' : (-EFAULT : Int) ≤ 0 := by decide
  have hsame : ∀ x : Int, x ≠ 0 → x ≤ 0 →
      (∀ i, i ≠ dst → ((w, x) : World × Int).1.bufs i = w.bufs i) ∧
      ((w, x) : World × Int).2 ≤ 0 ∧
      ∃ d2, ((w, x) : World × Int).1.bufs dst = some d2 ∧
        d2.userdata_capacity = d.userdata_capacity ∧
        (d.userdata_size ≤ d.userdata_capacity → d2.userdata_size ≤ d2.userdata_capacity) ∧
        userdata_step d d2 ∧
        (((w, x) : World × Int).2 = 0 →
          d2.userdata_size = n ∧ first_bytes d2.userdata_ptr n = first_bytes sp n ∧
          (first_bytes sp n).length = n) :=
    fun x hx hx' =>
    ⟨fun _ _ => rfl, hx', d, hd, rfl, fun h => h, ⟨rfl, rfl, rfl, rfl⟩, fun h => absurd h hx⟩
  cases hdp : d.userdata_ptr with
  | none =>
    have heq : vbuf_userdata_copy_bytes w dst sp n = (w, -EFAULT) := by
      simp only [vbuf_userdata_copy_bytes, hd, hdp]
    rw [heq]; exact hsame _ hE hE'
  | some dst_bytes =>
    cases hsp : sp with
    | none =>
      have heq : vbuf_userdata_copy_bytes w dst none n = (w, -EFAULT) := by
        simp only [vbuf_userdata_copy_bytes, hd, hdp]
      rw [heq]
      have := hsame (-EFAULT) hE hE'
      rw [hsp] at this
      exact this
    | some src_bytes =>
      cases hm : memcpy dst_bytes src_bytes n with
      | none =>
        have heq : vbuf_userdata_copy_bytes w dst (some src_bytes) n = (w, -EFAULT) := by
          simp only [vbuf_userdata_copy_bytes, hd, hdp, hm]
        rw [heq]
        have := hsame (-EFAULT) hE hE'
        rw [hsp] at this
        exact this
      | some bytes =>
        have heq : vbuf_userdata_copy_bytes w dst (some src_bytes) n =
            vbuf_set_userdata_size (w.set_buf dst { d with userdata_ptr := some bytes })
              dst n := by
          simp only [vbuf_userdata_copy_bytes, hd, hdp, hm]
        rw [heq]
        rcases set_userdata_size_cases (w.set_buf dst { d with userdata_ptr := some bytes })
          dst n { d with userdata_ptr := some bytes } hdst (by simp) with ⟨h1, h2⟩ | ⟨h1, h2⟩
        · rw [h1]
          refine ⟨fun i hi => by simp [hi], le_refl _,
            { d with userdata_ptr := some bytes, userdata_size := n },
            by simp, rfl, fun _ => h2, ⟨rfl, rfl, rfl, rfl⟩, fun _ => ⟨rfl, ?_⟩⟩
          show (bytes).take n = (src_bytes).take n ∧ ((src_bytes).take n).length = n
          exact memcpy_some hm
        · rw [h1]
          refine ⟨fun i hi => by simp [hi], le_of_lt h2, { d with userdata_ptr := some bytes },
            by simp, rfl, fun h => h, ⟨rfl, rfl, rfl, rfl⟩, fun h0 => ?_⟩
          omega

/-! ## `vbuf_userdata_copy` and `vbuf_copy` as a whole -/

theorem good_payload_step {d d1 : vbuf_buffer} (h : buf_good d) (hs : payload_step d d1)
    (hsz : d1.size ≤ d1.capacity) : buf_good d1 := by
  obtain ⟨s1, s2, s3, -⟩ := hs
  obtain ⟨-, g2, g3, g4⟩ := h
  refine ⟨hsz, by omega, ?_, ?_⟩
  · unfold keys_unique; rw [s1]; exact g3
  · rw [s1]; exact g4

theorem good_userdata_step {d d1 : vbuf_buffer} (h : buf_good d) (hs : userdata_step d d1)
    (hsz : d1.userdata_size ≤ d1.userdata_capacity) : buf_good d1 := by
  obtain ⟨s1, s2, -, s4⟩ := hs
  obtain ⟨g1, -, g3, g4⟩ := h
  refine ⟨by omega, hsz, ?_, ?_⟩
  · unfold keys_unique; rw [s4]; exact g3
  · rw [s4]; exact g4

theorem good_more_metas {d : vbuf_buffer} {extra : List vbuf_meta} (h : buf_good d)
    (hnd : ((d.metas ++ extra).map (fun m => m.key)).Nodup)
    (hsound : ∀ x ∈ extra, meta_sound x) :
    buf_good { d with metas := d.metas ++ extra } := by
  obtain ⟨g1, g2, -, g4⟩ := h
  refine ⟨g1, g2, hnd, ?_⟩
  intro m hm
  rcases List.mem_append.mp hm with h1 | h1
  · exact g4 m h1
  · exact hsound m h1

/-- What `vbuf_userdata_copy` does between two distinct live buffers, in every case. -/
theorem userdata_copy_spec (w : World) (src dst : Nat) (s d : vbuf_buffer)
    (hsrc : src ≠ 0) (hdst : dst ≠ 0) (hne : dst ≠ src)
    (hs : w.bufs src = some s) (hd : w.bufs dst = some d) :
    (∀ i, i ≠ dst → (vbuf_userdata_copy w src dst).1.bufs i = w.bufs i) ∧
    (vbuf_userdata_copy w src dst).2 ≤ 0 ∧
    ∃ d3, (vbuf_userdata_copy w src dst).1.bufs dst = some d3 ∧
      (d.userdata_size ≤ d.userdata_capacity → d3.userdata_size ≤ d3.userdata_capacity) ∧
      userdata_step d d3 ∧
      ((vbuf_userdata_copy w src dst).2 = 0 →
        (0 < s.userdata_size → d3.userdata_size = s.userdata_size) ∧
        (s.userdata_size = 0 → d3.userdata_size = d.userdata_size) ∧
        first_bytes d3.userdata_ptr s.userdata_size =
          first_bytes s.userdata_ptr s.userdata_size ∧
        (first_bytes s.userdata_ptr s.userdata_size).length = s.userdata_size) := by
  by_cases hl : d.write_locked = true
  · have heq : vbuf_userdata_copy w src dst = (w, -EPERM) := by
      simp only [vbuf_userdata_copy, hsrc, hdst, hne, if_false, hs, hd]
      rw [if_pos hl]
    rw [heq]
    exact ⟨fun _ _ => rfl, by show (-EPERM : Int) ≤ 0; decide, d, hd, fun h => h,
      ⟨rfl, rfl, rfl, rfl⟩, fun h => absurd h (by show ¬ ((-EPERM : Int) = 0); decide)⟩
  by_cases hu : s.userdata_size = 0
  · have heq : vbuf_userdata_copy w src dst = (w, 0) := by
      simp only [vbuf_userdata_copy, hsrc, hdst, hne, if_false, hs, hd, hu, if_true]
      rw [if_neg hl]
    rw [heq]
    refine ⟨fun _ _ => rfl, le_refl _, d, hd, fun h => h, ⟨rfl, rfl, rfl, rfl⟩, fun _ =>
      ⟨fun h => absurd h (by omega), fun _ => rfl, ?_, ?_⟩⟩
    · rw [hu]; exact first_bytes_zero _ _
    · rw [hu]; simp [first_bytes]
  obtain ⟨f1, d1, hd1, c1, c2, st1⟩ :=
    set_userdata_capacity_cases w dst s.userdata_capacity d hdst hd
  by_cases hres : ssize_to_int (vbuf_set_userdata_capacity w dst s.userdata_capacity).2 < 0
  · have heq : vbuf_userdata_copy w src dst =
        ((vbuf_set_userdata_capacity w dst s.userdata_capacity).1,
          ssize_to_int (vbuf_set_userdata_capacity w dst s.userdata_capacity).2) := by
      simp only [vbuf_userdata_copy, hsrc, hdst, hne, if_false, hs, hd, hu, hres, if_true]
      rw [if_neg hl]
    rw [heq]
    exact ⟨f1, le_of_lt hres, d1, hd1, fun h => by omega, st1, fun h => by
      have : ssize_to_int (vbuf_set_userdata_capacity w dst s.userdata_capacity).2 = 0 := h
      omega⟩
  · have heq : vbuf_userdata_copy w src dst =
        vbuf_userdata_copy_bytes (vbuf_set_userdata_capacity w dst s.userdata_capacity).1 dst
          s.userdata_ptr s.userdata_size := by
      simp only [vbuf_userdata_copy, hsrc, hdst, hne, if_false, hs, hd, hu, hres]
      rw [if_neg hl]
    rw [heq]
    obtain ⟨f2, le2, d2, hd2, cap2, inv2, st2, res2⟩ :=
      userdata_copy_bytes_spec (vbuf_set_userdata_capacity w dst s.userdata_capacity).1 dst
        s.userdata_ptr s.userdata_size d1 hdst hd1
    refine ⟨fun i hi => by rw [f2 i hi, f1 i hi], le2, d2, hd2, fun h => inv2 (by omega),
      ⟨st2.1.trans st1.1, st2.2.1.trans st1.2.1, st2.2.2.1.trans st1.2.2.1,
        st2.2.2.2.trans st1.2.2.2⟩, fun h0 => ?_⟩
    obtain ⟨r1, r2⟩ := res2 h0
    exact ⟨fun _ => r1, fun h => absurd h hu, r2⟩

theorem filter_selected_zero (l : List vbuf_meta) : l.filter (meta_selected 0) = l := by
  rw [List.filter_eq_self]
  intro m _
  simp [meta_selected]

/-- What `vbuf_copy` does between two distinct live buffers, in every case: only the
destination changes, its data stay sound, the result is 0 or negative, and when it is 0
the destination holds the payload, the user data and the metadata of the source. -/
theorem copy_spec (w : World) (src dst : Nat) (s d : vbuf_buffer)
    (hsrc : src ≠ 0) (hdst : dst ≠ 0) (hne : dst ≠ src)
    (hs : w.bufs src = some s) (hd : w.bufs dst = some d) :
    (∀ i, i ≠ dst → (vbuf_copy w src dst).1.bufs i = w.bufs i) ∧
    (vbuf_copy w src dst).2 ≤ 0 ∧
    ∃ d', (vbuf_copy w src dst).1.bufs dst = some d' ∧ (buf_good d → buf_good d') ∧
      ((vbuf_copy w src dst).2 = 0 →
        (0 < s.size → d'.size = s.size) ∧ (s.size = 0 → d'.size = d.size) ∧
        (0 < s.userdata_size → d'.userdata_size = s.userdata_size) ∧
        (s.userdata_size = 0 → d'.userdata_size = d.userdata_size) ∧
        first_bytes d'.ptr s.size = first_bytes s.ptr s.size ∧
        (first_bytes s.ptr s.size).length = s.size ∧
        first_bytes d'.userdata_ptr s.userdata_size =
          first_bytes s.userdata_ptr s.userdata_size ∧
        (first_bytes s.userdata_ptr s.userdata_size).length = s.userdata_size ∧
        d'.metas = d.metas ++ s.metas.map meta_copy_of) := by
  by_cases hl : d.write_locked = true
  · have heq : vbuf_copy w src dst = (w, -EPERM) := by
      simp only [vbuf_copy, hsrc, hdst, hne, if_false, hs, hd]
      rw [if_pos hl]
    rw [heq]
    exact ⟨fun _ _ => rfl, by show (-EPERM : Int) ≤ 0; decide, d, hd, fun h => h,
      fun h => absurd h (by show ¬ ((-EPERM : Int) = 0); decide)⟩
  have hsrc' : src ≠ dst := fun h => hne h.symm
  obtain ⟨f1, d1, hd1, cap1, sz1, st1⟩ := copy_grow_spec w dst d.capacity s.size d hdst hd
  have hg1 : buf_good d → buf_good d1 := fun h =>
    good_payload_step h st1 (by have := h.1; omega)
  obtain ⟨f2, le2, d2, hd2, cap2, inv2, st2, res2⟩ :=
    copy_bytes_spec (vbuf_copy_grow w dst d.capacity s.size).1 dst s.ptr s.size d1 hdst hd1
  have hg2 : buf_good d → buf_good d2 := fun h =>
    good_payload_step (hg1 h) st2 (inv2 (hg1 h).1)
  have hs2 : (vbuf_copy_bytes (vbuf_copy_grow w dst d.capacity s.size).1 dst s.ptr
      s.size).1.bufs src = some s := by rw [f2 src hsrc', f1 src hsrc', hs]
  obtain ⟨f3, le3, d3, hd3, inv3, st3, res3⟩ :=
    userdata_copy_spec (vbuf_copy_bytes (vbuf_copy_grow w dst d.capacity s.size).1 dst s.ptr
      s.size).1 src dst s d2 hsrc hdst hne hs2 hd2
  have hg3 : buf_good d → buf_good d3 := fun h =>
    good_userdata_step (hg2 h) st3 (inv3 (hg2 h).2.1)
  have hs3 : (vbuf_userdata_copy (vbuf_copy_bytes (vbuf_copy_grow w dst d.capacity s.size).1
      dst s.ptr s.size).1 src dst).1.bufs src = some s := by rw [f3 src hsrc', hs2]
  have hm : vbuf_metadata_copy (vbuf_userdata_copy (vbuf_copy_bytes
      (vbuf_copy_grow w dst d.capacity s.size).1 dst s.ptr s.size).1 src dst).1 src dst 0 =
      vbuf_metadata_copy_loop (vbuf_userdata_copy (vbuf_copy_bytes
        (vbuf_copy_grow w dst d.capacity s.size).1 dst s.ptr s.size).1 src dst).1 dst 0
        s.metas := by
    simp only [vbuf_metadata_copy, hsrc, hdst, hne, if_false, hs3]
  obtain ⟨-, -, -, f4, ⟨extra, e1, e2, e4, e3⟩, le4, -⟩ :=
    metadata_copy_loop_spec dst 0 hdst s.metas (vbuf_userdata_copy (vbuf_copy_bytes
      (vbuf_copy_grow w dst d.capacity s.size).1 dst s.ptr s.size).1 src dst).1 d3 hd3
  rw [← hm] at f4 e1 e3 le4
  have hg4 : buf_good d → buf_good { d3 with metas := d3.metas ++ extra } := fun h =>
    good_more_metas (hg3 h) (e2 (hg3 h).2.2.1) e4
  simp only [vbuf_copy, hsrc, hdst, hne, if_false, hs, hd]
  rw [if_neg hl]
  generalize vbuf_copy_grow w dst d.capacity s.size = r1 at *
  generalize vbuf_copy_bytes r1.1 dst s.ptr s.size = r2 at *
  generalize vbuf_userdata_copy r2.1 src dst = r3 at *
  generalize vbuf_metadata_copy r3.1 src dst 0 = r4 at *
  by_cases h1 : r1.2 < 0
  · rw [if_pos h1]
    exact ⟨f1, le_of_lt h1, d1, hd1, hg1, fun h => by omega⟩
  rw [if_neg h1]
  by_cases h2 : r2.2 < 0
  · rw [if_pos h2]
    exact ⟨fun i hi => by rw [f2 i hi, f1 i hi], le2, d2, hd2, hg2, fun h => by omega⟩
  rw [if_neg h2]
  by_cases h3 : r3.2 < 0
  · rw [if_pos h3]
    exact ⟨fun i hi => by rw [f3 i hi, f2 i hi, f1 i hi], le3, d3, hd3, hg3,
      fun h => by omega⟩
  rw [if_neg h3]
  by_cases h4 : r4.2 < 0
  · rw [if_pos h4]
    exact ⟨fun i hi => by rw [f4 i hi, f3 i hi, f2 i hi, f1 i hi], le4, _, e1, hg4,
      fun h => by omega⟩
  rw [if_neg h4]
  refine ⟨fun i hi => by rw [f4 i hi, f3 i hi, f2 i hi, f1 i hi], le_refl _, _, e1, hg4,
    fun _ => ?_⟩
  obtain ⟨p1, p2, p3, p4⟩ := res2 (by omega)
  obtain ⟨u1, u2, u3, u4⟩ := res3 (by omega)
  have hx := e3 (by omega)
  obtain ⟨t1, t2, t3, t4⟩ := st3
  obtain ⟨q1, q2, q3, q4⟩ := st2
  obtain ⟨k1, k2, k3, k4⟩ := st1
  refine ⟨fun h => ?_, fun h => ?_, fun h => ?_, fun h => ?_, ?_, p4, u3, u4, ?_⟩
  · show d3.size = s.size
    rw [t2]; exact p1 h
  · show d3.size = d.size
    rw [t2, p2 h, sz1]
  · show d3.userdata_size = s.userdata_size
    exact u1 h
  · show d3.userdata_size = d.userdata_size
    rw [u2 h, q3, k3]
  · show first_bytes d3.ptr s.size = first_bytes s.ptr s.size
    rw [t3]; exact p3
  · show d3.metas ++ extra = d.metas ++ s.metas.map meta_copy_of
    rw [hx, filter_selected_zero, t4, q1, k1]

/-! ## Preservation of `bufs_good` by the public operations -/

theorem buf_good_of_kept {b b' : vbuf_buffer} (h : buf_good b) (hk : kept b b') :
    buf_good b' := by
  obtain ⟨k1, k2, k3, k4, k5⟩ := hk
  obtain ⟨g1, g2, g3, g4⟩ := h
  refine ⟨?_, by omega, ?_, ?_⟩
  · rcases k4 with h4 | h4 <;> omega
  · unfold keys_unique
    rcases k5 with h5 | h5
    · rw [h5]; exact g3
    · rw [h5]; exact List.nodup_nil
  · rcases k5 with h5 | h5
    · rw [h5]; exact g4
    · rw [h5]; intro m hm; exact absurd hm (List.not_mem_nil m)

theorem bufs_good_set_buf {w : World} (h : bufs_good w) (id : Nat) (b : vbuf_buffer)
    (hb : buf_good b) : bufs_good (w.set_buf id b) := by
  intro i c hc
  rw [set_buf_bufs] at hc
  split at hc
  · cases hc; exact hb
  · exact h i c hc

theorem bufs_good_of_bufs_eq {w w' : World} (h : bufs_good w) (he : w'.bufs = w.bufs) :
    bufs_good w' := bufs_good_of_keeps h (keeps_of_bufs_eq he)

theorem bufs_good_run_cb {w : World} (h : bufs_good w) (k : cb_kind) (f : vbuf_cb) (id : Nat)
    (b : vbuf_buffer) (t : Int) (hb : buf_good b) :
    bufs_good (run_cb w k f id b t).1 ∧ buf_good (run_cb w k f id b t).2.1 := by
  have h1 : buf_good (run_cb w k f id b t).2.1 :=
    buf_good_of_kept hb (kept_of_backend_only rfl)
  exact ⟨bufs_good_of_bufs_eq (bufs_good_set_buf h id _ h1) rfl, h1⟩

theorem bufs_good_new_error {v : World} (hv : bufs_good v) (id : Nat) (b : vbuf_buffer)
    (f : vbuf_cb) (res : Int) (hb : buf_good b) : bufs_good (vbuf_new_error v id b f res).1 :=
  bufs_good_of_keeps (bufs_good_run_cb hv cb_kind.free f id b 0 hb).1 (keeps_del_buf _ id)

theorem bufs_good_new {w : World} (h : bufs_good w) (capacity userdata_capacity : Nat)
    (cbs : Option vbuf_cbs) (pool : Nat) :
    bufs_good (vbuf_new w capacity userdata_capacity cbs pool).1 := by
  cases cbs with
  | none => simp only [vbuf_new]; exact h
  | some c =>
    cases halloc : c.alloc with
    | none => simp only [vbuf_new, halloc]; exact h
    | some alloc =>
      cases hfree : c.free with
      | none => simp only [vbuf_new, halloc, hfree]; exact h
      | some free =>
        generalize hb0 : (
          { type := 0, ref_count := 0, write_locked := false, pool := pool, cbs := c,
            specific := 0, capacity := capacity, size := 0, ptr := none, metas := [],
            userdata_capacity := userdata_capacity, userdata_size := 0,
            userdata_ptr := none } : vbuf_buffer) = b0
        have hok0 : buf_good b0 := by
          rw [← hb0]
          exact ⟨Nat.zero_le _, Nat.zero_le _, List.nodup_nil,
            fun m hm => absurd hm (List.not_mem_nil m)⟩
        have hw1 : bufs_good ({ (w.log (ext_call.sys sys_kind.calloc)).set_buf
            ((w.log (ext_call.sys sys_kind.calloc)).next + 1) b0 with
            next := (w.log (ext_call.sys sys_kind.calloc)).next + 1 }) :=
          bufs_good_of_bufs_eq
            (bufs_good_set_buf (bufs_good_of_bufs_eq h (log_bufs w _)) _ _ hok0) rfl
        obtain ⟨hw2, hb2⟩ := bufs_good_run_cb
          (bufs_good_of_bufs_eq hw1 (log_bufs _ (ext_call.sys sys_kind.mutex_init)))
          cb_kind.alloc alloc ((w.log (ext_call.sys sys_kind.calloc)).next + 1) b0 0 hok0
        simp only [vbuf_new, halloc, hfree, sys_call_fst, sys_call_snd, hb0]
        split
        · exact bufs_good_of_bufs_eq h (log_bufs w _)
        · split
          · exact bufs_good_new_error (bufs_good_of_bufs_eq hw1 (log_bufs _ _)) _ _ _ _ hok0
          · split
            · exact bufs_good_new_error hw2 _ _ _ _ hb2
            · split
              · split
                · exact bufs_good_new_error (bufs_good_of_bufs_eq hw2 (log_bufs _ _))
                    _ _ _ _ hb2
                · refine bufs_good_of_keeps ?_ (keeps_ref _ _)
                  refine bufs_good_set_buf (bufs_good_of_bufs_eq hw2 (log_bufs _ _)) _ _ ?_
                  exact ⟨hb2.1, hb2.2.1, hb2.2.2.1, hb2.2.2.2⟩
              · exact bufs_good_of_keeps hw2 (keeps_ref _ _)

theorem bufs_good_pool_new_loop (pool capacity userdata_capacity : Nat) (c : vbuf_cbs)
    (n : Nat) : ∀ w : World, bufs_good w →
      bufs_good (vbuf_pool_new_loop w pool capacity userdata_capacity c n).1 := by
  induction n with
  | zero => intro w h; exact h
  | succ n ih =>
    intro w h
    have h1 := bufs_good_new h capacity userdata_capacity (some c) pool
    unfold vbuf_pool_new_loop
    simp only
    split
    · exact h1
    · exact ih _ (bufs_good_of_keeps h1 (keeps_unref _ _))

theorem keeps_destroy_all (l : List Nat) :
    ∀ w : World, keeps w (l.foldl (fun v b => (vbuf_destroy v b).1) w) := by
  induction l with
  | nil => intro w; exact keeps_refl w
  | cons id rest ih =>
    intro w
    rw [List.foldl_cons]
    exact keeps_trans (keeps_destroy w id) (ih _)

theorem keeps_pool_new_error (w : World) (pool : Nat) (res : Int) :
    keeps w (vbuf_pool_new_error w pool res).1 := by
  unfold vbuf_pool_new_error
  split
  · exact keeps_refl w
  · exact keeps_trans (keeps_destroy_all _ w) (keeps_of_bufs_eq rfl)

theorem bufs_good_pool_new {w : World} (h : bufs_good w)
    (count capacity userdata_capacity : Nat) (cbs : Option vbuf_cbs) :
    bufs_good (vbuf_pool_new w count capacity userdata_capacity cbs).1 := by
  by_cases hc0 : count = 0
  · simp only [vbuf_pool_new, hc0, if_true]; exact h
  cases cbs with
  | none => simp only [vbuf_pool_new, hc0, if_false]; exact h
  | some c =>
    have h0 : bufs_good (w.log (ext_call.sys sys_kind.calloc)) :=
      bufs_good_of_bufs_eq h rfl
    have h1 : bufs_good ({ (w.log (ext_call.sys sys_kind.calloc)).set_pool
        ((w.log (ext_call.sys sys_kind.calloc)).next + 1)
        { count := count, free := 0, buffers := [] } with
        next := (w.log (ext_call.sys sys_kind.calloc)).next + 1 } : World) :=
      bufs_good_of_bufs_eq h rfl
    simp only [vbuf_pool_new, hc0, if_false, sys_call_fst, sys_call_snd]
    split
    · exact h0
    · split
      · exact bufs_good_of_keeps (bufs_good_of_bufs_eq h1 (log_bufs _ _))
          (keeps_pool_new_error _ _ _)
      · split
        · exact bufs_good_of_keeps
            (bufs_good_of_bufs_eq h1 (by simp only [log_bufs]))
            (keeps_pool_new_error _ _ _)
        · split
          · exact bufs_good_of_keeps
              (bufs_good_of_bufs_eq h1 (by simp only [log_bufs]))
              (keeps_pool_new_error _ _ _)
          · have h4 := bufs_good_pool_new_loop
              ((w.log (ext_call.sys sys_kind.calloc)).next + 1) capacity userdata_capacity c
              count _ (bufs_good_of_bufs_eq h1 (by simp only [log_bufs]) :
                bufs_good ((((({ (w.log (ext_call.sys sys_kind.calloc)).set_pool
                  ((w.log (ext_call.sys sys_kind.calloc)).next + 1)
                  { count := count, free := 0, buffers := [] } with
                  next := (w.log (ext_call.sys sys_kind.calloc)).next + 1 } : World).log
                  (ext_call.sys sys_kind.mutex_init)).log
                  (ext_call.sys sys_kind.cond_init)).log (ext_call.sys sys_kind.evt_new))))
            split
            · exact bufs_good_of_keeps h4 (keeps_pool_new_error _ _ _)
            · exact h4

theorem bufs_good_set_size {w : World} (h : bufs_good w) (buf n : Nat) :
    bufs_good (vbuf_set_size w buf n).1 := by
  by_cases hbuf : buf = 0
  · simp only [vbuf_set_size, hbuf, if_true]; exact h
  cases hb : w.bufs buf with
  | none => simp only [vbuf_set_size, hbuf, if_false, hb]; exact h
  | some b =>
    obtain ⟨-, g2, g3, g4⟩ := h buf b hb
    rcases set_size_cases w buf n b hbuf hb with ⟨h1, h2⟩ | ⟨h1, -⟩
    · rw [h1]; exact bufs_good_set_buf h buf _ ⟨h2, g2, g3, g4⟩
    · rw [h1]; exact h

theorem bufs_good_set_userdata_size {w : World} (h : bufs_good w) (buf n : Nat) :
    bufs_good (vbuf_set_userdata_size w buf n).1 := by
  by_cases hbuf : buf = 0
  · simp only [vbuf_set_userdata_size, hbuf, if_true]; exact h
  cases hb : w.bufs buf with
  | none => simp only [vbuf_set_userdata_size, hbuf, if_false, hb]; exact h
  | some b =>
    obtain ⟨g1, -, g3, g4⟩ := h buf b hb
    rcases set_userdata_size_cases w buf n b hbuf hb with ⟨h1, h2⟩ | ⟨h1, -⟩
    · rw [h1]; exact bufs_good_set_buf h buf _ ⟨g1, h2, g3, g4⟩
    · rw [h1]; exact h

theorem bufs_good_set_capacity {w : World} (h : bufs_good w) (buf n : Nat) :
    bufs_good (vbuf_set_capacity w buf n).1 := by
  by_cases hbuf : buf = 0
  · simp only [vbuf_set_capacity, hbuf, if_true]; exact h
  cases hb : w.bufs buf with
  | none => simp only [vbuf_set_capacity, hbuf, if_false, hb]; exact h
  | some b =>
    obtain ⟨f1, b', hb', c1, c2, st⟩ := set_capacity_cases w buf n b hbuf hb
    refine bufs_good_pointwise h buf f1 (fun x hx => ?_)
    rw [hb'] at hx
    cases hx
    exact good_payload_step (h buf b hb) st (by have := (h buf b hb).1; omega)

theorem bufs_good_set_userdata_capacity {w : World} (h : bufs_good w) (buf n : Nat) :
    bufs_good (vbuf_set_userdata_capacity w buf n).1 := by
  by_cases hbuf : buf = 0
  · simp only [vbuf_set_userdata_capacity, hbuf, if_true]; exact h
  cases hb : w.bufs buf with
  | none => simp only [vbuf_set_userdata_capacity, hbuf, if_false, hb]; exact h
  | some b =>
    obtain ⟨f1, b', hb', c1, c2, st⟩ := set_userdata_capacity_cases w buf n b hbuf hb
    refine bufs_good_pointwise h buf f1 (fun x hx => ?_)
    rw [hb'] at hx
    cases hx
    exact good_userdata_step (h buf b hb) st (by have := (h buf b hb).2.1; omega)

theorem bufs_good_userdata_copy {w : World} (h : bufs_good w) (src dst : Nat) :
    bufs_good (vbuf_userdata_copy w src dst).1 := by
  by_cases hsrc : src = 0
  · simp only [vbuf_userdata_copy, hsrc, if_true]; exact h
  by_cases hdst : dst = 0
  · simp only [vbuf_userdata_copy, hsrc, hdst, if_true, if_false]; exact h
  by_cases hne : dst = src
  · simp only [vbuf_userdata_copy, hsrc, hdst, hne, if_true, if_false]; exact h
  cases hs : w.bufs src with
  | none => simp only [vbuf_userdata_copy, hsrc, hdst, hne, if_false, hs]; exact h
  | some s =>
    cases hd : w.bufs dst with
    | none => simp only [vbuf_userdata_copy, hsrc, hdst, hne, if_false, hs, hd]; exact h
    | some d =>
      obtain ⟨f1, -, d3, hd3, inv, st, -⟩ := userdata_copy_spec w src dst s d hsrc hdst hne hs hd
      refine bufs_good_pointwise h dst f1 (fun x hx => ?_)
      rw [hd3] at hx
      cases hx
      exact good_userdata_step (h dst d hd) st (inv (h dst d hd).2.1)

theorem bufs_good_copy {w : World} (h : bufs_good w) (src dst : Nat) :
    bufs_good (vbuf_copy w src dst).1 := by
  by_cases hsrc : src = 0
  · simp only [vbuf_copy, hsrc, if_true]; exact h
  by_cases hdst : dst = 0
  · simp only [vbuf_copy, hsrc, hdst, if_true, if_false]; exact h
  by_cases hne : dst = src
  · simp only [vbuf_copy, hsrc, hdst, hne, if_true, if_false]; exact h
  cases hs : w.bufs src with
  | none => simp only [vbuf_copy, hsrc, hdst, hne, if_false, hs]; exact h
  | some s =>
    cases hd : w.bufs dst with
    | none => simp only [vbuf_copy, hsrc, hdst, hne, if_false, hs, hd]; exact h
    | some d =>
      obtain ⟨f1, -, d', hd', hg, -⟩ := copy_spec w src dst s d hsrc hdst hne hs hd
      refine bufs_good_pointwise h dst f1 (fun x hx => ?_)
      rw [hd'] at hx
      cases hx
      exact hg (h dst d hd)

theorem bufs_good_metadata_add {w : World} (h : bufs_good w) (buf key level len : Nat) :
    bufs_good (vbuf_metadata_add w buf key level len).1 := by
  by_cases hbuf : buf = 0
  · simp only [vbuf_metadata_add, hbuf, if_true]; exact h
  cases hb : w.bufs buf with
  | none =>
    by_cases hkey : key = 0
    · simp only [vbuf_metadata_add, hbuf, hkey, if_true, if_false]; exact h
    · simp only [vbuf_metadata_add, hbuf, hkey, if_false, hb]; exact h
  | some b =>
    obtain ⟨-, -, -, f1, hcase, -⟩ := metadata_add_spec w buf key level len b hbuf hb
    refine bufs_good_pointwise h buf f1 (fun x hx => ?_)
    rcases hcase with ⟨-, hsame⟩ | ⟨-, hk0, hlen, habs, hnew⟩
    · rw [hsame] at hx; cases hx; exact h buf b hb
    · rw [hnew] at hx
      cases hx
      refine good_more_metas (h buf b hb) ?_ ?_
      · simp only [List.map_append, List.map_cons, List.map_nil]
        rw [List.nodup_append]
        refine ⟨(h buf b hb).2.2.1, List.nodup_singleton _, ?_⟩
        intro a ha hb'
        rw [List.mem_singleton] at hb'
        obtain ⟨y, hy, hya⟩ := List.mem_map.mp ha
        exact habs y hy (by rw [hya, hb'])
      · intro x hx
        rw [List.mem_singleton] at hx
        rw [hx]
        exact ⟨hk0, hlen, by simp⟩

theorem bufs_good_metadata_remove {w : World} (h : bufs_good w) (buf key : Nat) :
    bufs_good (vbuf_metadata_remove w buf key).1 := by
  unfold vbuf_metadata_remove
  split
  · exact h
  · split
    · exact h
    · split
      · exact h
      · next b hb =>
        split
        · exact h
        · obtain ⟨g1, g2, g3, g4⟩ := h buf b hb
          refine bufs_good_set_buf h buf _ ⟨g1, g2, ?_, ?_⟩
          · exact List.Nodup.sublist ((List.eraseP_sublist b.metas).map (fun m => m.key)) g3
          · intro m hm
            exact g4 m ((List.eraseP_sublist b.metas).subset hm)

theorem metadata_add_dead (w : World) (buf key level len : Nat) (hb : w.bufs buf = none) :
    (vbuf_metadata_add w buf key level len).1 = w ∧
    (vbuf_metadata_add w buf key level len).2.1 < 0 := by
  have hI : (-EINVAL : Int) < 0 := by decide
  have hF : (-EFAULT : Int) < 0 := by decide
  by_cases hbuf : buf = 0
  · have heq : vbuf_metadata_add w buf key level len = (w, -EINVAL, none) := by
      simp only [vbuf_metadata_add, hbuf, if_true]
    rw [heq]; exact ⟨rfl, hI⟩
  by_cases hkey : key = 0
  · have heq : vbuf_metadata_add w buf key level len = (w, -EINVAL, none) := by
      simp only [vbuf_metadata_add, hbuf, hkey, if_true, if_false]
    rw [heq]; exact ⟨rfl, hI⟩
  · have heq : vbuf_metadata_add w buf key level len = (w, -EFAULT, none) := by
      simp only [vbuf_metadata_add, hbuf, hkey, if_false, hb]
    rw [heq]; exact ⟨rfl, hF⟩

theorem metadata_copy_loop_dead (w : World) (dst max_level : Nat) (hb : w.bufs dst = none)
    (ms : List vbuf_meta) : (vbuf_metadata_copy_loop w dst max_level ms).1 = w := by
  induction ms with
  | nil => rfl
  | cons m rest ih =>
    by_cases hsel : max_level = 0 ∨ m.level < max_level
    · obtain ⟨h1, h2⟩ := metadata_add_dead w dst m.key m.level m.len hb
      simp only [vbuf_metadata_copy_loop, hsel, if_true, h2]
      exact h1
    · simp only [vbuf_metadata_copy_loop, hsel, if_false]
      exact ih

theorem bufs_good_metadata_copy {w : World} (h : bufs_good w) (src dst max_level : Nat) :
    bufs_good (vbuf_metadata_copy w src dst max_level).1 := by
  by_cases hsrc : src = 0
  · simp only [vbuf_metadata_copy, hsrc, if_true]; exact h
  by_cases hdst : dst = 0
  · simp only [vbuf_metadata_copy, hsrc, hdst, if_true, if_false]; exact h
  by_cases hne : dst = src
  · simp only [vbuf_metadata_copy, hsrc, hdst, hne, if_true, if_false]; exact h
  cases hs : w.bufs src with
  | none => simp only [vbuf_metadata_copy, hsrc, hdst, hne, if_false, hs]; exact h
  | some s =>
    have heq : vbuf_metadata_copy w src dst max_level =
        vbuf_metadata_copy_loop w dst max_level s.metas := by
      simp only [vbuf_metadata_copy, hsrc, hdst, hne, if_false, hs]
    rw [heq]
    cases hd : w.bufs dst with
    | none => rw [metadata_copy_loop_dead w dst max_level hd]; exact h
    | some d =>
      obtain ⟨-, -, -, f4, ⟨extra, e1, e2, e4, -⟩, -, -⟩ :=
        metadata_copy_loop_spec dst max_level hdst s.metas w d hd
      refine bufs_good_pointwise h dst f4 (fun x hx => ?_)
      rw [e1] at hx
      cases hx
      exact good_more_metas (h dst d hd) (e2 (h dst d hd).2.2.1) e4

/-- In every state a program reaches, the data of every buffer are sound. -/
theorem bufs_good_of_reach {w : World} (h : data_reach w) : bufs_good w := by
  induction h with
  | init env junk => intro i b hb; cases hb
  | new capacity userdata_capacity cbs pool _ ih => exact bufs_good_new ih _ _ _ _
  | pool_new count capacity userdata_capacity cbs _ ih => exact bufs_good_pool_new ih _ _ _ _
  | pool_get pool t _ ih => exact bufs_good_of_keeps ih (keeps_pool_get _ _ _)
  | pool_abort pool _ ih => exact bufs_good_of_keeps ih (keeps_pool_abort _ _)
  | pool_destroy pool _ ih => exact bufs_good_of_keeps ih (keeps_pool_destroy _ _)
  | ref buf _ ih => exact bufs_good_of_keeps ih (keeps_ref _ _)
  | unref buf _ ih => exact bufs_good_of_keeps ih (keeps_unref _ _)
  | write_lock buf _ ih => exact bufs_good_of_keeps ih (keeps_write_lock _ _)
  | write_unlock buf _ ih => exact bufs_good_of_keeps ih (keeps_write_unlock _ _)
  | set_size buf n _ ih => exact bufs_good_set_size ih _ _
  | set_capacity buf n _ ih => exact bufs_good_set_capacity ih _ _
  | set_userdata_size buf n _ ih => exact bufs_good_set_userdata_size ih _ _
  | set_userdata_capacity buf n _ ih => exact bufs_good_set_userdata_capacity ih _ _
  | copy src dst _ ih => exact bufs_good_copy ih _ _
  | userdata_copy src dst _ ih => exact bufs_good_userdata_copy ih _ _
  | metadata_add buf key level len _ ih => exact bufs_good_metadata_add ih _ _ _ _
  | metadata_remove buf key _ ih => exact bufs_good_metadata_remove ih _ _
  | metadata_copy src dst max_level _ ih => exact bufs_good_metadata_copy ih _ _ _
  | queue_new max_count drop _ ih => exact bufs_good_of_keeps ih (keeps_queue_new _ _ _)
  | queue_push queue buf _ ih => exact bufs_good_of_keeps ih (keeps_queue_push _ _ _)
  | queue_pop queue t _ ih => exact bufs_good_of_keeps ih (keeps_queue_pop _ _ _)
  | queue_peek queue index t _ ih => exact bufs_good_of_keeps ih (keeps_queue_peek _ _ _ _)
  | queue_flush queue _ ih => exact bufs_good_of_keeps ih (keeps_queue_flush _ _)
  | queue_abort queue _ ih => exact bufs_good_of_keeps ih (keeps_queue_abort _ _)
  | queue_destroy queue _ ih => exact bufs_good_of_keeps ih (keeps_queue_destroy _ _)

/-! ## Operations on one buffer commute with a write to another buffer -/

theorem set_buf_comm (w : World) (a b : Nat) (x y : vbuf_buffer) (h : a ≠ b) :
    (w.set_buf a x).set_buf b y = (w.set_buf b y).set_buf a x := by
  refine World.ext_fields (fun i => ?_) (fun _ => rfl) (fun _ => rfl) rfl rfl rfl rfl
  simp only [set_buf_bufs]
  by_cases hb : i = b
  · by_cases ha : i = a
    · exact absurd (ha.symm.trans hb) h
    · rw [if_pos hb, if_neg ha, if_pos hb]
  · rw [if_neg hb, if_neg hb]

theorem set_buf_bufs_ne (w : World) (src dst : Nat) (x : vbuf_buffer) (hne : dst ≠ src) :
    (w.set_buf src x).bufs dst = w.bufs dst := by
  rw [set_buf_bufs, if_neg hne]

theorem run_cb_comm (v : World) (src : Nat) (x : vbuf_buffer) (k : cb_kind) (f : vbuf_cb)
    (dst : Nat) (b : vbuf_buffer) (t : Int) (hne : dst ≠ src) :
    run_cb (v.set_buf src x) k f dst b t =
      ((run_cb v k f dst b t).1.set_buf src x, (run_cb v k f dst b t).2) := by
  simp only [run_cb, set_buf_trace]
  rw [set_buf_comm v src dst x _ (Ne.symm hne)]
  rfl

theorem set_size_comm (v : World) (src : Nat) (x : vbuf_buffer) (dst n : Nat)
    (hne : dst ≠ src) :
    vbuf_set_size (v.set_buf src x) dst n =
      ((vbuf_set_size v dst n).1.set_buf src x, (vbuf_set_size v dst n).2) := by
  have hb := set_buf_bufs_ne v src dst x hne
  by_cases hdst : dst = 0
  · simp only [vbuf_set_size, hdst, if_true]
  cases hd : v.bufs dst with
  | none => simp only [vbuf_set_size, hdst, if_false, hb, hd]
  | some d =>
    simp only [vbuf_set_size, hdst, if_false, hb, hd]
    split_ifs
    · rfl
    · rfl
    · rw [set_buf_comm v src dst x _ (Ne.symm hne)]

theorem set_userdata_size_comm (v : World) (src : Nat) (x : vbuf_buffer) (dst n : Nat)
    (hne : dst ≠ src) :
    vbuf_set_userdata_size (v.set_buf src x) dst n =
      ((vbuf_set_userdata_size v dst n).1.set_buf src x,
        (vbuf_set_userdata_size v dst n).2) := by
  have hb := set_buf_bufs_ne v src dst x hne
  by_cases hdst : dst = 0
  · simp only [vbuf_set_userdata_size, hdst, if_true]
  cases hd : v.bufs dst with
  | none => simp only [vbuf_set_userdata_size, hdst, if_false, hb, hd]
  | some d =>
    simp only [vbuf_set_userdata_size, hdst, if_false, hb, hd]
    split_ifs
    · rfl
    · rfl
    · rw [set_buf_comm v src dst x _ (Ne.symm hne)]

theorem set_capacity_comm (v : World) (src : Nat) (x : vbuf_buffer) (dst n : Nat)
    (hne : dst ≠ src) :
    vbuf_set_capacity (v.set_buf src x) dst n =
      ((vbuf_set_capacity v dst n).1.set_buf src x, (vbuf_set_capacity v dst n).2) := by
  have hb := set_buf_bufs_ne v src dst x hne
  by_cases hdst : dst = 0
  · simp only [vbuf_set_capacity, hdst, if_true]
  cases hd : v.bufs dst with
  | none => simp only [vbuf_set_capacity, hdst, if_false, hb, hd]
  | some d =>
    cases hf : d.cbs.realloc with
    | none => simp only [vbuf_set_capacity, hdst, if_false, hb, hd, hf]
    | some f =>
      simp only [vbuf_set_capacity, hdst, if_false, hb, hd, hf]
      rw [set_buf_comm v src dst x _ (Ne.symm hne), run_cb_comm _ src x _ f dst _ 0 hne]
      split_ifs
      · rfl
      · simp only []
        rw [set_buf_comm _ src dst x _ (Ne.symm hne)]
      · rfl
      · rfl

theorem set_userdata_capacity_comm (v : World) (src : Nat) (x : vbuf_buffer) (dst n : Nat)
    (hne : dst ≠ src) :
    vbuf_set_userdata_capacity (v.set_buf src x) dst n =
      ((vbuf_set_userdata_capacity v dst n).1.set_buf src x,
        (vbuf_set_userdata_capacity v dst n).2) := by
  have hb := set_buf_bufs_ne v src dst x hne
  by_cases hdst : dst = 0
  · simp only [vbuf_set_userdata_capacity, hdst, if_true]
  cases hd : v.bufs dst with
  | none => simp only [vbuf_set_userdata_capacity, hdst, if_false, hb, hd]
  | some d =>
    simp only [vbuf_set_userdata_capacity, hdst, if_false, hb, hd, sys_call_fst, sys_call_snd,
      set_buf_env, set_buf_trace, realloc_block]
    split_ifs
    · rfl
    · rfl
    · have hlog : (v.set_buf src x).log (ext_call.sys sys_kind.realloc) =
          (v.log (ext_call.sys sys_kind.realloc)).set_buf src x := rfl
      rw [hlog, set_buf_comm _ src dst x _ (Ne.symm hne)]
      rfl
    · rfl

theorem copy_grow_comm (v : World) (src : Nat) (x : vbuf_buffer) (dst cap n : Nat)
    (hne : dst ≠ src) :
    vbuf_copy_grow (v.set_buf src x) dst cap n =
      ((vbuf_copy_grow v dst cap n).1.set_buf src x, (vbuf_copy_grow v dst cap n).2) := by
  unfold vbuf_copy_grow
  split_ifs
  · simp only [set_capacity_comm v src x dst n hne]
  · rfl

theorem copy_bytes_comm (v : World) (src : Nat) (x : vbuf_buffer) (dst : Nat)
    (sp : Option (List Nat)) (n : Nat) (hne : dst ≠ src) :
    vbuf_copy_bytes (v.set_buf src x) dst sp n =
      ((vbuf_copy_bytes v dst sp n).1.set_buf src x, (vbuf_copy_bytes v dst sp n).2) := by
  have hb := set_buf_bufs_ne v src dst x hne
  by_cases hn : n > 0
  · cases hd : v.bufs dst with
    | none => simp only [vbuf_copy_bytes, hn, if_true, hb, hd]
    | some d =>
      cases hdp : d.ptr with
      | none => simp only [vbuf_copy_bytes, hn, if_true, hb, hd, hdp]
      | some dst_bytes =>
        cases sp with
        | none => simp only [vbuf_copy_bytes, hn, if_true, hb, hd, hdp]
        | some src_bytes =>
          cases hm : memcpy dst_bytes src_bytes n with
          | none => simp only [vbuf_copy_bytes, hn, if_true, hb, hd, hdp, hm]
          | some bytes =>
            simp only [vbuf_copy_bytes, hn, if_true, hb, hd, hdp, hm]
            rw [set_buf_comm v src dst x _ (Ne.symm hne), set_size_comm _ src x dst n hne]
  · simp only [vbuf_copy_bytes, hn, if_false]

theorem userdata_copy_bytes_comm (v : World) (src : Nat) (x : vbuf_buffer) (dst : Nat)
    (sp : Option (List Nat)) (n : Nat) (hne : dst ≠ src) :
    vbuf_userdata_copy_bytes (v.set_buf src x) dst sp n =
      ((vbuf_userdata_copy_bytes v dst sp n).1.set_buf src x,
        (vbuf_userdata_copy_bytes v dst sp n).2) := by
  have hb := set_buf_bufs_ne v src dst x hne
  cases hd : v.bufs dst with
  | none => simp only [vbuf_userdata_copy_bytes, hb, hd]
  | some d =>
    cases hdp : d.userdata_ptr with
    | none => simp only [vbuf_userdata_copy_bytes, hb, hd, hdp]
    | some dst_bytes =>
      cases sp with
      | none => simp only [vbuf_userdata_copy_bytes, hb, hd, hdp]
      | some src_bytes =>
        cases hm : memcpy dst_bytes src_bytes n with
        | none => simp only [vbuf_userdata_copy_bytes, hb, hd, hdp, hm]
        | some bytes =>
          simp only [vbuf_userdata_copy_bytes, hb, hd, hdp, hm]
          rw [set_buf_comm v src dst x _ (Ne.symm hne),
            set_userdata_size_comm _ src x dst n hne]

theorem userdata_copy_comm (v : World) (src dst : Nat) (s x d : vbuf_buffer)
    (hsrc : src ≠ 0) (hdst : dst ≠ 0) (hne : dst ≠ src) (hs : v.bufs src = some s)
    (hd : v.bufs dst = some d)
    (h1 : x.userdata_size = s.userdata_size) (h2 : x.userdata_capacity = s.userdata_capacity)
    (h3 : x.userdata_ptr = s.userdata_ptr) :
    vbuf_userdata_copy (v.set_buf src x) src dst =
      ((vbuf_userdata_copy v src dst).1.set_buf src x, (vbuf_userdata_copy v src dst).2) := by
  have hb := set_buf_bufs_ne v src dst x hne
  have hx : (v.set_buf src x).bufs src = some x := by rw [set_buf_bufs, if_pos rfl]
  simp only [vbuf_userdata_copy, hsrc, hdst, hne, if_false, hb, hx, hs, hd, h1, h2, h3,
    set_userdata_capacity_comm v src x dst _ hne, userdata_copy_bytes_comm _ src x dst _ _ hne]
  split_ifs <;> rfl

theorem meta_new_comm (v : World) (src : Nat) (x : vbuf_buffer) (key level len : Nat) :
    vbuf_meta_new (v.set_buf src x) key level len =
      ((vbuf_meta_new v key level len).1.set_buf src x,
        (vbuf_meta_new v key level len).2) := by
  simp only [vbuf_meta_new, sys_call_fst, sys_call_snd, set_buf_env, set_buf_trace, log_env,
    log_trace]
  split_ifs <;> rfl

theorem metadata_add_comm (v : World) (src : Nat) (x : vbuf_buffer)
    (dst key level len : Nat) (hne : dst ≠ src) :
    vbuf_metadata_add (v.set_buf src x) dst key level len =
      ((vbuf_metadata_add v dst key level len).1.set_buf src x,
        (vbuf_metadata_add v dst key level len).2) := by
  have hb := set_buf_bufs_ne v src dst x hne
  by_cases hdst : dst = 0
  · simp only [vbuf_metadata_add, hdst, if_true]
  by_cases hkey : key = 0
  · simp only [vbuf_metadata_add, hdst, hkey, if_true, if_false]
  cases hd : v.bufs dst with
  | none => simp only [vbuf_metadata_add, hdst, hkey, if_false, hb, hd]
  | some d =>
    have hfind : vbuf_meta_find (v.set_buf src x) dst key = vbuf_meta_find v dst key := by
      simp only [vbuf_meta_find, hb]
    cases hf : vbuf_meta_find v dst key with
    | some m => simp only [vbuf_metadata_add, hdst, hkey, if_false, hb, hd, hfind, hf]
    | none =>
      simp only [vbuf_metadata_add, hdst, hkey, if_false, hb, hd, hfind, hf,
        meta_new_comm v src x key level len]
      cases (vbuf_meta_new v key level len).2 with
      | none => rfl
      | some m =>
        simp only []
        rw [set_buf_comm _ src dst x _ (Ne.symm hne)]

theorem meta_memcpy_comm (v : World) (src : Nat) (x : vbuf_buffer) (dst : Nat)
    (m : vbuf_meta) (hne : dst ≠ src) :
    meta_memcpy (v.set_buf src x) dst m =
      (meta_memcpy v dst m).map (fun u => u.set_buf src x) := by
  have hb := set_buf_bufs_ne v src dst x hne
  cases hd : v.bufs dst with
  | none => simp only [meta_memcpy, hb, hd, Option.map_none']
  | some d =>
    cases hl : d.metas.getLast? with
    | none => simp only [meta_memcpy, hb, hd, hl, Option.map_none']
    | some last =>
      cases hm : memcpy last.data m.data m.len with
      | none => simp only [meta_memcpy, hb, hd, hl, hm, Option.map_none']
      | some bytes =>
        simp only [meta_memcpy, hb, hd, hl, hm, Option.map_some']
        rw [set_buf_comm v src dst x _ (Ne.symm hne)]

theorem metadata_copy_loop_comm (src : Nat) (x : vbuf_buffer) (dst max_level : Nat)
    (hne : dst ≠ src) (ms : List vbuf_meta) : ∀ v : World,
    vbuf_metadata_copy_loop (v.set_buf src x) dst max_level ms =
      ((vbuf_metadata_copy_loop v dst max_level ms).1.set_buf src x,
        (vbuf_metadata_copy_loop v dst max_level ms).2) := by
  induction ms with
  | nil => intro v; rfl
  | cons m rest ih =>
    intro v
    by_cases hsel : max_level = 0 ∨ m.level < max_level
    · simp only [vbuf_metadata_copy_loop, hsel, if_true,
        metadata_add_comm v src x dst m.key m.level m.len hne]
      by_cases hneg : (vbuf_metadata_add v dst m.key m.level m.len).2.1 < 0
      · simp only [hneg, if_true]
      · simp only [hneg, if_false, meta_memcpy_comm _ src x dst m hne]
        cases meta_memcpy (vbuf_metadata_add v dst m.key m.level m.len).1 dst m with
        | none => rfl
        | some u => simp only [Option.map_some']; exact ih u
    · simp only [vbuf_metadata_copy_loop, hsel, if_false]
      exact ih v

/-- `vbuf_copy` reads the sizes, the bytes and the metadata of the source and nothing
else of it: with another value at the address of the source that agrees on these, the
copy has the same result and does the same to the rest of the world. -/
theorem copy_comm (w : World) (src dst : Nat) (s x d : vbuf_buffer)
    (hsrc : src ≠ 0) (hdst : dst ≠ 0) (hne : dst ≠ src) (hs : w.bufs src = some s)
    (hd : w.bufs dst = some d)
    (h1 : x.size = s.size) (h2 : x.ptr = s.ptr)
    (h3 : x.userdata_size = s.userdata_size) (h4 : x.userdata_capacity = s.userdata_capacity)
    (h5 : x.userdata_ptr = s.userdata_ptr) (h6 : x.metas = s.metas) :
    vbuf_copy (w.set_buf src x) src dst =
      ((vbuf_copy w src dst).1.set_buf src x, (vbuf_copy w src dst).2) := by
  have hb := set_buf_bufs_ne w src dst x hne
  have hx : ∀ v : World, (v.set_buf src x).bufs src = some x := fun v => by
    rw [set_buf_bufs, if_pos rfl]
  have hsrc' : src ≠ dst := fun h => hne h.symm
  obtain ⟨f1, d1, hd1, -⟩ := copy_grow_spec w dst d.capacity s.size d hdst hd
  obtain ⟨f2, -, d2, hd2, -⟩ :=
    copy_bytes_spec (vbuf_copy_grow w dst d.capacity s.size).1 dst s.ptr s.size d1 hdst hd1
  have hs2 : (vbuf_copy_bytes (vbuf_copy_grow w dst d.capacity s.size).1 dst s.ptr
      s.size).1.bufs src = some s := by rw [f2 src hsrc', f1 src hsrc', hs]
  obtain ⟨f3, -, d3, hd3, -⟩ :=
    userdata_copy_spec (vbuf_copy_bytes (vbuf_copy_grow w dst d.capacity s.size).1 dst s.ptr
      s.size).1 src dst s d2 hsrc hdst hne hs2 hd2
  have hs3 : (vbuf_userdata_copy (vbuf_copy_bytes (vbuf_copy_grow w dst d.capacity s.size).1
      dst s.ptr s.size).1 src dst).1.bufs src = some s := by rw [f3 src hsrc', hs2]
  have e3 := userdata_copy_comm (vbuf_copy_bytes (vbuf_copy_grow w dst d.capacity s.size).1
    dst s.ptr s.size).1 src dst s x d2 hsrc hdst hne hs2 hd2 h3 h4 h5
  have e4 : vbuf_metadata_copy ((vbuf_userdata_copy (vbuf_copy_bytes
      (vbuf_copy_grow w dst d.capacity s.size).1 dst s.ptr s.size).1 src dst).1.set_buf src x)
      src dst 0 =
      ((vbuf_metadata_copy (vbuf_userdata_copy (vbuf_copy_bytes
        (vbuf_copy_grow w dst d.capacity s.size).1 dst s.ptr s.size).1 src dst).1
        src dst 0).1.set_buf src x,
       (vbuf_metadata_copy (vbuf_userdata_copy (vbuf_copy_bytes
        (vbuf_copy_grow w dst d.capacity s.size).1 dst s.ptr s.size).1 src dst).1
        src dst 0).2) := by
    simp only [vbuf_metadata_copy, hsrc, hdst, hne, if_false, hx, hs3, h6,
      metadata_copy_loop_comm src x dst 0 hne]
  simp only [vbuf_copy, hsrc, hdst, hne, if_false, hb, hx, hs, hd, h1, h2,
    copy_grow_comm w src x dst _ _ hne, copy_bytes_comm _ src x dst _ _ hne, e3, e4]
  split_ifs <;> rfl

/-! ## The last `vbuf_unref` of a pool buffer, whatever the callbacks answer -/

/-- `vbuf_pool_put` on a live pool buffer: when the `pool_put` callback fails, its result
is returned and the pool is not touched; otherwise the metadata are dropped, the buffer is
appended to the free list and the result is 0. -/
theorem pool_put_cases (w : World) (pool buf : Nat) (b : vbuf_buffer) (pl : vbuf_pool)
    (hp0 : pool ≠ 0) (hbuf : buf ≠ 0) (hb : w.bufs buf = some b) (hbp : b.pool ≠ 0)
    (hpl : w.pools pool = some pl) :
    ((run_opt_cb w cb_kind.pool_put b.cbs.pool_put buf b 0).2.2 < 0 →
      vbuf_pool_put w pool buf =
        ((run_opt_cb w cb_kind.pool_put b.cbs.pool_put buf b 0).1,
          (run_opt_cb w cb_kind.pool_put b.cbs.pool_put buf b 0).2.2)) ∧
    (¬ (run_opt_cb w cb_kind.pool_put b.cbs.pool_put buf b 0).2.2 < 0 →
      (vbuf_pool_put w pool buf).2 = 0 ∧
      (vbuf_pool_put w pool buf).1.bufs buf =
        some { (run_opt_cb w cb_kind.pool_put b.cbs.pool_put buf b 0).2.1 with metas := [] } ∧
      (∀ i, i ≠ buf → (vbuf_pool_put w pool buf).1.bufs i = w.bufs i) ∧
      (vbuf_pool_put w pool buf).1.pools pool =
        some { pl with buffers := pl.buffers ++ [buf], free := uint_inc pl.free } ∧
      (∀ i, i ≠ pool → (vbuf_pool_put w pool buf).1.pools i = w.pools i)) := by
  obtain ⟨-, hbufs, hpools, -⟩ := run_opt_cb_spec w cb_kind.pool_put b.cbs.pool_put buf b 0 hb
  constructor
  · intro hneg
    simp only [vbuf_pool_put, hp0, hbuf, if_false, hb, hbp, hneg, if_true]
  · intro hpos
    have hpl' : (run_opt_cb w cb_kind.pool_put b.cbs.pool_put buf b 0).1.pools pool =
        some pl := by rw [hpools]; exact hpl
    simp only [vbuf_pool_put, hp0, hbuf, if_false, hb, hbp, hpos, set_buf_pools, hpl',
      sys_call_fst]
    refine ⟨trivial, ?_, ?_, ?_, ?_⟩
    · simp
    · intro i hi; simp [hi, hbufs i]
    · simp
    · intro i hi; simp [hi, hpools]

/-- `vbuf_unref` of the last reference of a buffer of a live pool, in every case.  The
buffer stays live, with count 0.  Either the result is 0 and the buffer is reset and
appended to the free list; or the `unref` callback failed, its result is returned and only
the count has changed; or the `pool_put` callback failed, its result is returned, the
lock and the size are reset, and the pool is as before. -/
theorem unref_last_cases (w : World) (buf : Nat) (b : vbuf_buffer) (pl : vbuf_pool)
    (hbuf : buf ≠ 0) (hb : w.bufs buf = some b) (hrc : b.ref_count = 1)
    (hp0 : b.pool ≠ 0) (hpl : w.pools b.pool = some pl) :
    (∀ i, i ≠ buf → (vbuf_unref w buf).1.bufs i = w.bufs i) ∧
    (∀ i, i ≠ b.pool → (vbuf_unref w buf).1.pools i = w.pools i) ∧
    ∃ b', (vbuf_unref w buf).1.bufs buf = some b' ∧ b'.ref_count = 0 ∧ b'.pool = b.pool ∧
      b'.capacity = b.capacity ∧ b'.userdata_capacity = b.userdata_capacity ∧
      b'.userdata_size = b.userdata_size ∧ b'.userdata_ptr = b.userdata_ptr ∧
      b'.cbs = b.cbs ∧
      (((vbuf_unref w buf).2 = 0 ∧ b'.write_locked = false ∧ b'.size = 0 ∧ b'.metas = [] ∧
          (∀ g, b.cbs.pool_put = some g → ∃ a, 0 ≤ (g a).res) ∧
          (vbuf_unref w buf).1.pools b.pool =
            some { pl with buffers := pl.buffers ++ [buf], free := uint_inc pl.free }) ∨
        ((vbuf_unref w buf).2 < 0 ∧ (vbuf_unref w buf).1.pools = w.pools ∧
          b'.metas = b.metas ∧ b'.write_locked = b.write_locked ∧ b'.size = b.size ∧
          ∃ f a, b.cbs.unref = some f ∧ (vbuf_unref w buf).2 = (f a).res) ∨
        ((vbuf_unref w buf).2 < 0 ∧ (vbuf_unref w buf).1.pools = w.pools ∧
          b'.metas = b.metas ∧ b'.write_locked = false ∧ b'.size = 0 ∧
          ∃ g a, b.cbs.pool_put = some g ∧ (vbuf_unref w buf).2 = (g a).res)) := by
  have hne : ¬ (vbuf_is_ref w buf).2 = 0 := by
    rw [vbuf_is_ref_eq_zero w buf b hbuf hb (by omega)]; omega
  have hz : to_int (uint_dec b.ref_count) = 0 := by rw [hrc]; decide
  have hd : uint_dec b.ref_count = 0 := by rw [hrc]; decide
  obtain ⟨ubo, ubufs, upools, -⟩ :=
    run_opt_cb_spec (w.set_buf buf { b with ref_count := uint_dec b.ref_count })
      cb_kind.unref b.cbs.unref buf { b with ref_count := uint_dec b.ref_count } 0 (by simp)
  obtain ⟨u1, u2, u3, u4, u5, u6, u7, u8, u9, u10⟩ := backend_only_fields ubo
  have ures : (run_opt_cb (w.set_buf buf { b with ref_count := uint_dec b.ref_count })
      cb_kind.unref b.cbs.unref buf { b with ref_count := uint_dec b.ref_count } 0).2.2 < 0 →
      ∃ f a, b.cbs.unref = some f ∧
        (run_opt_cb (w.set_buf buf { b with ref_count := uint_dec b.ref_count })
          cb_kind.unref b.cbs.unref buf
          { b with ref_count := uint_dec b.ref_count } 0).2.2 = (f a).res := by
    intro hneg
    cases h1 : b.cbs.unref with
    | none => rw [h1] at hneg; exact absurd hneg (lt_irrefl 0)
    | some f => exact ⟨f, _, rfl, rfl⟩
  by_cases hu : (run_opt_cb (w.set_buf buf { b with ref_count := uint_dec b.ref_count })
      cb_kind.unref b.cbs.unref buf { b with ref_count := uint_dec b.ref_count } 0).2.2 < 0
  · have heq : vbuf_unref w buf =
        ((run_opt_cb (w.set_buf buf { b with ref_count := uint_dec b.ref_count })
          cb_kind.unref b.cbs.unref buf { b with ref_count := uint_dec b.ref_count } 0).1,
         (run_opt_cb (w.set_buf buf { b with ref_count := uint_dec b.ref_count })
          cb_kind.unref b.cbs.unref buf
          { b with ref_count := uint_dec b.ref_count } 0).2.2) := by
      simp only [vbuf_unref, hbuf, hne, hb, hz, hu, if_true, if_false]
    rw [heq]
    refine ⟨fun i hi => by rw [ubufs i, if_neg hi, set_buf_bufs, if_neg hi],
      fun i _ => by rw [upools]; rfl,
      _, by rw [ubufs buf, if_pos rfl], by rw [u1]; exact hd, u3, u5, u8, u9, u10, u4,
      Or.inr (Or.inl ⟨hu, by rw [upools]; rfl, u7, u2, u6, ures hu⟩)⟩
  · have hpool : (run_opt_cb (w.set_buf buf { b with ref_count := uint_dec b.ref_count })
        cb_kind.unref b.cbs.unref buf
        { b with ref_count := uint_dec b.ref_count } 0).2.1.pool = b.pool := u3
    have hp0' : ¬ (run_opt_cb (w.set_buf buf { b with ref_count := uint_dec b.ref_count })
        cb_kind.unref b.cbs.unref buf
        { b with ref_count := uint_dec b.ref_count } 0).2.1.pool = 0 := by rw [hpool]; exact hp0
    have heq : vbuf_unref w buf =
        vbuf_pool_put
          ((run_opt_cb (w.set_buf buf { b with ref_count := uint_dec b.ref_count })
            cb_kind.unref b.cbs.unref buf
            { b with ref_count := uint_dec b.ref_count } 0).1.set_buf buf
            { (run_opt_cb (w.set_buf buf { b with ref_count := uint_dec b.ref_count })
                cb_kind.unref b.cbs.unref buf
                { b with ref_count := uint_dec b.ref_count } 0).2.1 with
              write_locked := false, size := 0 })
          b.pool buf := by
      simp only [vbuf_unref, hbuf, hne, hb, hz, hu, if_true, if_false, ne_eq, hp0, hp0',
        not_false_eq_true, hpool]
    rw [heq]
    generalize run_opt_cb (w.set_buf buf { b with ref_count := uint_dec b.ref_count })
      cb_kind.unref b.cbs.unref buf { b with ref_count := uint_dec b.ref_count } 0 = RU at *
    obtain ⟨c1, c2⟩ := pool_put_cases (RU.1.set_buf buf
      { RU.2.1 with write_locked := false, size := 0 }) b.pool buf
      { RU.2.1 with write_locked := false, size := 0 } pl hp0 hbuf (by simp)
      (by show RU.2.1.pool ≠ 0; exact hp0') (by rw [set_buf_pools, upools]; exact hpl)
    obtain ⟨pbo, pbufs, ppools, -⟩ := run_opt_cb_spec (RU.1.set_buf buf
      { RU.2.1 with write_locked := false, size := 0 }) cb_kind.pool_put
      ({ RU.2.1 with write_locked := false, size := 0 } : vbuf_buffer).cbs.pool_put buf
      { RU.2.1 with write_locked := false, size := 0 } 0 (by simp)
    obtain ⟨p1, p2, p3, p4, p5, p6, p7, p8, p9, p10⟩ := backend_only_fields pbo
    have hcbs : ({ RU.2.1 with write_locked := false, size := 0 } : vbuf_buffer).cbs.pool_put =
        b.cbs.pool_put := by show RU.2.1.cbs.pool_put = _; rw [u4]
    by_cases hp : (run_opt_cb (RU.1.set_buf buf
        { RU.2.1 with write_locked := false, size := 0 }) cb_kind.pool_put
        ({ RU.2.1 with write_locked := false, size := 0 } : vbuf_buffer).cbs.pool_put buf
        { RU.2.1 with write_locked := false, size := 0 } 0).2.2 < 0
    · rw [c1 hp]
      have pres : ∃ g a, b.cbs.pool_put = some g ∧
          (run_opt_cb (RU.1.set_buf buf
            { RU.2.1 with write_locked := false, size := 0 }) cb_kind.pool_put
            ({ RU.2.1 with write_locked := false, size := 0 } : vbuf_buffer).cbs.pool_put buf
            { RU.2.1 with write_locked := false, size := 0 } 0).2.2 = (g a).res := by
        revert hp
        rw [hcbs]
        cases h2 : b.cbs.pool_put with
        | none => intro hp; exact absurd hp (lt_irrefl 0)
        | some g => intro _; exact ⟨g, _, rfl, rfl⟩
      refine ⟨fun i hi => by
          rw [pbufs i, if_neg hi, set_buf_bufs, if_neg hi, ubufs i, if_neg hi, set_buf_bufs,
            if_neg hi],
        fun i _ => by rw [ppools, set_buf_pools, upools]; rfl,
        _, by rw [pbufs buf, if_pos rfl], by rw [p1]; show RU.2.1.ref_count = 0; rw [u1]; exact hd,
        by rw [p3]; exact u3, by rw [p5]; exact u5, by rw [p8]; exact u8,
        by rw [p9]; exact u9, by rw [p10]; exact u10, by rw [p4]; exact u4,
        Or.inr (Or.inr ⟨hp, by rw [ppools, set_buf_pools, upools]; rfl,
          by rw [p7]; exact u7, p2, p6, pres⟩)⟩
    · obtain ⟨d1, d2, d3, d4, d5⟩ := c2 hp
      have pres : ∀ g, b.cbs.pool_put = some g → ∃ a, 0 ≤ (g a).res := by
        intro g hg
        revert hp
        rw [hcbs, hg]
        intro hp
        exact ⟨_, not_lt.mp hp⟩
      refine ⟨fun i hi => by
          rw [d3 i hi, set_buf_bufs, if_neg hi, ubufs i, if_neg hi, set_buf_bufs, if_neg hi],
        fun i hi => by rw [d5 i hi, set_buf_pools, upools]; rfl,
        _, d2, by show _ = 0; rw [p1]; show RU.2.1.ref_count = 0; rw [u1]; exact hd,
        by show _ = b.pool; rw [p3]; exact u3, by show _ = b.capacity; rw [p5]; exact u5,
        by show _ = b.userdata_capacity; rw [p8]; exact u8,
        by show _ = b.userdata_size; rw [p9]; exact u9,
        by show _ = b.userdata_ptr; rw [p10]; exact u10,
        by show _ = b.cbs; rw [p4]; exact u4,
        Or.inl ⟨d1, p2, p6, rfl, pres, d4⟩⟩

/-! ## Queue calls whose callback does not report success -/

theorem key_free_iff (d : vbuf_buffer) (m : vbuf_meta) :
    key_free d m = true ↔ ∀ x ∈ d.metas, x.key ≠ m.key := by
  simp [key_free]

theorem takeWhile_agree {α : Type} (p q : α → Bool) (l : List α)
    (h : ∀ x ∈ l, p x = q x) : l.takeWhile p = l.takeWhile q := by
  induction l with
  | nil => rfl
  | cons a l ih =>
    rw [List.takeWhile_cons, List.takeWhile_cons, h a (List.mem_cons_self a l),
      ih (fun x hx => h x (List.mem_cons_of_mem a hx))]

/-- The loop of `vbuf_metadata_copy` over records with distinct keys, when a selected
record has a key present in the destination and no system call fails: the selected
records before the first such record are copied, then the loop stops with `-EEXIST`. -/
theorem metadata_copy_loop_clash (dst max_level : Nat) (hdst : dst ≠ 0) (ms : List vbuf_meta) :
    ∀ (w : World) (d : vbuf_buffer), w.bufs dst = some d →
      (ms.map (fun m => m.key)).Nodup → (∀ m ∈ ms, meta_sound m) → (∀ t, w.env t = 0) →
      (∃ m ∈ ms, meta_selected max_level m = true ∧ key_free d m = false) →
      (vbuf_metadata_copy_loop w dst max_level ms).2 = -EEXIST ∧
      (vbuf_metadata_copy_loop w dst max_level ms).1.bufs dst =
        some { d with metas := d.metas ++
          (before_clash d (ms.filter (meta_selected max_level))).map meta_copy_of } ∧
      (∀ i, i ≠ dst → (vbuf_metadata_copy_loop w dst max_level ms).1.bufs i = w.bufs i) := by
  induction ms with
  | nil =>
    intro w d _ _ _ _ hclash
    obtain ⟨m, hm, -⟩ := hclash
    cases hm
  | cons m rest ih =>
    intro w d hd hnd hsound hsys hclash
    rw [List.map_cons, List.nodup_cons] at hnd
    by_cases hsel : max_level = 0 ∨ m.level < max_level
    · have hselb : meta_selected max_level m = true := (meta_selected_iff _ _).mpr hsel
      obtain ⟨hk0, hlen, hdat⟩ := hsound m (List.mem_cons_self m rest)
      by_cases hfree : key_free d m = true
      · have habs := (key_free_iff d m).mp hfree
        obtain ⟨-, -, a3, a4, a5, a6⟩ :=
          metadata_add_spec w dst m.key m.level m.len d hdst hd
        have hres := a6 hk0 hlen habs hsys
        rcases a5 with ⟨hneg, -⟩ | ⟨-, -, -, -, hnew⟩
        · rw [hres] at hneg; exact absurd hneg (lt_irrefl 0)
        have hr0 : ¬ (vbuf_metadata_add w dst m.key m.level m.len).2.1 < 0 := by
          rw [hres]; exact lt_irrefl 0
        obtain ⟨-, mc2⟩ := meta_memcpy_spec (vbuf_metadata_add w dst m.key m.level m.len).1
          dst d m hnew
        have heq : vbuf_metadata_copy_loop w dst max_level (m :: rest) =
            vbuf_metadata_copy_loop
              ((vbuf_metadata_add w dst m.key m.level m.len).1.set_buf dst
                { d with metas := d.metas ++ [meta_copy_of m] }) dst max_level rest := by
          simp only [vbuf_metadata_copy_loop, hsel, if_true, hr0, if_false, mc2 hdat]
        rw [heq]
        have hclash' : ∃ x ∈ rest, meta_selected max_level x = true ∧
            key_free { d with metas := d.metas ++ [meta_copy_of m] } x = false := by
          obtain ⟨x, hx, hxs, hxf⟩ := hclash
          rcases List.mem_cons.mp hx with h | h
          · rw [h, hfree] at hxf; cases hxf
          · refine ⟨x, h, hxs, ?_⟩
            cases hc : key_free { d with metas := d.metas ++ [meta_copy_of m] } x with
            | false => rfl
            | true =>
              have h1 := (key_free_iff _ x).mp hc
              have h2 : key_free d x = true :=
                (key_free_iff d x).mpr (fun y hy => h1 y (List.mem_append_left _ hy))
              rw [h2] at hxf; cases hxf
        obtain ⟨i1, i2, i3⟩ := ih
          ((vbuf_metadata_add w dst m.key m.level m.len).1.set_buf dst
            { d with metas := d.metas ++ [meta_copy_of m] })
          { d with metas := d.metas ++ [meta_copy_of m] } (by simp) hnd.2
          (fun x hx => hsound x (List.mem_cons_of_mem m hx)) (fun t => by simp [a3, hsys t])
          hclash'
        refine ⟨i1, ?_, fun i hi => by rw [i3 i hi]; simp [hi, a4 i hi]⟩
        rw [i2]
        have htw : before_clash { d with metas := d.metas ++ [meta_copy_of m] }
            (rest.filter (meta_selected max_level)) =
            before_clash d (rest.filter (meta_selected max_level)) := by
          apply takeWhile_agree
          intro x hx
          have hxr : x ∈ rest := (List.mem_filter.mp hx).1
          have hne : m.key ≠ x.key := fun he =>
            hnd.1 (List.mem_map.mpr ⟨x, hxr, he.symm⟩)
          cases hc : key_free d x with
          | true =>
            apply (key_free_iff _ x).mpr
            intro y hy
            rcases List.mem_append.mp hy with h | h
            · exact (key_free_iff d x).mp hc y h
            · rw [List.mem_singleton] at h; rw [h]; exact hne
          | false =>
            cases hc2 : key_free { d with metas := d.metas ++ [meta_copy_of m] } x with
            | false => rfl
            | true =>
              have h1 := (key_free_iff _ x).mp hc2
              have h2 : key_free d x = true :=
                (key_free_iff d x).mpr (fun y hy => h1 y (List.mem_append_left _ hy))
              rw [h2] at hc; cases hc
        rw [htw, List.filter_cons_of_pos hselb]
        have hb : before_clash d (m :: rest.filter (meta_selected max_level)) =
            m :: before_clash d (rest.filter (meta_selected max_level)) := by
          unfold before_clash
          rw [List.takeWhile_cons_of_pos hfree]
        rw [hb, List.map_cons]
        simp only [List.append_assoc, List.singleton_append]
      · have hpres : ∃ x ∈ d.metas, x.key = m.key := by
          by_contra hno
          apply hfree
          apply (key_free_iff d m).mpr
          intro x hx hk
          exact hno ⟨x, hx, hk⟩
        have hadd := metadata_add_exists w dst m.key m.level m.len d hdst hk0 hd hpres
        have hE : (-EEXIST : Int) < 0 := by decide
        have heq : vbuf_metadata_copy_loop w dst max_level (m :: rest) = (w, -EEXIST) := by
          simp only [vbuf_metadata_copy_loop, hsel, if_true, hadd, hE]
        rw [heq, List.filter_cons_of_pos hselb]
        have hb : before_clash d (m :: rest.filter (meta_selected max_level)) = [] := by
          unfold before_clash
          rw [List.takeWhile_cons_of_neg hfree]
        rw [hb]
        refine ⟨rfl, ?_, fun _ _ => rfl⟩
        simp only [List.map_nil, List.append_nil]
        exact hd
    · have hselb : ¬ meta_selected max_level m = true := fun h =>
        hsel ((meta_selected_iff _ _).mp h)
      have heq : vbuf_metadata_copy_loop w dst max_level (m :: rest) =
          vbuf_metadata_copy_loop w dst max_level rest := by
        simp only [vbuf_metadata_copy_loop, hsel, if_false]
      rw [heq, List.filter_cons_of_neg hselb]
      apply ih w d hd hnd.2 (fun x hx => hsound x (List.mem_cons_of_mem m hx)) hsys
      obtain ⟨x, hx, hxs, hxf⟩ := hclash
      rcases List.mem_cons.mp hx with h | h
      · rw [h] at hxs; exact absurd hxs hselb
      · exact ⟨x, h, hxs, hxf⟩

/-! ## What `vbuf_pool_get` returns -/

/-- When `vbuf_pool_get_take` writes the address `buf` to `*buf`, the pool has a free
buffer and `buf` is the head of its free list. -/
theorem pool_get_take_out (w : World) (pool : Nat) (t : Int) (buf : Nat) (hbuf : buf ≠ 0)
    (hret : (vbuf_pool_get_take w pool t).2.2 = some buf) :
    ∃ pl rest, w.pools pool = some pl ∧ pl.free ≠ 0 ∧ pl.buffers = buf :: rest := by
  cases hpl : w.pools pool with
  | none =>
    simp only [vbuf_pool_get_take, hpl] at hret
    cases hret
  | some pl =>
    by_cases hfree : pl.free = 0
    · have h0 : (vbuf_pool_get_take w pool t).2.2 = some 0 := by
        simp only [vbuf_pool_get_take, hpl, hfree, if_true]
      rw [h0] at hret
      exact absurd (Option.some.inj hret).symm hbuf
    refine ⟨pl, ?_⟩
    cases hl : pl.buffers with
    | nil =>
      simp only [vbuf_pool_get_take, hpl, hfree, hl, if_false] at hret
      cases hret
    | cons id rest =>
      refine ⟨rest, rfl, hfree, ?_⟩
      simp only [vbuf_pool_get_take, hpl, hfree, hl, if_false] at hret
      split at hret
      · cases hret
      · split at hret
        · split at hret
          · cases hret
          · rw [Option.some.inj hret]
        · rw [Option.some.inj hret]

/-- When `vbuf_pool_get` writes the address `buf` of a live buffer to `*buf`, its result
is not negative and the buffer has one reference more; the backend callback may have
written the backend fields. -/
theorem pool_get_returns (w : World) (pool : Nat) (t : Int) (buf : Nat) (b : vbuf_buffer)
    (hbuf : buf ≠ 0) (hb : w.bufs buf = some b)
    (hret : (vbuf_pool_get w pool t).2.2 = some buf) :
    0 ≤ (vbuf_pool_get w pool t).2.1 ∧
    ∃ b', (vbuf_pool_get w pool t).1.bufs buf = some b' ∧
      backend_only { b with ref_count := uint_inc b.ref_count } b' := by
  by_cases hp0 : pool = 0
  · simp only [vbuf_pool_get, hp0, if_true] at hret
    cases hret
  cases hpl : w.pools pool with
  | none =>
    simp only [vbuf_pool_get, hp0, hpl, if_false] at hret
    cases hret
  | some pl =>
    have hfree : pl.free ≠ 0 := by
      intro hfree
      by_cases ht : t = 0
      · simp only [vbuf_pool_get, hp0, hpl, hfree, ht, if_true, if_false] at hret
        exact hbuf (Option.some.inj hret).symm
      · have htake : ∀ v : World, v.pools pool = some pl →
            (vbuf_pool_get_take v pool t).2.2 = some 0 := by
          intro v hv
          simp only [vbuf_pool_get_take, hv, hfree, if_true]
        simp only [vbuf_pool_get, hp0, hpl, hfree, ht, if_true, if_false] at hret
        by_cases htp : t > 0
        · simp only [htp, if_true] at hret
          split at hret
          · exact hbuf (Option.some.inj hret).symm
          · split at hret
            · exact hbuf (Option.some.inj hret).symm
            · rw [htake _ (by simp [hpl])] at hret
              exact hbuf (Option.some.inj hret).symm
        · simp only [htp, if_false] at hret
          split at hret
          · exact hbuf (Option.some.inj hret).symm
          · split at hret
            · exact hbuf (Option.some.inj hret).symm
            · rw [htake _ (by simp [hpl])] at hret
              exact hbuf (Option.some.inj hret).symm
    have heq : vbuf_pool_get w pool t = vbuf_pool_get_take w pool t := by
      simp only [vbuf_pool_get, hp0, hpl, hfree, if_false]
    rw [heq] at hret
    obtain ⟨pl', rest, hpl', -, hl⟩ := pool_get_take_out w pool t buf hbuf hret
    rw [hpl] at hpl'
    have hpp : pl' = pl := (Option.some.inj hpl').symm
    rw [hpp] at hl
    obtain ⟨W, b', res, c1, c2, -, -, -, -, c7⟩ :=
      pool_get_cases w pool t pl buf rest b hp0 hpl hfree hl hbuf hb
    rcases c7 with ⟨hres, hget⟩ | ⟨-, hget⟩
    · rw [hget]
      exact ⟨hres, b', c1, c2⟩
    · rw [← heq, hget] at hret
      cases hret

/-- As many calls of `vbuf_pool_get` as the first part `l` of the free list has buffers
output these buffers in order, leave the rest of the free list, and leave every buffer
that is not in `l` as it was. -/
theorem pool_get_n_frame (pool : Nat) (hp0 : pool ≠ 0) (l : List Nat) :
    ∀ (w : World) (pl : vbuf_pool) (ts : List Int) (tail : List Nat),
    w.pools pool = some pl → pl.buffers = l ++ tail → pl.free = (l ++ tail).length →
    pl.free < 4294967296 →
    (∀ id ∈ l, id ≠ 0 ∧ ∃ b, w.bufs id = some b ∧ cb_ok b.cbs.pool_get) →
    ts.length = l.length →
    (pool_get_n w pool ts).2.map Prod.snd = l.map some ∧
    (pool_get_n w pool ts).1.pools pool =
      some { pl with buffers := tail, free := tail.length } ∧
    (∀ i, i ∉ l → (pool_get_n w pool ts).1.bufs i = w.bufs i) := by
  induction l with
  | nil =>
    intro w pl ts tail hpl hl hfree _ _ hts
    have : ts = [] := List.length_eq_zero.mp hts
    subst this
    simp only [List.nil_append] at hl hfree
    refine ⟨by simp [pool_get_n], ?_, fun _ _ => rfl⟩
    simp only [pool_get_n, hpl]
    cases pl
    simp only at hl hfree
    subst hl
    subst hfree
    rfl
  | cons x xs ih =>
    intro w pl ts tail hpl hl hfree hrange hall hts
    cases ts with
    | nil => simp at hts
    | cons t ts =>
      obtain ⟨hx0, b, hb, hg⟩ := hall x (List.mem_cons_self _ _)
      have hf0 : pl.free ≠ 0 := by rw [hfree]; simp
      obtain ⟨-, -, h3, ⟨b', hb', hbo⟩, hother, hpool, -⟩ :=
        pool_get_ok w pool t pl x (xs ++ tail) b hp0 hpl hf0 hl hx0 hb hg
      have hxs : ∀ id ∈ xs, id ≠ 0 ∧
          ∃ c, (vbuf_pool_get w pool t).1.bufs id = some c ∧ cb_ok c.cbs.pool_get := by
        intro id hid
        obtain ⟨h0, c, hc, hcg⟩ := hall id (List.mem_cons_of_mem _ hid)
        by_cases hi : id = x
        · subst hi
          rw [hb] at hc
          cases hc
          exact ⟨h0, b', hb', by rw [(backend_only_fields hbo).2.2.2.1]; exact hcg⟩
        · exact ⟨h0, c, by rw [hother id hi]; exact hc, hcg⟩
      simp only [List.cons_append, List.length_cons] at hfree hts
      obtain ⟨ih1, ih2, ih3⟩ := ih (vbuf_pool_get w pool t).1 _ ts tail hpool rfl
        (by simp only; rw [uint_dec_eq _ (by omega) hrange]; omega)
        (by simp only; rw [uint_dec_eq _ (by omega) hrange]; omega) hxs (by omega)
      refine ⟨?_, ?_, ?_⟩
      · simp only [pool_get_n, List.map_cons, ih1, h3]
      · simp only [pool_get_n]
        rw [ih2]
      · intro i hi
        simp only [pool_get_n]
        rw [ih3 i (fun h => hi (List.mem_cons_of_mem _ h)),
          hother i (fun h => hi (h ▸ List.mem_cons_self _ _))]

/-! ## Steps that leave a pool and its buffers alone -/

theorem aside_refl (pool : Nat) (w : World) : aside pool w w :=
  ⟨rfl, rfl, fun _ _ h _ => h, fun _ b' h => ⟨b', h, rfl⟩,
    fun _ pl' h _ hx => Or.inl ⟨pl', h, hx⟩⟩

theorem aside_trans {pool : Nat} {u v w : World} (h1 : aside pool u v) (h2 : aside pool v w) :
    aside pool u w := by
  obtain ⟨a1, a2, a3, a4, a5⟩ := h1
  obtain ⟨b1, b2, b3, b4, b5⟩ := h2
  refine ⟨b1.trans a1, b2.trans a2, fun i b hb hp => b3 i b (a3 i b hb hp) hp, ?_, ?_⟩
  · intro i b'' hb''
    obtain ⟨b', hb', e1⟩ := b4 i b'' hb''
    obtain ⟨b, hb, e2⟩ := a4 i b' hb'
    exact ⟨b, hb, e1.trans e2⟩
  · intro p pl'' hp x hx
    rcases b5 p pl'' hp x hx with ⟨pl', hpl', hx'⟩ | ⟨b', hb', e1⟩
    · exact a5 p pl' hpl' x hx'
    · obtain ⟨b, hb, e2⟩ := a4 x b' hb'
      exact Or.inr ⟨b, hb, e2.symm.trans e1⟩

/-- A world with the same buffers, pools and allocation mark. -/
theorem aside_of_eq (pool : Nat) {w w' : World} (hb : w'.bufs = w.bufs)
    (hp : w'.pools = w.pools) (hn : w'.next = w.next) : aside pool w w' := by
  refine ⟨hn, by rw [hp], fun i b h _ => by rw [hb]; exact h,
    fun i b' h => ⟨b', by rw [← hb]; exact h, rfl⟩, fun p pl' h x hx => Or.inl ⟨pl', ?_, hx⟩⟩
  rw [← hp]; exact h

/-- A buffer that is not of the pool is rewritten without changing its originating
pool. -/
theorem aside_set_buf (pool : Nat) (w : World) (id : Nat) (b b1 : vbuf_buffer)
    (hb : w.bufs id = some b) (hne : b.pool ≠ pool) (hp : b1.pool = b.pool) :
    aside pool w (w.set_buf id b1) := by
  refine ⟨rfl, rfl, ?_, ?_, fun p pl' h x hx => Or.inl ⟨pl', h, hx⟩⟩
  · intro i c hc hcp
    rw [set_buf_bufs]
    split
    · next hi => rw [hi, hb] at hc; cases hc; exact absurd hcp hne
    · exact hc
  · intro i c hc
    rw [set_buf_bufs] at hc
    split at hc
    · next hi => cases hc; exact ⟨b, by rw [hi]; exact hb, hp⟩
    · exact ⟨c, hc, rfl⟩

/-- A buffer that is not of the pool is freed. -/
theorem aside_del_buf (pool : Nat) (w : World) (id : Nat)
    (hne : ∀ b, w.bufs id = some b → b.pool ≠ pool) : aside pool w (w.del_buf id) := by
  refine ⟨rfl, rfl, ?_, ?_, fun p pl' h x hx => Or.inl ⟨pl', h, hx⟩⟩
  · intro i c hc hcp
    rw [del_buf_bufs]
    split
    · next hi => rw [hi] at hc; exact absurd hcp (hne c hc)
    · exact hc
  · intro i c hc
    rw [del_buf_bufs] at hc
    split at hc
    · cases hc
    · exact ⟨c, hc, rfl⟩

/-- Another pool loses entries of its free list, or gains a live buffer of its own. -/
theorem aside_set_pool (pool : Nat) (w : World) (q : Nat) (ql : vbuf_pool) (hq : q ≠ pool)
    (hl : ∀ x ∈ ql.buffers, (∃ pl, w.pools q = some pl ∧ x ∈ pl.buffers) ∨
      (∃ b, w.bufs x = some b ∧ b.pool = q)) :
    aside pool w (w.set_pool q ql) := by
  refine ⟨rfl, by rw [set_pool_pools, if_neg (Ne.symm hq)], fun _ _ h _ => h,
    fun _ b' h => ⟨b', h, rfl⟩, ?_⟩
  intro p pl' hp x hx
  rw [set_pool_pools] at hp
  split at hp
  · next hpq => cases hp; rw [hpq]; exact hl x hx
  · exact Or.inl ⟨pl', hp, hx⟩

/-- `vbuf_ref` on a buffer that is not of the pool. -/
theorem aside_ref (pool : Nat) (w : World) (buf : Nat)
    (hne : ∀ b, w.bufs buf = some b → b.pool ≠ pool) : aside pool w (vbuf_ref w buf).1 := by
  by_cases hbuf : buf = 0
  · simp only [vbuf_ref, hbuf, if_true]; exact aside_refl _ _
  cases hb : w.bufs buf with
  | none => simp only [vbuf_ref, hbuf, hb, if_false]; exact aside_refl _ _
  | some b =>
    simp only [vbuf_ref, hbuf, hb, if_false]
    exact aside_set_buf pool w buf b _ hb (hne b hb) rfl

/-- A callback on a buffer that is not of the pool. -/
theorem aside_run_opt_cb (pool : Nat) (w : World) (k : cb_kind) (cb : Option vbuf_cb)
    (id : Nat) (b : vbuf_buffer) (t : Int) (hb : w.bufs id = some b) (hne : b.pool ≠ pool) :
    aside pool w (run_opt_cb w k cb id b t).1 := by
  cases cb with
  | none => exact aside_refl _ _
  | some f =>
    show aside pool w ((w.set_buf id (run_cb w k f id b t).2.1).log (ext_call.cb k id))
    exact aside_trans (aside_set_buf pool w id b (run_cb w k f id b t).2.1 hb hne rfl)
      (aside_of_eq pool rfl rfl rfl)

/-- `vbuf_destroy` of a buffer that is not of the pool. -/
theorem aside_destroy (pool : Nat) (w : World) (buf : Nat)
    (hne : ∀ b, w.bufs buf = some b → b.pool ≠ pool) :
    aside pool w (vbuf_destroy w buf).1 := by
  by_cases hbuf : buf = 0
  · simp only [vbuf_destroy, hbuf, if_true]; exact aside_refl _ _
  cases hb : w.bufs buf with
  | none => simp only [vbuf_destroy, hbuf, hb, if_false]; exact aside_refl _ _
  | some b =>
    cases hf : b.cbs.free with
    | none => simp only [vbuf_destroy, hbuf, hb, hf, if_false]; exact aside_refl _ _
    | some f =>
      simp only [vbuf_destroy, hbuf, hb, hf, if_false]
      have h1 : aside pool w (run_cb w cb_kind.free f buf b 0).1 :=
        aside_run_opt_cb pool w cb_kind.free (some f) buf b 0 hb (hne b hb)
      refine aside_trans h1 (aside_del_buf pool _ buf ?_)
      intro c hc
      obtain ⟨c0, hc0, e⟩ := h1.2.2.2.1 buf c hc
      rw [hb] at hc0; cases hc0
      rw [e]; exact hne b hb

/-- `vbuf_pool_put` of a buffer that is not of the pool, into its own pool. -/
theorem aside_pool_put (pool : Nat) (w : World) (buf : Nat) (b : vbuf_buffer)
    (hb : w.bufs buf = some b) (hne : b.pool ≠ pool) :
    aside pool w (vbuf_pool_put w b.pool buf).1 := by
  by_cases hp0 : b.pool = 0
  · simp only [vbuf_pool_put, hp0, if_true]; exact aside_refl _ _
  by_cases hbuf : buf = 0
  · simp only [vbuf_pool_put, hp0, hbuf, if_true, if_false]; exact aside_refl _ _
  have h1 := aside_run_opt_cb pool w cb_kind.pool_put b.cbs.pool_put buf b 0 hb hne
  obtain ⟨s1, s2, s3, -, -, -, -, -⟩ :=
    run_opt_cb_spec w cb_kind.pool_put b.cbs.pool_put buf b 0 hb
  obtain ⟨-, -, f3, -⟩ := backend_only_fields s1
  simp only [vbuf_pool_put, hp0, hbuf, hb, if_false]
  generalize run_opt_cb w cb_kind.pool_put b.cbs.pool_put buf b 0 = r at *
  have hr : r.1.bufs buf = some r.2.1 := by rw [s2 buf, if_pos rfl]
  have h2 : aside pool w (r.1.set_buf buf { r.2.1 with metas := [] }) :=
    aside_trans h1 (aside_set_buf pool r.1 buf r.2.1 _ hr (by rw [f3]; exact hne) rfl)
  split
  · exact h1
  · split
    · exact h2
    · next p hp =>
      refine aside_trans h2 (aside_trans (aside_set_pool pool _ b.pool
        { p with buffers := p.buffers ++ [buf], free := uint_inc p.free } hne ?_)
        (aside_of_eq pool (by simp) (by simp) (by simp)))
      intro x hx
      simp only [List.mem_append, List.mem_singleton] at hx
      rcases hx with hx | hx
      · exact Or.inl ⟨p, hp, hx⟩
      · refine Or.inr ⟨{ r.2.1 with metas := [] }, by rw [hx]; simp, ?_⟩
        exact f3

/-- `vbuf_unref` of a buffer that is not of the pool. -/
theorem aside_unref (pool : Nat) (w : World) (buf : Nat)
    (hne : ∀ b, w.bufs buf = some b → b.pool ≠ pool) :
    aside pool w (vbuf_unref w buf).1 := by
  by_cases hbuf : buf = 0
  · simp only [vbuf_unref, hbuf, if_true]; exact aside_refl _ _
  by_cases hisref : (vbuf_is_ref w buf).2 = 0
  · simp only [vbuf_unref, hbuf, hisref, if_true, if_false]; exact aside_refl _ _
  cases hb : w.bufs buf with
  | none => simp only [vbuf_unref, hbuf, hisref, hb, if_false]; exact aside_refl _ _
  | some b =>
    have hnb := hne b hb
    have h0 : aside pool w (w.set_buf buf { b with ref_count := uint_dec b.ref_count }) :=
      aside_set_buf pool w buf b _ hb hnb rfl
    by_cases hz : to_int (uint_dec b.ref_count) = 0
    · have h1 := aside_run_opt_cb pool
        (w.set_buf buf { b with ref_count := uint_dec b.ref_count })
        cb_kind.unref b.cbs.unref buf { b with ref_count := uint_dec b.ref_count } 0
        (by simp) hnb
      obtain ⟨s1, s2, -⟩ :=
        run_opt_cb_spec (w.set_buf buf { b with ref_count := uint_dec b.ref_count })
          cb_kind.unref b.cbs.unref buf { b with ref_count := uint_dec b.ref_count } 0
          (by simp)
      obtain ⟨-, -, f3, -⟩ := backend_only_fields s1
      simp only [vbuf_unref, hbuf, hisref, hb, hz, if_false, if_true]
      generalize run_opt_cb (w.set_buf buf { b with ref_count := uint_dec b.ref_count })
          cb_kind.unref b.cbs.unref buf { b with ref_count := uint_dec b.ref_count } 0 = r at *
      simp only at f3
      have hr : r.1.bufs buf = some r.2.1 := by rw [s2 buf, if_pos rfl]
      have h2 : aside pool w
          (r.1.set_buf buf { r.2.1 with write_locked := false, size := 0 }) :=
        aside_trans h0 (aside_trans h1
          (aside_set_buf pool r.1 buf r.2.1 _ hr (by rw [f3]; exact hnb) rfl))
      split
      · exact aside_trans h0 h1
      · split
        · exact aside_trans h2
            (aside_pool_put pool _ buf { r.2.1 with write_locked := false, size := 0 }
              (by simp) (by show r.2.1.pool ≠ pool; rw [f3]; exact hnb))
        · refine aside_trans h2 (aside_destroy pool _ buf ?_)
          intro c hc
          rw [set_buf_bufs, if_pos rfl] at hc
          cases hc
          show r.2.1.pool ≠ pool
          rw [f3]; exact hnb
    · simp only [vbuf_unref, hbuf, hisref, hb, hz, if_false]
      exact h0

/-- A buffer that is not of the pool is not of the pool after a step aside. -/
theorem aside_ne {pool : Nat} {w w' : World} (h : aside pool w w') (i : Nat)
    (hne : ∀ b, w.bufs i = some b → b.pool ≠ pool) :
    ∀ b', w'.bufs i = some b' → b'.pool ≠ pool := by
  intro b' hb'
  obtain ⟨b, hb, e⟩ := h.2.2.2.1 i b' hb'
  rw [e]; exact hne b hb

/-- The part of `vbuf_pool_get` after the wait, on another pool whose first free buffer
is not of the pool. -/
theorem aside_pool_get_take (pool : Nat) (w : World) (q : Nat) (t : Int) (hq : q ≠ pool)
    (hhead : ∀ ql id rest b, w.pools q = some ql → ql.buffers = id :: rest →
      w.bufs id = some b → b.pool ≠ pool) :
    aside pool w (vbuf_pool_get_take w q t).1 := by
  cases hpl : w.pools q with
  | none => simp only [vbuf_pool_get_take, hpl]; exact aside_refl _ _
  | some ql =>
    by_cases hfree : ql.free = 0
    · simp only [vbuf_pool_get_take, hpl, hfree, if_true]; exact aside_refl _ _
    cases hl : ql.buffers with
    | nil => simp only [vbuf_pool_get_take, hpl, hfree, hl, if_false]; exact aside_refl _ _
    | cons id rest =>
      have hne : ∀ b, w.bufs id = some b → b.pool ≠ pool := fun b hb =>
        hhead ql id rest b hpl hl hb
      have h1 : aside pool w (vbuf_ref w id).1 := aside_ref pool w id hne
      have hp1 : (vbuf_ref w id).1.pools q = some ql := by
        rw [← hpl]
        unfold vbuf_ref
        split
        · rfl
        · split <;> rfl
      have h2 : aside pool w ((vbuf_ref w id).1.set_pool q
          { ql with buffers := rest, free := uint_dec ql.free }) :=
        aside_trans h1 (aside_set_pool pool _ q _ hq (fun x hx =>
          Or.inl ⟨ql, hp1, by rw [hl]; exact List.mem_cons_of_mem _ hx⟩))
      simp only [vbuf_pool_get_take, hpl, hfree, hl, if_false]
      split
      · exact h2
      · next b2 hb2 =>
        split
        · next f hf =>
          have h3 := aside_trans h2 (aside_run_opt_cb pool _ cb_kind.pool_get (some f) id b2 t
            hb2 (aside_ne h2 id hne b2 hb2))
          split
          · exact aside_trans h3 (aside_unref pool _ id (aside_ne h3 id hne))
          · exact h3
        · exact h2

/-- `vbuf_pool_get` on another pool whose first free buffer is not of the pool. -/
theorem aside_pool_get (pool : Nat) (w : World) (q : Nat) (t : Int) (hq : q ≠ pool)
    (hhead : ∀ ql id rest b, w.pools q = some ql → ql.buffers = id :: rest →
      w.bufs id = some b → b.pool ≠ pool) :
    aside pool w (vbuf_pool_get w q t).1 := by
  have hnone : (q = 0 ∨ w.pools q = none ∨ ∃ pl, w.pools q = some pl ∧ pl.free = 0) →
      aside pool w (vbuf_pool_get w q t).1 := by
    intro h
    obtain ⟨h1, h2, -, h4⟩ := pool_get_none w q t h
    exact aside_of_eq pool (funext h1) (funext h2) h4
  by_cases hq0 : q = 0
  · exact hnone (Or.inl hq0)
  cases hpl : w.pools q with
  | none => exact hnone (Or.inr (Or.inl hpl))
  | some ql =>
    by_cases hfree : ql.free = 0
    · exact hnone (Or.inr (Or.inr ⟨ql, hpl, hfree⟩))
    · have heq : vbuf_pool_get w q t = vbuf_pool_get_take w q t := by
        simp only [vbuf_pool_get, hq0, hpl, hfree, if_false]
      rw [heq]
      exact aside_pool_get_take pool w q t hq hhead

/-! ## Counting under `pool_ok` -/

/-- A live buffer sits at a non-null address that was handed out. -/
theorem pool_ok_addr {c : vbuf_cbs} {pool : Nat} {w : World} {pl : vbuf_pool}
    (h : pool_ok c pool w pl) (id : Nat) (b : vbuf_buffer) (hb : w.bufs id = some b) :
    id ≠ 0 ∧ id ≤ w.next := by
  constructor
  · intro h0; rw [h0, h.null_free] at hb; cases hb
  · by_contra hlt
    rw [h.fresh id (by omega)] at hb; cases hb

/-- Under `pool_ok` the free list is as long as the number of free buffers. -/
theorem free_list_length {c : vbuf_cbs} {pool : Nat} {w : World} {pl : vbuf_pool}
    (h : pool_ok c pool w pl) :
    pl.buffers.length = (List.range (w.next + 1)).countP (is_free_buf w pool) := by
  apply length_eq_countP_range _ _ _ h.nodup
  intro x
  constructor
  · intro hx
    obtain ⟨b, hb, hp⟩ := h.list_live x hx
    obtain ⟨-, -, h6⟩ := h.bufs x b hb hp
    have h2 := (pool_ok_addr h x b hb).2
    refine ⟨by omega, ?_⟩
    simp [is_free_buf, hb, hp, h6.mp hx]
  · intro ⟨_, hx⟩
    unfold is_free_buf at hx
    cases hb : w.bufs x with
    | none => rw [hb] at hx; simp at hx
    | some b =>
      rw [hb] at hx
      simp at hx
      exact ((h.bufs x b hb hx.1).2.2).mpr hx.2

/-- Under `pool_ok` the free counter plus the number of held buffers is the number of
buffers of the pool. -/
theorem free_plus_held {c : vbuf_cbs} {pool : Nat} {w : World} {pl : vbuf_pool}
    (h : pool_ok c pool w pl) : pl.free + held_count w pool = pool_buf_count w pool := by
  rw [pool_buf_count_split, h.free_eq, free_list_length h]

/-- A held buffer makes the free list shorter than the population. -/
theorem free_lt_of_held {c : vbuf_cbs} {pool : Nat} {w : World} {pl : vbuf_pool}
    (h : pool_ok c pool w pl) (id : Nat) (b : vbuf_buffer) (hb : w.bufs id = some b)
    (hp : b.pool = pool) (hrc : 1 ≤ b.ref_count) :
    pl.buffers.length < pool_buf_count w pool := by
  have h1 := free_plus_held h
  rw [h.free_eq] at h1
  have h2 : 0 < held_count w pool := by
    unfold held_count
    rw [List.countP_pos_iff]
    have hle := (pool_ok_addr h id b hb).2
    exact ⟨id, List.mem_range.mpr (by omega), by simp [is_held_buf, hb, hp, hrc]⟩
  omega

/-- A step aside keeps the population of the pool. -/
theorem pool_buf_count_aside {pool : Nat} {w w' : World} (h : aside pool w w') :
    pool_buf_count w' pool = pool_buf_count w pool := by
  obtain ⟨a1, -, a3, a4, -⟩ := h
  unfold pool_buf_count
  rw [a1]
  congr 1
  funext i
  unfold is_pool_buf
  cases h1 : w'.bufs i with
  | none =>
    cases h2 : w.bufs i with
    | none => rfl
    | some b =>
      by_cases hp : b.pool = pool
      · rw [a3 i b h2 hp] at h1; cases h1
      · simp [hp]
  | some b' =>
    obtain ⟨b, hb, e⟩ := a4 i b' h1
    rw [hb]
    simp [e]

/-! ## The steps that keep `pool_ok` -/

/-- A step aside keeps `pool_ok`. -/
theorem pool_ok_aside {c : vbuf_cbs} {pool : Nat} {w w' : World} {pl : vbuf_pool}
    (h : pool_ok c pool w pl) (ha : aside pool w w') : pool_ok c pool w' pl := by
  obtain ⟨a1, a2, a3, a4, a5⟩ := ha
  have hle : ∀ i b', w'.bufs i = some b' → i ≤ w.next := by
    intro i b' hb'
    obtain ⟨b, hb, -⟩ := a4 i b' hb'
    exact (pool_ok_addr h i b hb).2
  exact {
    pool_ne := h.pool_ne
    pool_live := by rw [a2]; exact h.pool_live
    null_free := by
      cases hx : w'.bufs 0 with
      | none => rfl
      | some b' =>
        obtain ⟨b, hb, -⟩ := a4 0 b' hx
        rw [h.null_free] at hb; cases hb
    fresh := fun i hi => by
      cases hx : w'.bufs i with
      | none => rfl
      | some b' => have := hle i b' hx; omega
    lists_le := fun q ql hq id hid => by
      rw [a1]
      rcases a5 q ql hq id hid with ⟨ql0, hq0, hid0⟩ | ⟨b, hb, -⟩
      · exact h.lists_le q ql0 hq0 id hid0
      · exact (pool_ok_addr h id b hb).2
    others := fun q ql hq hql id hid b' hb' => by
      obtain ⟨b, hb, e⟩ := a4 id b' hb'
      rw [e]
      rcases a5 q ql hql id hid with ⟨ql0, hq0, hid0⟩ | ⟨b0, hb0, e0⟩
      · exact h.others q ql0 hq hq0 id hid0 b hb
      · rw [hb] at hb0; cases hb0
        rw [e0]; exact hq
    nodup := h.nodup
    free_eq := h.free_eq
    free_lt := h.free_lt
    bufs := fun id b' hb' hp => by
      obtain ⟨b, hb, e⟩ := a4 id b' hb'
      have hbp : b.pool = pool := by rw [← e]; exact hp
      have := a3 id b hb hbp
      rw [hb'] at this
      cases this
      exact h.bufs id b' hb hbp
    list_live := fun id hid => by
      obtain ⟨b, hb, hp⟩ := h.list_live id hid
      exact ⟨b, a3 id b hb hp, hp⟩ }

/-- One buffer of the pool is rewritten, keeping its pool and callbacks, and the free
list of the pool is changed at that buffer at most, in step with its reference count. -/
theorem pool_ok_update {c : vbuf_cbs} {pool : Nat} {w w' : World} {pl : vbuf_pool}
    (h : pool_ok c pool w pl) (pl' : vbuf_pool) (id : Nat) (b b' : vbuf_buffer)
    (hb : w.bufs id = some b) (hbp : b.pool = pool) (hb' : w'.bufs id = some b')
    (hpool : b'.pool = b.pool) (hcbs : b'.cbs = b.cbs)
    (hoth : ∀ i, i ≠ id → w'.bufs i = w.bufs i) (hp : w'.pools pool = some pl')
    (hpo : ∀ i, i ≠ pool → w'.pools i = w.pools i) (hn : w'.next = w.next)
    (hnd : pl'.buffers.Nodup) (hfe : pl'.free = pl'.buffers.length)
    (hfl : pl'.free < 4294967296) (hrange : b'.ref_count < 4294967296)
    (hself : id ∈ pl'.buffers ↔ b'.ref_count = 0)
    (hrest : ∀ x, x ≠ id → (x ∈ pl'.buffers ↔ x ∈ pl.buffers)) : pool_ok c pool w' pl' := by
  obtain ⟨hid0, hidle⟩ := pool_ok_addr h id b hb
  exact {
    pool_ne := h.pool_ne
    pool_live := hp
    null_free := by rw [hoth 0 (Ne.symm hid0)]; exact h.null_free
    fresh := fun i hi => by
      rw [hn] at hi
      rw [hoth i (by omega)]; exact h.fresh i hi
    lists_le := fun q ql hq x hx => by
      rw [hn]
      by_cases hqp : q = pool
      · rw [hqp, hp] at hq
        cases hq
        by_cases hxi : x = id
        · rw [hxi]; exact hidle
        · exact h.lists_le pool pl h.pool_live x ((hrest x hxi).mp hx)
      · rw [hpo q hqp] at hq
        exact h.lists_le q ql hq x hx
    others := fun q ql hq hql x hx bx hbx => by
      rw [hpo q hq] at hql
      by_cases hxi : x = id
      · exact absurd hbp (h.others q ql hq hql id (hxi ▸ hx) b hb)
      · rw [hoth x hxi] at hbx
        exact h.others q ql hq hql x hx bx hbx
    nodup := hnd
    free_eq := hfe
    free_lt := hfl
    bufs := fun i bi hi hip => by
      by_cases hid : i = id
      · rw [hid] at hi ⊢
        rw [hb'] at hi
        cases hi
        exact ⟨by rw [hcbs]; exact (h.bufs id b hb hbp).1, hrange, hself⟩
      · rw [hoth i hid] at hi
        obtain ⟨h1, h2, h3⟩ := h.bufs i bi hi hip
        exact ⟨h1, h2, (hrest i hid).trans h3⟩
    list_live := fun i hi => by
      by_cases hid : i = id
      · rw [hid]; exact ⟨b', hb', by rw [hpool]; exact hbp⟩
      · rw [hoth i hid]
        exact h.list_live i ((hrest i hid).mp hi) }

/-- The head of the free list is taken: it gets its first reference. -/
theorem pool_ok_take {c : vbuf_cbs} {pool : Nat} {w w' : World} {pl : vbuf_pool}
    (h : pool_ok c pool w pl) (id : Nat) (rest : List Nat) (b b' : vbuf_buffer)
    (hl : pl.buffers = id :: rest) (hb : w.bufs id = some b) (hbp : b.pool = pool)
    (hb' : w'.bufs id = some b')
    (hrc : b'.ref_count = 1) (hpool : b'.pool = b.pool) (hcbs : b'.cbs = b.cbs)
    (hoth : ∀ i, i ≠ id → w'.bufs i = w.bufs i)
    (hp : w'.pools pool = some { pl with buffers := rest, free := uint_dec pl.free })
    (hpo : ∀ i, i ≠ pool → w'.pools i = w.pools i) (hn : w'.next = w.next) :
    pool_ok c pool w' { pl with buffers := rest, free := uint_dec pl.free } := by
  have hnd := h.nodup
  rw [hl] at hnd
  have hnotin := (List.nodup_cons.mp hnd).1
  have h1 := h.free_eq
  have h2 := h.free_lt
  rw [hl] at h1
  simp only [List.length_cons] at h1
  apply pool_ok_update h _ id b b' hb hbp hb' hpool hcbs hoth hp hpo hn
  · exact (List.nodup_cons.mp hnd).2
  · simp only
    rw [uint_dec_eq _ (by omega) h2]
    omega
  · simp only
    unfold uint_dec
    omega
  · omega
  · simp only
    constructor
    · intro hm; exact absurd hm hnotin
    · intro h0; omega
  · intro x hx
    simp only
    rw [hl, List.mem_cons]
    constructor
    · intro hm; exact Or.inr hm
    · intro hm
      rcases hm with hm | hm
      · exact absurd hm hx
      · exact hm

/-- A held buffer loses its last reference and is appended to the free list. -/
theorem pool_ok_give {c : vbuf_cbs} {pool : Nat} {w w' : World} {pl : vbuf_pool}
    (h : pool_ok c pool w pl) (id : Nat) (b b' : vbuf_buffer)
    (hb : w.bufs id = some b) (hbp : b.pool = pool) (hrc : b.ref_count ≠ 0)
    (hlen : pl.buffers.length < 4294967295)
    (hb' : w'.bufs id = some b') (hrc' : b'.ref_count = 0) (hpool : b'.pool = b.pool)
    (hcbs : b'.cbs = b.cbs) (hoth : ∀ i, i ≠ id → w'.bufs i = w.bufs i)
    (hp : w'.pools pool =
      some { pl with buffers := pl.buffers ++ [id], free := uint_inc pl.free })
    (hpo : ∀ i, i ≠ pool → w'.pools i = w.pools i) (hn : w'.next = w.next) :
    pool_ok c pool w' { pl with buffers := pl.buffers ++ [id], free := uint_inc pl.free } := by
  have hnotin : id ∉ pl.buffers := fun hm => hrc ((h.bufs id b hb hbp).2.2.mp hm)
  have h1 := h.free_eq
  apply pool_ok_update h _ id b b' hb hbp hb' hpool hcbs hoth hp hpo hn
  · simp only
    rw [List.nodup_append]
    refine ⟨h.nodup, List.nodup_singleton _, ?_⟩
    intro a ha hb2
    rw [List.mem_singleton] at hb2
    exact hnotin (hb2 ▸ ha)
  · simp only [List.length_append, List.length_singleton]
    rw [uint_inc_eq _ (by omega)]
    omega
  · simp only
    unfold uint_inc
    omega
  · omega
  · simp [hrc']
  · intro x hx
    simp only [List.mem_append, List.mem_singleton]
    constructor
    · intro hm
      rcases hm with hm | hm
      · exact hm
      · exact absurd hm hx
    · intro hm; exact Or.inl hm

/-- A held buffer stays held: its reference count changes but not to 0. -/
theorem pool_ok_rc {c : vbuf_cbs} {pool : Nat} {w w' : World} {pl : vbuf_pool}
    (h : pool_ok c pool w pl) (id : Nat) (b b' : vbuf_buffer)
    (hb : w.bufs id = some b) (hbp : b.pool = pool) (hrc : b.ref_count ≠ 0)
    (hb' : w'.bufs id = some b') (hrc' : b'.ref_count ≠ 0) (hlt : b'.ref_count < 4294967296)
    (hpool : b'.pool = b.pool) (hcbs : b'.cbs = b.cbs)
    (hoth : ∀ i, i ≠ id → w'.bufs i = w.bufs i)
    (hp : ∀ i, w'.pools i = w.pools i) (hn : w'.next = w.next) : pool_ok c pool w' pl := by
  apply pool_ok_update h pl id b b' hb hbp hb' hpool hcbs hoth
    (by rw [hp]; exact h.pool_live) (fun i _ => hp i) hn h.nodup h.free_eq h.free_lt hlt
  · constructor
    · intro hm; exact absurd ((h.bufs id b hb hbp).2.2.mp hm) hrc
    · intro h0; exact absurd h0 hrc'
  · intro x _; exact Iff.rfl

/-- A new held buffer of the pool at the next address keeps `pool_ok`. -/
theorem pool_ok_add {c : vbuf_cbs} {pool : Nat} {w w' : World} {pl : vbuf_pool}
    (h : pool_ok c pool w pl) (b' : vbuf_buffer) (hb' : w'.bufs (w.next + 1) = some b')
    (hrc : b'.ref_count = 1) (hcbs : b'.cbs = c)
    (hoth : ∀ i, i ≠ w.next + 1 → w'.bufs i = w.bufs i) (hp : w'.pools = w.pools)
    (hn : w'.next = w.next + 1) : pool_ok c pool w' pl where
  pool_ne := h.pool_ne
  pool_live := by rw [hp]; exact h.pool_live
  null_free := by rw [hoth 0 (by omega)]; exact h.null_free
  fresh := fun i hi => by
    rw [hn] at hi
    rw [hoth i (by omega)]; exact h.fresh i (by omega)
  lists_le := fun q ql hq x hx => by
    rw [hp] at hq
    have := h.lists_le q ql hq x hx
    omega
  others := fun q ql hq hql x hx bx hbx => by
    rw [hp] at hql
    have hle := h.lists_le q ql hql x hx
    rw [hoth x (by omega)] at hbx
    exact h.others q ql hq hql x hx bx hbx
  nodup := h.nodup
  free_eq := h.free_eq
  free_lt := h.free_lt
  bufs := fun i bi hi hip => by
    by_cases hid : i = w.next + 1
    · rw [hid] at hi ⊢
      rw [hb'] at hi
      cases hi
      refine ⟨hcbs, by omega, ?_⟩
      constructor
      · intro hm
        have := h.lists_le pool pl h.pool_live _ hm
        omega
      · intro h0; omega
    · rw [hoth i hid] at hi
      exact h.bufs i bi hi hip
  list_live := fun i hi => by
    have := h.lists_le pool pl h.pool_live i hi
    rw [hoth i (by omega)]
    exact h.list_live i hi

/-! ## The calls of a client keep `pool_full` -/

/-- A step aside keeps `pool_full`. -/
theorem pool_full_aside {c : vbuf_cbs} {pool : Nat} {w w' : World} (h : pool_full c pool w)
    (ha : aside pool w w') : pool_full c pool w' := by
  obtain ⟨pl, hok, hcount, hlt⟩ := h
  exact ⟨pl, pool_ok_aside hok ha, by rw [pool_buf_count_aside ha]; exact hcount, hlt⟩

/-- Returning a held buffer of a full pool with `vbuf_unref` (last reference, callbacks
absent or succeeding) keeps `pool_full`. -/
theorem pool_full_unref_last {c : vbuf_cbs} {pool : Nat} {w : World}
    (h : pool_full c pool w) (hu : cb_ok c.unref) (hpp : cb_ok c.pool_put) (buf : Nat)
    (b : vbuf_buffer) (hb : w.bufs buf = some b) (hpool : b.pool = pool)
    (hrc : b.ref_count = 1) : pool_full c pool (vbuf_unref w buf).1 := by
  obtain ⟨pl, hok, hcount, hlt⟩ := h
  obtain ⟨hcbs, -, -⟩ := hok.bufs buf b hb hpool
  obtain ⟨hbuf, -⟩ := pool_ok_addr hok buf b hb
  have hp0 : b.pool ≠ 0 := by rw [hpool]; exact hok.pool_ne
  have hlen := free_lt_of_held hok buf b hb hpool (by omega)
  obtain ⟨-, ⟨b', hb', hbo⟩, hoth, hpl', hpo, -, hn, -⟩ :=
    unref_last_pool w buf b pl hbuf hb hrc hp0 (by rw [hpool]; exact hok.pool_live)
      (by rw [hcbs]; exact hu) (by rw [hcbs]; exact hpp)
  obtain ⟨f1, -, f3, f4, -⟩ := backend_only_fields hbo
  rw [hpool] at hpl' hpo
  refine ⟨_, pool_ok_give hok buf b b' hb hpool (by omega) (by omega) hb' f1 f3 f4 hoth hpl'
    hpo hn, ?_, hlt⟩
  rw [pool_buf_count_keep pool buf b b' hb hb' f3 hoth hn]
  exact hcount

/-- `vbuf_pool_get`, on any pool and whatever its `pool_get` callback answers, keeps
`pool_full`. -/
theorem pool_full_get {c : vbuf_cbs} {pool : Nat} {w : World} (h : pool_full c pool w)
    (hu : cb_ok c.unref) (hpp : cb_ok c.pool_put) (q : Nat) (t : Int) :
    pool_full c pool (vbuf_pool_get w q t).1 := by
  by_cases hq : q = pool
  · obtain ⟨pl, hok, hcount, hlt⟩ := h
    rw [hq]
    by_cases hfree : pl.free = 0
    · obtain ⟨h1, h2, -, h4⟩ :=
        pool_get_none w pool t (Or.inr (Or.inr ⟨pl, hok.pool_live, hfree⟩))
      exact pool_full_aside ⟨pl, hok, hcount, hlt⟩ (aside_of_eq pool (funext h1) (funext h2) h4)
    · cases hl : pl.buffers with
      | nil =>
        have := hok.free_eq
        rw [hl] at this
        exact absurd this hfree
      | cons id rest =>
        obtain ⟨b, hb, hpool⟩ := hok.list_live id (by rw [hl]; exact List.mem_cons_self _ _)
        obtain ⟨hcbs, -, hiff⟩ := hok.bufs id b hb hpool
        obtain ⟨hid, -⟩ := pool_ok_addr hok id b hb
        have hrc : b.ref_count = 0 := hiff.mp (by rw [hl]; exact List.mem_cons_self _ _)
        obtain ⟨W, b', res, hb', hbo, hoth, hpl', hpo, hn, hcase⟩ :=
          pool_get_cases w pool t pl id rest b hok.pool_ne hok.pool_live hfree hl hid hb
        obtain ⟨f1, -, f3, f4, -⟩ := backend_only_fields hbo
        have hrc' : b'.ref_count = 1 := by rw [f1]; simp only [hrc]; decide
        have hfullW : pool_full c pool W :=
          ⟨_, pool_ok_take hok id rest b b' hl hb hpool hb' hrc' f3 f4 hoth hpl' hpo hn,
            by rw [pool_buf_count_keep pool id b b' hb hb' f3 hoth hn]; exact hcount, hlt⟩
        rcases hcase with ⟨-, heq⟩ | ⟨-, heq⟩
        · rw [heq]; exact hfullW
        · rw [heq]
          exact pool_full_unref_last hfullW hu hpp id b' hb' (f3.trans hpool) hrc'
  · apply pool_full_aside h
    obtain ⟨pl, hok, -, -⟩ := h
    apply aside_pool_get pool w q t hq
    intro ql id rest b hql hl hb
    exact hok.others q ql hq hql id (by rw [hl]; exact List.mem_cons_self _ _) b hb

/-- `vbuf_ref` on a held buffer whose count is below `UINT_MAX` keeps `pool_full`. -/
theorem pool_full_ref {c : vbuf_cbs} {pool : Nat} {w : World} (h : pool_full c pool w)
    (buf : Nat) (b : vbuf_buffer) (hb : w.bufs buf = some b) (h1 : 1 ≤ b.ref_count)
    (h2 : b.ref_count < 4294967295) : pool_full c pool (vbuf_ref w buf).1 := by
  by_cases hpool : b.pool = pool
  · obtain ⟨pl, hok, hcount, hlt⟩ := h
    obtain ⟨hbuf, -⟩ := pool_ok_addr hok buf b hb
    have heq : vbuf_ref w buf =
        (w.set_buf buf { b with ref_count := uint_inc b.ref_count }, 0) := by
      simp only [vbuf_ref, hbuf, hb, if_false]
    have hinc := uint_inc_eq _ h2
    rw [heq]
    refine ⟨pl, pool_ok_rc hok buf b { b with ref_count := uint_inc b.ref_count } hb hpool
      (by omega) (by simp) (by simp only [hinc]; omega) (by simp only [hinc]; omega) rfl rfl
      (fun i hi => by simp [hi]) (fun _ => rfl) rfl, ?_, hlt⟩
    have hk := @pool_buf_count_keep w
      (w.set_buf buf { b with ref_count := uint_inc b.ref_count }) pool buf b
      { b with ref_count := uint_inc b.ref_count } hb (by simp) rfl
      (fun i hi => by simp [hi]) rfl
    exact hk.trans hcount
  · apply pool_full_aside h
    apply aside_ref
    intro c0 hc0
    rw [hb] at hc0; cases hc0
    exact hpool

/-- `vbuf_unref` on a held buffer (callbacks of the pool absent or succeeding) keeps
`pool_full`. -/
theorem pool_full_unref {c : vbuf_cbs} {pool : Nat} {w : World} (h : pool_full c pool w)
    (hu : cb_ok c.unref) (hpp : cb_ok c.pool_put) (buf : Nat) (b : vbuf_buffer)
    (hb : w.bufs buf = some b) (h1 : 1 ≤ b.ref_count) :
    pool_full c pool (vbuf_unref w buf).1 := by
  by_cases hpool : b.pool = pool
  · by_cases hrc : b.ref_count = 1
    · exact pool_full_unref_last h hu hpp buf b hb hpool hrc
    · obtain ⟨pl, hok, hcount, hlt⟩ := h
      obtain ⟨-, hrange, -⟩ := hok.bufs buf b hb hpool
      obtain ⟨hbuf, -⟩ := pool_ok_addr hok buf b hb
      rw [unref_nonlast w buf b hbuf hb (by omega) hrange]
      refine ⟨pl, pool_ok_rc hok buf b { b with ref_count := b.ref_count - 1 } hb hpool
        (by omega) (by simp) (by simp only; omega) (by simp only; omega) rfl rfl
        (fun i hi => by simp [hi]) (fun _ => rfl) rfl, ?_, hlt⟩
      have hk := @pool_buf_count_keep w
        (w.set_buf buf { b with ref_count := b.ref_count - 1 }) pool buf b
        { b with ref_count := b.ref_count - 1 } hb (by simp) rfl (fun i hi => by simp [hi]) rfl
      exact hk.trans hcount
  · apply pool_full_aside h
    apply aside_unref
    intro c0 hc0
    rw [hb] at hc0; cases hc0
    exact hpool

/-- Every state reached by gets, refs and unrefs from a full pool is a full pool. -/
theorem pool_full_of_reach {c : vbuf_cbs} {pool : Nat} {w0 w : World}
    (h0 : pool_full c pool w0) (hu : cb_ok c.unref) (hpp : cb_ok c.pool_put)
    (hr : pool_reach w0 w) : pool_full c pool w := by
  induction hr with
  | init => exact h0
  | get q t _ ih => exact pool_full_get ih hu hpp q t
  | ref buf b _ hb h1 h2 ih => exact pool_full_ref ih buf b hb h1 h2
  | unref buf b _ hb h1 ih => exact pool_full_unref ih hu hpp buf b hb h1

/-- The property of C2 follows from `pool_full`. -/
theorem pool_inv_of_full {c : vbuf_cbs} {pool : Nat} {w : World} (h : pool_full c pool w) :
    pool_inv w pool := by
  obtain ⟨pl, hok, hcount, -⟩ := h
  refine ⟨pl, hok.pool_live, fun id b hb hp => (hok.bufs id b hb hp).2.2, ?_, hok.nodup, ?_⟩
  · intro id hid
    exact hok.list_live id hid
  · rw [free_plus_held hok, hcount]

/-! ## `vbuf_pool_new` -/

/-- Same buffers, same pools, allocation mark not lower. -/
theorem pool_ok_same {c : vbuf_cbs} {pool : Nat} {w w' : World} {pl : vbuf_pool}
    (h : pool_ok c pool w pl) (hb : ∀ i, w'.bufs i = w.bufs i)
    (hp : ∀ i, w'.pools i = w.pools i) (hn : w.next ≤ w'.next) : pool_ok c pool w' pl where
  pool_ne := h.pool_ne
  pool_live := by rw [hp]; exact h.pool_live
  null_free := by rw [hb]; exact h.null_free
  fresh := fun i hi => by rw [hb]; exact h.fresh i (by omega)
  lists_le := fun q ql hq x hx => by
    rw [hp] at hq
    have := h.lists_le q ql hq x hx
    omega
  others := fun q ql hq hql x hx bx hbx => by
    rw [hp] at hql
    rw [hb] at hbx
    exact h.others q ql hq hql x hx bx hbx
  nodup := h.nodup
  free_eq := h.free_eq
  free_lt := h.free_lt
  bufs := fun id b hid hip => by
    rw [hb] at hid
    exact h.bufs id b hid hip
  list_live := fun id hid => by rw [hb]; exact h.list_live id hid

/-- The loop of `vbuf_pool_new`, when it runs to its end with `unref` and `pool_put`
callbacks that are absent or succeed: the pool stays well-formed, every buffer of the
pool is pristine and in the free list, at most one per iteration was added, and exactly
one per iteration when no system call fails. -/
theorem pool_new_loop_spec (c : vbuf_cbs) (pool capacity userdata_capacity : Nat)
    (hu : cb_ok c.unref) (hpp : cb_ok c.pool_put) (n : Nat) :
    ∀ (w : World) (pl : vbuf_pool), pool_ok c pool w pl →
    (∀ id b, w.bufs id = some b → b.pool = pool → pristine capacity userdata_capacity b) →
    pool ≤ w.next → (∀ id b, w.bufs id = some b → b.pool ≤ w.next) →
    pl.buffers.length + n < 4294967296 →
    ¬ (vbuf_pool_new_loop w pool capacity userdata_capacity c n).2 < 0 →
    ∃ pl', pool_ok c pool (vbuf_pool_new_loop w pool capacity userdata_capacity c n).1 pl' ∧
      pl'.count = pl.count ∧
      (∀ id b, (vbuf_pool_new_loop w pool capacity userdata_capacity c n).1.bufs id = some b →
        b.pool = pool → pristine capacity userdata_capacity b) ∧
      pl'.buffers.length ≤ pl.buffers.length + n ∧
      ((∀ t, w.env t = 0) → pl'.buffers.length = pl.buffers.length + n) ∧
      (∀ id b, (vbuf_pool_new_loop w pool capacity userdata_capacity c n).1.bufs id = some b →
        b.pool ≤ (vbuf_pool_new_loop w pool capacity userdata_capacity c n).1.next) := by
  induction n with
  | zero =>
    intro w pl hok hpr _ hple _ _
    exact ⟨pl, hok, rfl, hpr, le_refl _, fun _ => rfl, hple⟩
  | succ n ih =>
    intro w pl hok hpr hpn hple hlen hres
    have hfresh : w.bufs (w.next + 1) = none := hok.fresh _ (by omega)
    simp only [vbuf_pool_new_loop] at hres ⊢
    rcases vbuf_new_spec w capacity userdata_capacity c pool hfresh with hA | hB | hC
    · rw [if_pos hA] at hres
      exact absurd hA hres
    · obtain ⟨h1, h2, hex, h4, h5, -, h7, h8⟩ := hB
      have hnn : ¬ (vbuf_new w capacity userdata_capacity (some c) pool).2.1 < 0 := by omega
      rw [if_neg hnn] at hres ⊢
      have hun : ∀ v : World, vbuf_unref v 0 = (v, -EINVAL) := fun v => by
        simp only [vbuf_unref, if_true]
      simp only [h2, Option.getD_some, hun] at hres ⊢
      obtain ⟨pl', g1, g2, g3, g4, -, g6⟩ :=
        ih (vbuf_new w capacity userdata_capacity (some c) pool).1 pl
          (pool_ok_same hok h4 (fun i => by rw [h5]) h7)
          (fun id b hb => hpr id b (by rw [← h4]; exact hb)) (by omega)
          (fun id b hb => by
            have := hple id b (by rw [← h4]; exact hb)
            omega) (by omega) hres
      refine ⟨pl', g1, g2, g3, by omega, ?_, g6⟩
      intro hz
      obtain ⟨t, ht⟩ := hex
      exact absurd (hz t) ht
    · obtain ⟨h1, h2, ⟨b', hb', hbo⟩, h4, h5, -, h7, h8⟩ := hC
      have hnn : ¬ (vbuf_new w capacity userdata_capacity (some c) pool).2.1 < 0 := by omega
      rw [if_neg hnn] at hres ⊢
      simp only [h2, Option.getD_some] at hres ⊢
      obtain ⟨f1, f2, f3, f4, f5, f6, f7, f8, f9, -⟩ := backend_only_fields hbo
      have hrc : b'.ref_count = 1 := f1
      have hpool : b'.pool = pool := f3
      have hcbs : b'.cbs = c := f4
      have hok1 := pool_ok_add hok b' hb' hrc hcbs h4 h5 h7
      have hp0 : b'.pool ≠ 0 := by rw [hpool]; exact hok.pool_ne
      have hfe := hok.free_eq
      obtain ⟨-, ⟨b'', hb'', hbo2⟩, hoth, hpl', hpo, -, hn, henv⟩ :=
        unref_last_pool (vbuf_new w capacity userdata_capacity (some c) pool).1 (w.next + 1) b'
          pl (by omega) hb' hrc hp0 (by rw [hpool]; exact hok1.pool_live)
          (by rw [hcbs]; exact hu) (by rw [hcbs]; exact hpp)
      obtain ⟨e1, e2, e3, e4, e5, e6, e7, e8, e9, -⟩ := backend_only_fields hbo2
      rw [hpool] at hpl' hpo
      have hok2 := pool_ok_give hok1 (w.next + 1) b' b'' hb' hpool (by omega) (by omega) hb''
        e1 e3 e4 hoth hpl' hpo hn
      have hpr2 : ∀ id b, (vbuf_unref (vbuf_new w capacity userdata_capacity (some c) pool).1
          (w.next + 1)).1.bufs id = some b → b.pool = pool →
          pristine capacity userdata_capacity b := by
        intro id b hb hbp
        by_cases hid : id = w.next + 1
        · subst hid
          rw [hb''] at hb
          cases hb
          exact ⟨e1, e2, e6, by rw [e5]; exact f5, e7, by rw [e8]; exact f8,
            by rw [e9]; exact f9⟩
        · rw [hoth id hid, h4 id hid] at hb
          exact hpr id b hb hbp
      have hple2 : ∀ id b, (vbuf_unref (vbuf_new w capacity userdata_capacity (some c) pool).1
          (w.next + 1)).1.bufs id = some b →
          b.pool ≤ (vbuf_unref (vbuf_new w capacity userdata_capacity (some c) pool).1
            (w.next + 1)).1.next := by
        intro id b hb
        rw [hn, h7]
        by_cases hid : id = w.next + 1
        · subst hid
          rw [hb''] at hb
          cases hb
          rw [e3, hpool]
          omega
        · rw [hoth id hid, h4 id hid] at hb
          have := hple id b hb
          omega
      obtain ⟨pl', g1, g2, g3, g4, g5, g6⟩ :=
        ih _ _ hok2 hpr2 (by rw [hn, h7]; omega) hple2
          (by simp only [List.length_append, List.length_singleton]; omega) hres
      simp only [List.length_append, List.length_singleton] at g4 g5
      refine ⟨pl', g1, g2, g3, by omega, ?_, g6⟩
      intro hz
      have := g5 (fun t => by rw [henv, h8]; exact hz t)
      omega

/-- A successful `vbuf_pool_new` in a world with well-formed addresses, whatever buffers
and pools it already holds (callbacks `unref` and `pool_put` absent or succeeding,
`count` an `unsigned int`): the new pool is well-formed, all its buffers are pristine and
in the free list, there are at most `count` of them, and exactly `count` when no system
call fails. -/
theorem pool_new_spec (w : World) (count capacity userdata_capacity : Nat) (c : vbuf_cbs)
    (w0 : World) (pool : Nat) (hwf : alloc_ok w)
    (hcount : count < 4294967296) (hu : cb_ok c.unref) (hpp : cb_ok c.pool_put)
    (hnew : vbuf_pool_new w count capacity userdata_capacity (some c) = (w0, 0, some pool)) :
    pool = w.next + 1 ∧
    ∃ pl, pool_ok c pool w0 pl ∧ pl.count = count ∧
      (∀ id b, w0.bufs id = some b → b.pool = pool → pristine capacity userdata_capacity b) ∧
      pl.buffers.length ≤ count ∧ ((∀ t, w.env t = 0) → pl.buffers.length = count) ∧
      alloc_ok w0 := by
  have hEI : ¬ (-EINVAL : Int) = 0 := by decide
  have hEM : ¬ (-ENOMEM : Int) = 0 := by decide
  have hEF : ¬ (-EFAULT : Int) = 0 := by decide
  have herr : ∀ (v : World) (p : Nat) (res : Int), res ≠ 0 →
      vbuf_pool_new_error v p res ≠ (w0, 0, some pool) := by
    intro v p res hres heq
    unfold vbuf_pool_new_error at heq
    split at heq
    · exact hEF (congrArg (fun x => x.2.1) heq)
    · exact hres (congrArg (fun x => x.2.1) heq)
  by_cases hc0 : count = 0
  · simp only [vbuf_pool_new, hc0, if_true] at hnew
    exact absurd (congrArg (fun x => x.2.1) hnew) hEI
  simp only [vbuf_pool_new, hc0, if_false, sys_call_fst, sys_call_snd] at hnew
  split at hnew
  · exact absurd (congrArg (fun x => x.2.1) hnew) hEM
  split at hnew
  · next h1 => exact absurd hnew (herr _ _ _ (by omega))
  split at hnew
  · next h2 => exact absurd hnew (herr _ _ _ (by omega))
  split at hnew
  · exact absurd hnew (herr _ _ _ hEM)
  split at hnew
  · next h4 => exact absurd hnew (herr _ _ _ (by omega))
  next h4 =>
  have hw0 := congrArg (fun x => x.1) hnew
  have hpool := congrArg (fun x => x.2.2) hnew
  simp only [log_next, Option.some.injEq] at hw0 hpool
  have hno : ∀ i b, w.bufs i = some b → b.pool ≠ w.next + 1 := by
    intro i b hb hp
    have := hwf.pools_le i b hb
    omega
  obtain ⟨pl, g1, g2, g3, g4, g5, g6⟩ :=
    pool_new_loop_spec c (w.next + 1) capacity userdata_capacity hu hpp count _
      { count := count, free := 0, buffers := [] }
      { pool_ne := by omega
        pool_live := by simp
        null_free := by simp [hwf.null_free]
        fresh := fun i hi => by
          simp only [log_next] at hi
          simp [hwf.fresh i (by omega)]
        lists_le := fun q ql hq x hx => by
          by_cases hqp : q = w.next + 1
          · simp [hqp] at hq
            rw [← hq] at hx
            cases hx
          · simp [hqp] at hq
            have := hwf.lists_le q ql hq x hx
            simp only [log_next]
            omega
        others := fun q ql hqp hq x hx bx hbx => by
          simp [hqp] at hq
          simp at hbx
          exact hno x bx hbx
        nodup := List.nodup_nil
        free_eq := rfl
        free_lt := by show (0 : Nat) < 4294967296; decide
        bufs := fun id b hb hbp => by
          simp at hb
          exact absurd hbp (hno id b hb)
        list_live := fun id hid => by simp at hid }
      (fun id b hb hbp => by
        simp at hb
        exact absurd hbp (hno id b hb))
      (by simp)
      (fun id b hb => by
        simp at hb
        have := hwf.pools_le id b hb
        simp only [log_next]
        omega)
      (by simp only [List.length_nil]; omega) h4
  simp only [List.length_nil, Nat.zero_add] at g4 g5
  have hok0 : pool_ok c pool w0 pl := by rw [← hpool, ← hw0]; exact g1
  refine ⟨hpool.symm, pl, hok0, g2, ?_, g4, fun hz => g5 hz,
    ⟨hok0.null_free, hok0.fresh, hok0.lists_le, ?_⟩⟩
  · rw [← hpool, ← hw0]; exact g3
  · rw [← hw0]; exact g6

/-! ## `vbuf_pool_new` when nothing fails -/

/-- With `alloc` and `free` callbacks, an `alloc` callback that reports success and no
system call failing, `vbuf_new` returns 0 and outputs the buffer at the next address. -/
theorem vbuf_new_ok (w : World) (capacity userdata_capacity : Nat) (c : vbuf_cbs)
    (pool : Nat) (alloc free : vbuf_cb) (ha : c.alloc = some alloc) (hf : c.free = some free)
    (hok : cb_ok c.alloc) (hsys : ∀ t, w.env t = 0) :
    (vbuf_new w capacity userdata_capacity (some c) pool).2 = (0, some (w.next + 1)) ∧
    (vbuf_new w capacity userdata_capacity (some c) pool).1.env = w.env := by
  have hres : ∀ a, ¬ (alloc a).res < 0 := fun a => not_lt.mpr (hok alloc ha a)
  simp only [vbuf_new, ha, hf, sys_call_fst, sys_call_snd, run_cb, vbuf_ref, log_next,
    log_trace, log_bufs, log_env, set_buf_bufs, set_buf_next, set_buf_env, hsys, hres, ne_eq,
    not_true_eq_false, if_false, if_true, Nat.succ_ne_zero]
  split <;> exact ⟨rfl, rfl⟩

/-- The loop of `vbuf_pool_new` returns 0 when `vbuf_new` cannot fail. -/
theorem pool_new_loop_ok (c : vbuf_cbs) (pool capacity userdata_capacity : Nat)
    (alloc free : vbuf_cb) (ha : c.alloc = some alloc) (hf : c.free = some free)
    (hok : cb_ok c.alloc) (n : Nat) :
    ∀ w : World, (∀ t, w.env t = 0) →
      (vbuf_pool_new_loop w pool capacity userdata_capacity c n).2 = 0 := by
  induction n with
  | zero => intro w _; rfl
  | succ n ih =>
    intro w hsys
    obtain ⟨h1, h2⟩ := vbuf_new_ok w capacity userdata_capacity c pool alloc free ha hf hok hsys
    have hr : ¬ (vbuf_new w capacity userdata_capacity (some c) pool).2.1 < 0 := by
      rw [congrArg Prod.fst h1]; exact lt_irrefl 0
    simp only [vbuf_pool_new_loop]
    rw [if_neg hr]
    apply ih
    intro t
    rw [(unref_frame _ _).2.1, h2]
    exact hsys t

/-- With `alloc` and `free` callbacks, an `alloc` callback that reports success and no
system call failing, `vbuf_pool_new` with a count that is not 0 returns 0 and outputs the
pool at the next address. -/
theorem pool_new_ok (w : World) (count capacity userdata_capacity : Nat) (c : vbuf_cbs)
    (alloc free : vbuf_cb) (ha : c.alloc = some alloc) (hf : c.free = some free)
    (hok : cb_ok c.alloc) (hc : count ≠ 0) (hsys : ∀ t, w.env t = 0) :
    (vbuf_pool_new w count capacity userdata_capacity (some c)).2 = (0, some (w.next + 1)) := by
  have hloop : ∀ v : World, (∀ t, v.env t = 0) →
      ¬ (vbuf_pool_new_loop v (w.next + 1) capacity userdata_capacity c count).2 < 0 := by
    intro v hv
    rw [pool_new_loop_ok c (w.next + 1) capacity userdata_capacity alloc free ha hf hok count
      v hv]
    exact lt_irrefl 0
  simp only [vbuf_pool_new, hc, if_false, sys_call_fst, sys_call_snd, log_next, log_env,
    log_trace, set_pool_env, hsys, ne_eq, not_true_eq_false]
  rw [if_neg (hloop _ (fun t => by simp [hsys]))]

/-- The addresses of `busy_world` are well-formed. -/
theorem busy_world_ok : alloc_ok busy_world where
  null_free := rfl
  fresh := fun i hi => by
    have h3 : 3 < i := hi
    show (if i = 1 then some (sample_buf 1 false 0)
      else if i = 3 then some { sample_buf 0 false 2 with size := 0, metas := [] }
      else none) = none
    rw [if_neg (by omega), if_neg (by omega)]
  lists_le := fun q ql hq x hx => by
    have hq' : (if q = 2 then some (⟨1, 1, [3]⟩ : vbuf_pool) else none) = some ql := hq
    split at hq'
    · cases hq'
      rw [List.mem_singleton] at hx
      rw [hx]
      exact le_refl 3
    · cases hq'
  pools_le := fun i b hb => by
    have hb' : (if i = 1 then some (sample_buf 1 false 0)
      else if i = 3 then some { sample_buf 0 false 2 with size := 0, metas := [] }
      else none) = some b := hb
    split at hb'
    · cases hb'; exact Nat.zero_le 3
    · split at hb'
      · cases hb'; show 2 ≤ 3; decide
      · cases hb'

/-- A pair is its first component with its second one. -/
theorem prod_eq_of_snd {α β : Type} (r : α × β) (x : β) (h : r.2 = x) : r = (r.1, x) := by
  cases r
  cases h
  rfl

/-! ## Well-formed addresses are kept -/

/-- A world without objects has well-formed addresses. -/
theorem alloc_ok_start (env : Nat → Int) (junk : Nat → Nat → Nat) :
    alloc_ok (start_world env junk) :=
  ⟨rfl, fun _ _ => rfl, fun _ _ hq => Option.noConfusion hq,
    fun _ _ hb => Option.noConfusion hb⟩

/-- A step aside of any address keeps the addresses well-formed. -/
theorem alloc_ok_aside {p : Nat} {w w' : World} (h : alloc_ok w) (ha : aside p w w') :
    alloc_ok w' := by
  obtain ⟨a1, -, -, a4, a5⟩ := ha
  have hle : ∀ i b, w.bufs i = some b → i ≤ w.next := by
    intro i b hb
    by_contra hlt
    rw [h.fresh i (by omega)] at hb; cases hb
  exact {
    null_free := by
      cases hx : w'.bufs 0 with
      | none => rfl
      | some b' =>
        obtain ⟨b, hb, -⟩ := a4 0 b' hx
        rw [h.null_free] at hb; cases hb
    fresh := fun i hi => by
      cases hx : w'.bufs i with
      | none => rfl
      | some b' =>
        obtain ⟨b, hb, -⟩ := a4 i b' hx
        have := hle i b hb
        omega
    lists_le := fun q ql hq id hid => by
      rw [a1]
      rcases a5 q ql hq id hid with ⟨ql0, hq0, hid0⟩ | ⟨b, hb, -⟩
      · exact h.lists_le q ql0 hq0 id hid0
      · exact hle id b hb
    pools_le := fun i b' hb' => by
      obtain ⟨b, hb, e⟩ := a4 i b' hb'
      rw [a1, e]
      exact h.pools_le i b hb }

/-- The calls of a client (`vbuf_pool_get`, `vbuf_ref`, `vbuf_unref`) keep the addresses
well-formed. -/
theorem alloc_ok_of_reach {w0 w : World} (h0 : alloc_ok w0) (hr : pool_reach w0 w) :
    alloc_ok w := by
  induction hr with
  | init => exact h0
  | @get v q t _ ih =>
    apply alloc_ok_aside ih (aside_pool_get (v.next + q + 1) v q t (by omega) ?_)
    intro ql id rest b _ _ hb
    have := ih.pools_le id b hb
    omega
  | @ref v buf b _ hb h1 h2 ih =>
    apply alloc_ok_aside ih (aside_ref (v.next + 1) v buf ?_)
    intro c hc
    have := ih.pools_le buf c hc
    omega
  | @unref v buf b _ hb h1 ih =>
    apply alloc_ok_aside ih (aside_unref (v.next + 1) v buf ?_)
    intro c hc
    have := ih.pools_le buf c hc
    omega

/-- A successful `vbuf_pool_new` keeps the addresses well-formed. -/
theorem alloc_ok_pool_new (w : World) (count capacity userdata_capacity : Nat) (c : vbuf_cbs)
    (w0 : World) (pool : Nat) (hwf : alloc_ok w)
    (hcount : count < 4294967296) (hu : cb_ok c.unref) (hpp : cb_ok c.pool_put)
    (hnew : vbuf_pool_new w count capacity userdata_capacity (some c) = (w0, 0, some pool)) :
    alloc_ok w0 := by
  obtain ⟨-, pl, -, -, -, -, -, h⟩ :=
    pool_new_spec w count capacity userdata_capacity c w0 pool hwf hcount hu hpp hnew
  exact h

/-- The addresses are well-formed after `vbuf_pool_new(2, 16, 0, plain_cbs)` in the empty
world and a `vbuf_pool_get` on the new pool. -/
theorem first_pool_ok : alloc_ok (vbuf_pool_get new_pool_world 1 0).1 :=
  alloc_ok_of_reach
    (alloc_ok_pool_new empty_world 2 16 0 plain_cbs new_pool_world 1
      ⟨rfl, fun _ _ => rfl, fun _ _ hq => Option.noConfusion hq,
        fun _ _ hb => Option.noConfusion hb⟩
      (by decide) (fun _ h => Option.noConfusion h) (fun _ h => Option.noConfusion h) rfl)
    (pool_reach.get 1 0 pool_reach.init)

/-- After a client has obtained a buffer with one reference, `k` calls of `vbuf_ref` on it
lead to the same world with `1 + k` references on the buffer, as long as that is at most
`UINT_MAX`. -/
theorem pool_reach_refs (w0 w1 : World) (buf : Nat) (b : vbuf_buffer) (hbuf : buf ≠ 0)
    (h1 : pool_reach w0 w1) (hb : w1.bufs buf = some b) (hrc : b.ref_count = 1) (k : Nat) :
    1 + k ≤ 4294967295 →
      pool_reach w0 (w1.set_buf buf { b with ref_count := 1 + k }) := by
  induction k with
  | zero =>
    intro _
    have hbb : ({ b with ref_count := 1 + 0 } : vbuf_buffer) = b := by
      cases b
      simp only at hrc
      simp [hrc]
    rw [hbb, set_buf_self w1 buf b hb]
    exact h1
  | succ k ih =>
    intro hk
    have hstep := pool_reach.ref buf { b with ref_count := 1 + k } (ih (by omega))
      (by simp) (by simp only; omega) (by simp only; omega)
    have heq : (vbuf_ref (w1.set_buf buf { b with ref_count := 1 + k }) buf).1 =
        w1.set_buf buf { b with ref_count := 1 + (k + 1) } := by
      simp only [vbuf_ref, hbuf, if_false, set_buf_bufs, if_true, set_buf_set_buf]
      rw [uint_inc_eq _ (by omega)]
      rfl
    rw [heq] at hstep
    exact hstep

/-! ## The claims -/

/-- C1: for a pool-owned buffer with reference count 1 whose `unref` (on last unref) and
`pool_put` callbacks are absent or report success, in a pool whose free counter has room
(it is below `UINT_MAX`, as it is whenever a buffer of the pool is out), `vbuf_unref`
returns 0 and afterwards the reference count is 0, the write-lock flag is false, the size
is 0, the metadata list is empty, the buffer is the last element of the free list of its
pool (after the elements that were there), and the free counter has grown by exactly 1;
the capacity of the buffer and the buffer count of the pool are unchanged. -/
theorem C1_last_unref_returns_to_pool (w : World) (buf : Nat) (b : vbuf_buffer)
    (pl : vbuf_pool) (hbuf : buf ≠ 0) (hb : w.bufs buf = some b) (hrc : b.ref_count = 1)
    (hp0 : b.pool ≠ 0) (hpl : w.pools b.pool = some pl) (hfree : pl.free < 4294967295)
    (hu : cb_ok b.cbs.unref) (hpp : cb_ok b.cbs.pool_put) :
    (vbuf_unref w buf).2 = 0 ∧
    ∃ b' pl', (vbuf_unref w buf).1.bufs buf = some b' ∧
      (vbuf_unref w buf).1.pools b.pool = some pl' ∧
      b'.ref_count = 0 ∧ b'.write_locked = false ∧ b'.size = 0 ∧ b'.metas = [] ∧
      pl'.buffers = pl.buffers ++ [buf] ∧ pl'.buffers.getLast? = some buf ∧
      pl'.free = pl.free + 1 ∧
      b'.capacity = b.capacity ∧ b'.pool = b.pool ∧ pl'.count = pl.count := by
  obtain ⟨hres, ⟨b', hb', hbo⟩, -, hpool, -⟩ :=
    unref_last_pool w buf b pl hbuf hb hrc hp0 hpl hu hpp
  obtain ⟨f1, f2, f3, -, f5, f6, f7, -⟩ := backend_only_fields hbo
  refine ⟨hres, b', _, hb', hpool, f1, f2, f6, f7, rfl, ?_, ?_, f5, f3, rfl⟩
  · simp
  · exact uint_inc_eq _ hfree

/-- Witness of C1: the held buffer 2 of `pool_world` goes back behind buffer 3. -/
theorem C1_last_unref_returns_to_pool_witness :
    (vbuf_unref pool_world 2).2 = 0 ∧
    ∃ b' pl', (vbuf_unref pool_world 2).1.bufs 2 = some b' ∧
      (vbuf_unref pool_world 2).1.pools (sample_buf 1 true 1).pool = some pl' ∧
      b'.ref_count = 0 ∧ b'.write_locked = false ∧ b'.size = 0 ∧ b'.metas = [] ∧
      pl'.buffers = (⟨2, 1, [3]⟩ : vbuf_pool).buffers ++ [2] ∧ pl'.buffers.getLast? = some 2 ∧
      pl'.free = (⟨2, 1, [3]⟩ : vbuf_pool).free + 1 ∧
      b'.capacity = (sample_buf 1 true 1).capacity ∧ b'.pool = (sample_buf 1 true 1).pool ∧
      pl'.count = (⟨2, 1, [3]⟩ : vbuf_pool).count :=
  C1_last_unref_returns_to_pool pool_world 2 (sample_buf 1 true 1) ⟨2, 1, [3]⟩ (by decide) rfl
    rfl (by decide) rfl (by decide) (fun _ h => Option.noConfusion h)
    (fun _ h => Option.noConfusion h)



/-- C4: for a live buffer (reference count in the range of `unsigned int`),
`vbuf_write_lock` and `vbuf_write_unlock` return 0 exactly when the reference count is 1,
and then store the flag `true`, respectively `false`, and nothing else; for every other
reference count they return `-EBUSY` and leave the whole world, hence the flag and every
other field of the buffer, as it was. -/
theorem C4_write_lock_unlock (w : World) (buf : Nat) (b : vbuf_buffer) (hbuf : buf ≠ 0)
    (hb : w.bufs buf = some b) (hr : b.ref_count < 4294967296) :
    (((vbuf_write_lock w buf).2 = 0 ↔ b.ref_count = 1) ∧
     ((vbuf_write_unlock w buf).2 = 0 ↔ b.ref_count = 1)) ∧
    (b.ref_count = 1 →
      vbuf_write_lock w buf = (w.set_buf buf { b with write_locked := true }, 0) ∧
      vbuf_write_unlock w buf = (w.set_buf buf { b with write_locked := false }, 0)) ∧
    (b.ref_count ≠ 1 →
      vbuf_write_lock w buf = (w, -EBUSY) ∧ vbuf_write_unlock w buf = (w, -EBUSY)) := by
  have h1 := to_int_eq_one b.ref_count hr
  have hE : (-EBUSY : Int) ≠ 0 := by decide
  by_cases hc : b.ref_count = 1
  · have hi : to_int b.ref_count = 1 := h1.mpr hc
    simp only [vbuf_write_lock, vbuf_write_unlock, hbuf, hb, hi]
    simp [hc]
  · have hi : to_int b.ref_count ≠ 1 := fun h => hc (h1.mp h)
    simp only [vbuf_write_lock, vbuf_write_unlock, hbuf, hb]
    simp [hi, hc, hE]

/-- Witness of C4 on a stand-alone buffer with two references. -/
theorem C4_write_lock_unlock_witness :
    (((vbuf_write_lock (one_buf_world 2 true) 1).2 = 0 ↔ (sample_buf 2 true 0).ref_count = 1) ∧
     ((vbuf_write_unlock (one_buf_world 2 true) 1).2 = 0 ↔
        (sample_buf 2 true 0).ref_count = 1)) ∧
    ((sample_buf 2 true 0).ref_count = 1 →
      vbuf_write_lock (one_buf_world 2 true) 1 =
        ((one_buf_world 2 true).set_buf 1 { sample_buf 2 true 0 with write_locked := true }, 0) ∧
      vbuf_write_unlock (one_buf_world 2 true) 1 =
        ((one_buf_world 2 true).set_buf 1 { sample_buf 2 true 0 with write_locked := false }, 0)) ∧
    ((sample_buf 2 true 0).ref_count ≠ 1 →
      vbuf_write_lock (one_buf_world 2 true) 1 = (one_buf_world 2 true, -EBUSY) ∧
      vbuf_write_unlock (one_buf_world 2 true) 1 = (one_buf_world 2 true, -EBUSY)) :=
  C4_write_lock_unlock (one_buf_world 2 true) 1 (sample_buf 2 true 0) (by decide) rfl
    (by decide)

/-- C5: on a live buffer `vbuf_get_data` returns the payload pointer when the buffer is
not write-locked and refuses (`NULL`, reporting `EPERM`) when it is; `vbuf_get_cdata`
returns the payload pointer in both cases; neither call changes the world. -/
theorem C5_get_data_cdata (w : World) (buf : Nat) (b : vbuf_buffer) (hbuf : buf ≠ 0)
    (hb : w.bufs buf = some b) :
    (b.write_locked = false → vbuf_get_data w buf = (w, ⟨b.ptr, 0⟩)) ∧
    (b.write_locked = true → vbuf_get_data w buf = (w, ⟨none, EPERM⟩)) ∧
    vbuf_get_cdata w buf = (w, ⟨b.ptr, 0⟩) := by
  refine ⟨fun h => ?_, fun h => ?_, ?_⟩
  · simp [vbuf_get_data, hbuf, hb, h]
  · simp [vbuf_get_data, hbuf, hb, h]
  · simp [vbuf_get_cdata, hbuf, hb]

/-- Witness of C5 on a write-locked stand-alone buffer. -/
theorem C5_get_data_cdata_witness :
    ((sample_buf 1 true 0).write_locked = false →
      vbuf_get_data (one_buf_world 1 true) 1 =
        (one_buf_world 1 true, ⟨(sample_buf 1 true 0).ptr, 0⟩)) ∧
    ((sample_buf 1 true 0).write_locked = true →
      vbuf_get_data (one_buf_world 1 true) 1 = (one_buf_world 1 true, ⟨none, EPERM⟩)) ∧
    vbuf_get_cdata (one_buf_world 1 true) 1 =
      (one_buf_world 1 true, ⟨(sample_buf 1 true 0).ptr, 0⟩) :=
  C5_get_data_cdata (one_buf_world 1 true) 1 (sample_buf 1 true 0) (by decide) rfl

/-- At the largest reference count `vbuf_ref` wraps the counter to 0 and the following
`vbuf_unref` is refused with `-ENOENT`, leaving a count of 0 where it was 4294967295. -/
theorem C6_counterexample :
    (one_buf_world 4294967295 false).bufs 1 = some (sample_buf 4294967295 false 0) ∧
    1 ≤ (sample_buf 4294967295 false 0).ref_count ∧
    (vbuf_ref (one_buf_world 4294967295 false) 1).2 = 0 ∧
    (vbuf_unref (vbuf_ref (one_buf_world 4294967295 false) 1).1 1).2 = -ENOENT ∧
    ((vbuf_unref (vbuf_ref (one_buf_world 4294967295 false) 1).1 1).1.bufs 1).map
      (fun b => b.ref_count) = some 0 := by
  refine ⟨rfl, by decide, by decide, by decide, by decide⟩

/-- C6 (amended): for a live buffer whose reference count is at least 1 and below
4294967295, `vbuf_ref` followed by `vbuf_unref` both return 0 and the world after them
is the world before: every buffer, pool and queue, and the trace, so that no callback
has run. -/
theorem C6_ref_unref (w : World) (buf : Nat) (b : vbuf_buffer) (hbuf : buf ≠ 0)
    (hb : w.bufs buf = some b) (h1 : 1 ≤ b.ref_count) (h2 : b.ref_count < 4294967295) :
    (vbuf_ref w buf).2 = 0 ∧ vbuf_unref (vbuf_ref w buf).1 buf = (w, 0) := by
  have hinc : uint_inc b.ref_count = b.ref_count + 1 := uint_inc_eq _ h2
  have hdec : uint_dec (b.ref_count + 1) = b.ref_count := by
    rw [← hinc]; exact uint_dec_inc _ h2
  have hr : vbuf_ref w buf = (w.set_buf buf { b with ref_count := b.ref_count + 1 }, 0) := by
    simp [vbuf_ref, hbuf, hb, hinc]
  have hb1 : (w.set_buf buf { b with ref_count := b.ref_count + 1 }).bufs buf =
      some { b with ref_count := b.ref_count + 1 } := by simp
  have hisref := vbuf_is_ref_eq_zero _ buf _ hbuf hb1 (by simp; omega)
  have hne : ¬ (vbuf_is_ref (w.set_buf buf { b with ref_count := b.ref_count + 1 }) buf).2 = 0 := by
    rw [hisref]; simp
  have hz : ¬ to_int b.ref_count = 0 := by
    rw [to_int_eq_zero _ (by omega)]; omega
  refine ⟨by rw [hr], ?_⟩
  rw [hr]
  simp only [vbuf_unref, hbuf, if_false, hne, hb1, hdec, hz]
  rw [set_buf_set_buf]
  exact congrArg (fun v => (v, (0 : Int))) (set_buf_self w buf b hb)

/-- Witness of C6 (amended) on a stand-alone buffer with one reference. -/
theorem C6_ref_unref_witness :
    (vbuf_ref (one_buf_world 1 false) 1).2 = 0 ∧
    vbuf_unref (vbuf_ref (one_buf_world 1 false) 1).1 1 = (one_buf_world 1 false, 0) :=
  C6_ref_unref (one_buf_world 1 false) 1 (sample_buf 1 false 0) (by decide) rfl
    (by decide) (by decide)

/-- C7: `vbuf_unref` on a live buffer whose reference count is 0 returns `-ENOENT` and
leaves the whole world as it was: the count stays 0, the buffer and every pool (free
list and free count) are unchanged. -/
theorem C7_unref_at_zero (w : World) (buf : Nat) (b : vbuf_buffer) (hbuf : buf ≠ 0)
    (hb : w.bufs buf = some b) (h0 : b.ref_count = 0) :
    vbuf_unref w buf = (w, -ENOENT) := by
  have hz : (vbuf_is_ref w buf).2 = 0 :=
    (vbuf_is_ref_eq_zero w buf b hbuf hb (by omega)).mpr h0
  simp [vbuf_unref, hbuf, hz]

/-- Witness of C7: a stand-alone buffer with reference count 0, and a buffer that sits in
the free list of a new pool. -/
theorem C7_unref_at_zero_witness :
    vbuf_unref (one_buf_world 0 false) 1 = (one_buf_world 0 false, -ENOENT) ∧
    vbuf_unref new_pool_world 2 = (new_pool_world, -ENOENT) :=
  ⟨C7_unref_at_zero (one_buf_world 0 false) 1 (sample_buf 0 false 0) (by decide) rfl rfl,
    C7_unref_at_zero new_pool_world 2 { new_buf 16 0 plain_cbs 1 with ref_count := 0 }
      (by decide) rfl rfl⟩

/-- C8: `vbuf_pool_get` on a pool whose free counter matches its free list, for every
timeout.  When the list is non-empty (head `id`, a live buffer with count 0 whose
`pool_get` callback is absent or reports success) the call succeeds, outputs `id`, the
count of `id` becomes 1, the free counter decreases by exactly 1 and the free list becomes
the former tail, in order.  When the list is empty and the timeout is 0 the call returns
`-EAGAIN`, outputs `NULL` and leaves the world unchanged. -/
theorem C8_pool_get (w : World) (pool : Nat) (pl : vbuf_pool) (hp0 : pool ≠ 0)
    (hpl : w.pools pool = some pl) (hwf : pl.free = pl.buffers.length)
    (hrange : pl.free < 4294967296) :
    (∀ (t : Int) (id : Nat) (rest : List Nat) (b : vbuf_buffer),
      pl.buffers = id :: rest → id ≠ 0 → w.bufs id = some b → b.ref_count = 0 →
      cb_ok b.cbs.pool_get →
      0 ≤ (vbuf_pool_get w pool t).2.1 ∧
      (b.cbs.pool_get = none → (vbuf_pool_get w pool t).2.1 = 0) ∧
      (vbuf_pool_get w pool t).2.2 = some id ∧
      ∃ b' pl', (vbuf_pool_get w pool t).1.bufs id = some b' ∧ b'.ref_count = 1 ∧
        (vbuf_pool_get w pool t).1.pools pool = some pl' ∧
        pl'.free + 1 = pl.free ∧ pl'.buffers = rest ∧ pl'.count = pl.count) ∧
    (pl.buffers = [] → vbuf_pool_get w pool 0 = (w, -EAGAIN, some 0)) := by
  constructor
  · intro t id rest b hl hid hb hrc hg
    have hfree : pl.free ≠ 0 := by rw [hwf, hl]; simp
    obtain ⟨h1, h2, h3, ⟨b', hb', hbo⟩, -, hpool, -⟩ :=
      pool_get_ok w pool t pl id rest b hp0 hpl hfree hl hid hb hg
    obtain ⟨f1, -⟩ := backend_only_fields hbo
    refine ⟨h1, h2, h3, b', _, hb', ?_, hpool, ?_, rfl, rfl⟩
    · rw [f1]; simp only [hrc]; decide
    · simp only
      rw [uint_dec_eq _ (by omega) hrange]; omega
  · intro hl
    have hfree : pl.free = 0 := by rw [hwf, hl]; rfl
    simp [vbuf_pool_get, hp0, hpl, hfree]

/-- Witness of C8 on `pool_world`, whose free list is `[3]`. -/
theorem C8_pool_get_witness :
    (∀ (t : Int) (id : Nat) (rest : List Nat) (b : vbuf_buffer),
      (⟨2, 1, [3]⟩ : vbuf_pool).buffers = id :: rest → id ≠ 0 → pool_world.bufs id = some b →
      b.ref_count = 0 → cb_ok b.cbs.pool_get →
      0 ≤ (vbuf_pool_get pool_world 1 t).2.1 ∧
      (b.cbs.pool_get = none → (vbuf_pool_get pool_world 1 t).2.1 = 0) ∧
      (vbuf_pool_get pool_world 1 t).2.2 = some id ∧
      ∃ b' pl', (vbuf_pool_get pool_world 1 t).1.bufs id = some b' ∧ b'.ref_count = 1 ∧
        (vbuf_pool_get pool_world 1 t).1.pools 1 = some pl' ∧
        pl'.free + 1 = (⟨2, 1, [3]⟩ : vbuf_pool).free ∧ pl'.buffers = rest ∧
        pl'.count = (⟨2, 1, [3]⟩ : vbuf_pool).count) ∧
    ((⟨2, 1, [3]⟩ : vbuf_pool).buffers = [] →
      vbuf_pool_get pool_world 1 0 = (pool_world, -EAGAIN, some 0)) :=
  C8_pool_get pool_world 1 ⟨2, 1, [3]⟩ (by decide) rfl rfl (by decide)

/-- A successful `vbuf_pool_get` followed by `vbuf_unref` of the buffer it returned does
not restore the free count when the `unref` callback of the buffer fails: the count was
1, the get returns buffer 2, the unref returns the callback error `-1` and the count
is 0. -/
theorem C9_counterexample :
    (vbuf_pool_get_count failing_pool_world 1).2 = 1 ∧
    (vbuf_pool_get failing_pool_world 1 0).2 = (0, some 2) ∧
    (vbuf_unref (vbuf_pool_get failing_pool_world 1 0).1 2).2 = -1 ∧
    (vbuf_pool_get_count (vbuf_unref (vbuf_pool_get failing_pool_world 1 0).1 2).1 1).2 = 0 := by
  refine ⟨by decide, by decide, by decide, by decide⟩

/-- C9 (amended): in a pool whose free counter matches its free list, `vbuf_pool_get`
(any timeout, `pool_get` callback absent or succeeding) followed by `vbuf_unref` of the
buffer it returned, whose `unref` and `pool_put` callbacks are absent or succeed, both
succeed and `vbuf_pool_get_count` is then what it was before the get. -/
theorem C9_get_unref_count (w : World) (pool : Nat) (t : Int) (pl : vbuf_pool) (id : Nat)
    (rest : List Nat) (b : vbuf_buffer) (hp0 : pool ≠ 0) (hpl : w.pools pool = some pl)
    (hwf : pl.free = pl.buffers.length) (hrange : pl.free < 4294967296)
    (hl : pl.buffers = id :: rest) (hid : id ≠ 0) (hb : w.bufs id = some b)
    (hrc : b.ref_count = 0) (hpool : b.pool = pool)
    (hg : cb_ok b.cbs.pool_get) (hu : cb_ok b.cbs.unref) (hpp : cb_ok b.cbs.pool_put) :
    0 ≤ (vbuf_pool_get w pool t).2.1 ∧ (vbuf_pool_get w pool t).2.2 = some id ∧
    (vbuf_unref (vbuf_pool_get w pool t).1 id).2 = 0 ∧
    (vbuf_pool_get_count (vbuf_unref (vbuf_pool_get w pool t).1 id).1 pool).2 =
      (vbuf_pool_get_count w pool).2 := by
  have hfree : pl.free ≠ 0 := by rw [hwf, hl]; simp
  obtain ⟨h1, -, h3, ⟨b', hb', hbo⟩, -, hpool', -⟩ :=
    pool_get_ok w pool t pl id rest b hp0 hpl hfree hl hid hb hg
  obtain ⟨f1, -, f3, f4, -⟩ := backend_only_fields hbo
  have hrc' : b'.ref_count = 1 := by rw [f1]; simp only [hrc]; decide
  have hbp : b'.pool = pool := by rw [f3]; exact hpool
  have hbp0 : b'.pool ≠ 0 := by rw [hbp]; exact hp0
  obtain ⟨hres, -, -, hpool'', -⟩ :=
    unref_last_pool (vbuf_pool_get w pool t).1 id b' _ hid hb' hrc' hbp0
      (by rw [hbp]; exact hpool') (by rw [f4]; exact hu) (by rw [f4]; exact hpp)
  refine ⟨h1, h3, hres, ?_⟩
  rw [hbp] at hpool''
  simp only [vbuf_pool_get_count, hp0, if_false, hpool'', hpl]
  have : uint_inc (uint_dec pl.free) = pl.free := by
    unfold uint_inc uint_dec; omega
  rw [this]

/-- Witness of C9 (amended) on `pool_world`: buffer 3 is taken and given back. -/
theorem C9_get_unref_count_witness :
    0 ≤ (vbuf_pool_get pool_world 1 0).2.1 ∧ (vbuf_pool_get pool_world 1 0).2.2 = some 3 ∧
    (vbuf_unref (vbuf_pool_get pool_world 1 0).1 3).2 = 0 ∧
    (vbuf_pool_get_count (vbuf_unref (vbuf_pool_get pool_world 1 0).1 3).1 1).2 =
      (vbuf_pool_get_count pool_world 1).2 :=
  C9_get_unref_count pool_world 1 0 ⟨2, 1, [3]⟩ 3 [] (sample_buf 0 false 1) (by decide) rfl rfl
    (by decide) rfl (by decide) rfl rfl rfl (fun _ h => Option.noConfusion h)
    (fun _ h => Option.noConfusion h) (fun _ h => Option.noConfusion h)

/-- C10: a pool serves buffers first-in first-out.  If the free list of the pool holds
`L` (free buffers, count 0) and the distinct buffers `bs = b1..bk` of the pool, each held
with one reference, are then given back by `vbuf_unref` in that order (callbacks absent or
succeeding), the next `|L| + k` calls of `vbuf_pool_get` (any timeouts) all succeed and
output the elements of `L` in order followed by `b1, ..., bk` in order. -/
theorem C10_pool_fifo (w : World) (pool : Nat) (pl : vbuf_pool) (bs : List Nat)
    (ts : List Int) (hp0 : pool ≠ 0) (hpl : w.pools pool = some pl)
    (hwf : pl.free = pl.buffers.length)
    (hL : ∀ id ∈ pl.buffers, id ≠ 0 ∧
      ∃ b, w.bufs id = some b ∧ b.ref_count = 0 ∧ cb_ok b.cbs.pool_get)
    (hbs : ∀ id ∈ bs, id ≠ 0 ∧ ∃ b, w.bufs id = some b ∧ b.ref_count = 1 ∧ b.pool = pool ∧
      cb_ok b.cbs.unref ∧ cb_ok b.cbs.pool_put ∧ cb_ok b.cbs.pool_get)
    (hnd : bs.Nodup) (hrange : pl.buffers.length + bs.length < 4294967296)
    (hts : ts.length = pl.buffers.length + bs.length) :
    (pool_get_n (unref_all w bs) pool ts).2.map Prod.snd = (pl.buffers ++ bs).map some ∧
    ∀ r ∈ (pool_get_n (unref_all w bs) pool ts).2, 0 ≤ r.1 := by
  obtain ⟨hpool, hlive⟩ := unref_all_spec pool hp0 bs w pl hpl hnd
    (fun id hid => by
      obtain ⟨h0, b, hb, h1, h2, h3, h4, -⟩ := hbs id hid
      exact ⟨h0, b, hb, h1, h2, h3, h4⟩)
    (by rw [hwf]; exact hrange)
  refine pool_get_n_spec pool hp0 (pl.buffers ++ bs) (unref_all w bs) _ ts hpool rfl
    (by simp [hwf]) (by simp only; rw [hwf]; exact hrange) ?_ (by simp [hts])
  intro id hid
  rcases List.mem_append.mp hid with h | h
  · obtain ⟨h0, b, hb, -, hg⟩ := hL id h
    obtain ⟨b', hb', hcbs⟩ := hlive id b hb
    exact ⟨h0, b', hb', by rw [hcbs]; exact hg⟩
  · obtain ⟨h0, b, hb, -, -, -, -, hg⟩ := hbs id h
    obtain ⟨b', hb', hcbs⟩ := hlive id b hb
    exact ⟨h0, b', hb', by rw [hcbs]; exact hg⟩

/-- Witness of C10 on `pool_world`: the free list is `[3]`, buffer 2 is given back, and
two gets output 3 and then 2. -/
theorem C10_pool_fifo_witness :
    (pool_get_n (unref_all pool_world [2]) 1 [0, -1]).2.map Prod.snd =
      ((⟨2, 1, [3]⟩ : vbuf_pool).buffers ++ [2]).map some ∧
    ∀ r ∈ (pool_get_n (unref_all pool_world [2]) 1 [0, -1]).2, 0 ≤ r.1 :=
  C10_pool_fifo pool_world 1 ⟨2, 1, [3]⟩ [2] [0, -1] (by decide) rfl rfl
    (by
      intro id hid
      simp only [List.mem_singleton] at hid
      subst hid
      exact ⟨by decide, sample_buf 0 false 1, rfl, rfl, fun _ h => Option.noConfusion h⟩)
    (by
      intro id hid
      simp only [List.mem_singleton] at hid
      subst hid
      exact ⟨by decide, sample_buf 1 true 1, rfl, rfl, rfl, fun _ h => Option.noConfusion h,
        fun _ h => Option.noConfusion h, fun _ h => Option.noConfusion h⟩)
    (by decide) (by decide) rfl

/-- The invariant of C3 for every state a client can reach. -/
theorem bufs_ok_of_reach {w0 w : World} (h0 : bufs_ok w0) (hr : buf_reach w0 w) : bufs_ok w := by
  induction hr with
  | init => exact h0
  | ref buf b _ hb hlt ih =>
    exact bufs_ok_ref ih buf (fun c hc => by rw [hb] at hc; cases hc; exact hlt)
  | unref buf _ ih => exact bufs_ok_of_le_refs ih (le_refs_unref ih buf)
  | write_lock buf _ ih => exact bufs_ok_write_lock ih buf
  | write_unlock buf _ ih => exact bufs_ok_write_unlock ih buf
  | set_size buf n _ ih => exact bufs_ok_set_size ih buf n
  | set_capacity buf n _ ih => exact bufs_ok_set_capacity ih buf n
  | queue_push queue buf b _ hb hlt ih =>
    exact bufs_ok_queue_push ih queue buf (fun c hc => by rw [hb] at hc; cases hc; exact hlt)
  | queue_pop queue t _ ih => exact bufs_ok_of_le_refs ih (le_refs_queue_pop ih queue t)

/-- A freshly created buffer is write-locked at count 1 and then referenced again: both
calls succeed and the buffer is write-locked with a reference count of 2. -/
theorem C3_counterexample :
    vbuf_new empty_world 16 0 (some plain_cbs) 0 = (fresh_buf_world, 0, some 1) ∧
    (vbuf_write_lock fresh_buf_world 1).2 = 0 ∧
    (vbuf_ref (vbuf_write_lock fresh_buf_world 1).1 1).2 = 0 ∧
    buf_reach fresh_buf_world locked_shared_world ∧
    (locked_shared_world.bufs 1).map (fun b => (b.write_locked, b.ref_count)) =
      some (true, 2) := by
  refine ⟨rfl, by decide, by decide, ?_, by decide⟩
  exact buf_reach.ref 1 { locked_shared_buf with ref_count := 1 }
    (buf_reach.write_lock 1 buf_reach.init) rfl (by decide)

/-- C3 (amended): start from a world whose buffers, if any, satisfy `buf_ok`, create a
buffer with `vbuf_new` (its `unref` callback absent or reporting success), and let the
program make any sequence of `vbuf_ref`, `vbuf_unref`, `vbuf_write_lock`,
`vbuf_write_unlock`, `vbuf_set_size`, `vbuf_set_capacity`, `vbuf_queue_push` and
`vbuf_queue_pop` calls, none adding a reference to a count of `UINT_MAX`.  In every state
reached, a buffer whose write-lock flag is set has a reference count of at least 1. -/
theorem C3_write_locked_has_reference (w_pre : World) (capacity userdata_capacity : Nat)
    (cbs : vbuf_cbs) (pool : Nat) (w0 : World) (id : Nat) (hpre : bufs_ok w_pre)
    (hcb : cb_ok cbs.unref)
    (hnew : vbuf_new w_pre capacity userdata_capacity (some cbs) pool = (w0, 0, some id))
    (w : World) (hreach : buf_reach w0 w) (i : Nat) (b : vbuf_buffer)
    (hb : w.bufs i = some b) (hl : b.write_locked = true) : 1 ≤ b.ref_count := by
  have h0 : bufs_ok w0 := by
    have := bufs_ok_new hpre capacity userdata_capacity (some cbs) pool
      (fun c hc => by cases hc; exact hcb)
    rw [hnew] at this
    exact this
  exact (bufs_ok_of_reach h0 hreach i b hb).2.2 hl

/-- Witness of C3 (amended): the write-locked buffer of `locked_shared_world`, reached
from a fresh buffer by `vbuf_write_lock` and `vbuf_ref`, has 2 references. -/
theorem C3_write_locked_has_reference_witness :
    locked_shared_world.bufs 1 = some locked_shared_buf ∧
    locked_shared_buf.write_locked = true ∧ 1 ≤ locked_shared_buf.ref_count :=
  ⟨rfl, rfl,
    C3_write_locked_has_reference empty_world 16 0 plain_cbs 0 fresh_buf_world 1
      (fun _ _ h => Option.noConfusion h) (fun _ h => Option.noConfusion h) rfl
      locked_shared_world
      (buf_reach.ref 1 { locked_shared_buf with ref_count := 1 }
        (buf_reach.write_lock 1 buf_reach.init) rfl (by decide))
      1 locked_shared_buf rfl rfl⟩

/-- The claim C2 fails in three ways.  A pool of one buffer is created with success; a
client gets the buffer and releases it, and this time the `unref` callback of the buffer
fails: the buffer (address 2) then has reference count 0 and is not in the free list, the
free counter is 0 and no buffer is held, while the buffer count of the pool is 1.  When
the `calloc` of a buffer object fails inside `vbuf_pool_new(2, ..)`, the call still returns
0 and the pool has one buffer, in the free list, for a buffer count of 2.  And after a
pool of one buffer is created, a client gets the buffer and calls `vbuf_ref` on it until
it has `UINT_MAX` references (`maxed_pool_world`, where the property holds): one more
`vbuf_ref` wraps the count to 0 while the buffer is not in the free list. -/
theorem C2_counterexample :
    (vbuf_pool_new empty_world 1 16 0 (some late_failing_cbs) = (late_pool_world, 0, some 1) ∧
      (vbuf_pool_get late_pool_world 1 0).2 = (0, some 2) ∧
      (vbuf_unref (vbuf_pool_get late_pool_world 1 0).1 2).2 = -1 ∧
      pool_reach late_pool_world late_pool_world_after ∧
      (late_pool_world_after.bufs 2).map (fun b => (b.pool, b.ref_count)) = some (1, 0) ∧
      late_pool_world_after.pools 1 = some ⟨1, 0, []⟩ ∧
      held_count late_pool_world_after 1 = 0 ∧
      ¬ pool_inv late_pool_world_after 1) ∧
    ((vbuf_pool_new alloc_fail_world 2 16 0 (some plain_cbs)).2 = (0, some 1) ∧
      (vbuf_pool_new alloc_fail_world 2 16 0 (some plain_cbs)).1.pools 1 = some ⟨2, 1, [2]⟩ ∧
      held_count (vbuf_pool_new alloc_fail_world 2 16 0 (some plain_cbs)).1 1 = 0 ∧
      ¬ pool_inv (vbuf_pool_new alloc_fail_world 2 16 0 (some plain_cbs)).1 1) ∧
    (vbuf_pool_new empty_world 1 16 0 (some plain_cbs) = (one_pool_world, 0, some 1) ∧
      pool_reach one_pool_world maxed_pool_world ∧
      pool_inv maxed_pool_world 1 ∧
      (maxed_pool_world.bufs 2).map (fun b => (b.pool, b.ref_count)) =
        some (1, 4294967295) ∧
      ((vbuf_ref maxed_pool_world 2).1.bufs 2).map (fun b => (b.pool, b.ref_count)) =
        some (1, 0) ∧
      (vbuf_ref maxed_pool_world 2).1.pools 1 = some ⟨1, 0, []⟩ ∧
      ¬ pool_inv (vbuf_ref maxed_pool_world 2).1 1) := by
  have hb : (late_pool_world_after.bufs 2).map (fun b => (b.pool, b.ref_count)) =
      some (1, 0) := by decide
  have hp : late_pool_world_after.pools 1 = some ⟨1, 0, []⟩ := by decide
  have hp2 : (vbuf_pool_new alloc_fail_world 2 16 0 (some plain_cbs)).1.pools 1 =
      some ⟨2, 1, [2]⟩ := by decide
  have hh2 : held_count (vbuf_pool_new alloc_fail_world 2 16 0 (some plain_cbs)).1 1 = 0 := by
    decide
  have hb3 : ((vbuf_ref maxed_pool_world 2).1.bufs 2).map (fun b => (b.pool, b.ref_count)) =
      some (1, 0) := by decide
  have hp3 : (vbuf_ref maxed_pool_world 2).1.pools 1 = some ⟨1, 0, []⟩ := by decide
  have hreach : pool_reach one_pool_world maxed_pool_world :=
    pool_reach_refs one_pool_world (vbuf_pool_get one_pool_world 1 0).1 2
      (new_buf 16 0 plain_cbs 1) (by decide) (pool_reach.get 1 0 pool_reach.init) rfl rfl
      4294967294 (by decide)
  have hfull : pool_full plain_cbs 1 one_pool_world := by
    obtain ⟨-, pl, hok, hc, -⟩ :=
      pool_new_spec empty_world 1 16 0 plain_cbs one_pool_world 1
        ⟨rfl, fun _ _ => rfl, fun _ _ hq => Option.noConfusion hq,
          fun _ _ hb => Option.noConfusion hb⟩
        (by decide) (fun _ h => Option.noConfusion h) (fun _ h => Option.noConfusion h) rfl
    exact ⟨pl, hok, by rw [hc]; decide, by rw [hc]; decide⟩
  refine ⟨⟨rfl, by decide, by decide, ?_, hb, hp, by decide, ?_⟩,
    ⟨by decide, hp2, hh2, ?_⟩, ⟨rfl, hreach, ?_, by decide, hb3, hp3, ?_⟩⟩
  · exact pool_reach.unref 2 held_late_buf (pool_reach.get 1 0 pool_reach.init) rfl
      (by decide)
  · rintro ⟨pl, hpl, hiff, -⟩
    rw [hp] at hpl
    cases hpl
    cases hx : late_pool_world_after.bufs 2 with
    | none => rw [hx] at hb; simp at hb
    | some b =>
      rw [hx] at hb
      simp only [Option.map_some', Option.some.injEq, Prod.mk.injEq] at hb
      have := (hiff 2 b hx hb.1).mpr hb.2
      simp at this
  · rintro ⟨pl, hpl, -, -, -, hsum⟩
    rw [hp2] at hpl
    cases hpl
    rw [hh2] at hsum
    simp at hsum
  · exact pool_inv_of_full (pool_full_of_reach hfull (fun _ h => Option.noConfusion h)
      (fun _ h => Option.noConfusion h) hreach)
  · rintro ⟨pl, hpl, hiff, -⟩
    rw [hp3] at hpl
    cases hpl
    cases hx : (vbuf_ref maxed_pool_world 2).1.bufs 2 with
    | none => rw [hx] at hb3; simp at hb3
    | some b =>
      rw [hx] at hb3
      simp only [Option.map_some', Option.some.injEq, Prod.mk.injEq] at hb3
      have := (hiff 2 b hx hb3.1).mpr hb3.2
      simp at this

/-- C2 (amended): a pool is created by a successful `vbuf_pool_new`, in a world that may
already hold buffers and pools, with `unref` and `pool_put` callbacks that are absent or
report success, and all its `count` buffers were allocated.  In every state reached from
there by calls of `vbuf_pool_get` on any pool (whatever the `pool_get` callback answers),
`vbuf_ref` and `vbuf_unref` on buffers the clients hold, of this pool or not (no
`vbuf_ref` at a count of `UINT_MAX`), every buffer of the pool is in the free list
exactly when its reference count is 0, the free list has no duplicate, and the free
counter plus the number of buffers with a reference equals the buffer count of the pool.
The addresses of the world before are taken to be well-formed (`alloc_ok`), and they
are well-formed in every state reached, so that the same holds of a pool created
there. -/
theorem C2_pool_invariant (w_pre : World) (count capacity userdata_capacity : Nat)
    (c : vbuf_cbs) (w0 : World) (pool : Nat) (hwf : alloc_ok w_pre)
    (hcount : count < 4294967296)
    (hu : cb_ok c.unref) (hpp : cb_ok c.pool_put)
    (hnew : vbuf_pool_new w_pre count capacity userdata_capacity (some c) = (w0, 0, some pool))
    (hall : pool_buf_count w0 pool = count)
    (w : World) (hreach : pool_reach w0 w) : pool_inv w pool ∧ alloc_ok w := by
  obtain ⟨-, pl, hok, hc, -, -, -, hwf0⟩ :=
    pool_new_spec w_pre count capacity userdata_capacity c w0 pool hwf hcount hu hpp hnew
  have h0 : pool_full c pool w0 := ⟨pl, hok, by rw [hall, hc], by rw [hc]; exact hcount⟩
  exact ⟨pool_inv_of_full (pool_full_of_reach h0 hu hpp hreach), alloc_ok_of_reach hwf0 hreach⟩

/-- Witness of C2 (amended).  A pool of two buffers is made in `busy_world`, which holds
a stand-alone buffer and another pool; then a client gets a buffer of the new pool,
releases the stand-alone buffer and gets the buffer of the other pool.  And a second pool
is made after a first pool and a get on it (`two_pools_world`); then a client gets a
buffer of the second pool and releases the buffer of the first. -/
theorem C2_pool_invariant_witness :
    pool_inv
      (vbuf_pool_get (vbuf_unref (vbuf_pool_get second_pool_world 4 0).1 1).1 2 0).1 4 ∧
    pool_inv (vbuf_unref (vbuf_pool_get two_pools_world 4 0).1 2).1 4 :=
  ⟨(C2_pool_invariant busy_world 2 16 0 plain_cbs second_pool_world 4 busy_world_ok
    (by decide) (fun _ h => Option.noConfusion h) (fun _ h => Option.noConfusion h) rfl
    (by decide) _
    (pool_reach.get 2 0 (pool_reach.unref 1 (sample_buf 1 false 0)
      (pool_reach.get 4 0 pool_reach.init) rfl (by decide)))).1,
   (C2_pool_invariant (vbuf_pool_get new_pool_world 1 0).1 2 16 0 plain_cbs two_pools_world 4
    first_pool_ok (by decide) (fun _ h => Option.noConfusion h)
    (fun _ h => Option.noConfusion h) rfl (by decide) _
    (pool_reach.unref 2 (new_buf 16 0 plain_cbs 1)
      (pool_reach.get 4 0 pool_reach.init) rfl (by decide))).1⟩

/-- The claim C11 fails in three ways.  With an `unref` callback that fails,
`vbuf_pool_new(1, ..)` still returns 0, but the buffer it built is not in the free list:
the free list is empty and `vbuf_pool_get_count` is 0, not 1.  When `calloc` of the first
buffer object fails, `vbuf_pool_new(2, ..)` still returns 0, with one buffer in the free
list and `vbuf_pool_get_count` equal to 1.  And `vbuf_pool_new(2147483648, ..)`, with
nothing failing, returns 0, and `vbuf_pool_get_count`, an `int`, is `-2147483648`. -/
theorem C11_counterexample :
    (vbuf_pool_new empty_world 1 16 0 (some failing_unref_cbs) = (unfilled_pool_world, 0, some 1) ∧
      unfilled_pool_world.pools 1 = some ⟨1, 0, []⟩ ∧
      (vbuf_pool_get_count unfilled_pool_world 1).2 = 0 ∧
      (unfilled_pool_world.bufs 2).map (fun b => (b.pool, b.ref_count)) = some (1, 0)) ∧
    ((vbuf_pool_new alloc_fail_world 2 16 0 (some plain_cbs)).2 = (0, some 1) ∧
      (vbuf_pool_new alloc_fail_world 2 16 0 (some plain_cbs)).1.pools 1 = some ⟨2, 1, [2]⟩ ∧
      (vbuf_pool_get_count (vbuf_pool_new alloc_fail_world 2 16 0 (some plain_cbs)).1 1).2 =
        1) ∧
    ((vbuf_pool_new empty_world 2147483648 16 0 (some plain_cbs)).2 = (0, some 1) ∧
      (vbuf_pool_get_count
        (vbuf_pool_new empty_world 2147483648 16 0 (some plain_cbs)).1 1).2 =
        -2147483648) := by
  have hnew : (vbuf_pool_new empty_world 2147483648 16 0 (some plain_cbs)).2 = (0, some 1) :=
    pool_new_ok empty_world 2147483648 16 0 plain_cbs _ _ rfl rfl
      (fun f hf a => by cases hf; exact le_refl 0) (by decide) (fun _ => rfl)
  refine ⟨⟨rfl, by decide, by decide, by decide⟩, ⟨by decide, by decide, by decide⟩,
    ⟨hnew, ?_⟩⟩
  obtain ⟨-, pl, hok, -, -, -, hlen, -⟩ :=
    pool_new_spec empty_world 2147483648 16 0 plain_cbs
      (vbuf_pool_new empty_world 2147483648 16 0 (some plain_cbs)).1 1
      ⟨rfl, fun _ _ => rfl, fun _ _ hq => Option.noConfusion hq,
        fun _ _ hb => Option.noConfusion hb⟩
      (by decide) (fun _ h => Option.noConfusion h) (fun _ h => Option.noConfusion h)
      (prod_eq_of_snd _ _ hnew)
  have hfree : pl.free = 2147483648 := by rw [hok.free_eq, hlen (fun _ => rfl)]
  simp only [vbuf_pool_get_count, hok.pool_ne, if_false, hok.pool_live, hfree]
  decide

/-- C11 (amended): `vbuf_pool_new(count, capacity, userdata_capacity, cbs)` is called, in
a world that may already hold buffers and pools, with `count` below `2^31`, `unref` and
`pool_put` callbacks that are absent or report success, and no system call failing.
Whenever it returns 0, `vbuf_pool_get_count` of the new pool is `count`, and the free
list holds exactly `count` distinct live buffers, each with reference count 0, size 0, no
lock, the requested capacity and the new pool as originating pool.  The addresses of the
world before are taken to be well-formed (`alloc_ok`), and they are well-formed
afterwards, so that the same holds of the next pool. -/
theorem C11_pool_new (w : World) (count capacity userdata_capacity : Nat) (c : vbuf_cbs)
    (w0 : World) (pool : Nat) (hwf : alloc_ok w)
    (hcount : count < 2147483648) (hu : cb_ok c.unref) (hpp : cb_ok c.pool_put)
    (hsys : ∀ t, w.env t = 0)
    (hnew : vbuf_pool_new w count capacity userdata_capacity (some c) = (w0, 0, some pool)) :
    (vbuf_pool_get_count w0 pool).2 = (count : Int) ∧
    (∃ pl, w0.pools pool = some pl ∧ pl.count = count ∧ pl.free = count ∧
      pl.buffers.length = count ∧ pl.buffers.Nodup ∧
      ∀ id ∈ pl.buffers, ∃ b, w0.bufs id = some b ∧ b.ref_count = 0 ∧ b.size = 0 ∧
        b.write_locked = false ∧ b.capacity = capacity ∧ b.pool = pool) ∧
    alloc_ok w0 := by
  obtain ⟨-, pl, hok, hc, hpr, -, hlen, hwf0⟩ :=
    pool_new_spec w count capacity userdata_capacity c w0 pool hwf (by omega) hu hpp hnew
  have hlen := hlen hsys
  have hfree : pl.free = count := by rw [hok.free_eq, hlen]
  refine ⟨?_, ⟨pl, hok.pool_live, hc, hfree, hlen, hok.nodup, ?_⟩, hwf0⟩
  · simp only [vbuf_pool_get_count, hok.pool_ne, if_false, hok.pool_live, hfree]
    unfold to_int
    rw [Nat.mod_eq_of_lt (by omega), if_pos hcount]
  · intro id hid
    obtain ⟨b, hb, hbp⟩ := hok.list_live id hid
    obtain ⟨p1, p2, p3, p4, -⟩ := hpr id b hb hbp
    exact ⟨b, hb, p1, p3, p2, p4, hbp⟩

/-- Witness of C11 (amended): a pool of two buffers made in `busy_world`, which holds a
stand-alone buffer and another pool; and a second pool of two buffers made after a first
pool and a get on it. -/
theorem C11_pool_new_witness :
    ((vbuf_pool_get_count second_pool_world 4).2 = ((2 : Nat) : Int) ∧
      ∃ pl, second_pool_world.pools 4 = some pl ∧ pl.count = 2 ∧ pl.free = 2 ∧
        pl.buffers.length = 2 ∧ pl.buffers.Nodup ∧
        ∀ id ∈ pl.buffers, ∃ b, second_pool_world.bufs id = some b ∧ b.ref_count = 0 ∧
          b.size = 0 ∧ b.write_locked = false ∧ b.capacity = 16 ∧ b.pool = 4) ∧
    (vbuf_pool_get_count two_pools_world 4).2 = ((2 : Nat) : Int) :=
  ⟨⟨(C11_pool_new busy_world 2 16 0 plain_cbs second_pool_world 4 busy_world_ok
      (by decide) (fun _ h => Option.noConfusion h) (fun _ h => Option.noConfusion h)
      (fun _ => rfl) rfl).1,
    (C11_pool_new busy_world 2 16 0 plain_cbs second_pool_world 4 busy_world_ok
      (by decide) (fun _ h => Option.noConfusion h) (fun _ h => Option.noConfusion h)
      (fun _ => rfl) rfl).2.1⟩,
   (C11_pool_new (vbuf_pool_get new_pool_world 1 0).1 2 16 0 plain_cbs two_pools_world 4
      first_pool_ok (by decide) (fun _ h => Option.noConfusion h)
      (fun _ h => Option.noConfusion h) (fun _ => rfl) rfl).1⟩

/-- C13: on a bounded queue (`max_count > 0`) with `drop_when_full = 0` whose count is
`max_count`, `vbuf_queue_push` returns `-EAGAIN` and the world is the one before the call
(entries, count and every reference count included); a following `vbuf_queue_pop` does
what it would have done before the push, and when the buffer of the oldest entry is live
with a `queue_pop` callback that is `NULL` or returns 0, it returns that buffer. -/
theorem C13_push_full_refused (w : World) (queue buf : Nat) (q : vbuf_queue)
    (hqueue : queue ≠ 0) (hbuf : buf ≠ 0) (hq : w.queues queue = some q)
    (hmax : 0 < q.max_count) (hfull : q.count = q.max_count) (hdrop : q.drop_when_full = 0) :
    vbuf_queue_push w queue buf = (w, -EAGAIN) ∧
    (∀ t, vbuf_queue_pop (vbuf_queue_push w queue buf).1 queue t = vbuf_queue_pop w queue t) ∧
    (∀ t id rest b, q.buffers = id :: rest → w.bufs id = some b → cb_zero b.cbs.queue_pop →
      (vbuf_queue_pop (vbuf_queue_push w queue buf).1 queue t).2 = (0, some id)) := by
  have heq : vbuf_queue_push w queue buf = (w, -EAGAIN) := by
    have hc : q.max_count > 0 ∧ q.count = q.max_count := ⟨hmax, hfull⟩
    have hd : ¬ q.drop_when_full ≠ 0 := fun h => h hdrop
    simp only [vbuf_queue_push, hqueue, hbuf, if_false, hq]
    rw [if_pos hc, if_neg hd]
  refine ⟨heq, fun t => by rw [heq], fun t id rest b hl hb hcb => ?_⟩
  rw [heq]
  exact (pop_head w queue t q id rest b hqueue hq hl (by omega) hb hcb).1

/-- Witness of C13: a queue of three entries with `max_count = 3` and no dropping; the
push of buffer 4 is refused and the next pop returns buffer 1. -/
theorem C13_push_full_refused_witness :
    vbuf_queue_push (queue_world [1, 2, 3] 3 0) 5 4 = (queue_world [1, 2, 3] 3 0, -EAGAIN) ∧
    (vbuf_queue_pop (vbuf_queue_push (queue_world [1, 2, 3] 3 0) 5 4).1 5 0).2 = (0, some 1) :=
  have h := C13_push_full_refused (queue_world [1, 2, 3] 3 0) 5 4 ⟨3, 3, 0, [1, 2, 3]⟩
    (by decide) (by decide) rfl (by decide) rfl rfl
  ⟨h.1, h.2.2 0 1 [2, 3] (sample_buf 2 false 0) rfl rfl (fun _ hf => Option.noConfusion hf)⟩

/-- The claim C12 fails in three ways.  When `calloc` of the queue entry fails, the push
on an empty unbounded queue returns `-ENOMEM` and the queue stays empty.  When the buffer
has `UINT_MAX` references, the push returns 0 and the reference count is 0 afterwards.
When the queue holds `INT_MAX` entries, the push returns 0 and `vbuf_queue_get_count` goes
from `2147483647` to `-2147483648`. -/
theorem C12_counterexample :
    ((vbuf_queue_push lowmem_queue_world 5 1).2 = -ENOMEM ∧
      (vbuf_queue_push lowmem_queue_world 5 1).1.queues 5 = some ⟨0, 0, 0, []⟩) ∧
    ((vbuf_queue_push maxref_queue_world 5 1).2 = 0 ∧
      (maxref_queue_world.bufs 1).map (fun b => b.ref_count) = some 4294967295 ∧
      ((vbuf_queue_push maxref_queue_world 5 1).1.bufs 1).map (fun b => b.ref_count) = some 0) ∧
    ((vbuf_queue_push long_queue_world 5 1).2 = 0 ∧
      (vbuf_queue_get_count long_queue_world 5).2 = 2147483647 ∧
      (vbuf_queue_get_count (vbuf_queue_push long_queue_world 5 1).1 5).2 = -2147483648) := by
  refine ⟨⟨by decide, by decide⟩, ⟨by decide, by decide, by decide⟩,
    ⟨by decide, by decide, by decide⟩⟩

/-- C12 (amended): `vbuf_queue_push` of a live buffer whose `queue_push` callback is `NULL`
or reports success, on a queue that is unbounded (`max_count = 0`, any `drop_when_full`)
or whose count is below `max_count`.  When no system call fails, the buffer has fewer
than `UINT_MAX` references and the queue fewer than `INT_MAX` entries, the call returns 0,
the buffer has exactly one more reference, one entry for it is appended after the earlier
entries, which are unchanged, `vbuf_queue_get_count` is one more, and no other buffer or
queue changes.  On an unbounded queue the call never returns `-EAGAIN` and the earlier
entries all stay at the head of the queue in their order. -/
theorem C12_push (w : World) (queue buf : Nat) (q : vbuf_queue) (b : vbuf_buffer)
    (hqueue : queue ≠ 0) (hbuf : buf ≠ 0) (hq : w.queues queue = some q)
    (hb : w.bufs buf = some b) (hroom : q.max_count = 0 ∨ q.count < q.max_count)
    (hcb : cb_ok b.cbs.queue_push) :
    ((∀ t, w.env t = 0) → b.ref_count < 4294967295 → q.count < 2147483647 →
      (vbuf_queue_push w queue buf).2 = 0 ∧
      (∃ b', (vbuf_queue_push w queue buf).1.bufs buf = some b' ∧
        b'.ref_count = b.ref_count + 1) ∧
      (vbuf_queue_push w queue buf).1.queues queue =
        some { q with buffers := q.buffers ++ [buf], count := q.count + 1 } ∧
      (vbuf_queue_get_count (vbuf_queue_push w queue buf).1 queue).2 =
        (vbuf_queue_get_count w queue).2 + 1 ∧
      (∀ i, i ≠ buf → (vbuf_queue_push w queue buf).1.bufs i = w.bufs i) ∧
      (∀ j, j ≠ queue → (vbuf_queue_push w queue buf).1.queues j = w.queues j)) ∧
    (q.max_count = 0 →
      (vbuf_queue_push w queue buf).2 ≠ -EAGAIN ∧
      ∃ q' l, (vbuf_queue_push w queue buf).1.queues queue = some q' ∧
        q'.buffers = q.buffers ++ l) := by
  have hnf : ¬ (q.max_count > 0 ∧ q.count = q.max_count) := by omega
  rw [push_not_full w queue buf q hqueue hbuf hq hnf]
  obtain ⟨-, -, -, p4, p5, p6, p7, p8⟩ := push_tail_spec w queue buf q b hbuf hq hb
  constructor
  · intro hsys hrc hcount
    have h0 := p7 hcb hsys
    rcases p6 with ⟨-, h2, b', hb', hbo⟩ | ⟨hneg, -⟩
    · rw [uint_inc_eq _ (by omega)] at h2
      refine ⟨h0, ⟨b', hb', ?_⟩, h2, ?_, p5, p4⟩
      · rw [(backend_only_fields hbo).1]
        exact uint_inc_eq _ hrc
      · simp only [vbuf_queue_get_count, hqueue, if_false, h2, hq]
        rw [to_int_small _ (by omega), to_int_small _ (by omega)]
        push_cast
        rfl
    · omega
  · intro _
    constructor
    · rcases p8 hcb with h | h <;> rw [h] <;> decide
    · rcases p6 with ⟨-, h2, -⟩ | ⟨-, h2, -⟩
      · exact ⟨_, [buf], h2, rfl⟩
      · exact ⟨q, [], h2, by simp⟩

/-- Witness of C12 (amended): buffer 3 is pushed on an unbounded queue that holds buffers
1 and 2. -/
theorem C12_push_witness :
    ((vbuf_queue_push (queue_world [1, 2] 0 1) 5 3).2 = 0 ∧
      (∃ b', (vbuf_queue_push (queue_world [1, 2] 0 1) 5 3).1.bufs 3 = some b' ∧
        b'.ref_count = 1 + 1) ∧
      (vbuf_queue_push (queue_world [1, 2] 0 1) 5 3).1.queues 5 = some ⟨3, 0, 1, [1, 2, 3]⟩ ∧
      (vbuf_queue_get_count (vbuf_queue_push (queue_world [1, 2] 0 1) 5 3).1 5).2 =
        (vbuf_queue_get_count (queue_world [1, 2] 0 1) 5).2 + 1) ∧
    (vbuf_queue_push (queue_world [1, 2] 0 1) 5 3).2 ≠ -EAGAIN :=
  have h := C12_push (queue_world [1, 2] 0 1) 5 3 ⟨2, 0, 1, [1, 2]⟩ (sample_buf 1 false 0)
    (by decide) (by decide) rfl rfl (Or.inl rfl) (fun _ hf => Option.noConfusion hf)
  have h1 := h.1 (fun _ => rfl) (by decide) (by decide)
  ⟨⟨h1.1, h1.2.1, h1.2.2.1, h1.2.2.2.1⟩, (h.2 rfl).1⟩

/-- The claim C14 fails in three ways on the full queue `[1, 2]` with `max_count = 2` that
drops.  When `calloc` of the queue entry fails, the push of buffer 3 returns `-ENOMEM`
after the oldest entry has been dropped: the queue holds one entry.  When the buffer
pushed is the buffer of the oldest entry, its reference count is the same before and
after.  When the buffer pushed has `UINT_MAX` references, it has none afterwards. -/
theorem C14_counterexample :
    ((vbuf_queue_push lowmem_full_world 5 3).2 = -ENOMEM ∧
      (vbuf_queue_push lowmem_full_world 5 3).1.queues 5 = some ⟨1, 2, 1, [2]⟩) ∧
    ((vbuf_queue_push (queue_world [1, 2] 2 1) 5 1).2 = 0 ∧
      (vbuf_queue_push (queue_world [1, 2] 2 1) 5 1).1.queues 5 = some ⟨2, 2, 1, [2, 1]⟩ ∧
      ((queue_world [1, 2] 2 1).bufs 1).map (fun b => b.ref_count) = some 2 ∧
      ((vbuf_queue_push (queue_world [1, 2] 2 1) 5 1).1.bufs 1).map (fun b => b.ref_count) =
        some 2) ∧
    ((vbuf_queue_push maxref_full_world 5 3).2 = 0 ∧
      (maxref_full_world.bufs 3).map (fun b => b.ref_count) = some 4294967295 ∧
      ((vbuf_queue_push maxref_full_world 5 3).1.bufs 3).map (fun b => b.ref_count) =
        some 0) := by
  refine ⟨⟨by decide, by decide⟩, ⟨by decide, by decide, by decide, by decide⟩,
    ⟨by decide, by decide, by decide⟩⟩

/-- C14 (amended): `vbuf_queue_push` of a live buffer `buf` on a bounded queue with
`drop_when_full` set whose count is `max_count`, when the buffer `id` of the oldest entry
is live, holds a reference and is not `buf`, the `queue_pop` callback of `id` is `NULL` or
returns 0, the `queue_push` callback of `buf` is `NULL` or reports success, no system call
fails and `buf` has fewer than `UINT_MAX` references.  The call returns 0; the oldest
entry is gone, the other entries keep their order and an entry for `buf` is the newest;
the count and `vbuf_queue_get_count` are as before; `buf` has exactly one more reference;
the buffer `id` is as `vbuf_unref` leaves it after the pop: if it is still there its
reference count is one less, and it is still there when it had two references or more;
no other buffer and no other queue changes. -/
theorem C14_push_drop (w : World) (queue buf : Nat) (q : vbuf_queue) (id : Nat)
    (rest : List Nat) (b0 b : vbuf_buffer) (hqueue : queue ≠ 0) (hbuf : buf ≠ 0) (hid : id ≠ 0)
    (hq : w.queues queue = some q) (hmax : 0 < q.max_count) (hfull : q.count = q.max_count)
    (hlt : q.max_count < 4294967296) (hdrop : q.drop_when_full ≠ 0)
    (hl : q.buffers = id :: rest) (hb0 : w.bufs id = some b0) (hb : w.bufs buf = some b)
    (hne : id ≠ buf) (hpop : cb_zero b0.cbs.queue_pop) (hpush : cb_ok b.cbs.queue_push)
    (hsys : ∀ t, w.env t = 0) (hrc : b.ref_count < 4294967295) (hrc0 : 0 < b0.ref_count)
    (hrc1 : b0.ref_count < 4294967296) :
    (vbuf_queue_push w queue buf).2 = 0 ∧
    (vbuf_queue_push w queue buf).1.queues queue = some { q with buffers := rest ++ [buf] } ∧
    (vbuf_queue_get_count (vbuf_queue_push w queue buf).1 queue).2 =
      (vbuf_queue_get_count w queue).2 ∧
    (∃ b', (vbuf_queue_push w queue buf).1.bufs buf = some b' ∧
      b'.ref_count = b.ref_count + 1) ∧
    (vbuf_queue_push w queue buf).1.bufs id =
      (vbuf_unref (vbuf_queue_pop w queue 0).1 id).1.bufs id ∧
    (∀ b', (vbuf_queue_push w queue buf).1.bufs id = some b' →
      b'.ref_count = b0.ref_count - 1) ∧
    (2 ≤ b0.ref_count → ∃ b', (vbuf_queue_push w queue buf).1.bufs id = some b' ∧
      b'.ref_count = b0.ref_count - 1) ∧
    (∀ i, i ≠ id → i ≠ buf → (vbuf_queue_push w queue buf).1.bufs i = w.bufs i) ∧
    (∀ j, j ≠ queue → (vbuf_queue_push w queue buf).1.queues j = w.queues j) := by
  rw [push_full_drop w queue buf q id rest b0 hqueue hbuf hid hq hmax hfull hdrop hl hb0 hpop]
  obtain ⟨-, p2, p3, -, p5, -, p7, b0', hb0', hbo, -⟩ :=
    pop_head w queue 0 q id rest b0 hqueue hq hl (by omega) hb0 hpop
  obtain ⟨u1, u2, -, u4⟩ := unref_frame (vbuf_queue_pop w queue 0).1 id
  have hrc' : b0'.ref_count = b0.ref_count := (backend_only_fields hbo).1
  obtain ⟨-, v2, v3⟩ := unref_self (vbuf_queue_pop w queue 0).1 id b0' hid hb0'
    (by rw [hrc']; exact hrc1)
  have hcount : uint_inc (uint_dec q.count) = q.count := by
    rw [uint_dec_eq _ (by omega) (by omega), uint_inc_eq _ (by omega)]
    omega
  generalize vbuf_unref (vbuf_queue_pop w queue 0).1 id = U at *
  generalize vbuf_queue_pop w queue 0 = P at *
  have hUq : U.1.queues queue =
      some { q with buffers := rest, count := uint_dec q.count } := by rw [u1, p2]
  have hUb : U.1.bufs buf = some b := by rw [u4 buf (Ne.symm hne), p7 buf (Ne.symm hne), hb]
  obtain ⟨-, -, -, t4, t5, t6, t7, -⟩ := push_tail_spec U.1 queue buf _ b hbuf hUq hUb
  have h0 := t7 hpush (fun t => by rw [u2, p5]; exact hsys t)
  rcases t6 with ⟨-, h2, b', hb', hbo'⟩ | ⟨hneg, -⟩
  · simp only [hcount] at h2
    refine ⟨h0, ?_, ?_, ⟨b', hb', ?_⟩, t5 id hne, ?_, ?_, ?_, ?_⟩
    · rw [h2]
    · simp only [vbuf_queue_get_count, hqueue, if_false, h2, hq]
    · rw [(backend_only_fields hbo').1]
      exact uint_inc_eq _ hrc
    · intro b'' hb''
      rw [t5 id hne] at hb''
      rw [(v2 (by omega) b'' hb'').1, hrc']
    · intro h2'
      have hU := v3 (by omega)
      refine ⟨{ b0' with ref_count := b0'.ref_count - 1 }, ?_, by rw [hrc']⟩
      rw [t5 id hne, hU]
      simp
    · intro i hi hib
      rw [t5 i hib, u4 i hi, p7 i hi]
    · intro j hj
      rw [t4 j hj, u1, p3 j hj]
  · omega

/-- Witness of C14 (amended): buffer 3 is pushed on the full queue `[1, 2]` that drops. -/
theorem C14_push_drop_witness :
    (vbuf_queue_push (queue_world [1, 2] 2 1) 5 3).2 = 0 ∧
    (vbuf_queue_push (queue_world [1, 2] 2 1) 5 3).1.queues 5 = some ⟨2, 2, 1, [2, 3]⟩ ∧
    (vbuf_queue_get_count (vbuf_queue_push (queue_world [1, 2] 2 1) 5 3).1 5).2 =
      (vbuf_queue_get_count (queue_world [1, 2] 2 1) 5).2 ∧
    (∃ b', (vbuf_queue_push (queue_world [1, 2] 2 1) 5 3).1.bufs 3 = some b' ∧
      b'.ref_count = 1 + 1) ∧
    (∃ b', (vbuf_queue_push (queue_world [1, 2] 2 1) 5 3).1.bufs 1 = some b' ∧
      b'.ref_count = 2 - 1) :=
  have h := C14_push_drop (queue_world [1, 2] 2 1) 5 3 ⟨2, 2, 1, [1, 2]⟩ 1 [2]
    (sample_buf 2 false 0) (sample_buf 1 false 0) (by decide) (by decide) (by decide) rfl
    (by decide) rfl (by decide) (by decide) rfl rfl rfl (by decide)
    (fun _ hf => Option.noConfusion hf) (fun _ hf => Option.noConfusion hf) (fun _ => rfl)
    (by decide) (by decide) (by decide)
  ⟨h.1, h.2.1, h.2.2.1, h.2.2.2.1, h.2.2.2.2.2.2.1 (by decide)⟩

/-- C18: `vbuf_queue_flush` on a queue whose count is its number of entries.  The call
returns 0 and leaves the queue empty with `vbuf_queue_get_count = 0`; the buffers and the
pools are as after a `vbuf_unref` of the buffer of each entry, oldest first (which is what
runs the release of a buffer whose count reaches 0), and no other queue changes.  A
buffer with at least as many references as entries referring to it has, if it is still
there, exactly that many references less; it is still there, with nothing else changed,
when it had more references than entries.  On an empty queue the call returns 0 and
changes nothing. -/
theorem C18_flush (w : World) (queue : Nat) (q : vbuf_queue) (hqueue : queue ≠ 0)
    (hq : w.queues queue = some q) (hwf : q.count = q.buffers.length)
    (hlt : q.count < 4294967296) :
    (vbuf_queue_flush w queue).2 = 0 ∧
    (vbuf_queue_flush w queue).1.queues queue = some { q with buffers := [], count := 0 } ∧
    (vbuf_queue_get_count (vbuf_queue_flush w queue).1 queue).2 = 0 ∧
    (vbuf_queue_flush w queue).1.bufs = (unref_all w q.buffers).bufs ∧
    (vbuf_queue_flush w queue).1.pools = (unref_all w q.buffers).pools ∧
    (∀ j, j ≠ queue → (vbuf_queue_flush w queue).1.queues j = w.queues j) ∧
    (∀ id b, id ≠ 0 → w.bufs id = some b → b.ref_count < 4294967296 →
      q.buffers.count id ≤ b.ref_count →
      ∀ b', (vbuf_queue_flush w queue).1.bufs id = some b' →
        b'.ref_count = b.ref_count - q.buffers.count id) ∧
    (∀ id b, id ≠ 0 → w.bufs id = some b → b.ref_count < 4294967296 →
      q.buffers.count id < b.ref_count →
      (vbuf_queue_flush w queue).1.bufs id =
        some { b with ref_count := b.ref_count - q.buffers.count id }) ∧
    (q.buffers = [] → vbuf_queue_flush w queue = (w, 0)) := by
  have heq := flush_eq w queue q hqueue hq hwf hlt
  refine ⟨by rw [heq], by rw [heq]; simp, ?_, by rw [heq]; rfl, by rw [heq]; rfl, ?_, ?_, ?_, ?_⟩
  · rw [heq]
    simp only [vbuf_queue_get_count, hqueue, if_false, set_queue_queues, if_true]
    rfl
  · intro j hj
    rw [heq]
    simp only [set_queue_queues, hj, if_false, (unref_all_frame q.buffers w).1]
  · intro id b hid hb hltb hle b' hb'
    rw [heq] at hb'
    exact unref_all_count q.buffers w id b hid hb hltb hle b' hb'
  · intro id b hid hb hltb hle
    rw [heq]
    exact unref_all_keep q.buffers w id b hid hb hltb hle
  · intro hl
    have hc : q.count = 0 := by rw [hwf, hl]; rfl
    simp only [vbuf_queue_flush, hqueue, if_false, hq, hc, if_true]

/-- Witness of C18: the queue `[1, 2, 1]` is flushed; buffer 1 goes from 3 references to
1 and buffer 2 from 2 to 1. -/
theorem C18_flush_witness :
    (vbuf_queue_flush (queue_world [1, 2, 1] 0 0) 5).2 = 0 ∧
    (vbuf_queue_flush (queue_world [1, 2, 1] 0 0) 5).1.queues 5 = some ⟨0, 0, 0, []⟩ ∧
    (vbuf_queue_get_count (vbuf_queue_flush (queue_world [1, 2, 1] 0 0) 5).1 5).2 = 0 ∧
    (vbuf_queue_flush (queue_world [1, 2, 1] 0 0) 5).1.bufs 1 = some (sample_buf 1 false 0) ∧
    (vbuf_queue_flush (queue_world [1, 2, 1] 0 0) 5).1.bufs 2 = some (sample_buf 1 false 0) :=
  have h := C18_flush (queue_world [1, 2, 1] 0 0) 5 ⟨3, 0, 0, [1, 2, 1]⟩ (by decide) rfl rfl
    (by decide)
  ⟨h.1, h.2.1, h.2.2.1,
    h.2.2.2.2.2.2.2.1 1 (sample_buf 3 false 0) (by decide) rfl (by decide) (by decide),
    h.2.2.2.2.2.2.2.1 2 (sample_buf 2 false 0) (by decide) rfl (by decide) (by decide)⟩

/-- When the `queue_pop` callback of a buffer fails, the push of that buffer on an empty
unbounded queue returns 0 without dropping, and the pop that follows returns the error of
the callback and outputs `NULL`, not the buffer. -/
theorem C15_counterexample :
    pushes_ok failing_pop_world 5 [1] ∧
    (push_all failing_pop_world 5 [1]).2 = [0] ∧
    (pop_n (push_all failing_pop_world 5 [1]).1 5 1).2 = [(-1, some 0)] := by
  refine ⟨⟨?_, by decide, trivial⟩, by decide, by decide⟩
  rintro ⟨q, hq, hm, -⟩
  have hq' : q = ⟨0, 0, 0, []⟩ := (Option.some.inj hq).symm
  rw [hq'] at hm
  exact absurd hm (by decide)

/-- C15 (amended): a queue whose count is its number of entries holds the entries `l`,
and the buffers of `bs` are pushed one after the other, each push finding the queue not
full and returning 0.  When the buffers of `l` are live and the `queue_pop` callback of
every buffer of `l` and `bs` is `NULL` or returns 0, then `n` calls of `vbuf_queue_pop`
with `timeout_ms = 0`, for every `n` up to the number of entries, all return 0 and output
the first `n` buffers of `l` followed by `bs`, in that order. -/
theorem C15_queue_fifo (w : World) (queue : Nat) (q : vbuf_queue) (bs : List Nat) (n : Nat)
    (hqueue : queue ≠ 0) (hq : w.queues queue = some q) (hwf : q.count = q.buffers.length)
    (hlen : q.buffers.length + bs.length < 4294967296)
    (hlive : ∀ id ∈ q.buffers, ∃ b, w.bufs id = some b ∧ cb_zero b.cbs.queue_pop)
    (hpop : ∀ id ∈ bs, ∀ b, w.bufs id = some b → cb_zero b.cbs.queue_pop)
    (hok : pushes_ok w queue bs) (hn : n ≤ q.buffers.length + bs.length) :
    (pop_n (push_all w queue bs).1 queue n).2 =
      ((q.buffers ++ bs).take n).map (fun id => ((0 : Int), some id)) := by
  have h1 : fifo_ready w queue q.buffers := ⟨q, hq, rfl, hwf, hlive⟩
  have h2 := push_all_ready queue hqueue bs w q.buffers h1 hlen hpop hok
  exact pop_n_ready queue hqueue n _ _ h2 (by simp only [List.length_append]; omega)
    (by simp only [List.length_append]; omega)

/-- Witness of C15 (amended): buffers 2 and 3 are pushed on a queue that holds buffer 1;
three pops return 1, 2, 3. -/
theorem C15_queue_fifo_witness :
    (pop_n (push_all (queue_world [1] 0 0) 5 [2, 3]).1 5 3).2 =
      [(0, some 1), (0, some 2), (0, some 3)] :=
  C15_queue_fifo (queue_world [1] 0 0) 5 ⟨1, 0, 0, [1]⟩ [2, 3] 3 (by decide) rfl rfl
    (by decide)
    (fun id hid => ⟨sample_buf (1 + [1].count id) false 0, by
      have h1 : id = 1 := List.mem_singleton.mp hid
      rw [h1]; rfl, fun _ hf => Option.noConfusion hf⟩)
    (fun id _ b hb => by
      have hcbs : b.cbs = plain_cbs := by
        simp only [queue_world] at hb
        split at hb
        · cases hb; rfl
        · exact Option.noConfusion hb
      rw [hcbs]
      exact fun _ hf => Option.noConfusion hf)
    ⟨fun h => by
      obtain ⟨q, hq, hm, -⟩ := h
      have hq' : q = ⟨1, 0, 0, [1]⟩ := (Option.some.inj hq).symm
      rw [hq'] at hm
      exact absurd hm (by decide), by decide, fun h => by
      obtain ⟨q, hq, hm, -⟩ := h
      have hq' : q.max_count = 0 := by
        have : some q = some ⟨2, 0, 0, [1, 2]⟩ := hq.symm.trans (by decide)
        rw [Option.some.inj this]
      omega, by decide, trivial⟩
    (by decide)

/-- After `4294967296` pushes of buffer 1 on the unbounded queue that `vbuf_queue_new(0,
0)` has made, the stored count is 0 and the queue holds `4294967296` entries: the
`unsigned int` count has wrapped. -/
theorem C19_counterexample :
    vbuf_queue_new (one_buf_world 1 false) 0 0 = (new_queue_world, 0, some 2) ∧
    ∃ q, (push_n new_queue_world 2 1 4294967296).queues 2 = some q ∧ q.count = 0 ∧
      q.buffers.length = 4294967296 := by
  refine ⟨rfl, _, push_n_spec 2 1 (by decide) (by decide) 4294967296 new_queue_world
    ⟨0, 0, 0, []⟩ (sample_buf 1 false 0) rfl rfl (by decide) rfl
    (fun _ hf => Option.noConfusion hf) (fun _ => rfl), ?_, ?_⟩
  · show (0 + 4294967296) % 4294967296 = 0
    decide
  · show ([] ++ List.replicate 4294967296 1).length = 4294967296
    rw [List.nil_append, List.length_replicate]

/-- C19 (amended): in every state reached from a successful `vbuf_queue_new(max_count,
drop_when_full)` by calls of `vbuf_queue_push`, `vbuf_queue_pop`, `vbuf_queue_peek`,
`vbuf_queue_flush` and `vbuf_queue_abort` on any queues and buffers, no push being made
on an unbounded queue that holds `UINT_MAX` entries, the new queue is live, its stored
count is its number of entries and, when `max_count > 0`, that number is at most
`max_count`. -/
theorem C19_queue_invariant (w : World) (max_count : Nat) (drop_when_full : Int)
    (w0 : World) (queue : Nat) (w' : World) (hmax : max_count < 4294967296)
    (hnew : vbuf_queue_new w max_count drop_when_full = (w0, 0, some queue))
    (hreach : queue_reach w0 w') :
    ∃ q, w'.queues queue = some q ∧ q.max_count = max_count ∧
      q.count = q.buffers.length ∧ (max_count > 0 → q.buffers.length ≤ max_count) := by
  have h0 := queue_new_spec w max_count drop_when_full w0 queue hnew
  obtain ⟨q, hq, g1, g2, -, g4⟩ := reach_good hreach max_count hmax queue
    ⟨_, h0, rfl, rfl, by show (0 : Nat) < 4294967296; decide, fun _ => Nat.zero_le _⟩
  exact ⟨q, hq, g1, g2, g4⟩

/-- Witness of C19 (amended): a queue made with `max_count = 2` that drops, after three
pushes of buffer 1 and one pop. -/
theorem C19_queue_invariant_witness :
    ∃ q, (vbuf_queue_pop (vbuf_queue_push (vbuf_queue_push (vbuf_queue_push
        (vbuf_queue_new (one_buf_world 1 false) 2 1).1 2 1).1 2 1).1 2 1).1 2 0).1.queues 2 =
        some q ∧ q.max_count = 2 ∧ q.count = q.buffers.length ∧
      (2 > 0 → q.buffers.length ≤ 2) :=
  have hg : ∀ (v : World) (m : Nat), (v.queues 2).map (fun q => q.max_count) = some m →
      m ≠ 0 → ∀ q, v.queues 2 = some q → q.max_count = 0 → q.count < 4294967295 :=
    fun v m hv hm q hq h0 => by
      rw [hq] at hv
      simp only [Option.map_some', Option.some.injEq] at hv
      omega
  C19_queue_invariant (one_buf_world 1 false) 2 1
    (vbuf_queue_new (one_buf_world 1 false) 2 1).1 2 _ (by decide) rfl
    (queue_reach.pop 2 0
      (queue_reach.push 2 1
        (queue_reach.push 2 1
          (queue_reach.push 2 1 queue_reach.init (hg _ 2 (by decide) (by decide)))
          (hg _ 2 (by decide) (by decide)))
        (hg _ 2 (by decide) (by decide))))

/-- The claim C20 fails in two ways.  Buffer 1, of which a client holds the only
reference, has a `queue_pop` callback that returns 1: after a push and a pop, which
returns 1 and outputs `NULL`, the client still holds one reference and no entry is left,
but the reference count is 2.  Buffer 1 has `UINT_MAX` references, all held by clients:
after a push, which returns 0, an entry refers to it and its reference count is 0. -/
theorem C20_counterexample :
    (held_reach positive_pop_world one_held
        (vbuf_queue_pop (vbuf_queue_push positive_pop_world 5 1).1 5 0).1 one_held ∧
      (vbuf_queue_pop (vbuf_queue_push positive_pop_world 5 1).1 5 0).2 = (1, some 0) ∧
      ((vbuf_queue_pop (vbuf_queue_push positive_pop_world 5 1).1 5 0).1.bufs 1).map
        (fun b => b.ref_count) = some 2 ∧
      one_held 1 = 1 ∧
      entries (vbuf_queue_pop (vbuf_queue_push positive_pop_world 5 1).1 5 0).1 1 6 = 0) ∧
    ((maxref_queue_world.bufs 1).map (fun b => b.ref_count) = some 4294967295 ∧
      entries maxref_queue_world 1 6 = 0 ∧
      (vbuf_queue_push maxref_queue_world 5 1).2 = 0 ∧
      ((vbuf_queue_push maxref_queue_world 5 1).1.bufs 1).map (fun b => b.ref_count) =
        some 0 ∧
      entries (vbuf_queue_push maxref_queue_world 5 1).1 1 6 = 1) := by
  refine ⟨⟨?_, by decide, by decide, rfl, by decide⟩,
    ⟨by decide, by decide, by decide, by decide, by decide⟩⟩
  have h1 : held_reach positive_pop_world one_held (vbuf_queue_push positive_pop_world 5 1).1
      one_held := held_reach.push 5 1 held_reach.init (fun b hb => by
        have : b.ref_count = 1 := by
          have hb' : some b = some ({ sample_buf 1 false 0 with
              cbs := { plain_cbs with queue_pop := some positive_cb } } : vbuf_buffer) :=
            hb.symm.trans rfl
          rw [Option.some.inj hb']
          rfl
        omega)
  have h2 := held_reach.pop 5 0 h1
  have hres : (vbuf_queue_pop (vbuf_queue_push positive_pop_world 5 1).1 5 0).2.1 ≠ 0 := by
    decide
  rw [if_neg hres] at h2
  exact h2

/-- C20 (amended): at the start all queues (at addresses below `N`) are empty, every
live buffer has as many references as clients hold (`h0`), and no buffer has a
`queue_pop` callback that returns a positive value.  In every state reached by calls of
`vbuf_queue_push`, `vbuf_queue_pop`, `vbuf_queue_flush`, `vbuf_ref` and `vbuf_unref`,
where clients release only references they hold and no reference is added to a buffer
that has `UINT_MAX` of them, the reference count of each live buffer is the number of
references clients hold plus the number of queue entries that refer to it, so it is at
least that number of entries; and a buffer to which an entry refers is live with a
reference count above 0. -/
theorem C20_refs_accounting (N : Nat) (w0 w : World) (h0 h : Nat → Nat)
    (hq0 : ∀ j, N ≤ j → w0.queues j = none)
    (hempty : ∀ j q, w0.queues j = some q → q.buffers = [])
    (hnull : w0.bufs 0 = none)
    (hb0 : ∀ id b, w0.bufs id = some b → b.ref_count = h0 id ∧ b.ref_count < 4294967296 ∧
      cb_nonpos b.cbs.queue_pop)
    (hd0 : ∀ id, w0.bufs id = none → h0 id = 0)
    (hreach : held_reach w0 h0 w h) :
    (∀ id b, w.bufs id = some b →
      b.ref_count = h id + entries w id N ∧ entries w id N ≤ b.ref_count) ∧
    (∀ id, 0 < entries w id N → ∃ b, w.bufs id = some b ∧ 0 < b.ref_count) := by
  have hi0 : refs_inv N w0 h0 :=
    ⟨hq0, hnull, fun id b hb => by
        rw [entries_empty w0 id hempty N]; exact hb0 id b hb,
      fun id hd => ⟨hd0 id hd, entries_empty w0 id hempty N⟩⟩
  have hi := refs_inv_reach hreach hi0
  constructor
  · intro id b hb
    have := (hi.live id b hb).1
    exact ⟨this, by omega⟩
  · intro id hpos
    cases hb : w.bufs id with
    | none =>
      have := (hi.dead id hb).2
      omega
    | some b =>
      have := (hi.live id b hb).1
      exact ⟨b, rfl, by omega⟩

/-- Witness of C20 (amended): from four buffers held by clients and an empty queue,
buffer 1 is pushed twice, a client takes a second reference on buffer 2 and the client of
buffer 1 releases its reference. -/
theorem C20_refs_accounting_witness :
    (∀ id b, (vbuf_unref (vbuf_ref (vbuf_queue_push (vbuf_queue_push (queue_world [] 0 0)
        5 1).1 5 1).1 2).1 1).1.bufs id = some b →
      b.ref_count = unbump (bump four_held 2) 1 id +
        entries (vbuf_unref (vbuf_ref (vbuf_queue_push (vbuf_queue_push (queue_world [] 0 0)
          5 1).1 5 1).1 2).1 1).1 id 6 ∧
      entries (vbuf_unref (vbuf_ref (vbuf_queue_push (vbuf_queue_push (queue_world [] 0 0)
        5 1).1 5 1).1 2).1 1).1 id 6 ≤ b.ref_count) ∧
    (∀ id, 0 < entries (vbuf_unref (vbuf_ref (vbuf_queue_push (vbuf_queue_push
        (queue_world [] 0 0) 5 1).1 5 1).1 2).1 1).1 id 6 →
      ∃ b, (vbuf_unref (vbuf_ref (vbuf_queue_push (vbuf_queue_push (queue_world [] 0 0)
        5 1).1 5 1).1 2).1 1).1.bufs id = some b ∧ 0 < b.ref_count) :=
  have hg : ∀ (v : World) (buf n : Nat), (v.bufs buf).map (fun b => b.ref_count) = some n →
      n < 4294967295 → ∀ b, v.bufs buf = some b → b.ref_count < 4294967295 :=
    fun v buf n hv hn b hb => by
      rw [hb] at hv
      simp only [Option.map_some', Option.some.injEq] at hv
      omega
  C20_refs_accounting 6 (queue_world [] 0 0) _ four_held _
    (fun j hj => by
      show (if j = 5 then _ else none) = none
      rw [if_neg (by omega)])
    (fun j q hq => by
      have hq' : (if j = 5 then some (⟨0, 0, 0, []⟩ : vbuf_queue) else none) = some q := hq
      split at hq'
      · cases hq'; rfl
      · exact Option.noConfusion hq')
    rfl
    (fun id b hb => by
      have hb' : (if 1 ≤ id ∧ id ≤ 4 then some (sample_buf (1 + [].count id) false 0)
          else none) = some b := hb
      split at hb'
      · next hid =>
        cases hb'
        exact ⟨by simp [four_held, hid, sample_buf], by simp [sample_buf],
          fun _ hf => Option.noConfusion hf⟩
      · exact Option.noConfusion hb')
    (fun id hd => by
      have hd' : (if 1 ≤ id ∧ id ≤ 4 then some (sample_buf (1 + [].count id) false 0)
          else none) = none := hd
      split at hd'
      · exact Option.noConfusion hd'
      · next hid => simp [four_held, hid])
    (held_reach.unref 1
      (held_reach.ref 2 (sample_buf 1 false 0)
        (held_reach.push 5 1
          (held_reach.push 5 1 held_reach.init (hg _ 1 1 (by decide) (by decide)))
          (hg _ 1 2 (by decide) (by decide)))
        rfl (by decide))
      (by decide))

/-- C26: on a live buffer, `vbuf_set_size(n)` returns 0 exactly when `n` is at most the
capacity and the buffer is not write-locked; it then stores `n` in `size` and changes
nothing else; otherwise it returns a negative value and the world is unchanged.  The
same holds of `vbuf_set_userdata_size` with `userdata_capacity` and `userdata_size`. -/
theorem C26_set_size (w : World) (buf n : Nat) (b : vbuf_buffer) (hbuf : buf ≠ 0)
    (hb : w.bufs buf = some b) :
    (((vbuf_set_size w buf n).2 = 0 ↔ n ≤ b.capacity ∧ b.write_locked = false) ∧
      (n ≤ b.capacity ∧ b.write_locked = false →
        vbuf_set_size w buf n = (w.set_buf buf { b with size := n }, 0)) ∧
      (¬ (n ≤ b.capacity ∧ b.write_locked = false) →
        (vbuf_set_size w buf n).1 = w ∧ (vbuf_set_size w buf n).2 < 0)) ∧
    (((vbuf_set_userdata_size w buf n).2 = 0 ↔
        n ≤ b.userdata_capacity ∧ b.write_locked = false) ∧
      (n ≤ b.userdata_capacity ∧ b.write_locked = false →
        vbuf_set_userdata_size w buf n = (w.set_buf buf { b with userdata_size := n }, 0)) ∧
      (¬ (n ≤ b.userdata_capacity ∧ b.write_locked = false) →
        (vbuf_set_userdata_size w buf n).1 = w ∧ (vbuf_set_userdata_size w buf n).2 < 0)) := by
  have hbufs : (-ENOBUFS : Int) < 0 := by decide
  have hperm : (-EPERM : Int) < 0 := by decide
  have hbufs0 : (-ENOBUFS : Int) ≠ 0 := by decide
  have hperm0 : (-EPERM : Int) ≠ 0 := by decide
  constructor
  · by_cases hn : n > b.capacity
    · have heq : vbuf_set_size w buf n = (w, -ENOBUFS) := by
        simp only [vbuf_set_size, hbuf, if_false, hb, hn, if_true]
      rw [heq]
      refine ⟨⟨fun h => absurd h hbufs0, fun h => by omega⟩, fun h => by omega,
        fun _ => ⟨rfl, hbufs⟩⟩
    · by_cases hl : b.write_locked = true
      · have heq : vbuf_set_size w buf n = (w, -EPERM) := by
          simp only [vbuf_set_size, hbuf, if_false, hb, hn, hl, if_true]
        rw [heq]
        refine ⟨⟨fun h => absurd h hperm0, fun h => absurd h.2 (by simp [hl])⟩,
          fun h => absurd h.2 (by simp [hl]), fun _ => ⟨rfl, hperm⟩⟩
      · have heq : vbuf_set_size w buf n = (w.set_buf buf { b with size := n }, 0) := by
          simp only [vbuf_set_size, hbuf, if_false, hb, hn]
          rw [if_neg hl]
        have hl' : b.write_locked = false := by simpa using hl
        rw [heq]
        exact ⟨⟨fun _ => ⟨by omega, hl'⟩, fun _ => rfl⟩, fun _ => rfl,
          fun h => absurd ⟨by omega, hl'⟩ h⟩
  · by_cases hn : n > b.userdata_capacity
    · have heq : vbuf_set_userdata_size w buf n = (w, -ENOBUFS) := by
        simp only [vbuf_set_userdata_size, hbuf, if_false, hb, hn, if_true]
      rw [heq]
      refine ⟨⟨fun h => absurd h hbufs0, fun h => by omega⟩, fun h => by omega,
        fun _ => ⟨rfl, hbufs⟩⟩
    · by_cases hl : b.write_locked = true
      · have heq : vbuf_set_userdata_size w buf n = (w, -EPERM) := by
          simp only [vbuf_set_userdata_size, hbuf, if_false, hb, hn, hl, if_true]
        rw [heq]
        refine ⟨⟨fun h => absurd h hperm0, fun h => absurd h.2 (by simp [hl])⟩,
          fun h => absurd h.2 (by simp [hl]), fun _ => ⟨rfl, hperm⟩⟩
      · have heq : vbuf_set_userdata_size w buf n =
            (w.set_buf buf { b with userdata_size := n }, 0) := by
          simp only [vbuf_set_userdata_size, hbuf, if_false, hb, hn]
          rw [if_neg hl]
        have hl' : b.write_locked = false := by simpa using hl
        rw [heq]
        exact ⟨⟨fun _ => ⟨by omega, hl'⟩, fun _ => rfl⟩, fun _ => rfl,
          fun h => absurd ⟨by omega, hl'⟩ h⟩

/-- Witness of C26: a buffer of capacity 16; size 10 is accepted and size 17 refused. -/
theorem C26_set_size_witness :
    vbuf_set_size (one_buf_world 1 false) 1 10 =
      ((one_buf_world 1 false).set_buf 1 { sample_buf 1 false 0 with size := 10 }, 0) ∧
    (vbuf_set_size (one_buf_world 1 false) 1 17).1 = one_buf_world 1 false ∧
    (vbuf_set_size (one_buf_world 1 false) 1 17).2 < 0 :=
  have h10 := (C26_set_size (one_buf_world 1 false) 1 10 (sample_buf 1 false 0) (by decide)
    rfl).1.2.1 ⟨by decide, rfl⟩
  have h17 := (C26_set_size (one_buf_world 1 false) 1 17 (sample_buf 1 false 0) (by decide)
    rfl).1.2.2 (fun h => absurd h.1 (by decide))
  ⟨h10, h17.1, h17.2⟩

/-- The claim C27 fails: on an unlocked buffer of capacity 16, `vbuf_set_size(17)`
returns `-ENOBUFS`, while a `NULL` buffer gives `-EINVAL`, and the two values differ;
the same for `vbuf_set_userdata_size`. -/
theorem C27_counterexample :
    (vbuf_set_size (one_buf_world 1 false) 1 17).2 = -ENOBUFS ∧
    (vbuf_set_size (one_buf_world 1 false) 0 17).2 = -EINVAL ∧
    (vbuf_set_userdata_size (one_buf_world 1 false) 1 1).2 = -ENOBUFS ∧
    (vbuf_set_userdata_size (one_buf_world 1 false) 0 1).2 = -EINVAL ∧
    (-ENOBUFS : Int) ≠ -EINVAL := by
  refine ⟨by decide, by decide, by decide, by decide, by decide⟩

/-- C27 (amended): on a live buffer, write-locked or not, `vbuf_set_size(n)` with `n`
above the capacity returns `-ENOBUFS` and changes nothing, and so does
`vbuf_set_userdata_size(n)` with `n` above the user-data capacity; this is not the value
`-EINVAL` that both functions return for a `NULL` buffer. -/
theorem C27_set_size_too_large (w : World) (buf n : Nat) (b : vbuf_buffer) (hbuf : buf ≠ 0)
    (hb : w.bufs buf = some b) :
    (n > b.capacity → vbuf_set_size w buf n = (w, -ENOBUFS)) ∧
    (n > b.userdata_capacity → vbuf_set_userdata_size w buf n = (w, -ENOBUFS)) ∧
    vbuf_set_size w 0 n = (w, -EINVAL) ∧ vbuf_set_userdata_size w 0 n = (w, -EINVAL) ∧
    (-ENOBUFS : Int) ≠ -EINVAL := by
  refine ⟨fun hn => ?_, fun hn => ?_, ?_, ?_, by decide⟩
  · simp only [vbuf_set_size, hbuf, if_false, hb, hn, if_true]
  · simp only [vbuf_set_userdata_size, hbuf, if_false, hb, hn, if_true]
  · simp only [vbuf_set_size, if_true]
  · simp only [vbuf_set_userdata_size, if_true]

/-- Witness of C27 (amended): size 17 on a buffer of capacity 16. -/
theorem C27_set_size_too_large_witness :
    vbuf_set_size (one_buf_world 1 false) 1 17 = (one_buf_world 1 false, -ENOBUFS) :=
  (C27_set_size_too_large (one_buf_world 1 false) 1 17 (sample_buf 1 false 0) (by decide)
    rfl).1 (by decide)

/-- C23: `vbuf_metadata_add(buf, key, level, len)` on a live buffer with a key that is
not `NULL` and `len > 0`.  When no record of the buffer has the key and no system call
fails, the call returns 0 and outputs a region of `len` zero bytes, one record with
that key, level, length and data is appended after the existing records, which are
unchanged, no other buffer changes, `vbuf_metadata_get` on the key then returns 0 with
that level, that length and `len` zero bytes, and on any other key it returns what it
returned before.  When a record has the key, the call returns `-EEXIST`, outputs nothing
and the world is unchanged. -/
theorem C23_metadata_add (w : World) (buf key level len : Nat) (b : vbuf_buffer)
    (hbuf : buf ≠ 0) (hkey : key ≠ 0) (hlen : 0 < len) (hb : w.bufs buf = some b) :
    ((∀ m ∈ b.metas, m.key ≠ key) → (∀ t, w.env t = 0) →
      (vbuf_metadata_add w buf key level len).2 = (0, some (List.replicate len 0)) ∧
      (vbuf_metadata_add w buf key level len).1.bufs buf =
        some { b with metas := b.metas ++ [⟨key, level, List.replicate len 0, len⟩] } ∧
      (∀ i, i ≠ buf → (vbuf_metadata_add w buf key level len).1.bufs i = w.bufs i) ∧
      (vbuf_metadata_get (vbuf_metadata_add w buf key level len).1 buf key).2 =
        ⟨0, some level, some len, some (List.replicate len 0)⟩ ∧
      (∀ k, k ≠ 0 → k ≠ key →
        (vbuf_metadata_get (vbuf_metadata_add w buf key level len).1 buf k).2 =
          (vbuf_metadata_get w buf k).2)) ∧
    ((∃ m ∈ b.metas, m.key = key) →
      vbuf_metadata_add w buf key level len = (w, -EEXIST, none)) := by
  constructor
  · intro habs hsys
    have hget : ∀ (W : World) (B : vbuf_buffer), W.bufs buf = some B →
        B.metas = b.metas ++ [(⟨key, level, List.replicate len 0, len⟩ : vbuf_meta)] →
        (vbuf_metadata_get W buf key).2 =
          ⟨0, some level, some len, some (List.replicate len 0)⟩ ∧
        (∀ k, k ≠ 0 → k ≠ key →
          (vbuf_metadata_get W buf k).2 = (vbuf_metadata_get w buf k).2) := by
      intro W B hB hmetas
      constructor
      · rw [metadata_get_eq W buf key B hbuf hkey hB, hmetas]
        have hf : (b.metas ++ [(⟨key, level, List.replicate len 0, len⟩ : vbuf_meta)]).find?
            (fun meta => meta.key = key) = some ⟨key, level, List.replicate len 0, len⟩ := by
          rw [List.find?_append, (find_none_iff b.metas key).mpr habs]
          simp [List.find?_cons]
        simp only [hf]
      · intro k hk0 hk
        rw [metadata_get_eq W buf k B hbuf hk0 hB, metadata_get_eq w buf k b hbuf hk0 hb,
          hmetas]
        have hf : (b.metas ++ [(⟨key, level, List.replicate len 0, len⟩ : vbuf_meta)]).find?
            (fun meta => meta.key = k) = b.metas.find? (fun meta => meta.key = k) := by
          rw [List.find?_append]
          simp [List.find?_cons, Ne.symm hk]
        simp only [hf]
    rw [metadata_add_ok w buf key level len b hbuf hkey hlen hb habs (hsys _) (hsys _)]
    have hB : (((w.log (ext_call.sys sys_kind.calloc)).log
        (ext_call.sys sys_kind.calloc)).set_buf buf
        { b with metas := b.metas ++ [⟨key, level, List.replicate len 0, len⟩] }).bufs buf =
        some { b with metas := b.metas ++ [⟨key, level, List.replicate len 0, len⟩] } := by
      simp
    obtain ⟨g1, g2⟩ := hget _ _ hB rfl
    exact ⟨rfl, hB, fun i hi => by simp [hi], g1, g2⟩
  · exact metadata_add_exists w buf key level len b hbuf hkey hb

/-- Witness of C23: key 9 is added to a buffer that holds a record of key 7; key 7 is
refused. -/
theorem C23_metadata_add_witness :
    ((vbuf_metadata_add meta_world 1 9 3 4).2 = (0, some (List.replicate 4 0)) ∧
      (vbuf_metadata_add meta_world 1 9 3 4).1.bufs 1 =
        some { sample_buf 1 false 0 with
               metas := [⟨7, 1, [0, 0], 2⟩] ++ [⟨9, 3, List.replicate 4 0, 4⟩] } ∧
      (vbuf_metadata_get (vbuf_metadata_add meta_world 1 9 3 4).1 1 9).2 =
        ⟨0, some 3, some 4, some (List.replicate 4 0)⟩) ∧
    vbuf_metadata_add meta_world 1 7 3 4 = (meta_world, -EEXIST, none) :=
  have h := C23_metadata_add meta_world 1 9 3 4 (sample_buf 1 false 0) (by decide) (by decide)
    (by decide) rfl
  have h1 := h.1 (by decide) (fun _ => rfl)
  ⟨⟨h1.1, h1.2.1, h1.2.2.2.1⟩,
    (C23_metadata_add meta_world 1 7 3 4 (sample_buf 1 false 0) (by decide) (by decide)
      (by decide) rfl).2 ⟨⟨7, 1, [0, 0], 2⟩, by decide, rfl⟩⟩

/-- C24: `vbuf_metadata_remove(buf, key)` on a live buffer, with a key that is not
`NULL`, whose records have distinct keys.  The call returns 0 exactly when a record has
the key.  It then removes that record and keeps the others as they are, in their order;
`vbuf_metadata_get` on the key then returns `-ENOENT`, and on any other key it returns
what it returned before; no other buffer changes.  When no record has the key, the call
returns `-ENOENT` and the world is unchanged. -/
theorem C24_metadata_remove (w : World) (buf key : Nat) (b : vbuf_buffer) (hbuf : buf ≠ 0)
    (hkey : key ≠ 0) (hb : w.bufs buf = some b)
    (hnd : (b.metas.map (fun m => m.key)).Nodup) :
    ((vbuf_metadata_remove w buf key).2 = 0 ↔ ∃ m ∈ b.metas, m.key = key) ∧
    ((∃ m ∈ b.metas, m.key = key) →
      vbuf_metadata_remove w buf key =
        (w.set_buf buf { b with metas := b.metas.filter (fun m => m.key ≠ key) }, 0) ∧
      (vbuf_metadata_get (vbuf_metadata_remove w buf key).1 buf key).2 =
        ⟨-ENOENT, none, none, none⟩ ∧
      (∀ k, k ≠ 0 → k ≠ key →
        (vbuf_metadata_get (vbuf_metadata_remove w buf key).1 buf k).2 =
          (vbuf_metadata_get w buf k).2)) ∧
    ((∀ m ∈ b.metas, m.key ≠ key) → vbuf_metadata_remove w buf key = (w, -ENOENT)) := by
  have hfe := meta_find_eq w buf key b hbuf hkey hb
  have habs : (∀ m ∈ b.metas, m.key ≠ key) → vbuf_metadata_remove w buf key = (w, -ENOENT) := by
    intro h
    have hf : vbuf_meta_find w buf key = none := by
      rw [hfe]; exact (find_none_iff _ _).mpr h
    simp only [vbuf_metadata_remove, hbuf, hkey, if_false, hb, hf]
  have hpres : (∃ m ∈ b.metas, m.key = key) → vbuf_metadata_remove w buf key =
      (w.set_buf buf { b with metas := b.metas.filter (fun m => m.key ≠ key) }, 0) := by
    intro h
    cases hf : vbuf_meta_find w buf key with
    | none =>
      rw [hfe] at hf
      obtain ⟨m, hm, hk⟩ := h
      exact absurd hk ((find_none_iff _ _).mp hf m hm)
    | some m =>
      simp only [vbuf_metadata_remove, hbuf, hkey, if_false, hb, hf,
        eraseP_eq_filter b.metas key hnd]
  refine ⟨⟨fun h0 => ?_, fun h => by rw [hpres h]⟩, fun h => ⟨hpres h, ?_, fun k hk0 hk => ?_⟩,
    habs⟩
  · by_contra hcon
    have hall : ∀ m ∈ b.metas, m.key ≠ key := fun m hm hk => hcon ⟨m, hm, hk⟩
    rw [habs hall] at h0
    have hne : (-ENOENT : Int) ≠ 0 := by decide
    exact absurd h0 hne
  · rw [hpres h, metadata_get_eq _ buf key
      { b with metas := b.metas.filter (fun m => m.key ≠ key) } hbuf hkey (by simp)]
    have hf : (b.metas.filter (fun m => m.key ≠ key)).find? (fun meta => meta.key = key) =
        none := by
      rw [find_none_iff]
      intro m hm
      simpa using (List.mem_filter.mp hm).2
    simp only [hf]
  · rw [hpres h, metadata_get_eq _ buf k
      { b with metas := b.metas.filter (fun m => m.key ≠ key) } hbuf hk0 (by simp),
      metadata_get_eq w buf k b hbuf hk0 hb]
    simp only [find_filter_ne key k hk b.metas]

/-- Witness of C24: the record of key 7 is removed from a buffer that holds only it. -/
theorem C24_metadata_remove_witness :
    vbuf_metadata_remove meta_world 1 7 =
      (meta_world.set_buf 1 { sample_buf 1 false 0 with
        metas := [(⟨7, 1, [0, 0], 2⟩ : vbuf_meta)].filter (fun m => m.key ≠ 7) }, 0) ∧
    (vbuf_metadata_get (vbuf_metadata_remove meta_world 1 7).1 1 7).2 =
      ⟨-ENOENT, none, none, none⟩ ∧
    vbuf_metadata_remove meta_world 1 9 = (meta_world, -ENOENT) :=
  have h := C24_metadata_remove meta_world 1 7 (sample_buf 1 false 0) (by decide) (by decide)
    rfl (by decide)
  have h1 := h.2.1 ⟨⟨7, 1, [0, 0], 2⟩, by decide, rfl⟩
  ⟨h1.1, h1.2.1,
    (C24_metadata_remove meta_world 1 9 (sample_buf 1 false 0) (by decide) (by decide)
      rfl (by decide)).2.2 (by decide)⟩

/-! ## C22: `vbuf_metadata_copy` -/

/-- The claim C22 fails when memory runs out.  In `levels_fail_world` the destination,
buffer 2, holds no record, so that no key of the source is present in it, and
`vbuf_metadata_copy(1, 2, 0)` returns `-ENOMEM` and leaves the destination without any
record. -/
theorem C22_counterexample :
    (levels_fail_world.bufs 2).map (fun b => b.metas) = some [] ∧
    (levels_fail_world.bufs 1).map (fun b => b.metas.length) = some 3 ∧
    (vbuf_metadata_copy levels_fail_world 1 2 0).2 = -ENOMEM ∧
    ((vbuf_metadata_copy levels_fail_world 1 2 0).1.bufs 2).map (fun b => b.metas) =
      some [] := by
  refine ⟨by decide, by decide, by decide, by decide⟩

/-- C22 (amended): `src` and `dst` are distinct live buffers, no record of `src` selected
by the filter (`max_level == 0`, or level below `max_level`) has a key present in `dst`,
and no system call fails.  Then `vbuf_metadata_copy` returns 0, leaves `src` as it was,
and the records of `dst` are afterwards its previous records followed by one copy (same
key, level, length and bytes) of each selected record of `src`, in the order of `src`;
nothing else of `dst` changes.  In particular, when `dst` held no record and `max_level`
is positive, `dst` holds exactly the copies of the records of `src` of level below
`max_level`.  The records of `src` are taken to have distinct keys and to be as
`vbuf_meta_new` makes them. -/
theorem C22_metadata_copy (w : World) (src dst max_level : Nat) (s d : vbuf_buffer)
    (hsrc : src ≠ 0) (hdst : dst ≠ 0) (hne : dst ≠ src)
    (hs : w.bufs src = some s) (hd : w.bufs dst = some d)
    (huniq : keys_unique s) (hsound : ∀ m ∈ s.metas, meta_sound m)
    (habs : ∀ m ∈ s.metas, meta_selected max_level m = true → ∀ x ∈ d.metas, x.key ≠ m.key)
    (hsys : ∀ t, w.env t = 0) :
    (vbuf_metadata_copy w src dst max_level).2 = 0 ∧
    (vbuf_metadata_copy w src dst max_level).1.bufs src = some s ∧
    (vbuf_metadata_copy w src dst max_level).1.bufs dst =
      some { d with metas :=
        d.metas ++ (s.metas.filter (meta_selected max_level)).map meta_copy_of } ∧
    (d.metas = [] → 0 < max_level →
      ((vbuf_metadata_copy w src dst max_level).1.bufs dst).map (fun b => b.metas) =
        some ((s.metas.filter (fun m => decide (m.level < max_level))).map meta_copy_of)) := by
  have heq : vbuf_metadata_copy w src dst max_level =
      vbuf_metadata_copy_loop w dst max_level s.metas := by
    simp only [vbuf_metadata_copy, hsrc, hdst, hne, if_false, hs]
  rw [heq]
  obtain ⟨-, -, -, l4, ⟨extra, e1, -, -, e3⟩, -, l7⟩ :=
    metadata_copy_loop_spec dst max_level hdst s.metas w d hd
  have h0 : (vbuf_metadata_copy_loop w dst max_level s.metas).2 = 0 :=
    l7 (fun m hm _ => hsound m hm) habs
      (List.Nodup.sublist ((List.filter_sublist s.metas).map (fun m => m.key)) huniq) hsys
  have hx := e3 h0
  rw [hx] at e1
  refine ⟨h0, by rw [l4 src (Ne.symm hne), hs], e1, fun hnil hpos => ?_⟩
  rw [e1]
  simp only [Option.map_some', hnil, List.nil_append]
  have hf : s.metas.filter (meta_selected max_level) =
      s.metas.filter (fun m => decide (m.level < max_level)) := by
    apply List.filter_congr
    intro m _
    have : max_level ≠ 0 := by omega
    simp [meta_selected, this]
  rw [hf]

/-- Witness of C22 (amended): in `levels_world` the source holds records of levels 1, 3
and 5, and the copy with `max_level = 3` gives the empty destination the record of level 1
only. -/
theorem C22_metadata_copy_witness :
    (vbuf_metadata_copy levels_world 1 2 3).2 = 0 ∧
    ((vbuf_metadata_copy levels_world 1 2 3).1.bufs 2).map (fun b => b.metas) =
      some [⟨7, 1, [1, 2], 2⟩] := by
  obtain ⟨h1, -, -, h4⟩ := C22_metadata_copy levels_world 1 2 3
    { sample_buf 1 false 0 with
      metas := [⟨7, 1, [1, 2], 2⟩, ⟨8, 3, [3], 1⟩, ⟨9, 5, [4, 5, 6], 3⟩] }
    { sample_buf 1 false 0 with metas := [] }
    (by decide) (by decide) (by decide) rfl rfl
    (by unfold keys_unique; decide)
    (by intro m hm; simp only [List.mem_cons, List.mem_singleton, List.not_mem_nil,
          or_false] at hm
        rcases hm with h | h | h <;> subst h <;> exact ⟨by decide, by decide, by decide⟩)
    (fun _ _ _ x hx => absurd hx (List.not_mem_nil x)) (fun _ => rfl)
  exact ⟨h1, h4 rfl (by decide)⟩

/-! ## C21: what a successful `vbuf_copy` leaves in the destination -/

/-- The claim C21 fails for a source without payload and without user data.  In
`copy_world 0 0 false` the source has size 0 and user data size 0, the destination has
size 4 and user data size 3; `vbuf_copy` returns 0 and the destination still has size 4
and user data size 3. -/
theorem C21_counterexample :
    (vbuf_copy (copy_world 0 0 false) 1 2).2 = 0 ∧
    ((copy_world 0 0 false).bufs 1).map (fun b => (b.size, b.userdata_size)) = some (0, 0) ∧
    ((vbuf_copy (copy_world 0 0 false) 1 2).1.bufs 2).map
      (fun b => (b.size, b.userdata_size)) = some (4, 3) := by
  refine ⟨by decide, by decide, by decide⟩

/-- C21 (amended): `vbuf_copy(src, dst)` between two live buffers `s` and `d` returns 0.
Then the source is as before, and the destination `d'` after the call satisfies: its
size is the size of `s` when that is positive, and is unchanged when the size of `s` is
0; likewise for the size of the user data; the first `s.size` payload bytes of `d'` are
those of `s`, and there are that many; the first `s.userdata_size` bytes of user data of
`d'` are those of `s`, and there are that many; and for every metadata record of `s`
there is a record of `d'` with the same key, level and length and with the first `len`
bytes of its data. -/
theorem C21_copy (w : World) (src dst : Nat) (s d : vbuf_buffer)
    (hs : w.bufs src = some s) (hd : w.bufs dst = some d)
    (h0 : (vbuf_copy w src dst).2 = 0) :
    dst ≠ src ∧ (vbuf_copy w src dst).1.bufs src = some s ∧
    ∃ d', (vbuf_copy w src dst).1.bufs dst = some d' ∧
      (0 < s.size → d'.size = s.size) ∧ (s.size = 0 → d'.size = d.size) ∧
      (0 < s.userdata_size → d'.userdata_size = s.userdata_size) ∧
      (s.userdata_size = 0 → d'.userdata_size = d.userdata_size) ∧
      first_bytes d'.ptr s.size = first_bytes s.ptr s.size ∧
      (first_bytes s.ptr s.size).length = s.size ∧
      first_bytes d'.userdata_ptr s.userdata_size =
        first_bytes s.userdata_ptr s.userdata_size ∧
      (first_bytes s.userdata_ptr s.userdata_size).length = s.userdata_size ∧
      ∀ m ∈ s.metas, ∃ m' ∈ d'.metas,
        m'.key = m.key ∧ m'.level = m.level ∧ m'.len = m.len ∧
        m'.data = m.data.take m.len := by
  have hE : ¬ (-EINVAL : Int) = 0 := by decide
  have hsrc : src ≠ 0 := by
    intro h
    have heq : vbuf_copy w src dst = (w, -EINVAL) := by
      simp only [vbuf_copy, h, if_true]
    rw [heq] at h0
    exact hE h0
  have hdst : dst ≠ 0 := by
    intro h
    have heq : vbuf_copy w src dst = (w, -EINVAL) := by
      simp only [vbuf_copy, hsrc, h, if_true, if_false]
    rw [heq] at h0
    exact hE h0
  have hne : dst ≠ src := by
    intro h
    have heq : vbuf_copy w src dst = (w, -EINVAL) := by
      simp only [vbuf_copy, hsrc, hdst, h, if_true, if_false]
    rw [heq] at h0
    exact hE h0
  obtain ⟨f1, -, d', hd', -, hres⟩ := copy_spec w src dst s d hsrc hdst hne hs hd
  obtain ⟨r1, r2, r3, r4, r5, r6, r7, r8, r9⟩ := hres h0
  refine ⟨hne, by rw [f1 src (Ne.symm hne), hs], d', hd', r1, r2, r3, r4, r5, r6, r7, r8, ?_⟩
  intro m hm
  refine ⟨meta_copy_of m, ?_, rfl, rfl, rfl, rfl⟩
  rw [r9]
  exact List.mem_append_right _ (List.mem_map.mpr ⟨m, hm, rfl⟩)

/-- Witness of C21 (amended): in `copy_world 8 2 false` the source has 8 bytes of
payload, 2 bytes of user data and one metadata record; the copy returns 0 and the
destination then has size 8, user data size 2, the payload bytes 1 to 8, the user data
bytes 5 and 6, and a record of key 7. -/
theorem C21_copy_witness :
    ∃ d', (vbuf_copy (copy_world 8 2 false) 1 2).1.bufs 2 = some d' ∧
      d'.size = 8 ∧ d'.userdata_size = 2 ∧
      first_bytes d'.ptr 8 = [1, 2, 3, 4, 5, 6, 7, 8] ∧
      first_bytes d'.userdata_ptr 2 = [5, 6] ∧
      ∃ m' ∈ d'.metas, m'.key = 7 ∧ m'.level = 1 ∧ m'.len = 2 ∧ m'.data = [1, 2] := by
  obtain ⟨-, -, d', hd', r1, -, r3, -, r5, -, r7, -, r9⟩ :=
    C21_copy (copy_world 8 2 false) 1 2 (copy_src_buf 8 2 false) copy_dst_buf rfl rfl
      (by decide)
  exact ⟨d', hd', r1 (by decide), r3 (by decide), r5, r7,
    r9 ⟨7, 1, [1, 2], 2⟩ (List.mem_singleton.mpr rfl)⟩

/-! ## C30: the errors of `vbuf_copy` -/

/-- C30: `vbuf_copy(buf, buf)` returns `-EINVAL`, and `vbuf_copy(src, dst)` with a
write-locked destination returns `-EPERM`; in both cases the world, and so both buffers,
are left as they were.  The lock of the source plays no part: for distinct live buffers,
the result of the copy and the destination after it are the same whether the source is
write-locked or not. -/
theorem C30_copy_errors (w : World) (src dst : Nat) (s d : vbuf_buffer)
    (hsrc : src ≠ 0) (hdst : dst ≠ 0)
    (hs : w.bufs src = some s) (hd : w.bufs dst = some d) :
    vbuf_copy w src src = (w, -EINVAL) ∧
    (dst ≠ src → d.write_locked = true → vbuf_copy w src dst = (w, -EPERM)) ∧
    (dst ≠ src → ∀ l : Bool,
      (vbuf_copy (w.set_buf src { s with write_locked := l }) src dst).2 =
        (vbuf_copy w src dst).2 ∧
      (vbuf_copy (w.set_buf src { s with write_locked := l }) src dst).1.bufs dst =
        (vbuf_copy w src dst).1.bufs dst) := by
  refine ⟨?_, fun hne hl => ?_, fun hne l => ?_⟩
  · simp only [vbuf_copy, hsrc, if_false, if_true]
  · simp only [vbuf_copy, hsrc, hdst, hne, if_false, hs, hd]
    rw [if_pos hl]
  · rw [copy_comm w src dst s { s with write_locked := l } d hsrc hdst hne hs hd
      rfl rfl rfl rfl rfl rfl]
    exact ⟨rfl, set_buf_bufs_ne _ src dst _ hne⟩

/-- Witness of C30: in `copy_world 8 2 false`, copying buffer 1 onto itself is refused,
and the copy from buffer 1 to buffer 2 returns 0 when buffer 1 is write-locked, as it
does when it is not. -/
theorem C30_copy_errors_witness :
    vbuf_copy (copy_world 8 2 false) 1 1 = (copy_world 8 2 false, -EINVAL) ∧
    (vbuf_copy ((copy_world 8 2 false).set_buf 1 (copy_src_buf 8 2 true)) 1 2).2 = 0 := by
  obtain ⟨h1, -, h3⟩ := C30_copy_errors (copy_world 8 2 false) 1 2 (copy_src_buf 8 2 false)
    copy_dst_buf (by decide) (by decide) rfl rfl
  refine ⟨h1, ?_⟩
  have h4 := (h3 (by decide) true).1
  have h5 : (vbuf_copy (copy_world 8 2 false) 1 2).2 = 0 := by decide
  rw [h5] at h4
  exact h4

/-! ## C25: metadata keys are unique within a buffer -/

/-- C25: in every state reached from a world without objects by calls of `vbuf_new`,
`vbuf_metadata_add`, `vbuf_metadata_remove`, `vbuf_metadata_copy`, `vbuf_copy`,
`vbuf_unref` and the other public operations of `data_reach`, successful or failing,
whatever the system calls answer (any `calloc` or `realloc` may fail and any wait may time
out), no two metadata records of one buffer have the same key. -/
theorem C25_keys_unique (w : World) (h : data_reach w) (buf : Nat) (b : vbuf_buffer)
    (hb : w.bufs buf = some b) : (b.metas.map (fun m => m.key)).Nodup :=
  (bufs_good_of_reach h buf b hb).2.2.1

/-- Witness of C25: after `vbuf_new` and three calls of `vbuf_metadata_add` with the keys
7, 7 and 8, the buffer holds one record of key 7 and one of key 8; and in a run where the
`calloc` of the second of three calls with the keys 7, 8 and 9 fails, the buffer holds one
record of key 7 and one of key 9. -/
theorem C25_keys_unique_witness :
    (tagged_buf.metas.map (fun m => m.key) = [7, 8] ∧
      (tagged_buf.metas.map (fun m => m.key)).Nodup) ∧
    ((vbuf_metadata_add
        (vbuf_metadata_add
          (vbuf_new (start_world (fun t => if t = 6 then 12 else 0) (fun _ _ => 0)) 16 4
            (some plain_cbs) 0).1 1 7 1 2).1 1 8 2 3).2.1 = -ENOMEM ∧
      scarce_tagged_buf.metas.map (fun m => m.key) = [7, 9] ∧
      (scarce_tagged_buf.metas.map (fun m => m.key)).Nodup) :=
  ⟨⟨rfl, C25_keys_unique tagged_world
    (data_reach.metadata_add 1 8 3 1 (data_reach.metadata_add 1 7 2 3
      (data_reach.metadata_add 1 7 1 2 (data_reach.new 16 4 (some plain_cbs) 0
        (data_reach.init (fun _ => 0) (fun _ _ => 0)))))) 1 tagged_buf rfl⟩,
   ⟨by decide, rfl, C25_keys_unique scarce_tagged_world
    (data_reach.metadata_add 1 9 3 1 (data_reach.metadata_add 1 8 2 3
      (data_reach.metadata_add 1 7 1 2 (data_reach.new 16 4 (some plain_cbs) 0
        (data_reach.init (fun t => if t = 6 then 12 else 0) (fun _ _ => 0))))))
    1 scarce_tagged_buf rfl⟩⟩

/-! ## C29: sizes stay within capacities -/

/-- C29: in every state reached from a world without objects by calls of `vbuf_new`,
`vbuf_pool_new` and the public operations of `data_reach` (among them `vbuf_set_size`,
`vbuf_set_capacity`, `vbuf_set_userdata_size`, `vbuf_set_userdata_capacity`, `vbuf_copy`,
`vbuf_userdata_copy`, `vbuf_ref`, `vbuf_unref`, `vbuf_pool_get` and the queue
operations), whether the calls succeed or fail and whatever the system calls answer (any
`calloc` or `realloc` may fail and any wait may time out), with backend callbacks that
write `type`, `specific` and `ptr` only, every buffer has its size within its capacity
and the size of its user data within the capacity of its user data. -/
theorem C29_size_within_capacity (w : World) (h : data_reach w) (buf : Nat)
    (b : vbuf_buffer) (hb : w.bufs buf = some b) :
    b.size ≤ b.capacity ∧ b.userdata_size ≤ b.userdata_capacity :=
  ⟨(bufs_good_of_reach h buf b hb).1, (bufs_good_of_reach h buf b hb).2.1⟩

/-- Witness of C29: after `vbuf_new(16, 4, ..)`, `vbuf_set_size(8)`, a refused
`vbuf_set_size(17)`, `vbuf_set_userdata_capacity(6)` and `vbuf_set_userdata_size(5)` the
buffer has size 8 of 16 and user data size 5 of 6; and in a run where the `realloc` of
`vbuf_set_userdata_capacity(6)` fails, the buffer keeps user data size 3 of 4. -/
theorem C29_size_within_capacity_witness :
    ((sized_buf.size, sized_buf.capacity, sized_buf.userdata_size,
        sized_buf.userdata_capacity) = (8, 16, 5, 6) ∧
      sized_buf.size ≤ sized_buf.capacity ∧
      sized_buf.userdata_size ≤ sized_buf.userdata_capacity) ∧
    ((scarce_sized_buf.size, scarce_sized_buf.capacity, scarce_sized_buf.userdata_size,
        scarce_sized_buf.userdata_capacity) = (8, 16, 3, 4) ∧
      scarce_sized_buf.size ≤ scarce_sized_buf.capacity ∧
      scarce_sized_buf.userdata_size ≤ scarce_sized_buf.userdata_capacity) :=
  ⟨⟨rfl, C29_size_within_capacity sized_world
    (data_reach.set_userdata_size 1 5 (data_reach.set_userdata_capacity 1 6
      (data_reach.set_size 1 17 (data_reach.set_size 1 8
        (data_reach.new 16 4 (some plain_cbs) 0
          (data_reach.init (fun _ => 0) (fun _ _ => 0))))))) 1 sized_buf rfl⟩,
   ⟨rfl, C29_size_within_capacity scarce_sized_world
    (data_reach.set_userdata_size 1 5 (data_reach.set_userdata_capacity 1 6
      (data_reach.set_userdata_size 1 3 (data_reach.set_size 1 8
        (data_reach.new 16 4 (some plain_cbs) 0
          (data_reach.init (fun t => if t = 4 then 12 else 0) (fun _ _ => 0)))))))
    1 scarce_sized_buf rfl⟩⟩

/-! ## C31, C32: the results of `vbuf_new` -/

/-- C31: whenever `vbuf_new(capacity, userdata_capacity, cbs, pool)` returns 0, it outputs
the address of a new buffer, and that buffer has reference count 1, no write lock, size
0, user-data size 0, no metadata, the capacity and the user-data capacity asked for, and
`pool` as originating pool. -/
theorem C31_new (w : World) (capacity userdata_capacity : Nat) (cbs : Option vbuf_cbs)
    (pool : Nat) (h0 : (vbuf_new w capacity userdata_capacity cbs pool).2.1 = 0) :
    (vbuf_new w capacity userdata_capacity cbs pool).2.2 = some (w.next + 1) ∧
    ∃ b, (vbuf_new w capacity userdata_capacity cbs pool).1.bufs (w.next + 1) = some b ∧
      b.ref_count = 1 ∧ b.write_locked = false ∧ b.size = 0 ∧ b.userdata_size = 0 ∧
      b.metas = [] ∧ b.capacity = capacity ∧ b.userdata_capacity = userdata_capacity ∧
      b.pool = pool := by
  have hE : ¬ (-EINVAL : Int) = 0 := by decide
  have hM : ¬ (-ENOMEM : Int) = 0 := by decide
  have hM2 : ¬ (- -ENOMEM : Int) = 0 := by decide
  have hone : uint_inc 0 = 1 := by decide
  cases cbs with
  | none => simp only [vbuf_new] at h0; exact absurd h0 hE
  | some c =>
    cases halloc : c.alloc with
    | none => simp only [vbuf_new, halloc] at h0; exact absurd h0 hE
    | some alloc =>
      cases hfree : c.free with
      | none => simp only [vbuf_new, halloc, hfree] at h0; exact absurd h0 hE
      | some free =>
        revert h0
        simp only [vbuf_new, halloc, hfree, sys_call_fst, sys_call_snd, vbuf_new_error, run_cb,
          vbuf_ref, log_next, log_trace, log_bufs, log_pools, log_env, set_buf_bufs,
          set_buf_next, set_buf_pools, set_buf_env, Nat.succ_ne_zero, if_false, if_true, hone]
        split
        · intro h0; exact absurd h0 hM2
        · split
          · next h1 => intro h0; exact absurd (neg_eq_zero.mp h0) h1
          · split
            · next h2 => intro h0; exact absurd h2 (not_lt.mpr (le_of_eq h0.symm))
            · split
              · split
                · intro h0; exact absurd h0 hM
                · intro _
                  refine ⟨rfl, ?_⟩
                  simp
              · intro _
                refine ⟨rfl, ?_⟩
                simp

/-- Witness of C31: `vbuf_new(16, 4, plain_cbs, 7)` in the empty world. -/
theorem C31_new_witness :
    (vbuf_new empty_world 16 4 (some plain_cbs) 7).2.2 = some 1 ∧
    ∃ b, (vbuf_new empty_world 16 4 (some plain_cbs) 7).1.bufs 1 = some b ∧
      b.ref_count = 1 ∧ b.write_locked = false ∧ b.size = 0 ∧ b.userdata_size = 0 ∧
      b.metas = [] ∧ b.capacity = 16 ∧ b.userdata_capacity = 4 ∧ b.pool = 7 :=
  C31_new empty_world 16 4 (some plain_cbs) 7 (by decide)

/-- C32, at the failing input: when the `calloc` of the buffer object fails,
`vbuf_new(16, 4, plain_cbs, NULL)` outputs `NULL` and returns `ENOMEM` itself, the
positive value 12 (`res = -ENOMEM; return -res;`), which is not a negative error code.
The other failures are negative, as the header says: `-ENOMEM` when the `calloc` of the
user data fails, `-EINVAL` without output when the `alloc` or the `free` callback is
missing, and the result of a failing `alloc` callback. -/
theorem C32_new_object_alloc_failure :
    (vbuf_new no_memory_world 16 4 (some plain_cbs) 0).2 = (ENOMEM, some 0) ∧
    ¬ (vbuf_new no_memory_world 16 4 (some plain_cbs) 0).2.1 < 0 ∧
    (∀ i, (vbuf_new no_memory_world 16 4 (some plain_cbs) 0).1.bufs i = none) ∧
    (vbuf_new userdata_fail_world 16 4 (some plain_cbs) 0).2 = (-ENOMEM, some 0) ∧
    (vbuf_new empty_world 16 4 (some { plain_cbs with alloc := none }) 0).2 =
      (-EINVAL, none) ∧
    (vbuf_new empty_world 16 4 (some { plain_cbs with free := none }) 0).2 =
      (-EINVAL, none) ∧
    (vbuf_new empty_world 16 4 (some { plain_cbs with alloc := some failing_cb }) 0).2 =
      (-1, some 0) := by
  refine ⟨by decide, by decide, fun _ => rfl, by decide, by decide, by decide, by decide⟩

/-! ## C33, C34: the last unref of a pool buffer when a callback fails -/

/-- The claim C33 fails: in `held_pool_world failing_put_cbs` the only buffer of the pool
is held with one reference and its `pool_put` callback fails with `-1`.  `vbuf_unref`
returns `-1`, and the buffer is not returned to the pool: the free list is still empty and
the free count is still 0. -/
theorem C33_counterexample :
    (vbuf_unref (held_pool_world failing_put_cbs) 2).2 = -1 ∧
    (held_pool_world failing_put_cbs).pools 1 = some ⟨1, 0, []⟩ ∧
    (vbuf_unref (held_pool_world failing_put_cbs) 2).1.pools 1 = some ⟨1, 0, []⟩ ∧
    (vbuf_pool_get_count (vbuf_unref (held_pool_world failing_put_cbs) 2).1 1).2 = 0 := by
  refine ⟨by decide, by decide, by decide, by decide⟩

/-- C33 (amended): a buffer of a live pool is held with reference count 1 and is not in
the free list; its `unref` callback is absent or reports success and its `pool_put`
callback fails whenever it is called.  Then `vbuf_unref` returns the negative result of
the `pool_put` callback, and the buffer is not returned to the pool: no pool has
changed, so the free count is what it was and the buffer is not in the free list.  The
buffer is still live, with reference count 0, no write lock and size 0. -/
theorem C33_pool_put_failure (w : World) (buf : Nat) (b : vbuf_buffer) (pl : vbuf_pool)
    (g : vbuf_cb) (hbuf : buf ≠ 0) (hb : w.bufs buf = some b) (hrc : b.ref_count = 1)
    (hp0 : b.pool ≠ 0) (hpl : w.pools b.pool = some pl) (hout : buf ∉ pl.buffers)
    (hu : cb_ok b.cbs.unref) (hg : b.cbs.pool_put = some g) (hfail : ∀ a, (g a).res < 0) :
    (vbuf_unref w buf).2 < 0 ∧ (∃ a, (vbuf_unref w buf).2 = (g a).res) ∧
    (vbuf_unref w buf).1.pools = w.pools ∧
    (∃ pl', (vbuf_unref w buf).1.pools b.pool = some pl' ∧ pl'.free = pl.free ∧
      buf ∉ pl'.buffers) ∧
    ∃ b', (vbuf_unref w buf).1.bufs buf = some b' ∧ b'.ref_count = 0 ∧
      b'.write_locked = false ∧ b'.size = 0 := by
  obtain ⟨-, -, b', hb', h1, -, -, -, -, -, -, hcase⟩ :=
    unref_last_cases w buf b pl hbuf hb hrc hp0 hpl
  rcases hcase with ⟨-, -, -, -, hpos, -⟩ | ⟨hneg, -, -, -, -, f, a, hf, hres⟩ |
    ⟨hneg, hpools, -, hl, hs, g', a, hg', hres⟩
  · obtain ⟨a, ha⟩ := hpos g hg
    exact absurd (hfail a) (not_lt.mpr ha)
  · rw [hres] at hneg
    exact absurd hneg (not_lt.mpr (hu f hf a))
  · rw [hg] at hg'
    cases hg'
    exact ⟨hneg, ⟨a, hres⟩, hpools, ⟨pl, by rw [hpools]; exact hpl, rfl, hout⟩,
      b', hb', h1, hl, hs⟩

/-- Witness of C33 (amended): the world of the counterexample. -/
theorem C33_pool_put_failure_witness :
    (vbuf_unref (held_pool_world failing_put_cbs) 2).2 < 0 ∧
    (vbuf_unref (held_pool_world failing_put_cbs) 2).1.pools =
      (held_pool_world failing_put_cbs).pools ∧
    ∃ b', (vbuf_unref (held_pool_world failing_put_cbs) 2).1.bufs 2 = some b' ∧
      b'.ref_count = 0 ∧ b'.write_locked = false ∧ b'.size = 0 :=
  have h := C33_pool_put_failure (held_pool_world failing_put_cbs) 2
    { sample_buf 1 true 1 with cbs := failing_put_cbs } ⟨1, 0, []⟩ failing_cb (by decide) rfl
    rfl (by decide) rfl (by decide) (fun _ h => Option.noConfusion h) rfl
    (fun _ => by show (-1 : Int) < 0; decide)
  ⟨h.1, h.2.2.1, h.2.2.2.2⟩

/-- The claim C34 fails: when the `unref` callback fails (`held_pool_world
failing_unref_cbs`) and when the `pool_put` callback fails (`held_pool_world
failing_put_cbs`), `vbuf_unref` of the last reference returns `-1` and the buffer is not
in the free list, but its reference count is 0, not 1. -/
theorem C34_counterexample :
    ((vbuf_unref (held_pool_world failing_unref_cbs) 2).2 = -1 ∧
      (vbuf_unref (held_pool_world failing_unref_cbs) 2).1.pools 1 = some ⟨1, 0, []⟩ ∧
      ((vbuf_unref (held_pool_world failing_unref_cbs) 2).1.bufs 2).map
        (fun b => b.ref_count) = some 0) ∧
    ((vbuf_unref (held_pool_world failing_put_cbs) 2).2 = -1 ∧
      (vbuf_unref (held_pool_world failing_put_cbs) 2).1.pools 1 = some ⟨1, 0, []⟩ ∧
      ((vbuf_unref (held_pool_world failing_put_cbs) 2).1.bufs 2).map
        (fun b => b.ref_count) = some 0) := by
  refine ⟨⟨by decide, by decide, by decide⟩, ⟨by decide, by decide, by decide⟩⟩

/-- C34 (amended): a buffer of a live pool is held with reference count 1 and is not in
the free list.  `vbuf_unref` returns 0 or a negative value, and the buffer stays live
with reference count 0.  When the result is 0, the buffer is in the free list of its
pool.  When the result is negative, it is the result of the `unref` or of the `pool_put`
callback, no pool has changed and the buffer is not in the free list; it is not held
by the caller either, its count being 0. -/
theorem C34_last_unref_outcomes (w : World) (buf : Nat) (b : vbuf_buffer) (pl : vbuf_pool)
    (hbuf : buf ≠ 0) (hb : w.bufs buf = some b) (hrc : b.ref_count = 1)
    (hp0 : b.pool ≠ 0) (hpl : w.pools b.pool = some pl) (hout : buf ∉ pl.buffers) :
    (vbuf_unref w buf).2 ≤ 0 ∧
    (∃ b', (vbuf_unref w buf).1.bufs buf = some b' ∧ b'.ref_count = 0) ∧
    ((vbuf_unref w buf).2 = 0 →
      ∃ pl', (vbuf_unref w buf).1.pools b.pool = some pl' ∧ buf ∈ pl'.buffers ∧
        pl'.free = uint_inc pl.free) ∧
    ((vbuf_unref w buf).2 < 0 →
      ((∃ f a, b.cbs.unref = some f ∧ (vbuf_unref w buf).2 = (f a).res) ∨
        (∃ g a, b.cbs.pool_put = some g ∧ (vbuf_unref w buf).2 = (g a).res)) ∧
      (vbuf_unref w buf).1.pools = w.pools ∧
      ∃ pl', (vbuf_unref w buf).1.pools b.pool = some pl' ∧ buf ∉ pl'.buffers) := by
  obtain ⟨-, -, b', hb', h1, -, -, -, -, -, -, hcase⟩ :=
    unref_last_cases w buf b pl hbuf hb hrc hp0 hpl
  rcases hcase with ⟨h0, -, -, -, -, hpool⟩ | ⟨hneg, hpools, -, -, -, f, a, hf, hres⟩ |
    ⟨hneg, hpools, -, -, -, g, a, hg, hres⟩
  · refine ⟨le_of_eq h0, ⟨b', hb', h1⟩, fun _ => ⟨_, hpool, ?_, rfl⟩, fun hneg => ?_⟩
    · exact List.mem_append_right _ (List.mem_singleton.mpr rfl)
    · rw [h0] at hneg; exact absurd hneg (lt_irrefl 0)
  · refine ⟨le_of_lt hneg, ⟨b', hb', h1⟩, fun h0 => ?_, fun _ =>
      ⟨Or.inl ⟨f, a, hf, hres⟩, hpools, pl, by rw [hpools]; exact hpl, hout⟩⟩
    rw [h0] at hneg; exact absurd hneg (lt_irrefl 0)
  · refine ⟨le_of_lt hneg, ⟨b', hb', h1⟩, fun h0 => ?_, fun _ =>
      ⟨Or.inr ⟨g, a, hg, hres⟩, hpools, pl, by rw [hpools]; exact hpl, hout⟩⟩
    rw [h0] at hneg; exact absurd hneg (lt_irrefl 0)

/-- Witness of C34 (amended): the last unref in `held_pool_world plain_cbs` returns 0 and
puts buffer 2 in the free list. -/
theorem C34_last_unref_outcomes_witness :
    (vbuf_unref (held_pool_world plain_cbs) 2).2 = 0 ∧
    ∃ pl', (vbuf_unref (held_pool_world plain_cbs) 2).1.pools 1 = some pl' ∧
      2 ∈ pl'.buffers ∧ pl'.free = 1 :=
  have h := C34_last_unref_outcomes (held_pool_world plain_cbs) 2
    { sample_buf 1 true 1 with cbs := plain_cbs } ⟨1, 0, []⟩ (by decide) rfl rfl (by decide)
    rfl (by decide)
  ⟨by decide, h.2.2.1 (by decide)⟩

/-! ## C35: `vbuf_queue_pop` when the `queue_pop` callback fails -/

/-- C37: `vbuf_queue_abort` and `vbuf_pool_abort` on live objects return 0 and only
broadcast the condition: no field of any queue, pool or buffer changes, so nothing
remembers the abort.  A call `vbuf_queue_pop(-1)` on an empty queue waits on the
condition; when the abort of another thread runs during the wait and the wait returns
0, the rest of the call finds the queue still empty, returns `-EAGAIN` and outputs
`NULL`; the same holds of `vbuf_pool_get(-1)` on a pool without free buffer.  After an
abort, a pop on a queue with entries outputs the oldest one as usual, and a get on a
pool with a free buffer outputs the head of the free list as usual. -/
theorem C37_abort (w : World) (queue pool : Nat) (q : vbuf_queue) (pl : vbuf_pool)
    (hqueue : queue ≠ 0) (hq : w.queues queue = some q) (hpool : pool ≠ 0)
    (hpl : w.pools pool = some pl) :
    (vbuf_queue_abort w queue = (w.log (ext_call.sys sys_kind.cond_broadcast), 0) ∧
      vbuf_pool_abort w pool = (w.log (ext_call.sys sys_kind.cond_broadcast), 0)) ∧
    (∀ t : Int, t < 0 → q.count = 0 →
      vbuf_queue_pop_take (vbuf_queue_abort (sys_call w sys_kind.cond_wait).1 queue).1
          queue t =
        ((vbuf_queue_abort (sys_call w sys_kind.cond_wait).1 queue).1, -EAGAIN, some 0) ∧
      (w.env w.trace.length = 0 →
        vbuf_queue_pop w queue t = ((sys_call w sys_kind.cond_wait).1, -EAGAIN, some 0))) ∧
    (∀ t : Int, t < 0 → pl.free = 0 →
      vbuf_pool_get_take (vbuf_pool_abort (sys_call w sys_kind.cond_wait).1 pool).1 pool t =
        ((vbuf_pool_abort (sys_call w sys_kind.cond_wait).1 pool).1, -EAGAIN, some 0) ∧
      (w.env w.trace.length = 0 →
        vbuf_pool_get w pool t = ((sys_call w sys_kind.cond_wait).1, -EAGAIN, some 0))) ∧
    (∀ (t : Int) id rest b, q.buffers = id :: rest → q.count ≠ 0 → w.bufs id = some b →
      cb_zero b.cbs.queue_pop →
      (vbuf_queue_pop (vbuf_queue_abort w queue).1 queue t).2 = (0, some id) ∧
      (vbuf_queue_pop (vbuf_queue_abort w queue).1 queue t).1.queues queue =
        some { q with buffers := rest, count := uint_dec q.count }) ∧
    (∀ (t : Int) id rest b, pl.buffers = id :: rest → pl.free ≠ 0 → id ≠ 0 →
      w.bufs id = some b → cb_ok b.cbs.pool_get →
      0 ≤ (vbuf_pool_get (vbuf_pool_abort w pool).1 pool t).2.1 ∧
      (vbuf_pool_get (vbuf_pool_abort w pool).1 pool t).2.2 = some id ∧
      (vbuf_pool_get (vbuf_pool_abort w pool).1 pool t).1.pools pool =
        some { pl with buffers := rest, free := uint_dec pl.free }) := by
  have hqa : ∀ v : World, v.queues queue = some q →
      vbuf_queue_abort v queue = (v.log (ext_call.sys sys_kind.cond_broadcast), 0) := by
    intro v hv
    simp only [vbuf_queue_abort, hqueue, if_false, hv, sys_call_fst]
  have hpa : ∀ v : World, v.pools pool = some pl →
      vbuf_pool_abort v pool = (v.log (ext_call.sys sys_kind.cond_broadcast), 0) := by
    intro v hv
    simp only [vbuf_pool_abort, hpool, if_false, hv, sys_call_fst]
  refine ⟨⟨hqa w hq, hpa w hpl⟩, fun t ht hc => ⟨?_, fun he => ?_⟩,
    fun t ht hc => ⟨?_, fun he => ?_⟩, fun t id rest b hl hc hb hcb => ?_,
    fun t id rest b hl hf hid hb hcb => ?_⟩
  · rw [hqa _ (by simp only [sys_call_fst, log_queues]; exact hq)]
    simp only [vbuf_queue_pop_take, sys_call_fst, log_queues, hq, hc, if_true]
  · have ht0 : ¬ t = 0 := by omega
    have ht1 : ¬ t > 0 := by omega
    have hE : ¬ (0 : Int) = ETIMEDOUT := by decide
    simp only [vbuf_queue_pop, hqueue, if_false, hq, hc, if_true, ht0, ht1, sys_call_fst,
      sys_call_snd, he, hE, ne_eq, not_true_eq_false, vbuf_queue_pop_take, log_queues]
  · rw [hpa _ (by simp only [sys_call_fst, log_pools]; exact hpl)]
    simp only [vbuf_pool_get_take, sys_call_fst, log_pools, hpl, hc, if_true]
  · have ht0 : ¬ t = 0 := by omega
    have ht1 : ¬ t > 0 := by omega
    have hE : ¬ (0 : Int) = ETIMEDOUT := by decide
    simp only [vbuf_pool_get, hpool, if_false, hpl, hc, if_true, ht0, ht1, sys_call_fst,
      sys_call_snd, he, hE, ne_eq, not_true_eq_false, vbuf_pool_get_take, log_pools]
  · rw [hqa w hq]
    obtain ⟨p1, p2, -⟩ := pop_head (w.log (ext_call.sys sys_kind.cond_broadcast)) queue t q id
      rest b hqueue hq hl hc hb hcb
    exact ⟨p1, p2⟩
  · rw [hpa w hpl]
    obtain ⟨g1, -, g3, -, -, g6, -⟩ := pool_get_ok
      (w.log (ext_call.sys sys_kind.cond_broadcast)) pool t pl id rest b hpool hpl hf hl hid
      hb hcb
    exact ⟨g1, g3, g6⟩

/-- Witness of C37: in `idle_world` the queue at address 5 and the pool at address 6 are
empty.  An abort changes no object, and a pop or a get with timeout `-1` whose wait is
ended by an abort returns `-EAGAIN` and `NULL`. -/
theorem C37_abort_witness :
    (vbuf_queue_abort idle_world 5).1.queues 5 = idle_world.queues 5 ∧
    (vbuf_pool_abort idle_world 6).1.pools 6 = idle_world.pools 6 ∧
    (vbuf_queue_pop_take (vbuf_queue_abort (sys_call idle_world sys_kind.cond_wait).1 5).1
      5 (-1)).2 = (-EAGAIN, some 0) ∧
    (vbuf_pool_get_take (vbuf_pool_abort (sys_call idle_world sys_kind.cond_wait).1 6).1
      6 (-1)).2 = (-EAGAIN, some 0) ∧
    (vbuf_queue_pop idle_world 5 (-1)).2 = (-EAGAIN, some 0) := by
  obtain ⟨⟨a1, a2⟩, hq, hp, -, -⟩ := C37_abort idle_world 5 6 ⟨0, 0, 0, []⟩ ⟨1, 0, []⟩
    (by decide) rfl (by decide) rfl
  obtain ⟨q1, q2⟩ := hq (-1) (by decide) rfl
  obtain ⟨p1, -⟩ := hp (-1) (by decide) rfl
  refine ⟨by rw [a1]; rfl, by rw [a2]; rfl, by rw [q1], by rw [p1], by rw [q2 rfl]⟩

/-! ## C38: `vbuf_metadata_copy` on a key collision -/

/-- The claim C38 fails when memory runs out.  In `clash_fail_world` the source, buffer 1,
holds records of keys 7, 8 and 9 and the destination, buffer 2, holds a record of key 8,
so that a selected record of the source has a key present in the destination; the record
of key 7 comes first, its allocation fails, and `vbuf_metadata_copy(1, 2, 0)` returns
`-ENOMEM`, not `-EEXIST`, and the destination has no copy of the record of key 7. -/
theorem C38_counterexample :
    (clash_fail_world.bufs 1).map (fun b => b.metas.map (fun m => m.key)) = some [7, 8, 9] ∧
    (clash_fail_world.bufs 2).map (fun b => b.metas.map (fun m => m.key)) = some [8] ∧
    (vbuf_metadata_copy clash_fail_world 1 2 0).2 = -ENOMEM ∧
    (vbuf_metadata_copy clash_fail_world 1 2 0).2 ≠ -EEXIST ∧
    ((vbuf_metadata_copy clash_fail_world 1 2 0).1.bufs 2).map (fun b => b.metas) =
      some [⟨8, 2, [0], 1⟩] := by
  refine ⟨by decide, by decide, by decide, by decide, by decide⟩

/-- C38 (amended): `src` and `dst` are distinct live buffers, some record of `src`
selected by the filter (`max_level == 0`, or level below `max_level`) has a key present in
`dst`, and no system call fails.  Then `vbuf_metadata_copy` returns `-EEXIST`, leaves
`src` as it was, and the records of `dst` are afterwards its previous records followed by
one copy of each selected record of `src` that comes before the first selected record
whose key is present in `dst`, in the order of `src`, and of none of the later ones;
nothing else of `dst` changes, and no other buffer changes.  The records of `src` are
taken to have distinct keys and to be as `vbuf_meta_new` makes them. -/
theorem C38_metadata_copy_collision (w : World) (src dst max_level : Nat)
    (s d : vbuf_buffer) (hsrc : src ≠ 0) (hdst : dst ≠ 0) (hne : dst ≠ src)
    (hs : w.bufs src = some s) (hd : w.bufs dst = some d)
    (huniq : keys_unique s) (hsound : ∀ m ∈ s.metas, meta_sound m)
    (hclash : ∃ m ∈ s.metas, meta_selected max_level m = true ∧ ∃ x ∈ d.metas, x.key = m.key)
    (hsys : ∀ t, w.env t = 0) :
    (vbuf_metadata_copy w src dst max_level).2 = -EEXIST ∧
    (vbuf_metadata_copy w src dst max_level).1.bufs src = some s ∧
    (vbuf_metadata_copy w src dst max_level).1.bufs dst =
      some { d with metas := d.metas ++
        (before_clash d (s.metas.filter (meta_selected max_level))).map meta_copy_of } ∧
    (∀ i, i ≠ dst → (vbuf_metadata_copy w src dst max_level).1.bufs i = w.bufs i) ∧
    (∃ m rest, s.metas.filter (meta_selected max_level) =
        before_clash d (s.metas.filter (meta_selected max_level)) ++ m :: rest ∧
      (∃ x ∈ d.metas, x.key = m.key) ∧
      ∀ y ∈ before_clash d (s.metas.filter (meta_selected max_level)),
        ∀ x ∈ d.metas, x.key ≠ y.key) := by
  have heq : vbuf_metadata_copy w src dst max_level =
      vbuf_metadata_copy_loop w dst max_level s.metas := by
    simp only [vbuf_metadata_copy, hsrc, hdst, hne, if_false, hs]
  rw [heq]
  have hclash' : ∃ m ∈ s.metas, meta_selected max_level m = true ∧ key_free d m = false := by
    obtain ⟨m, hm, hsel, x, hx, hk⟩ := hclash
    refine ⟨m, hm, hsel, ?_⟩
    cases hc : key_free d m with
    | false => rfl
    | true => exact absurd hk ((key_free_iff d m).mp hc x hx)
  obtain ⟨l1, l2, l3⟩ :=
    metadata_copy_loop_clash dst max_level hdst s.metas w d hd huniq hsound hsys hclash'
  refine ⟨l1, by rw [l3 src (Ne.symm hne), hs], l2, l3, ?_⟩
  have hsplit := List.takeWhile_append_dropWhile (key_free d)
    (s.metas.filter (meta_selected max_level))
  obtain ⟨m0, hm0, hsel0, hf0⟩ := hclash'
  have hmem : m0 ∈ s.metas.filter (meta_selected max_level) :=
    List.mem_filter.mpr ⟨hm0, hsel0⟩
  have hbefore : ∀ y ∈ before_clash d (s.metas.filter (meta_selected max_level)),
      key_free d y = true := fun y hy => List.mem_takeWhile_imp hy
  cases hdrop : (s.metas.filter (meta_selected max_level)).dropWhile (key_free d) with
  | nil =>
    rw [hdrop, List.append_nil] at hsplit
    have : m0 ∈ before_clash d (s.metas.filter (meta_selected max_level)) := by
      unfold before_clash; rw [hsplit]; exact hmem
    rw [hbefore m0 this] at hf0; cases hf0
  | cons m rest =>
    rw [hdrop] at hsplit
    refine ⟨m, rest, hsplit.symm, ?_, fun y hy => (key_free_iff d y).mp (hbefore y hy)⟩
    have hhead := List.head_dropWhile_not (key_free d)
      (s.metas.filter (meta_selected max_level)) (by rw [hdrop]; exact List.cons_ne_nil _ _)
    simp only [hdrop, List.head_cons] at hhead
    by_contra hno
    have : key_free d m = true :=
      (key_free_iff d m).mpr (fun x hx hk => hno ⟨x, hx, hk⟩)
    rw [this] at hhead; cases hhead

/-- Witness of C38 (amended): in `clash_world` the source holds records of keys 7, 8 and 9
and the destination a record of key 8; the copy returns `-EEXIST` and the destination
holds its record followed by the copy of the record of key 7 only. -/
theorem C38_metadata_copy_collision_witness :
    (vbuf_metadata_copy clash_world 1 2 0).2 = -EEXIST ∧
    ((vbuf_metadata_copy clash_world 1 2 0).1.bufs 2).map (fun b => b.metas) =
      some [⟨8, 2, [0], 1⟩, ⟨7, 1, [1, 2], 2⟩] := by
  obtain ⟨h1, -, h3, -, -⟩ := C38_metadata_copy_collision clash_world 1 2 0
    { sample_buf 1 false 0 with
      metas := [⟨7, 1, [1, 2], 2⟩, ⟨8, 3, [3], 1⟩, ⟨9, 5, [4, 5, 6], 3⟩] }
    { sample_buf 1 false 0 with metas := [⟨8, 2, [0], 1⟩] }
    (by decide) (by decide) (by decide) rfl rfl
    (by unfold keys_unique; decide)
    (by intro m hm; simp only [List.mem_cons, List.mem_singleton, List.not_mem_nil,
          or_false] at hm
        rcases hm with h | h | h <;> subst h <;> exact ⟨by decide, by decide, by decide⟩)
    ⟨⟨8, 3, [3], 1⟩, by decide, by decide, ⟨8, 2, [0], 1⟩, by decide, rfl⟩ (fun _ => rfl)
  refine ⟨h1, ?_⟩
  rw [h3]
  decide

/-! ## C39: what recycling through a pool resets -/

/-- C39: `buf` is a live buffer of a live pool with one reference, and `vbuf_unref`
gives it back to the pool (it returns 0).  Then the buffer is at the tail of the free list
of its pool.  Whenever, in a later state `w2` that holds the buffer as the `vbuf_unref`
left it, `vbuf_pool_get` writes `buf` to `*buf`, the buffer has afterwards the capacity,
the capacity and the size of the user data and the block of user data it had just before
the `vbuf_unref`, its size is 0, it is not locked, it has no metadata record, and it has
one reference.  Such a state and such a call exist: when the free list held the free
buffers of the pool, all live with `pool_get` callbacks that are absent or report
success, as many calls of `vbuf_pool_get` as there were free buffers output these
buffers and leave `buf` as it was, and the next call outputs `buf`. -/
theorem C39_recycle (w : World) (buf : Nat) (b : vbuf_buffer) (pl : vbuf_pool)
    (hbuf : buf ≠ 0) (hb : w.bufs buf = some b) (hrc : b.ref_count = 1)
    (hp0 : b.pool ≠ 0) (hpl : w.pools b.pool = some pl) (hres : (vbuf_unref w buf).2 = 0) :
    (vbuf_unref w buf).1.pools b.pool =
      some { pl with buffers := pl.buffers ++ [buf], free := uint_inc pl.free } ∧
    (∀ (w2 : World) (pool : Nat) (t : Int),
      w2.bufs buf = (vbuf_unref w buf).1.bufs buf →
      (vbuf_pool_get w2 pool t).2.2 = some buf →
      0 ≤ (vbuf_pool_get w2 pool t).2.1 ∧
      ∃ b', (vbuf_pool_get w2 pool t).1.bufs buf = some b' ∧
        b'.capacity = b.capacity ∧ b'.userdata_capacity = b.userdata_capacity ∧
        b'.userdata_size = b.userdata_size ∧ b'.userdata_ptr = b.userdata_ptr ∧
        b'.size = 0 ∧ b'.write_locked = false ∧ b'.metas = [] ∧ b'.ref_count = 1) ∧
    (∀ (ts : List Int) (t : Int), pl.free = pl.buffers.length → pl.free < 4294967295 →
      buf ∉ pl.buffers →
      (∀ id ∈ pl.buffers, id ≠ 0 ∧ ∃ c, w.bufs id = some c ∧ cb_ok c.cbs.pool_get) →
      cb_ok b.cbs.pool_get → ts.length = pl.buffers.length →
      (pool_get_n (vbuf_unref w buf).1 b.pool ts).2.map Prod.snd = pl.buffers.map some ∧
      (pool_get_n (vbuf_unref w buf).1 b.pool ts).1.bufs buf =
        (vbuf_unref w buf).1.bufs buf ∧
      (vbuf_pool_get (pool_get_n (vbuf_unref w buf).1 b.pool ts).1 b.pool t).2.2 =
        some buf) := by
  obtain ⟨hframe, -, b1, hb1, hrc1, -, hcap, hucap, husz, huptr, hcbs, hcase⟩ :=
    unref_last_cases w buf b pl hbuf hb hrc hp0 hpl
  have hok : b1.write_locked = false ∧ b1.size = 0 ∧ b1.metas = [] ∧
      (vbuf_unref w buf).1.pools b.pool =
        some { pl with buffers := pl.buffers ++ [buf], free := uint_inc pl.free } := by
    rcases hcase with ⟨-, h1, h2, h3, -, h5⟩ | ⟨hneg, -⟩ | ⟨hneg, -⟩
    · exact ⟨h1, h2, h3, h5⟩
    · rw [hres] at hneg; exact absurd hneg (lt_irrefl 0)
    · rw [hres] at hneg; exact absurd hneg (lt_irrefl 0)
  obtain ⟨hlock, hsize, hmetas, hpool⟩ := hok
  refine ⟨hpool, ?_, ?_⟩
  · intro w2 pool t hidle hget
    rw [hb1] at hidle
    obtain ⟨hge, b', hb', hbo⟩ := pool_get_returns w2 pool t buf b1 hbuf hidle hget
    obtain ⟨f1, f2, -, -, f5, f6, f7, f8, f9, f10⟩ := backend_only_fields hbo
    refine ⟨hge, b', hb', f5.trans hcap, f8.trans hucap, f9.trans husz, f10.trans huptr,
      f6.trans hsize, f2.trans hlock, f7.trans hmetas, ?_⟩
    rw [f1]
    show uint_inc b1.ref_count = 1
    rw [hrc1]
    decide
  · intro ts t hfree hrange hout hall hget hts
    rw [uint_inc_eq _ hrange] at hpool
    have hall' : ∀ id ∈ pl.buffers, id ≠ 0 ∧
        ∃ c, (vbuf_unref w buf).1.bufs id = some c ∧ cb_ok c.cbs.pool_get := by
      intro id hid
      obtain ⟨h0, c, hc, hcg⟩ := hall id hid
      have hne : id ≠ buf := fun h => hout (h ▸ hid)
      exact ⟨h0, c, by rw [hframe id hne]; exact hc, hcg⟩
    obtain ⟨n1, n2, n3⟩ := pool_get_n_frame b.pool hp0 pl.buffers (vbuf_unref w buf).1
      { pl with buffers := pl.buffers ++ [buf], free := pl.free + 1 } ts [buf] hpool rfl
      (by simp only [List.length_append, List.length_singleton]; omega)
      (by simp only; omega) hall' hts
    have hkeep := n3 buf hout
    refine ⟨n1, hkeep, ?_⟩
    have hg1 : cb_ok b1.cbs.pool_get := by rw [hcbs]; exact hget
    obtain ⟨-, -, g3, -⟩ := pool_get_ok (pool_get_n (vbuf_unref w buf).1 b.pool ts).1 b.pool t
      _ buf [] b1 hp0 n2 (by simp) rfl hbuf (by rw [hkeep]; exact hb1) hg1
    exact g3

/-- Witness of C39: in `used_pool_world` the pool has the free buffer 3, and the buffer 2
is locked and holds 8 bytes of payload, one metadata record and 2 bytes of user data.
After `vbuf_unref` of buffer 2, a first `vbuf_pool_get` outputs buffer 3 and a second one
outputs buffer 2, which has its capacities and its user data, and size 0, no lock and no
record. -/
theorem C39_recycle_witness :
    (vbuf_pool_get (vbuf_unref used_pool_world 2).1 1 0).2.2 = some 3 ∧
    (vbuf_pool_get (pool_get_n (vbuf_unref used_pool_world 2).1 1 [0]).1 1 0).2.2 = some 2 ∧
    ∃ b', (vbuf_pool_get (pool_get_n (vbuf_unref used_pool_world 2).1 1 [0]).1 1 0).1.bufs 2 =
        some b' ∧
      b'.capacity = 16 ∧ b'.userdata_capacity = 4 ∧ b'.userdata_size = 2 ∧
      b'.userdata_ptr = some [5, 6, 0, 0] ∧ b'.size = 0 ∧ b'.write_locked = false ∧
      b'.metas = [] ∧ b'.ref_count = 1 := by
  obtain ⟨-, h2, h3⟩ := C39_recycle used_pool_world 2
    { sample_buf 1 true 1 with
      userdata_capacity := 4, userdata_size := 2, userdata_ptr := some [5, 6, 0, 0] }
    ⟨2, 1, [3]⟩ (by decide) rfl rfl (by decide) rfl (by decide)
  obtain ⟨-, k2, k3⟩ := h3 [0] 0 rfl (by decide) (by decide)
    (by intro id hid
        rw [List.mem_singleton] at hid
        subst hid
        exact ⟨by decide, { sample_buf 0 false 1 with size := 0, metas := [] }, rfl,
          fun _ h => Option.noConfusion h⟩)
    (fun _ h => Option.noConfusion h) rfl
  obtain ⟨-, b', hb', c⟩ := h2 _ 1 0 k2 k3
  exact ⟨by decide, k3, b', hb', c⟩

/-! ## C40: `vbuf_metadata_add` with `len == 0` -/

/-- The claim C40 fails for a key that is present.  In `one_buf_world 1 false` the buffer
1 holds a record of key 7, and `vbuf_metadata_add(1, 7, 0, 0)` returns `-EEXIST`, not
`-ENOMEM`: the key is looked up before `vbuf_meta_new` tests the length. -/
theorem C40_counterexample :
    ((one_buf_world 1 false).bufs 1).map (fun b => b.metas.map (fun m => m.key)) =
      some [7] ∧
    (vbuf_metadata_add (one_buf_world 1 false) 1 7 0 0).2 = (-EEXIST, none) ∧
    (vbuf_metadata_add (one_buf_world 1 false) 1 7 0 0).2.1 ≠ -ENOMEM := by
  refine ⟨by decide, by decide, by decide⟩

/-- C40 (amended): for a live buffer and a key that is not `NULL`, `vbuf_metadata_add`
with `len == 0` fails and leaves the whole state as it was, trace of the system calls
included, so that no allocation was attempted and the store is unchanged, and it writes
nothing to `*ret_ptr`.  When no record of the buffer has the key the result is `-ENOMEM`,
which is not `-EINVAL`; when a record has the key the result is `-EEXIST`.  And in every
state reached from a world without objects by the public operations, whatever the system
calls answer, every record of every live buffer has a length of at least 1. -/
theorem C40_metadata_add_zero_len (w : World) (buf key level : Nat) (b : vbuf_buffer)
    (hbuf : buf ≠ 0) (hkey : key ≠ 0) (hb : w.bufs buf = some b) :
    (vbuf_metadata_add w buf key level 0).1 = w ∧
    (vbuf_metadata_add w buf key level 0).2.1 < 0 ∧
    (vbuf_metadata_add w buf key level 0).2.2 = none ∧
    ((∀ m ∈ b.metas, m.key ≠ key) →
      (vbuf_metadata_add w buf key level 0).2.1 = -ENOMEM ∧
      (vbuf_metadata_add w buf key level 0).2.1 ≠ -EINVAL) ∧
    ((∃ m ∈ b.metas, m.key = key) → (vbuf_metadata_add w buf key level 0).2.1 = -EEXIST) ∧
    (data_reach w → ∀ id b', w.bufs id = some b' → ∀ m ∈ b'.metas, 1 ≤ m.len) := by
  have hnew : vbuf_meta_new w key level 0 = (w, none) := by
    simp only [vbuf_meta_new, hkey, if_false, if_true]
  have hreach : data_reach w → ∀ id b', w.bufs id = some b' → ∀ m ∈ b'.metas, 1 ≤ m.len :=
    fun hr id b' hb' m hm => ((bufs_good_of_reach hr id b' hb').2.2.2 m hm).2.1
  cases hfind : vbuf_meta_find w buf key with
  | some x =>
    have heq : vbuf_metadata_add w buf key level 0 = (w, -EEXIST, none) := by
      simp only [vbuf_metadata_add, hbuf, hkey, if_false, hb, hfind]
    rw [heq]
    refine ⟨rfl, by show (-EEXIST : Int) < 0; decide, rfl, fun habs => ?_, fun _ => rfl,
      hreach⟩
    rw [meta_find_eq w buf key b hbuf hkey hb] at hfind
    have hx := List.find?_some hfind
    have hmem := List.mem_of_find?_eq_some hfind
    exact absurd (of_decide_eq_true hx) (habs x hmem)
  | none =>
    have heq : vbuf_metadata_add w buf key level 0 = (w, -ENOMEM, none) := by
      simp only [vbuf_metadata_add, hbuf, hkey, if_false, hb, hfind, hnew]
    rw [heq]
    refine ⟨rfl, by show (-ENOMEM : Int) < 0; decide, rfl,
      fun _ => ⟨rfl, by show (-ENOMEM : Int) ≠ -EINVAL; decide⟩, fun hpres => ?_, hreach⟩
    obtain ⟨m, hm, hk⟩ := hpres
    rw [meta_find_eq w buf key b hbuf hkey hb] at hfind
    have := List.find?_eq_none.mp hfind m hm
    exact absurd hk (by simpa using this)

/-- Witness of C40 (amended): in `levels_world` the buffer 1 has no record of key 5, and
`vbuf_metadata_add(1, 5, 0, 0)` returns `-ENOMEM` and leaves the state as it was. -/
theorem C40_metadata_add_zero_len_witness :
    vbuf_metadata_add levels_world 1 5 0 0 = (levels_world, -ENOMEM, none) := by
  obtain ⟨h1, -, h3, h4, -, -⟩ := C40_metadata_add_zero_len levels_world 1 5 0
    { sample_buf 1 false 0 with
      metas := [⟨7, 1, [1, 2], 2⟩, ⟨8, 3, [3], 1⟩, ⟨9, 5, [4, 5, 6], 3⟩] }
    (by decide) (by decide) rfl
  exact Prod.ext h1 (Prod.ext (h4 (by decide)).1 h3)

end VideoBuffers
